import Mathlib

/-!
# i915-tools: the cacheline decoders

A shallow embedding of `decode-amd.c` (vendor-A delta colour compression) and of
`decode.c` (the vendor-B gen8 and gen11 decoders), with the properties of the design
document proved over it.

Conventions of the embedding.
* `u8` values are natural numbers; every store of an `int` expression into a `u8`
  is written with an explicit `% 256`.
* The file-level globals `in`, `in_byte_idx`, `in_bit_idx`, `out`, `out_idx` are the
  fields of `State`, passed explicitly.  Arrays are total functions on indices; the
  program's own assertions guard the indices that are used.
* `assert` failures and `exit(EXIT_FAILURE)` are the errors of `Except Fault`.
-/

/-- The ways a decode stops early: one constructor per assertion site, and one for the
`exit(EXIT_FAILURE)` of the mode switch. -/
inductive Fault where
  | count_too_large
  | input_exhausted
  | header_pattern
  | zero_header_byte
  | output_full
  | unsupported_mode
  | nonzero_padding
  | buffer_overflow
  | buffer_underflow
  | skipped_width
  | width_too_large
  | width_budget
  | extension_mode
  | uniform_count
  deriving DecidableEq, Repr

/-- The globals of a decoder: `in[64]`, the bit cursor, `out[]` and the pixel index. -/
structure State where
  inp : Nat → Nat
  in_byte_idx : Nat
  in_bit_idx : Nat
  out : Nat → Nat
  out_idx : Nat

/-- `for (i = lo; n iterations; i++) body`, threading the loop-carried state. -/
def loop {σ : Type} (body : Nat → σ → Except Fault σ) : Nat → Nat → σ → Except Fault σ
  | _, 0, st => .ok st
  | i, n + 1, st =>
    match body i st with
    | .ok st1 => loop body (i + 1) n st1
    | .error e => .error e

/-- `for (i = lo; i < hi; i++) body`. -/
def for_range {σ : Type} (lo hi : Nat) (body : Nat → σ → Except Fault σ) (st : σ) :
    Except Fault σ :=
  loop body lo (hi - lo) st

/-- Array store `a[i] = v`. -/
def set1 {α : Type} (a : Nat → α) (i : Nat) (v : α) : Nat → α :=
  fun j => if j = i then v else a j

/-- Array store `a[i][j] = v`. -/
def set2 {α : Type} (a : Nat → Nat → α) (i j : Nat) (v : α) : Nat → Nat → α :=
  fun i1 j1 => if i1 = i ∧ j1 = j then v else a i1 j1

/-- Bit position of the cursor in the input stream. -/
def bit_pos (s : State) : Nat := 8 * s.in_byte_idx + s.in_bit_idx

/-- Stream bit `k`: bit `k mod 8` of input byte `k div 8`. -/
def stream_bit (inp : Nat → Nat) (k : Nat) : Nat := inp (k / 8) / 2 ^ (k % 8) % 2

/-- The integer whose bit `i` (for `i < n`) is stream bit `p + i`. -/
def stream_val (inp : Nat → Nat) : Nat → Nat → Nat
  | _, 0 => 0
  | p, n + 1 => stream_bit inp p + 2 * stream_val inp (p + 1) n

/-- The state with the cursor moved to bit position `p`. -/
def seek (s : State) (p : Nat) : State :=
  { s with in_byte_idx := p / 8, in_bit_idx := p % 8 }

/-- Every input byte is a byte and the bit offset is in range. -/
def WF (s : State) : Prop := (∀ i, i < 64 → s.inp i < 256) ∧ s.in_bit_idx < 8

namespace DecodeAmd

/-- The function `read_bits` of decode-amd.c. -/
def read_bits (s : State) (count : Nat) : Except Fault (Nat × State) :=
  if ¬ count ≤ 8 then .error .count_too_large
  else if ¬ s.in_byte_idx < 64 then .error .input_exhausted
  else if s.in_bit_idx + count < 8 then
    .ok (((s.inp s.in_byte_idx >>> s.in_bit_idx) &&& ((1 <<< count) - 1)) % 256,
         { s with in_bit_idx := (s.in_bit_idx + count) % 256 })
  else if s.in_bit_idx + count = 8 then
    .ok ((s.inp s.in_byte_idx >>> s.in_bit_idx) % 256,
         { s with in_byte_idx := (s.in_byte_idx + 1) % 256, in_bit_idx := 0 })
  else
    let first_byte_bits := (256 + 8 - s.in_bit_idx) % 256
    let second_byte_bits := (256 + count - first_byte_bits) % 256
    let retval := (s.inp s.in_byte_idx >>> s.in_bit_idx) % 256
    let byte_idx := (s.in_byte_idx + 1) % 256
    if ¬ byte_idx < 64 then .error .input_exhausted
    else
      .ok ((retval + ((s.inp byte_idx &&& ((1 <<< second_byte_bits) - 1))
                        <<< first_byte_bits)) % 256,
           { s with in_byte_idx := byte_idx, in_bit_idx := (0 + second_byte_bits) % 256 })

/-- The builtin `__builtin_ctz` behind `num_trailing_zero_bits`, on a 32-bit unsigned
argument: the index of the lowest set bit.  On `0` the builtin is undefined; the scan
then runs through all 32 bits.  Every call site asserts a nonzero argument first. -/
def ctz_scan : Nat → Nat → Nat
  | 0, _ => 0
  | fuel + 1, x => if x % 2 = 1 then 0 else 1 + ctz_scan fuel (x / 2)

/-- The macro `num_trailing_zero_bits`. -/
def num_trailing_zero_bits (x : Nat) : Nat := ctz_scan 32 x

/-- The operator `~` on a non-negative 32-bit `int`, as the bit pattern of the result. -/
def bit_not32 (x : Nat) : Nat := 2 ^ 32 - 1 - x

/-- The function `write_pixel`. -/
def write_pixel (s : State) (r g b a : Nat) : Except Fault State :=
  if ¬ s.out_idx ≤ 63 then .error .output_full
  else
    .ok { s with
      out := set1 (set1 (set1 (set1 s.out (s.out_idx * 4) r) (s.out_idx * 4 + 1) g)
                (s.out_idx * 4 + 2) b) (s.out_idx * 4 + 3) a
      out_idx := (s.out_idx + 1) % 256 }

/-- The function `write_g_cr_cb_pixel`. -/
def write_g_cr_cb_pixel (s : State) (g cr cb a : Nat) : Except Fault State :=
  let r := (cr + g) % 256
  let b := (cb + g) % 256
  write_pixel s r g b a

@[reducible] def NUM_CACHELINES : Nat := 4
@[reducible] def NUM_CHANNELS : Nat := 4
@[reducible] def CHAN_G : Nat := 0
@[reducible] def CHAN_CR : Nat := 1
@[reducible] def CHAN_CB : Nat := 2
@[reducible] def CHAN_A : Nat := 3

/-- The record `struct color_channel_info`. -/
structure color_channel_info where
  left_header_present : Nat
  left_constant : Nat
  left_base : Nat
  left_bits : Nat
  right_header_present : Nat
  right_constant : Nat
  right_base : Nat
  right_bits : Nat
  deriving DecidableEq, Repr

/-- The table `chan_info[NUM_CACHELINES][NUM_CHANNELS]`. -/
abbrev ChanInfo := Nat → Nat → color_channel_info

/-- The arrays `upper_pixels[8][NUM_CHANNELS]` and `lower_pixels[8][NUM_CHANNELS]`. -/
abbrev Pixels := Nat → Nat → Nat

/-- The mode switch at the head of `decode_amd`: the number of cachelines recovered.
The warnings that the partial modes print on stderr are not modelled. -/
def mode_table (dcc : Nat) : Except Fault Nat :=
  if dcc = 0x28 then .ok 4
  else if dcc = 0xcc then .ok 3
  else if dcc = 0x66 then .ok 2
  else .error .unsupported_mode

/-- First header, first inner loop body: the two presence bits of one channel. -/
def read_presence (cl chan : Nat) (st : ChanInfo × State) : Except Fault (ChanInfo × State) := do
  let (l, s1) ← read_bits st.2 1
  let ci1 := set2 st.1 cl chan { st.1 cl chan with left_header_present := l }
  let (r, s2) ← read_bits s1 1
  let ci2 := set2 ci1 cl chan { ci1 cl chan with right_header_present := r }
  pure (ci2, s2)

/-- First header, second inner loop body: the two constant bits of one channel. -/
def read_constant (cl chan : Nat) (st : ChanInfo × State) : Except Fault (ChanInfo × State) := do
  let (l, s1) ← read_bits st.2 1
  let ci1 := set2 st.1 cl chan { st.1 cl chan with left_constant := l }
  let (r, s2) ← read_bits s1 1
  let ci2 := set2 ci1 cl chan { ci1 cl chan with right_constant := r }
  pure (ci2, s2)

/-- First header of one cacheline: 2 bytes. -/
def first_header_cl (cl : Nat) (st : ChanInfo × State) : Except Fault (ChanInfo × State) := do
  let st1 ← for_range 0 NUM_CHANNELS (read_presence cl) st
  for_range 0 NUM_CHANNELS (read_constant cl) st1

/-- The loop "first header: 2 bytes per cacheline". -/
def first_header (n : Nat) (st : ChanInfo × State) : Except Fault (ChanInfo × State) :=
  for_range 0 n first_header_cl st

/-- The consistency check on the first header of one channel: the body of the double
loop, with its three assertions. -/
def check_channel (c : color_channel_info) : Except Fault Unit :=
  if c.left_header_present ≠ 0 then
    if c.right_header_present ≠ 0 then .ok ()
    else
      if ¬ (c.left_constant = 0 ∨ c.right_constant ≠ 0) then .error .header_pattern
      else .ok ()
  else
    if c.right_header_present ≠ 0 then
      if ¬ (c.left_constant = 0) then .error .header_pattern else .ok ()
    else
      if ¬ (c.right_constant ≠ 0) then .error .header_pattern else .ok ()

/-- The loop "consistency check on first header". -/
def consistency_check (n : Nat) (ci : ChanInfo) : Except Fault Unit :=
  for_range 0 n (fun cl _ => for_range 0 NUM_CHANNELS (fun chan _ => check_channel (ci cl chan)) ()) ()

/-- Second header, left side of one channel. -/
def second_header_left (cl chan : Nat) (st : ChanInfo × State) :
    Except Fault (ChanInfo × State) :=
  let ci := st.1
  if (ci cl chan).left_header_present ≠ 0 then do
    let (left_byte, s1) ← read_bits st.2 8
    if (ci cl chan).left_constant ≠ 0 then
      pure (set2 ci cl chan { ci cl chan with left_base := left_byte, left_bits := 0 }, s1)
    else
      if ¬ (0 ≠ left_byte) then .error .zero_header_byte
      else
        pure (set2 ci cl chan { ci cl chan with
          left_base := (left_byte &&& bit_not32 (1 <<< num_trailing_zero_bits left_byte)) % 256
          left_bits := num_trailing_zero_bits left_byte % 256 }, s1)
  else
    if (ci cl chan).left_constant ≠ 0 then
      pure (set2 ci cl chan { ci cl chan with left_base := 0, left_bits := 0 }, st.2)
    else
      pure (set2 ci cl chan { ci cl chan with left_base := 0, left_bits := 7 }, st.2)

/-- Second header, right side of one channel. -/
def second_header_right (cl chan : Nat) (st : ChanInfo × State) :
    Except Fault (ChanInfo × State) :=
  let ci := st.1
  if (ci cl chan).right_header_present ≠ 0 then do
    let (right_byte, s1) ← read_bits st.2 8
    if (ci cl chan).right_constant ≠ 0 then
      pure (set2 ci cl chan { ci cl chan with right_base := right_byte, right_bits := 0 }, s1)
    else
      if ¬ (0 ≠ right_byte) then .error .zero_header_byte
      else
        pure (set2 ci cl chan { ci cl chan with
          right_base := (right_byte &&& bit_not32 (1 <<< num_trailing_zero_bits right_byte)) % 256
          right_bits := num_trailing_zero_bits right_byte % 256 }, s1)
  else
    if (ci cl chan).right_constant ≠ 0 then
      pure (set2 ci cl chan { ci cl chan with right_base := 0, right_bits := 0 }, st.2)
    else
      pure (set2 ci cl chan { ci cl chan with
        right_base := (ci cl chan).left_base, right_bits := (ci cl chan).left_bits }, st.2)

/-- Second header of one channel: the body of the double loop. -/
def second_header_chan (cl chan : Nat) (st : ChanInfo × State) :
    Except Fault (ChanInfo × State) := do
  let st1 ← second_header_left cl chan st
  second_header_right cl chan st1

/-- The loop "second header: number of bytes depends on first header". -/
def second_header (n : Nat) (st : ChanInfo × State) : Except Fault (ChanInfo × State) :=
  for_range 0 n (fun cl st1 => for_range 0 NUM_CHANNELS (second_header_chan cl) st1) st

/-- The loop `for (p = 0; p < 8; p++) signs[p] = read_bits(1);`. -/
def read_signs (st : (Nat → Nat) × State) : Except Fault ((Nat → Nat) × State) :=
  for_range 0 8 (fun p st1 => do
    let (v, s1) ← read_bits st1.2 1
    pure (set1 st1.1 p v, s1)) st

/-- The loop `for (p = 0; p < 8; p++) deltas[p] = 0;`. -/
def clear_deltas (deltas : Nat → Nat) : Except Fault (Nat → Nat) :=
  for_range 0 8 (fun p d => pure (set1 d p 0)) deltas

/-- One bit plane: `for (p = 0; p < 8; p++) deltas[p] |= read_bits(1) << b;`. -/
def read_plane (b : Nat) (st : (Nat → Nat) × State) : Except Fault ((Nat → Nat) × State) :=
  for_range 0 8 (fun p st1 => do
    let (v, s1) ← read_bits st1.2 1
    pure (set1 st1.1 p ((st1.1 p ||| (v <<< b)) % 256), s1)) st

/-- The three loops that open a non-constant half: signs, cleared deltas, and `bits`
bit planes.  The arrays `signs` and `deltas` are locals of the channel loop body,
declared without initialiser; every entry is stored before it is loaded. -/
def read_half (bits : Nat) (s : State) :
    Except Fault ((Nat → Nat) × (Nat → Nat) × State) := do
  let (signs1, s1) ← read_signs (fun _ => 0, s)
  let deltas1 ← clear_deltas (fun _ => 0)
  let (deltas2, s2) ← for_range 0 bits read_plane (deltas1, s1)
  pure (signs1, deltas2, s2)

/-- The expression `(signs[k] ? 255 - deltas[k] : deltas[k])`. -/
def sm (signs deltas : Nat → Nat) (k : Nat) : Nat :=
  if signs k ≠ 0 then 255 - deltas k else deltas k

/-- The state of the reconstruction loop: the two pixel arrays and the globals. -/
structure Recon where
  upper_pixels : Pixels
  lower_pixels : Pixels
  s : State

/-- The block "left side" of the reconstruction loop. -/
def left_side (c : color_channel_info) (chan : Nat) (r : Recon) : Except Fault Recon :=
  if c.left_constant ≠ 0 then
    for_range 0 4 (fun p r1 => pure { r1 with
      upper_pixels := set2 r1.upper_pixels p chan c.left_base
      lower_pixels := set2 r1.lower_pixels p chan c.left_base }) r
  else do
    let (signs, deltas, s1) ← read_half c.left_bits r.s
    let up := r.upper_pixels
    let lo := r.lower_pixels
    let up := set2 up 0 chan
      (if c.left_header_present ≠ 0 then (c.left_base + (deltas 0 <<< 1) + signs 0) % 256
       else (if signs 0 ≠ 0 then 255 - deltas 0 else deltas 0) % 256)
    let up := set2 up 1 chan ((up 0 chan + sm signs deltas 1) % 256)
    let lo := set2 lo 0 chan ((up 0 chan + sm signs deltas 2) % 256)
    let lo := set2 lo 1 chan ((lo 0 chan + sm signs deltas 3) % 256)
    let up := set2 up 2 chan ((up 1 chan + sm signs deltas 4) % 256)
    let up := set2 up 3 chan ((up 2 chan + sm signs deltas 5) % 256)
    let lo := set2 lo 2 chan ((up 2 chan + sm signs deltas 6) % 256)
    let lo := set2 lo 3 chan ((lo 2 chan + sm signs deltas 7) % 256)
    pure { upper_pixels := up, lower_pixels := lo, s := s1 }

/-- The block "right side" of the reconstruction loop. -/
def right_side (c : color_channel_info) (chan : Nat) (r : Recon) : Except Fault Recon :=
  if c.right_constant ≠ 0 then
    if c.right_header_present ≠ 0 then
      for_range 4 8 (fun p r1 => pure { r1 with
        upper_pixels := set2 r1.upper_pixels p chan c.right_base
        lower_pixels := set2 r1.lower_pixels p chan c.right_base }) r
    else
      for_range 4 8 (fun p r1 => pure { r1 with
        upper_pixels := set2 r1.upper_pixels p chan (r1.upper_pixels 3 chan)
        lower_pixels := set2 r1.lower_pixels p chan (r1.upper_pixels 3 chan) }) r
  else do
    let (signs, deltas, s1) ← read_half c.right_bits r.s
    let up := r.upper_pixels
    let lo := r.lower_pixels
    let up := set2 up 4 chan
      (if c.right_header_present ≠ 0 then (c.right_base + (deltas 0 <<< 1) + signs 0) % 256
       else (up 3 chan + (if signs 0 ≠ 0 then 255 - deltas 0 else deltas 0)) % 256)
    let up := set2 up 5 chan ((up 4 chan + sm signs deltas 1) % 256)
    let lo := set2 lo 4 chan ((up 4 chan + sm signs deltas 2) % 256)
    let lo := set2 lo 5 chan ((lo 4 chan + sm signs deltas 3) % 256)
    let up := set2 up 6 chan ((up 5 chan + sm signs deltas 4) % 256)
    let up := set2 up 7 chan ((up 6 chan + sm signs deltas 5) % 256)
    let lo := set2 lo 6 chan ((up 6 chan + sm signs deltas 6) % 256)
    let lo := set2 lo 7 chan ((lo 6 chan + sm signs deltas 7) % 256)
    pure { upper_pixels := up, lower_pixels := lo, s := s1 }

/-- The body of the channel loop of the reconstruction: the left side, then the right
side. -/
def channel_sides (ci : ChanInfo) (cl chan : Nat) (r : Recon) : Except Fault Recon := do
  let r1 ← left_side (ci cl chan) chan r
  right_side (ci cl chan) chan r1

/-- The four loops that write the quadrants of one cacheline. -/
def write_quadrants (up lo : Pixels) (s : State) : Except Fault State := do
  let s1 ← for_range 0 4 (fun p s0 =>
    write_g_cr_cb_pixel s0 (up p CHAN_G) (up p CHAN_CR) (up p CHAN_CB) (up p CHAN_A)) s
  let s2 ← for_range 0 4 (fun p s0 =>
    write_g_cr_cb_pixel s0 (lo p CHAN_G) (lo p CHAN_CR) (lo p CHAN_CB) (lo p CHAN_A)) s1
  let s3 ← for_range 4 8 (fun p s0 =>
    write_g_cr_cb_pixel s0 (up p CHAN_G) (up p CHAN_CR) (up p CHAN_CB) (up p CHAN_A)) s2
  for_range 4 8 (fun p s0 =>
    write_g_cr_cb_pixel s0 (lo p CHAN_G) (lo p CHAN_CR) (lo p CHAN_CB) (lo p CHAN_A)) s3

/-- The body of the reconstruction loop: one cacheline. -/
def reconstruct_cl (ci : ChanInfo) (cl : Nat) (r : Recon) : Except Fault Recon := do
  let r1 ← for_range 0 NUM_CHANNELS (channel_sides ci cl) r
  let s1 ← write_quadrants r1.upper_pixels r1.lower_pixels r1.s
  pure { r1 with s := s1 }

/-- The reconstruction loop over the recovered cachelines. -/
def reconstruct (n : Nat) (ci : ChanInfo) (r : Recon) : Except Fault Recon :=
  for_range 0 n (reconstruct_cl ci) r

/-- The two header stages and the check between them: the decode plan.  The table
`chan_info` is declared without initialiser; its entries are zero here until stage 1
stores them, and no entry is loaded before it is stored. -/
def decode_plan (n : Nat) (s : State) : Except Fault (ChanInfo × State) := do
  let st1 ← first_header n (fun _ _ => ⟨0, 0, 0, 0, 0, 0, 0, 0⟩, s)
  consistency_check n st1.1
  second_header n st1

/-- The function `decode_amd`.  The arrays `upper_pixels` and `lower_pixels` are declared
without initialiser and start as zero here; every column is stored before the quadrant
loops load it. -/
def decode_amd (s : State) (dcc : Nat) : Except Fault State := do
  let cachelines_recovered ← mode_table dcc
  let (chan_info, s1) ← decode_plan cachelines_recovered s
  let r ← reconstruct cachelines_recovered chan_info
    { upper_pixels := fun _ _ => 0, lower_pixels := fun _ _ => 0, s := s1 }
  pure r.s

/-- The globals at program start with the 64 input bytes loaded. -/
def start (inp : Nat → Nat) : State :=
  { inp := inp, in_byte_idx := 0, in_bit_idx := 0, out := fun _ => 0, out_idx := 0 }

/-- A buffer given by its leading bytes, zero afterwards. -/
def bytes (l : List Nat) : Nat → Nat := fun i => l.getD i 0

/-- Output pixel `k` as `(R, G, B, A)`. -/
def pixel_at (out : Nat → Nat) (k : Nat) : Nat × Nat × Nat × Nat :=
  (out (4 * k), out (4 * k + 1), out (4 * k + 2), out (4 * k + 3))

end DecodeAmd

namespace Decode

/-- The function `read_bits` of decode.c: as in decode-amd.c, with an early return for
`count == 0` after the two assertions. -/
def read_bits (s : State) (count : Nat) : Except Fault (Nat × State) :=
  if ¬ count ≤ 8 then .error .count_too_large
  else if ¬ s.in_byte_idx < 64 then .error .input_exhausted
  else if count = 0 then .ok (0, s)
  else if s.in_bit_idx + count < 8 then
    .ok (((s.inp s.in_byte_idx >>> s.in_bit_idx) &&& ((1 <<< count) - 1)) % 256,
         { s with in_bit_idx := (s.in_bit_idx + count) % 256 })
  else if s.in_bit_idx + count = 8 then
    .ok ((s.inp s.in_byte_idx >>> s.in_bit_idx) % 256,
         { s with in_byte_idx := (s.in_byte_idx + 1) % 256, in_bit_idx := 0 })
  else
    let first_byte_bits := (256 + 8 - s.in_bit_idx) % 256
    let second_byte_bits := (256 + count - first_byte_bits) % 256
    let retval := (s.inp s.in_byte_idx >>> s.in_bit_idx) % 256
    let byte_idx := (s.in_byte_idx + 1) % 256
    if ¬ byte_idx < 64 then .error .input_exhausted
    else
      .ok ((retval + ((s.inp byte_idx &&& ((1 <<< second_byte_bits) - 1))
                        <<< first_byte_bits)) % 256,
           { s with in_byte_idx := byte_idx, in_bit_idx := (0 + second_byte_bits) % 256 })

end Decode

/-! ## Specification-side definitions -/

/-- The magnitude of position `k` carried by `w` bit planes that start at bit `q`:
plane `b` is the eight stream bits `q + 8 b .. q + 8 b + 7`, one per position. -/
def magnitude (inp : Nat → Nat) (q : Nat) : Nat → Nat → Nat
  | 0, _ => 0
  | w + 1, k => magnitude inp q w k + 2 ^ w * stream_bit inp (q + 8 * w + k)


/-- Sign bit `k` of a half whose payload starts at bit `q`. -/
def half_sign (inp : Nat → Nat) (q k : Nat) : Nat := stream_bit inp (q + k)

/-- Magnitude `k` of a half of delta width `w` whose payload starts at bit `q`: the
planes follow the eight sign bits. -/
def half_delta (inp : Nat → Nat) (q w k : Nat) : Nat := magnitude inp (q + 8) w k

/-- The sign-magnitude step `sm(k)`: `255 - d_k` if the sign bit is set, else `d_k`. -/
def half_sm (inp : Nat → Nat) (q w k : Nat) : Nat :=
  if half_sign inp q k = 1 then 255 - half_delta inp q w k else half_delta inp q w k


/-- The stage-2 plan of one side as the design document states it, for a side with the
given presence and constant flags whose header byte (when present) is `byte`:
`(base, bits)` is `(byte, 0)` for a present constant side; for a present non-constant
side `bits` is the number of trailing zero bits of `byte` and `base` is `byte` with its
lowest set bit cleared; `(0, 0)` for an absent constant side; and the given fallback for
an absent non-constant side. -/
def stage2_side_plan (present constant byte absent_base absent_bits base bits : Nat) : Prop :=
  (present ≠ 0 → constant ≠ 0 → base = byte ∧ bits = 0) ∧
  (present ≠ 0 → constant = 0 →
    bits ≤ 7 ∧ 2 ^ bits ∣ byte ∧ ¬ 2 ^ (bits + 1) ∣ byte ∧
    base = byte &&& (byte - 1) ∧ base + 2 ^ bits = byte) ∧
  (present = 0 → constant ≠ 0 → base = 0 ∧ bits = 0) ∧
  (present = 0 → constant = 0 → base = absent_base ∧ bits = absent_bits)


/-- The cursor after the header byte of one side: one byte further when the header is
present, unmoved when it is absent. -/
def after_header (present q : Nat) : Nat := if present ≠ 0 then q + 8 else q

/-- The zero-byte fault of one side: a present, non-constant header whose byte is zero. -/
def zero_byte_fault (present constant byte : Nat) : Prop :=
  present ≠ 0 ∧ constant = 0 ∧ byte = 0

namespace DecodeAmd

/-- A flag as a digit: `1` when set, `0` when clear. -/
def flag_digit (x : Nat) : Nat := if x ≠ 0 then 1 else 0

/-- The combination (lhp, rhp, lconst, rconst) of a channel, written as the number whose
decimal digits are the four flags, in the order of the decoder table. -/
def header_pattern (c : color_channel_info) : Nat :=
  1000 * flag_digit c.left_header_present + 100 * flag_digit c.right_header_present
    + 10 * flag_digit c.left_constant + flag_digit c.right_constant

/-- The ten combinations of the truth table of the design document. -/
def table_patterns : List Nat := [1, 11, 101, 1000, 1001, 1011, 1100, 1101, 1110, 1111]

/-- The combinations that pass the assertions of the consistency check. -/
def checked_patterns : List Nat := [1, 11, 100, 101, 1000, 1001, 1011, 1100, 1101, 1110, 1111]

/-- A channel with the combination 0100: no left header, right header, neither side
constant. -/
def chan_0100 : color_channel_info := ⟨0, 0, 0, 0, 1, 0, 0, 0⟩

/-- A payload whose cacheline 0 has combination 0100 in channel G and 0011 in the other
channels, and whose other cachelines are 0011 throughout.  Byte 8 is the right header
byte of channel G; bytes 9..16 are its left half, byte 17 its right half. -/
def payload_0100 : Nat → Nat :=
  bytes [0x02, 0xFC, 0x00, 0xFF, 0x00, 0xFF, 0x00, 0xFF, 0x01,
         0x55, 0x01, 0x02, 0x03, 0x04, 0x05, 0x06, 0x07, 0x0F]

/-- A cursor in the middle of a byte, with 7 bits to read across the byte boundary. -/
def sample_cursor : State :=
  { inp := bytes [0xA5, 0x3C], in_byte_idx := 0, in_bit_idx := 5, out := fun _ => 0, out_idx := 0 }

/-- A table whose entry (0, 0) has both headers present, left constant, right not. -/
def sample_info : ChanInfo := fun _ _ => ⟨1, 1, 0, 0, 1, 0, 0, 0⟩

/-- Two header bytes: a flat value and a byte with three trailing zero bits. -/
def sample_headers : State := start (bytes [0x2A, 0x58])


/-- The payload `payload_0100` with the cursor on byte 8, after the first header. -/
def header_0100_state : State := seek (start payload_0100) 64

/-- The plan that stage 2 computes for channel G of cacheline 0 of `payload_0100`, and
the state it leaves: left `(0, 7)`, right `(0, 0)` from the header byte `01`. -/
def plan_0100 : ChanInfo × State :=
  match second_header_chan 0 0 (fun _ _ => chan_0100, header_0100_state) with
  | .ok st => st
  | .error _ => (fun _ _ => chan_0100, header_0100_state)

/-- The reconstruction state in front of the left half of that channel. -/
def recon_0100 : Recon :=
  { upper_pixels := fun _ _ => 0, lower_pixels := fun _ _ => 0, s := plan_0100.2 }

/-- A payload with one set bit, in the second bit plane of a half of width 2. -/
def plane_payload : State := start (bytes [0x00, 0x00, 0x01])

/-- A channel with no header byte on either side, left not constant, right constant:
combination 0001. -/
def chan_0001 : color_channel_info := ⟨0, 0, 0, 7, 0, 1, 0, 0⟩


/-- The output pixel `(R, G, B, A)` that `write_g_cr_cb_pixel` stores for the internal
channel values `px` of one position, indexed by `CHAN_G`, `CHAN_CR`, `CHAN_CB`, `CHAN_A`. -/
def rgba_of (px : Nat → Nat) : Nat × Nat × Nat × Nat :=
  ((px CHAN_CR + px CHAN_G) % 256, px CHAN_G, (px CHAN_CB + px CHAN_G) % 256, px CHAN_A)

/-- The position that stands at place `j` (0..15) of a cacheline's output in quadrant
order: upper 0..3, lower 0..3, upper 4..7, lower 4..7. -/
def quadrant_source (up lo : Pixels) (j : Nat) : Nat → Nat :=
  if j < 4 then up j else if j < 8 then lo (j - 4) else if j < 12 then up (j - 4) else lo (j - 8)


/-- A plan entry that is header-present and constant on both sides, both header bytes
being `v`. -/
def flat_channel (c : color_channel_info) (v : Nat) : Prop :=
  c.left_header_present ≠ 0 ∧ c.right_header_present ≠ 0 ∧
  c.left_constant ≠ 0 ∧ c.right_constant ≠ 0 ∧ c.left_base = v ∧ c.right_base = v

/-- The payload of the constant-flat scenario: four cachelines whose first header is all
ones and whose channels G, Cr, Cb, A carry the header bytes 10, 20, 30, 255 on both
sides. -/
def flat_payload : Nat → Nat :=
  bytes [255, 255, 255, 255, 255, 255, 255, 255,
         10, 10, 20, 20, 30, 30, 255, 255, 10, 10, 20, 20, 30, 30, 255, 255,
         10, 10, 20, 20, 30, 30, 255, 255, 10, 10, 20, 20, 30, 30, 255, 255]


/-- The layout of the first header: for cacheline `cl` and channel `chan`, the presence
bits are bits `2 chan` and `2 chan + 1` of byte `2 cl`, the constant bits are bits
`2 chan` and `2 chan + 1` of byte `2 cl + 1`. -/
def stage1_flags (inp : Nat → Nat) (cl chan : Nat) (c : color_channel_info) : Prop :=
  c.left_header_present = stream_bit inp (16 * cl + 2 * chan) ∧
  c.right_header_present = stream_bit inp (16 * cl + 2 * chan + 1) ∧
  c.left_constant = stream_bit inp (16 * cl + 8 + 2 * chan) ∧
  c.right_constant = stream_bit inp (16 * cl + 8 + 2 * chan + 1)


/-- The four flags of a table entry are all set: combination 1111. -/
def all_flags_set (c : color_channel_info) : Prop :=
  c.left_header_present ≠ 0 ∧ c.right_header_present ≠ 0 ∧
  c.left_constant ≠ 0 ∧ c.right_constant ≠ 0

end DecodeAmd

/-- The value of a computation, or the given default when it faulted. -/
def value_or {α : Type} (x : Except Fault α) (d : α) : α :=
  match x with
  | .ok a => a
  | .error _ => d

namespace DecodeAmd

/-- The output state of the mode-0x28 decode of `payload_0100`. -/
def decoded_0100 : State := value_or (decode_amd (start payload_0100) 0x28) (start payload_0100)

end DecodeAmd

/-! ## decode.c: the vendor-B decoders -/

namespace Decode

/-- The `while (count > 8)` loop of `read_and_discard_zero_bits`: whole bytes that must be
zero.  Every iteration lowers `count` by 8, so `count` rounds of unrolling always reach
the exit; the first argument bounds the unrolling. -/
def discard_chunks : Nat → State → Nat → Except Fault (State × Nat)
  | 0, s, count => .ok (s, count)
  | fuel + 1, s, count =>
    if count > 8 then
      match read_bits s 8 with
      | .error e => .error e
      | .ok (bits, s1) =>
        if ¬ bits = 0 then .error .nonzero_padding
        else discard_chunks fuel s1 (count - 8)
    else .ok (s, count)

/-- The function `read_and_discard_zero_bits`. -/
def read_and_discard_zero_bits (s : State) (count : Nat) : Except Fault State := do
  let (s1, count1) ← discard_chunks count s count
  let (bits, s2) ← read_bits s1 count1
  if ¬ bits = 0 then .error .nonzero_padding else pure s2

/-- The record `struct bitbuffer`: a `uint32_t` and the number of bits it holds. -/
structure bitbuffer where
  buf : Nat
  bits_used : Nat
  deriving DecidableEq, Repr

/-- The function `init_bitbuffer`. -/
def init_bitbuffer : bitbuffer := { buf := 0, bits_used := 0 }

/-- The function `buffer_bits`. -/
def buffer_bits (bb : bitbuffer) (val count : Nat) : Except Fault bitbuffer :=
  if ¬ count ≤ 8 then .error .count_too_large
  else if ¬ count + bb.bits_used ≤ 32 then .error .buffer_overflow
  else
    .ok { buf := bb.buf ||| ((val <<< bb.bits_used) % 2 ^ 32)
          bits_used := (bb.bits_used + count) % 256 }

/-- The `while (count > 8)` loop of `read_bits_into_buffer`, unrolled like
`discard_chunks`. -/
def fill_chunks : Nat → bitbuffer × State → Nat → Except Fault ((bitbuffer × State) × Nat)
  | 0, st, count => .ok (st, count)
  | fuel + 1, st, count =>
    if count > 8 then
      match read_bits st.2 8 with
      | .error e => .error e
      | .ok (v, s1) =>
        match buffer_bits st.1 v 8 with
        | .error e => .error e
        | .ok bb1 => fill_chunks fuel (bb1, s1) (count - 8)
    else .ok (st, count)

/-- The function `read_bits_into_buffer`. -/
def read_bits_into_buffer (bb : bitbuffer) (s : State) (count : Nat) :
    Except Fault (bitbuffer × State) := do
  let (st1, count1) ← fill_chunks count (bb, s) count
  if count1 > 0 then do
    let (v, s2) ← read_bits st1.2 count1
    let bb2 ← buffer_bits st1.1 v count1
    pure (bb2, s2)
  else pure st1

/-- The function `read_buffered_bits`. -/
def read_buffered_bits (bb : bitbuffer) (count : Nat) : Except Fault (Nat × bitbuffer) :=
  if ¬ count ≤ 8 then .error .count_too_large
  else if ¬ bb.bits_used ≥ count then .error .buffer_underflow
  else
    .ok ((bb.buf &&& ((1 <<< count) - 1)) % 256,
         { buf := bb.buf >>> count, bits_used := (bb.bits_used - count) % 256 })

/-- The function `read_and_discard_buffered_zero_bits`. -/
def read_and_discard_buffered_zero_bits (bb : bitbuffer) (count : Nat) :
    Except Fault bitbuffer :=
  if ¬ count ≤ 8 then .error .count_too_large
  else if ¬ bb.bits_used ≥ count then .error .buffer_underflow
  else if ¬ (bb.buf &&& ((1 <<< count) - 1)) = 0 then .error .nonzero_padding
  else .ok { buf := bb.buf >>> count, bits_used := (bb.bits_used - count) % 256 }

/-- The function `write_pixel` of decode.c: pixel `out_idx` of the 32. -/
def write_pixel (s : State) (r g b a : Nat) : Except Fault State :=
  if ¬ s.out_idx ≤ 31 then .error .output_full
  else
    .ok { s with
      out := set1 (set1 (set1 (set1 s.out (s.out_idx * 4) r) (s.out_idx * 4 + 1) g)
                (s.out_idx * 4 + 2) b) (s.out_idx * 4 + 3) a
      out_idx := (s.out_idx + 1) % 256 }

/-- The table `block_order`. -/
def block_order (i : Nat) : Nat :=
  [0,  1,  4,  5,  2,  3,  6,  7,
   8,  9,  12, 13, 10, 11, 14, 15,
   16, 17, 20, 21, 18, 19, 22, 23,
   24, 25, 28, 29, 26, 27, 30, 31].getD i 0

/-- The function `write_pixel_block_order`. -/
def write_pixel_block_order (s : State) (r g b a : Nat) : Except Fault State :=
  if ¬ s.out_idx ≤ 31 then .error .output_full
  else
    .ok { s with
      out := set1 (set1 (set1 (set1 s.out (block_order s.out_idx * 4) r)
                (block_order s.out_idx * 4 + 1) g)
                (block_order s.out_idx * 4 + 2) b) (block_order s.out_idx * 4 + 3) a
      out_idx := (s.out_idx + 1) % 256 }

/-- A reconstructed pixel `(r, g, b, a)`. -/
abbrev Pixel := Nat × Nat × Nat × Nat

/-- The locals of `decode_8th_gen` that its pixel loop uses. -/
structure gen8_header where
  skip_r : Nat
  skip_g : Nat
  skip_b : Nat
  skip_a : Nat
  base_r : Nat
  base_g : Nat
  base_b : Nat
  base_a : Nat
  delta_r_bits : Nat
  delta_g_bits : Nat
  delta_b_bits : Nat
  delta_a_bits : Nat
  unused_bits : Nat
  deriving DecidableEq, Repr

/-- The statement `if (skip) assert(delta_bits == 0); else delta_bits++;` that follows
each 3-bit width field of `decode_8th_gen`. -/
def gen8_width (skip field : Nat) : Except Fault Nat :=
  if skip ≠ 0 then
    if ¬ field = 0 then .error .skipped_width else .ok field
  else .ok ((field + 1) % 256)

/-- The head of `decode_8th_gen`, up to the computation of `unused_bits`. -/
def gen8_read_header (s : State) : Except Fault (gen8_header × State) := do
  let (skip_r, s) ← read_bits s 1
  let (skip_g, s) ← read_bits s 1
  let (skip_b, s) ← read_bits s 1
  let (skip_a, s) ← read_bits s 1
  let (base_r, s) ← read_bits s 8
  let (base_g, s) ← read_bits s 8
  let (base_b, s) ← read_bits s 8
  let (base_a, s) ← read_bits s 8
  let (field_r, s) ← read_bits s 3
  let delta_r_bits ← gen8_width skip_r field_r
  let (field_g, s) ← read_bits s 3
  let delta_g_bits ← gen8_width skip_g field_g
  let (field_b, s) ← read_bits s 3
  let delta_b_bits ← gen8_width skip_b field_b
  let (field_a, s) ← read_bits s 3
  let delta_a_bits ← gen8_width skip_a field_a
  if ¬ delta_r_bits + delta_g_bits + delta_b_bits + delta_a_bits ≤ 14 then
    .error .width_budget
  else
    pure ({ skip_r := skip_r, skip_g := skip_g, skip_b := skip_b, skip_a := skip_a,
            base_r := base_r, base_g := base_g, base_b := base_b, base_a := base_a,
            delta_r_bits := delta_r_bits, delta_g_bits := delta_g_bits,
            delta_b_bits := delta_b_bits, delta_a_bits := delta_a_bits,
            unused_bits :=
              (14 - (delta_r_bits + delta_g_bits + delta_b_bits + delta_a_bits)) % 256 }, s)

/-- The statements `c = base; if (!skip) c += read_bits(bits);` of one channel. -/
def gen8_channel (s : State) (skip base bits : Nat) : Except Fault (Nat × State) :=
  if skip = 0 then do
    let (d, s1) ← read_bits s bits
    pure ((base + d) % 256, s1)
  else pure (base, s)

/-- The body of the pixel loop of `decode_8th_gen` up to the write: the four channels
and the unused bits. -/
def gen8_reconstruct (h : gen8_header) (s : State) : Except Fault (Pixel × State) := do
  let (r, s) ← gen8_channel s h.skip_r h.base_r h.delta_r_bits
  let (g, s) ← gen8_channel s h.skip_g h.base_g h.delta_g_bits
  let (b, s) ← gen8_channel s h.skip_b h.base_b h.delta_b_bits
  let (a, s) ← gen8_channel s h.skip_a h.base_a h.delta_a_bits
  let s ← read_and_discard_zero_bits s h.unused_bits
  pure ((r, g, b, a), s)

/-- The body of the pixel loop of `decode_8th_gen`. -/
def gen8_pixel (h : gen8_header) (_pixel_idx : Nat) (s : State) : Except Fault State := do
  let (px, s1) ← gen8_reconstruct h s
  write_pixel s1 px.1 px.2.1 px.2.2.1 px.2.2.2

/-- The function `decode_8th_gen`. -/
def decode_8th_gen (s : State) : Except Fault State := do
  let (h, s1) ← gen8_read_header s
  let s2 ← for_range 0 32 (gen8_pixel h) s1
  read_and_discard_zero_bits s2 16

/-- The mode switch at the head of `decode_11th_gen`: `bits_per_pixel`,
`first_cacheline_recovered`, `second_cacheline_recovered`.  The warnings printed on
stderr are not modelled. -/
def mode_table (ccs : Int) : Except Fault (Nat × Nat × Nat) :=
  if ccs = 1 then .ok (6, 1, 1)
  else if ccs = 2 then .ok (12, 1, 0)
  else if ccs = 6 then .ok (14, 1, 1)
  else if ccs = 8 then .ok (12, 0, 1)
  else .error .unsupported_mode

/-- The delta widths of a gen11 decode. -/
structure channel_widths where
  delta_r_bits : Nat
  delta_g_bits : Nat
  delta_b_bits : Nat
  delta_a_bits : Nat
  unused_bits : Nat
  deriving DecidableEq, Repr

/-- The base bytes of a gen11 decode. -/
structure channel_bases where
  base_r : Nat
  base_g : Nat
  base_b : Nat
  base_a : Nat
  deriving DecidableEq, Repr

/-- The statements that read the three 4-bit widths, check them and derive the alpha
width and the unused bits.  `decode_11th_gen` has them with `bits_per_pixel` as the
budget, `decode_11th_gen_extension` with 22. -/
def read_widths (s : State) (inter_pred budget : Nat) :
    Except Fault (channel_widths × State) := do
  let (delta_r_bits, delta_g_bits, delta_b_bits, s3) ←
    (if inter_pred ≠ 0 then do
      let (delta_b_bits, s1) ← read_bits s 4
      let (delta_r_bits, s2) ← read_bits s1 4
      let (delta_g_bits, s3) ← read_bits s2 4
      pure (delta_r_bits, delta_g_bits, delta_b_bits, s3)
    else do
      let (delta_r_bits, s1) ← read_bits s 4
      let (delta_g_bits, s2) ← read_bits s1 4
      let (delta_b_bits, s3) ← read_bits s2 4
      pure (delta_r_bits, delta_g_bits, delta_b_bits, s3) :
      Except Fault (Nat × Nat × Nat × State))
  if ¬ delta_r_bits ≤ 8 then .error .width_too_large
  else if ¬ delta_g_bits ≤ 8 then .error .width_too_large
  else if ¬ delta_b_bits ≤ 8 then .error .width_too_large
  else if ¬ delta_r_bits + delta_g_bits + delta_b_bits ≤ budget then .error .width_budget
  else
    let delta_a_bits := (budget - (delta_r_bits + delta_g_bits + delta_b_bits)) % 256
    if delta_a_bits > 8 then
      pure ({ delta_r_bits := delta_r_bits, delta_g_bits := delta_g_bits,
              delta_b_bits := delta_b_bits, delta_a_bits := 8,
              unused_bits := (delta_a_bits - 8) % 256 }, s3)
    else
      pure ({ delta_r_bits := delta_r_bits, delta_g_bits := delta_g_bits,
              delta_b_bits := delta_b_bits, delta_a_bits := delta_a_bits,
              unused_bits := 0 }, s3)

/-- The statements that read the four base bytes, in the order B, R, G, A under
inter-channel prediction and R, G, B, A otherwise. -/
def read_bases (s : State) (inter_pred : Nat) : Except Fault (channel_bases × State) :=
  if inter_pred ≠ 0 then do
    let (base_b, s1) ← read_bits s 8
    let (base_r, s2) ← read_bits s1 8
    let (base_g, s3) ← read_bits s2 8
    let (base_a, s4) ← read_bits s3 8
    pure ({ base_r := base_r, base_g := base_g, base_b := base_b, base_a := base_a }, s4)
  else do
    let (base_r, s1) ← read_bits s 8
    let (base_g, s2) ← read_bits s1 8
    let (base_b, s3) ← read_bits s2 8
    let (base_a, s4) ← read_bits s3 8
    pure ({ base_r := base_r, base_g := base_g, base_b := base_b, base_a := base_a }, s4)

/-- The body of the pixel loop of `decode_11th_gen` for a recovered pixel, up to the
write: the colour channels, alpha and the unused bits. -/
def gen11_reconstruct (inter_pred : Nat) (w : channel_widths) (bs : channel_bases)
    (s : State) : Except Fault (Pixel × State) := do
  let (r, g, b, s3) ←
    (if inter_pred ≠ 0 then do
      let (db, s1) ← read_bits s w.delta_b_bits
      let b := (bs.base_b + db) % 256
      let r := (bs.base_r + b) % 256
      let (dr, s2) ← read_bits s1 w.delta_r_bits
      let r := (r + dr) % 256
      let g := (bs.base_g + (b + r) / 2) % 256
      let (dg, s3) ← read_bits s2 w.delta_g_bits
      let g := (g + dg) % 256
      pure (r, g, b, s3)
    else do
      let (dr, s1) ← read_bits s w.delta_r_bits
      let r := (bs.base_r + dr) % 256
      let (dg, s2) ← read_bits s1 w.delta_g_bits
      let g := (bs.base_g + dg) % 256
      let (db, s3) ← read_bits s2 w.delta_b_bits
      let b := (bs.base_b + db) % 256
      pure (r, g, b, s3) : Except Fault (Nat × Nat × Nat × State))
  let (da, s4) ← read_bits s3 w.delta_a_bits
  let a := (bs.base_a + da) % 256
  let s5 ← read_and_discard_zero_bits s4 w.unused_bits
  pure ((r, g, b, a), s5)

/-- The body of the pixel loop of `decode_11th_gen`. -/
def gen11_pixel (inter_pred : Nat) (w : channel_widths) (bs : channel_bases)
    (first_cacheline_recovered second_cacheline_recovered : Nat) (pixel_idx : Nat)
    (s : State) : Except Fault State :=
  if pixel_idx < 16 ∧ first_cacheline_recovered = 0 then write_pixel_block_order s 0 0 0 0
  else if pixel_idx ≥ 16 ∧ second_cacheline_recovered = 0 then
    write_pixel_block_order s 0 0 0 0
  else do
    let (px, s1) ← gen11_reconstruct inter_pred w bs s
    write_pixel_block_order s1 px.1 px.2.1 px.2.2.1 px.2.2.2

/-- The part of `decode_11th_gen` after the extension test: widths, bases, the pixel loop
and the trailing zero bits.  The count of the last call is an `int` expression converted
to the `u8` parameter. -/
def decode_11th_gen_plain (s : State)
    (inter_pred bits_per_pixel first_cacheline_recovered second_cacheline_recovered : Nat) :
    Except Fault State := do
  let (w, s1) ← read_widths s inter_pred bits_per_pixel
  let (bs, s2) ← read_bases s1 inter_pred
  let s3 ← for_range 0 32
    (gen11_pixel inter_pred w bs first_cacheline_recovered second_cacheline_recovered) s2
  let pixels_recovered : Nat := ((if first_cacheline_recovered ≠ 0 then 16 else 0)
    + (if second_cacheline_recovered ≠ 0 then 16 else 0)) % 256
  read_and_discard_zero_bits s3
    (((512 : Int) - 21 - 32 - (pixels_recovered : Int) * (bits_per_pixel : Int)) % 256).toNat

/-- The head of `decode_11th_gen_extension`: the eight flags, drained from a bit buffer,
and the assertion on their count. -/
def extension_flags (extension_bits : Nat) : Except Fault (Nat → Nat) := do
  let ext_bb ← buffer_bits init_bitbuffer extension_bits 8
  let (subwindow_is_uniform, num_uniform_subwindows, _) ←
    for_range 0 8 (fun sw (st : (Nat → Nat) × Nat × bitbuffer) => do
      let (v, bb1) ← read_buffered_bits st.2.2 1
      pure (set1 st.1 sw v, (if v ≠ 0 then (st.2.1 + 1) % 256 else st.2.1), bb1))
      (fun _ => 0, 0, ext_bb)
  if ¬ num_uniform_subwindows = 4 then .error .uniform_count
  else pure subwindow_is_uniform

/-- One pixel of the extension decode, drained from its delta buffer. -/
def ext_reconstruct (inter_pred : Nat) (w : channel_widths) (bs : channel_bases)
    (bb : bitbuffer) : Except Fault (Pixel × bitbuffer) := do
  let (r, g, b, bb3) ←
    (if inter_pred ≠ 0 then do
      let (db, bb1) ← read_buffered_bits bb w.delta_b_bits
      let b := (bs.base_b + db) % 256
      let r := (bs.base_r + b) % 256
      let (dr, bb2) ← read_buffered_bits bb1 w.delta_r_bits
      let r := (r + dr) % 256
      let g := (bs.base_g + (b + r) / 2) % 256
      let (dg, bb3) ← read_buffered_bits bb2 w.delta_g_bits
      let g := (g + dg) % 256
      pure (r, g, b, bb3)
    else do
      let (dr, bb1) ← read_buffered_bits bb w.delta_r_bits
      let r := (bs.base_r + dr) % 256
      let (dg, bb2) ← read_buffered_bits bb1 w.delta_g_bits
      let g := (bs.base_g + dg) % 256
      let (db, bb3) ← read_buffered_bits bb2 w.delta_b_bits
      let b := (bs.base_b + db) % 256
      pure (r, g, b, bb3) : Except Fault (Nat × Nat × Nat × bitbuffer))
  let (da, bb4) ← read_buffered_bits bb3 w.delta_a_bits
  let a := (bs.base_a + da) % 256
  let bb5 ← read_and_discard_buffered_zero_bits bb4 w.unused_bits
  pure ((r, g, b, a), bb5)

/-- The state of the sub-window loop: the delta buffers, `delta_bb_idx`, the globals. -/
structure ExtState where
  delta_bb : Nat → bitbuffer
  delta_bb_idx : Nat
  s : State

/-- One pixel of the sub-window loop: reconstruct from buffer `delta_bb_idx`, advance
the index, and write the pixel `copies` times. -/
def ext_pixel (inter_pred : Nat) (w : channel_widths) (bs : channel_bases) (copies : Nat)
    (st : ExtState) : Except Fault ExtState := do
  let (px, bb1) ← ext_reconstruct inter_pred w bs (st.delta_bb st.delta_bb_idx)
  let s1 ← for_range 0 copies
    (fun _ s0 => write_pixel_block_order s0 px.1 px.2.1 px.2.2.1 px.2.2.2) st.s
  pure { delta_bb := set1 st.delta_bb st.delta_bb_idx bb1
         delta_bb_idx := (st.delta_bb_idx + 1) % 256
         s := s1 }

/-- The body of the sub-window loop. -/
def ext_subwindow (inter_pred : Nat) (w : channel_widths) (bs : channel_bases)
    (subwindow_is_uniform : Nat → Nat) (sw : Nat) (st : ExtState) : Except Fault ExtState :=
  if subwindow_is_uniform sw ≠ 0 then ext_pixel inter_pred w bs 4 st
  else for_range 0 4 (fun _ st1 => ext_pixel inter_pred w bs 1 st1) st

/-- The part of `decode_11th_gen_extension` after the flag count assertion. -/
def extension_body (s : State) (inter_pred : Nat) (subwindow_is_uniform : Nat → Nat) :
    Except Fault State := do
  let (w, s1) ← read_widths s inter_pred 22
  let (bs, s2) ← read_bases s1 inter_pred
  let st3 ← for_range 0 20 (fun i (st : (Nat → bitbuffer) × State) => do
    let (bb1, s0) ← read_bits_into_buffer (st.1 i) st.2 14
    pure (set1 st.1 i bb1, s0)) (fun _ => init_bitbuffer, s2)
  let st4 ← for_range 0 20 (fun i (st : (Nat → bitbuffer) × State) => do
    let (bb1, s0) ← read_bits_into_buffer (st.1 i) st.2 8
    pure (set1 st.1 i bb1, s0)) st3
  let s5 ← read_and_discard_zero_bits st4.2 19
  let st6 ← for_range 0 8 (ext_subwindow inter_pred w bs subwindow_is_uniform)
    { delta_bb := st4.1, delta_bb_idx := 0, s := s5 }
  pure st6.s

/-- The function `decode_11th_gen_extension`. -/
def decode_11th_gen_extension (s : State) (inter_pred extension_bits : Nat) :
    Except Fault State := do
  let subwindow_is_uniform ← extension_flags extension_bits
  extension_body s inter_pred subwindow_is_uniform

/-- The function `decode_11th_gen`. -/
def decode_11th_gen (s : State) (ccs : Int) : Except Fault State := do
  let (bits_per_pixel, first_cacheline_recovered, second_cacheline_recovered) ←
    mode_table ccs
  let (inter_pred, s1) ← read_bits s 1
  let (extension_bits, s2) ← read_bits s1 8
  if extension_bits ≠ 0 then
    if ¬ ccs = 6 then .error .extension_mode
    else decode_11th_gen_extension s2 inter_pred extension_bits
  else
    decode_11th_gen_plain s2 inter_pred bits_per_pixel first_cacheline_recovered
      second_cacheline_recovered

end Decode

/-! ## Specification-side definitions for the mode tables and for decode.c

Sample payloads, and the layout of the gen8 and gen11 payloads in terms of stream bit
positions, against which the embedded functions are proved. -/

namespace DecodeAmd

/-- The output state of the mode-0xcc decode of `flat_payload`: three cachelines. -/
def decoded_flat_cc : State :=
  value_or (decode_amd (start flat_payload) 0xcc) (start flat_payload)

/-- Globals on which no read and no write can succeed: the cursor and the pixel index
are both past the end. -/
def exhausted : State :=
  { inp := fun _ => 0, in_byte_idx := 64, in_bit_idx := 0, out := fun _ => 0, out_idx := 64 }

end DecodeAmd

namespace Decode

/-- A cursor three bits into a buffer whose only set bit is stream bit 20. -/
def zero_run_cursor : State := seek (DecodeAmd.start (DecodeAmd.bytes [0, 0, 0x10])) 3

end Decode

/-- The number of set bits among the low eight bits of `v`. -/
def flag_count (v : Nat) : Nat := ((List.range 8).map (fun k => v / 2 ^ k % 2)).sum

/-- The fault a computation stopped with, if it did. -/
def fault_of {α : Type} (x : Except Fault α) : Option Fault :=
  match x with
  | .ok _ => none
  | .error e => some e

/-- The empty buffer: 64 zero bytes. -/
def zero_payload : Nat → Nat := DecodeAmd.bytes []

namespace Decode

/-- The start of a payload whose `inter_pred` bit is 0 and whose extension byte is 0x0f:
four flags. -/
def four_flags : State := DecodeAmd.start (DecodeAmd.bytes [0x1e])

/-- The start of a payload whose `inter_pred` bit is 0 and whose extension byte is 0x03:
two flags. -/
def two_flags : State := DecodeAmd.start (DecodeAmd.bytes [0x06])


/-- The width of a gen8 delta as the 3-bit field gives it: none for a skipped channel,
the field plus one otherwise. -/
def gen8_spec_width (skip field : Nat) : Nat := if skip ≠ 0 then 0 else field + 1

/-- The header of a gen8 payload, in terms of the stream: four skip flags at bits 0..3,
four base bytes at bits 4..35, four 3-bit width fields at bits 36..47. -/
def gen8_spec_header (inp : Nat → Nat) : gen8_header :=
  { skip_r := stream_bit inp 0, skip_g := stream_bit inp 1,
    skip_b := stream_bit inp 2, skip_a := stream_bit inp 3,
    base_r := stream_val inp 4 8, base_g := stream_val inp 12 8,
    base_b := stream_val inp 20 8, base_a := stream_val inp 28 8,
    delta_r_bits := gen8_spec_width (stream_bit inp 0) (stream_val inp 36 3),
    delta_g_bits := gen8_spec_width (stream_bit inp 1) (stream_val inp 39 3),
    delta_b_bits := gen8_spec_width (stream_bit inp 2) (stream_val inp 42 3),
    delta_a_bits := gen8_spec_width (stream_bit inp 3) (stream_val inp 45 3),
    unused_bits := 14 - (gen8_spec_width (stream_bit inp 0) (stream_val inp 36 3)
      + gen8_spec_width (stream_bit inp 1) (stream_val inp 39 3)
      + gen8_spec_width (stream_bit inp 2) (stream_val inp 42 3)
      + gen8_spec_width (stream_bit inp 3) (stream_val inp 45 3)) }

/-- The conditions the assertions of the gen8 header put on the stream: a skipped channel
has a zero width field, and the four widths add up to at most 14. -/
@[reducible] def gen8_header_ok (inp : Nat → Nat) : Prop :=
  (stream_bit inp 0 ≠ 0 → stream_val inp 36 3 = 0) ∧
  (stream_bit inp 1 ≠ 0 → stream_val inp 39 3 = 0) ∧
  (stream_bit inp 2 ≠ 0 → stream_val inp 42 3 = 0) ∧
  (stream_bit inp 3 ≠ 0 → stream_val inp 45 3 = 0) ∧
  (gen8_spec_header inp).delta_r_bits + (gen8_spec_header inp).delta_g_bits
    + (gen8_spec_header inp).delta_b_bits + (gen8_spec_header inp).delta_a_bits ≤ 14

/-- The bits a gen8 pixel takes for its deltas. -/
def gen8_delta_bits (h : gen8_header) : Nat :=
  h.delta_r_bits + h.delta_g_bits + h.delta_b_bits + h.delta_a_bits

/-- One channel of a pixel: the base, plus the delta unless the channel is skipped. -/
def spec_channel (skip base delta : Nat) : Nat :=
  if skip = 0 then (base + delta) % 256 else base

/-- The gen8 pixel whose bits start at stream bit `q`: deltas in the order R, G, B, A. -/
def gen8_spec_pixel (h : gen8_header) (inp : Nat → Nat) (q : Nat) : Pixel :=
  (spec_channel h.skip_r h.base_r (stream_val inp q h.delta_r_bits),
   spec_channel h.skip_g h.base_g (stream_val inp (q + h.delta_r_bits) h.delta_g_bits),
   spec_channel h.skip_b h.base_b
     (stream_val inp (q + h.delta_r_bits + h.delta_g_bits) h.delta_b_bits),
   spec_channel h.skip_a h.base_a
     (stream_val inp (q + h.delta_r_bits + h.delta_g_bits + h.delta_b_bits) h.delta_a_bits))

/-- What the header assertions of `decode_8th_gen` guarantee to the pixel loop: a skipped
channel has width 0, no width exceeds 8, and deltas and unused bits make 14 bits. -/
def gen8_wf (h : gen8_header) : Prop :=
  (h.skip_r ≠ 0 → h.delta_r_bits = 0) ∧ (h.skip_g ≠ 0 → h.delta_g_bits = 0) ∧
  (h.skip_b ≠ 0 → h.delta_b_bits = 0) ∧ (h.skip_a ≠ 0 → h.delta_a_bits = 0) ∧
  h.delta_r_bits ≤ 8 ∧ h.delta_g_bits ≤ 8 ∧ h.delta_b_bits ≤ 8 ∧ h.delta_a_bits ≤ 8 ∧
  gen8_delta_bits h + h.unused_bits = 14

/-- The unused bits of gen8 pixel `j` are zero. -/
def gen8_pad_zero (h : gen8_header) (inp : Nat → Nat) (j : Nat) : Prop :=
  stream_val inp (48 + 14 * j + gen8_delta_bits h) h.unused_bits = 0

/-- The globals a successful `decode_8th_gen` started on `s` leaves: the cursor at the
end of the buffer, 32 pixels written, pixel `k` of the stream in slot `k`. -/
def gen8_result (s s1 : State) : Prop :=
  s1.inp = s.inp ∧ s1.in_byte_idx = 64 ∧ s1.in_bit_idx = 0 ∧ s1.out_idx = 32 ∧
  (∀ k, k < 32 → DecodeAmd.pixel_at s1.out k
    = gen8_spec_pixel (gen8_spec_header s.inp) s.inp (48 + 14 * k)) ∧
  ∀ i, 128 ≤ i → s1.out i = s.out i

/-- The initial globals on the flat gen8 payload: skip flags set, bases R=1, G=2, B=3,
A=4, every other bit zero. -/
def gen8_flat : State := DecodeAmd.start (DecodeAmd.bytes [0x1f, 0x20, 0x30, 0x40])

/-- The flat gen8 payload with the last bit of the buffer set. -/
def gen8_flat_dirty : State :=
  DecodeAmd.start (DecodeAmd.bytes ([0x1f, 0x20, 0x30, 0x40] ++ List.replicate 59 0 ++ [0x80]))

/-- The globals after the decode of the flat gen8 payload. -/
def gen8_flat_decoded : State := value_or (decode_8th_gen gen8_flat) gen8_flat

/-- The width of the red delta: the second 4-bit field under inter-channel prediction,
the first otherwise. -/
def spec_width_r (inp : Nat → Nat) (q ip : Nat) : Nat :=
  if ip ≠ 0 then stream_val inp (q + 4) 4 else stream_val inp q 4

/-- The width of the green delta: the third 4-bit field under inter-channel prediction,
the second otherwise. -/
def spec_width_g (inp : Nat → Nat) (q ip : Nat) : Nat :=
  if ip ≠ 0 then stream_val inp (q + 8) 4 else stream_val inp (q + 4) 4

/-- The width of the blue delta: the first 4-bit field under inter-channel prediction,
the third otherwise. -/
def spec_width_b (inp : Nat → Nat) (q ip : Nat) : Nat :=
  if ip ≠ 0 then stream_val inp q 4 else stream_val inp (q + 8) 4

/-- The sum of the three colour widths. -/
def spec_width_sum (inp : Nat → Nat) (q ip : Nat) : Nat :=
  spec_width_r inp q ip + spec_width_g inp q ip + spec_width_b inp q ip

/-- The conditions the assertions on the gen11 widths put on the stream. -/
@[reducible] def gen11_widths_ok (inp : Nat → Nat) (q ip budget : Nat) : Prop :=
  spec_width_r inp q ip ≤ 8 ∧ spec_width_g inp q ip ≤ 8 ∧ spec_width_b inp q ip ≤ 8 ∧
  spec_width_sum inp q ip ≤ budget

/-- The widths of a gen11 decode in terms of the stream: three 4-bit fields at bit `q`,
alpha gets what is left of the budget up to 8 bits, the rest is unused. -/
def gen11_spec_widths (inp : Nat → Nat) (q ip budget : Nat) : channel_widths :=
  { delta_r_bits := spec_width_r inp q ip,
    delta_g_bits := spec_width_g inp q ip,
    delta_b_bits := spec_width_b inp q ip,
    delta_a_bits := min (budget - spec_width_sum inp q ip) 8,
    unused_bits := budget - spec_width_sum inp q ip - min (budget - spec_width_sum inp q ip) 8 }

/-- The bases of a gen11 decode in terms of the stream: four bytes at bit `q`, in the
order B, R, G, A under inter-channel prediction and R, G, B, A otherwise. -/
def gen11_spec_bases (inp : Nat → Nat) (q ip : Nat) : channel_bases :=
  { base_r := if ip ≠ 0 then stream_val inp (q + 8) 8 else stream_val inp q 8,
    base_g := if ip ≠ 0 then stream_val inp (q + 16) 8 else stream_val inp (q + 8) 8,
    base_b := if ip ≠ 0 then stream_val inp q 8 else stream_val inp (q + 16) 8,
    base_a := stream_val inp (q + 24) 8 }

/-- The inter-channel predicted colour: `b = (base_b + Db) mod 256`,
`r = (base_r + b + Dr) mod 256`, `g = (base_g + floor((b + r) / 2) + Dg) mod 256`. -/
def predicted_rgb (bs : channel_bases) (Dr Dg Db : Nat) : Nat × Nat × Nat :=
  ((bs.base_r + (bs.base_b + Db) % 256 + Dr) % 256,
   (bs.base_g + ((bs.base_b + Db) % 256
      + (bs.base_r + (bs.base_b + Db) % 256 + Dr) % 256) / 2 + Dg) % 256,
   (bs.base_b + Db) % 256)

/-- The independent colour: each channel is `(base + D) mod 256`. -/
def independent_rgb (bs : channel_bases) (Dr Dg Db : Nat) : Nat × Nat × Nat :=
  ((bs.base_r + Dr) % 256, (bs.base_g + Dg) % 256, (bs.base_b + Db) % 256)

/-- The gen11 pixel whose bits start at stream bit `q`: unsigned deltas in the order
B, R, G, A under inter-channel prediction and R, G, B, A otherwise. -/
def gen11_spec_pixel (ip : Nat) (w : channel_widths) (bs : channel_bases)
    (inp : Nat → Nat) (q : Nat) : Pixel :=
  if ip ≠ 0 then
    ((predicted_rgb bs (stream_val inp (q + w.delta_b_bits) w.delta_r_bits)
        (stream_val inp (q + w.delta_b_bits + w.delta_r_bits) w.delta_g_bits)
        (stream_val inp q w.delta_b_bits)).1,
     (predicted_rgb bs (stream_val inp (q + w.delta_b_bits) w.delta_r_bits)
        (stream_val inp (q + w.delta_b_bits + w.delta_r_bits) w.delta_g_bits)
        (stream_val inp q w.delta_b_bits)).2.1,
     (predicted_rgb bs (stream_val inp (q + w.delta_b_bits) w.delta_r_bits)
        (stream_val inp (q + w.delta_b_bits + w.delta_r_bits) w.delta_g_bits)
        (stream_val inp q w.delta_b_bits)).2.2,
     (bs.base_a + stream_val inp (q + w.delta_b_bits + w.delta_r_bits + w.delta_g_bits)
        w.delta_a_bits) % 256)
  else
    ((independent_rgb bs (stream_val inp q w.delta_r_bits)
        (stream_val inp (q + w.delta_r_bits) w.delta_g_bits)
        (stream_val inp (q + w.delta_r_bits + w.delta_g_bits) w.delta_b_bits)).1,
     (independent_rgb bs (stream_val inp q w.delta_r_bits)
        (stream_val inp (q + w.delta_r_bits) w.delta_g_bits)
        (stream_val inp (q + w.delta_r_bits + w.delta_g_bits) w.delta_b_bits)).2.1,
     (independent_rgb bs (stream_val inp q w.delta_r_bits)
        (stream_val inp (q + w.delta_r_bits) w.delta_g_bits)
        (stream_val inp (q + w.delta_r_bits + w.delta_g_bits) w.delta_b_bits)).2.2,
     (bs.base_a + stream_val inp (q + w.delta_r_bits + w.delta_g_bits + w.delta_b_bits)
        w.delta_a_bits) % 256)

/-- The bits a gen11 pixel takes for its four deltas. -/
def gen11_delta_bits (w : channel_widths) : Nat :=
  w.delta_r_bits + w.delta_g_bits + w.delta_b_bits + w.delta_a_bits

/-- What the width assertions guarantee to the pixel loop: no width exceeds 8, and the
deltas and the unused bits make the budget. -/
def gen11_wf (w : channel_widths) (bpp : Nat) : Prop :=
  w.delta_r_bits ≤ 8 ∧ w.delta_g_bits ≤ 8 ∧ w.delta_b_bits ≤ 8 ∧ w.delta_a_bits ≤ 8 ∧
  gen11_delta_bits w + w.unused_bits = bpp

/-- Pixel `k` of the loop is recovered from the payload. -/
@[reducible] def gen11_recovered (first second k : Nat) : Prop :=
  ¬ (k < 16 ∧ first = 0) ∧ ¬ (k ≥ 16 ∧ second = 0)

/-- The number of recovered pixels before pixel `k`. -/
def gen11_recovered_before (first second k : Nat) : Nat :=
  (if first ≠ 0 then min k 16 else 0) + (if second ≠ 0 then k - 16 else 0)

/-- The stream bit at which the data of pixel `k` starts in a plain gen11 decode: the
53 header bits, then `bpp` bits for every recovered pixel before it. -/
def gen11_pixel_pos (bpp first second k : Nat) : Nat :=
  53 + bpp * gen11_recovered_before first second k

/-- The unused bits of pixel `k`, if it is recovered, are zero. -/
def gen11_pad_zero (w : channel_widths) (inp : Nat → Nat) (bpp first second k : Nat) : Prop :=
  gen11_recovered first second k →
    stream_val inp (gen11_pixel_pos bpp first second k + gen11_delta_bits w) w.unused_bits = 0

/-- Pixel `k` in decode order of a plain gen11 decode: the pixel of the stream if it is
recovered, zero otherwise. -/
def gen11_expected (ip : Nat) (w : channel_widths) (bs : channel_bases) (inp : Nat → Nat)
    (bpp first second k : Nat) : Pixel :=
  if gen11_recovered first second k then
    gen11_spec_pixel ip w bs inp (gen11_pixel_pos bpp first second k)
  else (0, 0, 0, 0)

/-- The globals a successful plain `decode_11th_gen` started on `s` leaves: the cursor
11 bits after the data of the last pixel, 32 pixels written, pixel `k` of the decode
order in slot `block_order k`. -/
def gen11_result (s : State) (bpp first second : Nat) (s1 : State) : Prop :=
  s1.inp = s.inp ∧ bit_pos s1 = gen11_pixel_pos bpp first second 32 + 11 ∧
  s1.in_bit_idx < 8 ∧ s1.out_idx = 32 ∧
  (∀ k, k < 32 → DecodeAmd.pixel_at s1.out (block_order k)
    = gen11_expected (stream_bit s.inp 0) (gen11_spec_widths s.inp 9 (stream_bit s.inp 0) bpp)
        (gen11_spec_bases s.inp 21 (stream_bit s.inp 0)) s.inp bpp first second k) ∧
  ∀ i, 128 ≤ i → s1.out i = s.out i

/-- The initial globals on a 12-bit-per-pixel payload with inter-channel prediction:
widths B=2, R=1, G=1 (alpha 8), bases B=10, R=20, G=30, A=40, and 16 pixels whose deltas
are `Db = k mod 4`, `Dr = k mod 2`, `Dg = (k div 2) mod 2`, `Da = k`. -/
def gen11_pred : State :=
  DecodeAmd.start (DecodeAmd.bytes
    [0x01, 0x24, 0x42, 0x81, 0xc2, 0x03, 0x05, 0x00, 0x2a, 0x40, 0x05, 0x7e, 0x00, 0x08, 0xaa,
     0x40, 0x0d, 0xfe, 0x00, 0x10, 0x2a, 0x41, 0x15, 0x7e, 0x01, 0x18, 0xaa, 0x41, 0x1d, 0xfe,
     0x01])

/-- The globals after the mode-8 decode of `gen11_pred`. -/
def gen11_pred_mode8 : State := value_or (decode_11th_gen gen11_pred 8) gen11_pred

/-- The globals after the mode-2 decode of `gen11_pred`. -/
def gen11_pred_mode2 : State := value_or (decode_11th_gen gen11_pred 2) gen11_pred

/-- The initial globals on a 14-bit-per-pixel payload without prediction: widths R=1,
G=1, B=1 (alpha 8, 3 unused bits), bases R=1, G=2, B=3, A=4, and 32 pixels whose deltas
are `Dr = k mod 2`, `Dg = (k div 2) mod 2`, `Db = (k div 4) mod 2`, `Da = k`. -/
def gen11_indep : State :=
  DecodeAmd.start (DecodeAmd.bytes
    [0x00, 0x22, 0x22, 0x40, 0x60, 0x80, 0x00, 0x00, 0x48, 0x00, 0x24, 0x80, 0x0d, 0x80, 0x04,
     0x68, 0x01, 0x6c, 0x80, 0x1f, 0x00, 0x08, 0x48, 0x02, 0xa4, 0x80, 0x2d, 0x80, 0x0c, 0x68,
     0x03, 0xec, 0x80, 0x3f, 0x00, 0x10, 0x48, 0x04, 0x24, 0x81, 0x4d, 0x80, 0x14, 0x68, 0x05,
     0x6c, 0x81, 0x5f, 0x00, 0x18, 0x48, 0x06, 0xa4, 0x81, 0x6d, 0x80, 0x1c, 0x68, 0x07, 0xec,
     0x81, 0x7f])

/-- The globals after the mode-6 decode of `gen11_indep`. -/
def gen11_indep_mode6 : State := value_or (decode_11th_gen gen11_indep 6) gen11_indep

/-- The initial globals on a gen8 payload whose red channel alone has a delta, of one
bit, set for pixel 2 only: bases zero, so pixel 2 is (1, 0, 0, 0) and every other pixel
is zero. -/
def gen8_single : State :=
  DecodeAmd.start (DecodeAmd.bytes [0x0e, 0x00, 0x00, 0x00, 0x00, 0x00, 0x00, 0x00, 0x00, 0x10])

/-- The globals after the decode of `gen8_single`. -/
def gen8_single_decoded : State := value_or (decode_8th_gen gen8_single) gen8_single

/-- The payload of `gen11_indep` with the first unused bit of pixel 0 (stream bit 64)
set. -/
def gen11_indep_dirty : State :=
  { gen11_indep with inp := fun i => if i = 8 then 0x49 else gen11_indep.inp i }

/-- The initial globals on a payload whose first width field is 9. -/
def gen11_wide : State := DecodeAmd.start (DecodeAmd.bytes [0x00, 0x12])

/-- The initial globals on a payload whose width fields are 4, 4, 0. -/
def gen11_over_budget : State := DecodeAmd.start (DecodeAmd.bytes [0x00, 0x88])

end Decode

/-! ## Specification-side definitions for the bit reader and the bit buffer -/

namespace DecodeAmd

/-- Successive calls `read_bits(n)` of decode-amd.c, one for every width of the list,
the values dropped: the cursors that reads can reach. -/
def read_run : List Nat → State → Except Fault State
  | [], s => .ok s
  | n :: ns, s =>
    match read_bits s n with
    | .error e => .error e
    | .ok (_, s1) => read_run ns s1

/-- The results of `n` successive calls `read_bits(1)` of decode-amd.c, in call order. -/
def read_singly : Nat → State → Except Fault (List Nat × State)
  | 0, s => .ok ([], s)
  | n + 1, s =>
    match read_bits s 1 with
    | .error e => .error e
    | .ok (b, s1) =>
      match read_singly n s1 with
      | .error e => .error e
      | .ok (bs, s2) => .ok (b :: bs, s2)

end DecodeAmd

namespace Decode

/-- Successive calls `read_bits(n)` of decode.c, one for every width of the list, the
values dropped: the cursors that reads can reach. -/
def read_run : List Nat → State → Except Fault State
  | [], s => .ok s
  | n :: ns, s =>
    match read_bits s n with
    | .error e => .error e
    | .ok (_, s1) => read_run ns s1

/-- The results of `n` successive calls `read_bits(1)` of decode.c, in call order. -/
def read_singly : Nat → State → Except Fault (List Nat × State)
  | 0, s => .ok ([], s)
  | n + 1, s =>
    match read_bits s 1 with
    | .error e => .error e
    | .ok (b, s1) =>
      match read_singly n s1 with
      | .error e => .error e
      | .ok (bs, s2) => .ok (b :: bs, s2)

end Decode

/-- The number whose bit `i` is entry `i` of the list: reassembly, least significant bit
first. -/
def lsb_first : List Nat → Nat
  | [] => 0
  | b :: bs => b + 2 * lsb_first bs

/-- The `n` stream bits from bit `q` on. -/
def stream_bits (inp : Nat → Nat) : Nat → Nat → List Nat
  | _, 0 => []
  | q, n + 1 => stream_bit inp q :: stream_bits inp (q + 1) n

/-- The cursor that 64 successful reads of decode.c, of 8 bits each, reach from the
start of the all-zero buffer. -/
def end_cursor : State :=
  value_or (Decode.read_run (List.replicate 64 8) (DecodeAmd.start zero_payload))
    (DecodeAmd.start zero_payload)

/-- The cursor that 63 reads of 8 bits and two of 4 bits of decode-amd.c reach from the
start of the all-zero buffer. -/
def end_cursor_amd : State :=
  value_or (DecodeAmd.read_run (List.replicate 63 8 ++ [4, 4]) (DecodeAmd.start zero_payload))
    (DecodeAmd.start zero_payload)

/-- The start of the buffer `A5 3C CF 01 00 ...`. -/
def mid_start : State := DecodeAmd.start (DecodeAmd.bytes [0xA5, 0x3C, 0xCF, 0x01])

/-- The cursor reached from `mid_start` by three reads of decode.c, of 8, 8 and 5 bits:
byte 2, bit 5. -/
def mid_cursor : State := value_or (Decode.read_run [8, 8, 5] mid_start) mid_start

namespace Decode

/-- Successive calls `read_buffered_bits(bb, k)`, one for every width of the list, with
the values they return. -/
def take_run : List Nat → bitbuffer → Except Fault (List Nat × bitbuffer)
  | [], bb => .ok ([], bb)
  | k :: ks, bb =>
    match read_buffered_bits bb k with
    | .error e => .error e
    | .ok (v, bb1) =>
      match take_run ks bb1 with
      | .error e => .error e
      | .ok (vs, bb2) => .ok (v :: vs, bb2)

/-- Successive calls `read_bits(k)` of decode.c, one for every width of the list, with
the values they return. -/
def read_values : List Nat → State → Except Fault (List Nat × State)
  | [], s => .ok ([], s)
  | k :: ks, s =>
    match read_bits s k with
    | .error e => .error e
    | .ok (v, s1) =>
      match read_values ks s1 with
      | .error e => .error e
      | .ok (vs, s2) => .ok (v :: vs, s2)

/-- A cursor on the last byte of a buffer whose last byte is `A5`. -/
def last_byte_cursor : State :=
  seek (DecodeAmd.start (DecodeAmd.bytes (List.replicate 63 0 ++ [0xA5]))) 504

/-- A cursor on bit 3 of the buffer `A5 3C CF 01 ...`. -/
def fill_cursor : State := seek mid_start 3

end Decode

/-- Consecutive windows of the stream from bit `q` on, of the widths of the list. -/
def stream_windows (inp : Nat → Nat) : Nat → List Nat → List Nat
  | _, [] => []
  | q, k :: ks => stream_val inp q k :: stream_windows inp (q + k) ks

/-- The initial globals on the all-zero payload. -/
def zero_start : State := DecodeAmd.start zero_payload

/-- The globals after `decode_8th_gen` on the all-zero payload. -/
def zero_gen8 : State := value_or (Decode.decode_8th_gen zero_start) zero_start

/-- The globals after `decode_11th_gen` on the all-zero payload. -/
def zero_gen11 (ccs : Int) : State := value_or (Decode.decode_11th_gen zero_start ccs) zero_start

/-- The table and the globals after the first header of `decode_amd` on the all-zero
payload, for `n` cachelines. -/
def zero_stage1 (n : Nat) : DecodeAmd.ChanInfo × State :=
  value_or (DecodeAmd.first_header n (fun _ _ => ⟨0, 0, 0, 0, 0, 0, 0, 0⟩, zero_start))
    (fun _ _ => ⟨0, 0, 0, 0, 0, 0, 0, 0⟩, zero_start)

/-! ## Specification-side definitions for the vendor-A header stages -/

namespace DecodeAmd

/-- Two table entries carry the same four stage-1 flags. -/
def same_flags (a b : color_channel_info) : Prop :=
  a.left_header_present = b.left_header_present ∧
  a.right_header_present = b.right_header_present ∧
  a.left_constant = b.left_constant ∧ a.right_constant = b.right_constant

/-- Stage 2, started from `st`, has come to channel `chan` of cacheline `cl` with the
table and globals `a`: the cachelines before `cl` and, in cacheline `cl`, the channels
before `chan` are done. -/
def stage2_reaches (st : ChanInfo × State) (cl chan : Nat) (a : ChanInfo × State) : Prop :=
  ∃ st0, loop (fun k st1 => for_range 0 NUM_CHANNELS (second_header_chan k) st1) 0 cl st
      = .ok st0 ∧
    loop (second_header_chan cl) 0 chan st0 = .ok a

/-- A payload that starts with the right header byte `58` of a channel with the
combination 0100, followed by an 8-byte half. -/
def table_0100_start : State :=
  start (bytes [0x58, 0xA5, 0x81, 0x02, 0x03, 0x04, 0x05, 0x06, 0x07, 0x0F])

/-- The reconstruction state in front of the half that follows the header byte of
`table_0100_start`. -/
def table_0100_recon : Recon :=
  { upper_pixels := fun _ _ => 0, lower_pixels := fun _ _ => 0, s := seek table_0100_start 8 }

/-- A channel with the combination 1000: left header, no right header, neither side
constant. -/
def chan_1000 : color_channel_info := ⟨1, 0, 0, 0, 0, 0, 0, 0⟩

/-- A payload that starts with the left header byte `58` of a channel with the
combination 1000, followed by its left half and its right half, 4 bytes each. -/
def payload_1000 : State :=
  start (bytes [0x58, 0xA5, 0x81, 0x42, 0x24, 0x5A, 0x0F, 0x33, 0x55])

/-- The reconstruction state in front of the left half of `payload_1000`. -/
def recon_1000 : Recon :=
  { upper_pixels := fun _ _ => 0, lower_pixels := fun _ _ => 0, s := seek payload_1000 8 }

/-- The result of the two halves of the channel of `payload_1000`, with the plan
`(0x50, 3)` on both sides. -/
def sides_1000 : Recon :=
  value_or (channel_sides (fun _ _ => ⟨1, 0, 0x50, 3, 0, 0, 0x50, 3⟩) 0 0 recon_1000) recon_1000

/-- A payload whose first four bytes are the stage-1 header of two cachelines, with the
combinations 1100, 0011, 1000, 0100 and 1111, 1111, 1100, 1100, followed by the twelve
header bytes of stage 2. -/
def layout_start : State :=
  start (bytes [0x93, 0x0C, 0xFF, 0x0F, 0x2A, 0x58, 0x10, 0x07, 0x08, 0x09, 0x0A, 0x0B,
    0x0C, 0x0E, 0x30, 0x50])

/-- The table and globals after stage 1 of `layout_start` with two cachelines. -/
def layout_stage1 : ChanInfo × State :=
  value_or (first_header 2 (fun _ _ => ⟨0, 0, 0, 0, 0, 0, 0, 0⟩, layout_start))
    (fun _ _ => ⟨0, 0, 0, 0, 0, 0, 0, 0⟩, layout_start)

end DecodeAmd

namespace Decode

/-- The skip flag of gen8 channel `c` (R = 0, G = 1, B = 2, A = 3): stream bit `c`. -/
def gen8_skip (inp : Nat → Nat) (c : Nat) : Nat := stream_bit inp c

/-- The base of gen8 channel `c`: the 8 bits from stream bit `4 + 8 c`. -/
def gen8_base (inp : Nat → Nat) (c : Nat) : Nat := stream_val inp (4 + 8 * c) 8

/-- The 3-bit width field of gen8 channel `c`: the 3 bits from stream bit `36 + 3 c`. -/
def gen8_field (inp : Nat → Nat) (c : Nat) : Nat := stream_val inp (36 + 3 * c) 3

/-- The delta width of gen8 channel `c`: 0 when skipped, the field plus one otherwise. -/
def gen8_chan_width (inp : Nat → Nat) (c : Nat) : Nat :=
  if gen8_skip inp c ≠ 0 then 0 else gen8_field inp c + 1

/-- The sum of the four delta widths. -/
def gen8_width_sum (inp : Nat → Nat) : Nat :=
  gen8_chan_width inp 0 + gen8_chan_width inp 1 + gen8_chan_width inp 2 + gen8_chan_width inp 3

/-- The offset of the delta of channel `c` in a pixel: the widths of the channels before. -/
def gen8_chan_offset (inp : Nat → Nat) : Nat → Nat
  | 0 => 0
  | 1 => gen8_chan_width inp 0
  | 2 => gen8_chan_width inp 0 + gen8_chan_width inp 1
  | _ => gen8_chan_width inp 0 + gen8_chan_width inp 1 + gen8_chan_width inp 2

/-- The value of channel `c` of gen8 pixel `j`: the base when the channel is skipped,
the base plus the unsigned delta of the channel's width, modulo 256, otherwise. -/
def gen8_chan_value (inp : Nat → Nat) (j c : Nat) : Nat :=
  if gen8_skip inp c ≠ 0 then gen8_base inp c
  else (gen8_base inp c
    + stream_val inp (48 + 14 * j + gen8_chan_offset inp c) (gen8_chan_width inp c)) % 256

/-- The initial globals on a gen8 payload with G and A skipped, bases R = 0x10, G = 0x20,
B = 0x30, A = 0xFF, width fields 2 for R and 4 for B (widths 3 and 5, so 6 unused bits
per pixel), and for pixel `k` the deltas `k mod 8` for R and `(3 k + 1) mod 32` for B. -/
def gen8_widths : State :=
  DecodeAmd.start (DecodeAmd.bytes [0x0a, 0x01, 0x02, 0xf3, 0x2f, 0x10, 0x08, 0x40, 0x08, 0xa0,
    0x03, 0x4c, 0x01, 0x6c, 0x40, 0x21, 0xe0, 0x09, 0xdc, 0x02, 0xc8, 0x40, 0x38, 0xa0, 0x0f,
    0x4c, 0x00, 0x2c, 0x40, 0x11, 0xe0, 0x05, 0xdc, 0x01, 0x88, 0x40, 0x28, 0xa0, 0x0b, 0x4c,
    0x03, 0xec, 0x40, 0x01, 0xe0, 0x01, 0xdc, 0x00, 0x48, 0x40, 0x18, 0xa0, 0x07, 0x4c, 0x02,
    0xac, 0x40, 0x31, 0xe0, 0x0d, 0xdc, 0x03])

/-- The globals after the decode of `gen8_widths`. -/
def gen8_widths_decoded : State := value_or (decode_8th_gen gen8_widths) gen8_widths

/-- The first delta buffer of sub-window `k` of the extension decode: each sub-window
before it takes one buffer when its flag is set and four when it is not. -/
def ext_base (flags : Nat → Nat) : Nat → Nat
  | 0 => 0
  | k + 1 => ext_base flags k + (if flags k ≠ 0 then 1 else 4)

/-- The delta buffer of pixel `j` (in decode order) of the extension decode: the first
buffer of its sub-window when that is uniform, the buffer of its place in the sub-window
otherwise. -/
def ext_buffer_index (flags : Nat → Nat) (j : Nat) : Nat :=
  ext_base flags (j / 4) + (if flags (j / 4) ≠ 0 then 0 else j % 4)

/-- Delta buffer `i` of the extension decode after the two fill loops, in terms of the
stream: the 14 bits from bit `53 + 14 i`, and above them the 8 bits from bit
`333 + 8 i`. -/
def ext_buffer (inp : Nat → Nat) (i : Nat) : bitbuffer :=
  if i < 20 then
    ⟨stream_val inp (53 + 14 * i) 14 + 2 ^ 14 * stream_val inp (333 + 8 * i) 8, 22⟩
  else init_bitbuffer

/-- The state of the sub-window loop of the extension decode after `n` delta buffers and
`o` pixels: the next buffer is `n`, the next pixel is `o`, the buffers from `n` on are
as they were filled, the buffers before `n` are empty, every pixel `j` before `o` is the
one drained from a full buffer `ext_buffer_index flags j`, which that left empty, and is
stored in slot `block_order j`; the input and the cursor are those of `s0`. -/
def ext_progress (ip : Nat) (w : channel_widths) (bs : channel_bases) (flags : Nat → Nat)
    (bufs : Nat → bitbuffer) (s0 : State) (n o : Nat) (st : ExtState) : Prop :=
  st.delta_bb_idx = n ∧ st.s.out_idx = o ∧
  (∀ i, n ≤ i → st.delta_bb i = bufs i) ∧
  (∀ i, i < n → (st.delta_bb i).bits_used = 0) ∧
  (∀ j, j < o → ∃ px bb,
    ext_reconstruct ip w bs (bufs (ext_buffer_index flags j)) = .ok (px, bb) ∧
    bb.bits_used = 0 ∧ DecodeAmd.pixel_at st.s.out (block_order j) = px) ∧
  st.s.inp = s0.inp ∧ st.s.in_byte_idx = s0.in_byte_idx ∧ st.s.in_bit_idx = s0.in_bit_idx

/-- The initial globals on an extension payload: `inter_pred` 0, extension byte 0x35
(sub-windows 0, 2, 4, 5 uniform), widths 4, 4, 4 (alpha 8, 2 unused bits), bases
R = 0x10, G = 0x20, B = 0x30, A = 0x40, and in delta buffer `i` the deltas `i mod 16`,
`(i + 1) mod 16`, `(i + 2) mod 16` and `100 + i`. -/
def ext_sample : State :=
  DecodeAmd.start (DecodeAmd.bytes [0x6a, 0x88, 0x08, 0x02, 0x04, 0x06, 0x08, 0x42, 0x08, 0x99,
    0x64, 0xc8, 0xa1, 0x9a, 0xca, 0x28, 0xbb, 0xec, 0xd0, 0xc3, 0x1c, 0x53, 0x49, 0xdd, 0x74,
    0xd9, 0xe5, 0x9e, 0xdb, 0x69, 0xff, 0xfc, 0xc1, 0x87, 0x18, 0x42, 0x08, 0x99, 0x64, 0xc8,
    0xa1, 0x3a, 0x23, 0x23, 0x23, 0x43, 0x43, 0x43, 0x43, 0x63, 0x63, 0x63, 0x63, 0x83, 0x83,
    0x83, 0x83, 0xa3, 0xa3, 0xa3, 0xa3, 0x03])

/-- The globals after the mode-6 decode of `ext_sample`. -/
def ext_sample_decoded : State := value_or (decode_11th_gen ext_sample 6) ext_sample

end Decode

/-! ## Definitions for the extension decode, the trailing bits and the vendor-A seeds -/

namespace Decode

/-- The unused bits of delta buffer `i` of the extension decode, the bits above the four
deltas, are zero. -/
@[reducible] def ext_pad_zero (w : channel_widths) (inp : Nat → Nat) (i : Nat) : Prop :=
  (ext_buffer inp i).buf / 2 ^ gen11_delta_bits w % 2 ^ w.unused_bits = 0

/-- The first fill loop of `decode_11th_gen_extension`, 14 bits per buffer, and the
second, 8 bits per buffer: the body for `n` bits. -/
def fill_step (n : Nat) (i : Nat) (st : (Nat → bitbuffer) × State) :
    Except Fault ((Nat → bitbuffer) × State) :=
  read_bits_into_buffer (st.1 i) st.2 n >>= fun r => pure (set1 st.1 i r.1, r.2)

/-- The pixel drained from a delta buffer holding `buf`, in terms of the fields of `buf`:
from the low end the deltas in the order B, R, G, A under inter-channel prediction and
R, G, B, A otherwise. -/
def ext_spec_pixel (ip : Nat) (w : channel_widths) (bs : channel_bases) (buf : Nat) : Pixel :=
  if ip ≠ 0 then
    ((predicted_rgb bs (buf / 2 ^ w.delta_b_bits % 2 ^ w.delta_r_bits)
        (buf / 2 ^ (w.delta_b_bits + w.delta_r_bits) % 2 ^ w.delta_g_bits)
        (buf % 2 ^ w.delta_b_bits)).1,
     (predicted_rgb bs (buf / 2 ^ w.delta_b_bits % 2 ^ w.delta_r_bits)
        (buf / 2 ^ (w.delta_b_bits + w.delta_r_bits) % 2 ^ w.delta_g_bits)
        (buf % 2 ^ w.delta_b_bits)).2.1,
     (predicted_rgb bs (buf / 2 ^ w.delta_b_bits % 2 ^ w.delta_r_bits)
        (buf / 2 ^ (w.delta_b_bits + w.delta_r_bits) % 2 ^ w.delta_g_bits)
        (buf % 2 ^ w.delta_b_bits)).2.2,
     (bs.base_a + buf / 2 ^ (w.delta_b_bits + w.delta_r_bits + w.delta_g_bits)
        % 2 ^ w.delta_a_bits) % 256)
  else
    ((independent_rgb bs (buf % 2 ^ w.delta_r_bits)
        (buf / 2 ^ w.delta_r_bits % 2 ^ w.delta_g_bits)
        (buf / 2 ^ (w.delta_r_bits + w.delta_g_bits) % 2 ^ w.delta_b_bits)).1,
     (independent_rgb bs (buf % 2 ^ w.delta_r_bits)
        (buf / 2 ^ w.delta_r_bits % 2 ^ w.delta_g_bits)
        (buf / 2 ^ (w.delta_r_bits + w.delta_g_bits) % 2 ^ w.delta_b_bits)).2.1,
     (independent_rgb bs (buf % 2 ^ w.delta_r_bits)
        (buf / 2 ^ w.delta_r_bits % 2 ^ w.delta_g_bits)
        (buf / 2 ^ (w.delta_r_bits + w.delta_g_bits) % 2 ^ w.delta_b_bits)).2.2,
     (bs.base_a + buf / 2 ^ (w.delta_r_bits + w.delta_g_bits + w.delta_b_bits)
        % 2 ^ w.delta_a_bits) % 256)

/-- The initial globals on the payload whose only set bit is the last one, stream bit
511. -/
def tail_dirty : State := DecodeAmd.start (fun i => if i = 63 then 0x80 else 0)

/-- The globals after `decode_11th_gen` on `tail_dirty`. -/
def tail_dirty_decoded (ccs : Int) : State := value_or (decode_11th_gen tail_dirty ccs) tail_dirty

end Decode

namespace DecodeAmd

/-- The value the second header stores in `left_base` or `right_base` for the header
byte `h` of a non-constant half: `h & ~(1 << num_trailing_zero_bits(h))`, in a `u8`. -/
def nonconst_base (h : Nat) : Nat := (h &&& bit_not32 (1 <<< num_trailing_zero_bits h)) % 256

/-- The value the second header stores in `left_bits` or `right_bits` for the header
byte `h` of a non-constant half: `num_trailing_zero_bits(h)`, in a `u8`. -/
def nonconst_bits (h : Nat) : Nat := num_trailing_zero_bits h % 256

/-- The `int` expression `base + (deltas[0] << 1) + signs[0]` of the first pixel of a
non-constant half with a header byte. -/
def seed_sum (base d0 s0 : Nat) : Nat := base + (d0 <<< 1) + s0

/-- The first pixel of a non-constant half with a header byte: `seed_sum` stored in a
`u8`. -/
def seed (base d0 s0 : Nat) : Nat := seed_sum base d0 s0 % 256

/-- The signed step a sign bit `s` and a magnitude `d` stand for, in the words of the
specification: `d` when the sign is clear, `-(d + 1)` when it is set. -/
def signed_step (s d : Nat) : Int := if s ≠ 0 then -((d : Int) + 1) else (d : Int)

/-- Sample sign bits: every sign set. -/
def signs_set : Nat → Nat := fun _ => 1

/-- Sample magnitudes: every magnitude 5. -/
def deltas_five : Nat → Nat := fun _ => 5

end DecodeAmd

/-! ## The bit stream -/

theorem stream_bit_lt_two (inp : Nat → Nat) (k : Nat) : stream_bit inp k < 2 := by
  unfold stream_bit
  exact Nat.mod_lt _ (by decide)

theorem stream_val_lt (inp : Nat → Nat) (n : Nat) : ∀ p, stream_val inp p n < 2 ^ n := by
  induction n with
  | zero => intro p; simp [stream_val]
  | succ n ih =>
    intro p
    have h1 := stream_bit_lt_two inp p
    have h2 := ih (p + 1)
    simp only [stream_val, pow_succ]
    omega

theorem stream_val_one (inp : Nat → Nat) (p : Nat) : stream_val inp p 1 = stream_bit inp p := by
  simp [stream_val]

theorem stream_val_add (inp : Nat → Nat) (m n : Nat) :
    ∀ p, stream_val inp p (m + n) = stream_val inp p m + 2 ^ m * stream_val inp (p + m) n := by
  induction m with
  | zero => intro p; simp [stream_val]
  | succ m ih =>
    intro p
    have h := ih (p + 1)
    have e : m + 1 + n = (m + n) + 1 := by omega
    rw [e]
    simp only [stream_val, h, pow_succ]
    have e2 : p + 1 + m = p + (m + 1) := by omega
    rw [e2]
    ring

theorem stream_val_bit (inp : Nat → Nat) (n : Nat) :
    ∀ p i, i < n → stream_val inp p n / 2 ^ i % 2 = stream_bit inp (p + i) := by
  induction n with
  | zero => intro p i h; omega
  | succ n ih =>
    intro p i h
    have hb := stream_bit_lt_two inp p
    cases i with
    | zero =>
      simp only [stream_val, pow_zero, Nat.div_one, Nat.add_zero]
      omega
    | succ i =>
      have h2 := ih (p + 1) i (by omega)
      have e : p + (i + 1) = p + 1 + i := by omega
      rw [e, ← h2]
      simp only [stream_val, pow_succ]
      have e3 : (stream_bit inp p + 2 * stream_val inp (p + 1) n) / (2 ^ i * 2)
          = stream_val inp (p + 1) n / 2 ^ i := by
        rw [Nat.mul_comm (2 ^ i) 2, ← Nat.div_div_eq_div_mul]
        congr 1
        omega
      rw [e3]

/-- Inside one byte the window is a shifted, masked byte. -/
theorem stream_val_within (inp : Nat → Nat) (b n : Nat) :
    ∀ k, k + n ≤ 8 → stream_val inp (8 * b + k) n = inp b / 2 ^ k % 2 ^ n := by
  induction n with
  | zero => intro k _; simp [stream_val, Nat.mod_one]
  | succ n ih =>
    intro k hk
    have h := ih (k + 1) (by omega)
    have e : 8 * b + k + 1 = 8 * b + (k + 1) := by omega
    have hb : stream_bit inp (8 * b + k) = inp b / 2 ^ k % 2 := by
      unfold stream_bit
      have e1 : (8 * b + k) / 8 = b := by omega
      have e2 : (8 * b + k) % 8 = k := by omega
      rw [e1, e2]
    simp only [stream_val]
    rw [e, h, hb, pow_succ 2 k, pow_succ' 2 n, Nat.mod_mul, Nat.div_div_eq_div_mul]


theorem seek_self (s : State) (h : s.in_bit_idx < 8) : seek s (bit_pos s) = s := by
  cases s with
  | mk inp b k out oi =>
    simp only [seek, bit_pos] at *
    have e1 : (8 * b + k) / 8 = b := by omega
    have e2 : (8 * b + k) % 8 = k := by omega
    rw [e1, e2]

theorem DecodeAmd.read_bits_eq (s : State) (n : Nat) (hwf : WF s) (hn : n ≤ 8)
    (hlt : bit_pos s < 512) (hroom : bit_pos s + n ≤ 512) :
    DecodeAmd.read_bits s n = .ok (stream_val s.inp (bit_pos s) n, seek s (bit_pos s + n)) := by
  obtain ⟨hin, hbit⟩ := hwf
  cases s with
  | mk inp b k out oi =>
    simp only [bit_pos] at *
    have hb : b < 64 := by omega
    have hB := hin b hb
    unfold DecodeAmd.read_bits
    simp only [not_le, not_lt, seek]
    rw [if_neg (by omega), if_neg (by omega)]
    rcases Nat.lt_trichotomy (k + n) 8 with h | h | h
    · rw [if_pos h]
      have hv := stream_val_within inp b n k (by omega)
      have hlt2 : inp b / 2 ^ k % 2 ^ n < 256 := by
        have : inp b / 2 ^ k ≤ inp b := Nat.div_le_self _ _
        have := Nat.mod_le (inp b / 2 ^ k) (2 ^ n)
        omega
      have e1 : (8 * b + k + n) / 8 = b := by omega
      have e2 : (8 * b + k + n) % 8 = k + n := by omega
      have e3 : (k + n) % 256 = k + n := by omega
      rw [hv, e1, e2, e3, Nat.shiftRight_eq_div_pow, Nat.one_shiftLeft,
        Nat.and_pow_two_sub_one_eq_mod, Nat.mod_eq_of_lt hlt2]
    · rw [if_neg (by omega), if_pos h]
      have hv := stream_val_within inp b n k (by omega)
      have hlt3 : inp b / 2 ^ k < 2 ^ n := by
        apply Nat.div_lt_of_lt_mul
        rw [← pow_add, h]
        exact hB
      have hlt2 : inp b / 2 ^ k < 256 := by
        have : inp b / 2 ^ k ≤ inp b := Nat.div_le_self _ _
        omega
      have e1 : (8 * b + k + n) / 8 = b + 1 := by omega
      have e2 : (8 * b + k + n) % 8 = 0 := by omega
      have e3 : (b + 1) % 256 = b + 1 := by omega
      rw [hv, e1, e2, e3, Nat.shiftRight_eq_div_pow, Nat.mod_eq_of_lt hlt2,
        Nat.mod_eq_of_lt hlt3]
    · rw [if_neg (by omega), if_neg (by omega)]
      have hb1 : b + 1 < 64 := by omega
      have e3 : (b + 1) % 256 = b + 1 := by omega
      have e4 : (256 + 8 - k) % 256 = 8 - k := by omega
      have e5 : (256 + n - (8 - k)) % 256 = n - (8 - k) := by omega
      have e6 : (0 + (n - (8 - k))) % 256 = n - (8 - k) := by omega
      simp only [e3, e4, e5, e6]
      rw [if_neg (by omega)]
      have e1 : (8 * b + k + n) / 8 = b + 1 := by omega
      have e2 : (8 * b + k + n) % 8 = n - (8 - k) := by omega
      have en : n = (8 - k) + (n - (8 - k)) := by omega
      have hv1 := stream_val_within inp b (8 - k) k (by omega)
      have hv2 := stream_val_within inp (b + 1) (n - (8 - k)) 0 (by omega)
      have hsplit := stream_val_add inp (8 - k) (n - (8 - k)) (8 * b + k)
      rw [← en] at hsplit
      have ep : 8 * b + k + (8 - k) = 8 * (b + 1) + 0 := by omega
      rw [ep, hv1, hv2] at hsplit
      have hlt3 : inp b / 2 ^ k < 2 ^ (8 - k) := by
        apply Nat.div_lt_of_lt_mul
        rw [← pow_add]
        have : k + (8 - k) = 8 := by omega
        rw [this]
        exact hB
      have hlt2 : inp b / 2 ^ k < 256 := by
        have : inp b / 2 ^ k ≤ inp b := Nat.div_le_self _ _
        omega
      have htot := stream_val_lt inp n (8 * b + k)
      have hpow : 2 ^ n ≤ 256 := by
        have : (2:Nat) ^ n ≤ 2 ^ 8 := Nat.pow_le_pow_right (by decide) hn
        simpa using this
      rw [e1, e2, hsplit, Nat.shiftRight_eq_div_pow, Nat.one_shiftLeft,
        Nat.and_pow_two_sub_one_eq_mod, Nat.shiftLeft_eq, Nat.mod_eq_of_lt hlt2]
      rw [hsplit] at htot
      simp only [pow_zero, Nat.div_one] at htot ⊢
      rw [Nat.mod_eq_of_lt hlt3] at htot ⊢
      rw [Nat.mul_comm (2 ^ (8 - k))] at htot ⊢
      rw [Nat.mod_eq_of_lt (by omega)]

theorem Decode.read_bits_eq_amd (s : State) (n : Nat) (h : s.in_bit_idx < 8) :
    Decode.read_bits s n = DecodeAmd.read_bits s n := by
  unfold Decode.read_bits DecodeAmd.read_bits
  by_cases h0 : n = 0
  · subst h0
    cases s with
    | mk inp b k out oi =>
      simp only at h
      have e : k % 256 = k := by omega
      simp [h, e]
  · simp only [h0, if_false]

theorem bit_pos_seek (s : State) (q : Nat) : bit_pos (seek s q) = q := by
  simp only [bit_pos, seek]
  omega

theorem seek_seek (s : State) (q r : Nat) : seek (seek s q) r = seek s r := rfl

theorem seek_inp (s : State) (q : Nat) : (seek s q).inp = s.inp := rfl

theorem WF_seek (s : State) (q : Nat) (h : WF s) : WF (seek s q) := by
  refine ⟨h.1, ?_⟩
  simp only [seek]
  omega

/-- Reading at position `q` of a well-formed input. -/
theorem DecodeAmd.read_bits_seek (s : State) (q n : Nat) (hwf : WF s) (hn : n ≤ 8)
    (hlt : q < 512) (hroom : q + n ≤ 512) :
    DecodeAmd.read_bits (seek s q) n = .ok (stream_val s.inp q n, seek s (q + n)) := by
  have h := DecodeAmd.read_bits_eq (seek s q) n (WF_seek s q hwf) hn
    (by rw [bit_pos_seek]; exact hlt) (by rw [bit_pos_seek]; exact hroom)
  rw [h, bit_pos_seek, seek_seek, seek_inp]

theorem loop_inv {σ : Type} (body : Nat → σ → Except Fault σ) (I : Nat → σ → Prop) :
    ∀ (n i : Nat) (st : σ), I i st →
      (∀ j st1, i ≤ j → j < i + n → I j st1 → ∃ st2, body j st1 = .ok st2 ∧ I (j + 1) st2) →
      ∃ st1, loop body i n st = .ok st1 ∧ I (i + n) st1 := by
  intro n
  induction n with
  | zero => intro i st h _; exact ⟨st, rfl, h⟩
  | succ n ih =>
    intro i st h hstep
    obtain ⟨st2, hb, hI⟩ := hstep i st (Nat.le_refl _) (by omega) h
    obtain ⟨st3, hl, hI3⟩ := ih (i + 1) st2 hI (fun j st1 h1 h2 h3 =>
      hstep j st1 (by omega) (by omega) h3)
    refine ⟨st3, ?_, ?_⟩
    · simp only [loop, hb]
      exact hl
    · have e : i + (n + 1) = i + 1 + n := by omega
      rw [e]
      exact hI3

theorem loop_ok_inv {σ : Type} (body : Nat → σ → Except Fault σ) (I : Nat → σ → Prop) :
    ∀ (n i : Nat) (st st1 : σ), loop body i n st = .ok st1 → I i st →
      (∀ j a b, i ≤ j → j < i + n → I j a → body j a = .ok b → I (j + 1) b) →
      I (i + n) st1 := by
  intro n
  induction n with
  | zero =>
    intro i st st1 h hI _
    simp only [loop, Except.ok.injEq] at h
    subst h
    exact hI
  | succ n ih =>
    intro i st st1 h hI hstep
    simp only [loop] at h
    cases hb : body i st with
    | error e => rw [hb] at h; cases h
    | ok st2 =>
      rw [hb] at h
      have e : i + (n + 1) = i + 1 + n := by omega
      rw [e]
      exact ih (i + 1) st2 st1 h (hstep i st st2 (Nat.le_refl _) (by omega) hI hb)
        (fun j a b h1 h2 h3 h4 => hstep j a b (by omega) (by omega) h3 h4)

theorem bind_ok_eq {α β : Type} (a : α) (f : α → Except Fault β) :
    (Except.ok a >>= f) = f a := rfl

theorem pure_eq_ok {α : Type} (a : α) : (pure a : Except Fault α) = Except.ok a := rfl

theorem bind_eq_ok {α β : Type} (x : Except Fault α) (f : α → Except Fault β) (b : β)
    (h : (x >>= f) = .ok b) : ∃ a, x = .ok a ∧ f a = .ok b := by
  cases x with
  | error e => cases h
  | ok a => exact ⟨a, rfl, h⟩

namespace DecodeAmd

theorem read_signs_spec (sg : Nat → Nat) (s : State) (q : Nat) (hwf : WF s)
    (hroom : q + 8 ≤ 512) :
    ∃ sg1, read_signs (sg, seek s q) = .ok (sg1, seek s (q + 8)) ∧
      ∀ k, k < 8 → sg1 k = stream_bit s.inp (q + k) := by
  have h := loop_inv (fun p (st1 : (Nat → Nat) × State) => do
      let (v, s1) ← read_bits st1.2 1
      pure (set1 st1.1 p v, s1))
    (fun j st => st.2 = seek s (q + j) ∧ ∀ k, k < j → st.1 k = stream_bit s.inp (q + k))
    8 0 (sg, seek s q) ⟨rfl, fun k hk => by omega⟩
    (by
      intro j st1 _ hj hI
      obtain ⟨sg0, s0⟩ := st1
      obtain ⟨h1, h2⟩ := hI
      simp only at h1 h2
      subst h1
      simp only [read_bits_seek s (q + j) 1 hwf (by omega) (by omega) (by omega),
        bind_ok_eq, pure_eq_ok, stream_val_one]
      refine ⟨_, rfl, rfl, ?_⟩
      intro k hk
      simp only [set1]
      by_cases e : k = j
      · subst e; simp
      · rw [if_neg e]; exact h2 k (by omega))
  obtain ⟨⟨sg1, s1⟩, h1, h2, h3⟩ := h
  simp only at h2 h3
  subst h2
  exact ⟨sg1, h1, h3⟩

end DecodeAmd

theorem magnitude_lt (inp : Nat → Nat) (q k : Nat) : ∀ w, magnitude inp q w k < 2 ^ w := by
  intro w
  induction w with
  | zero => simp [magnitude]
  | succ w ih =>
    have hb := stream_bit_lt_two inp (q + 8 * w + k)
    simp only [magnitude, pow_succ]
    have : 2 ^ w * stream_bit inp (q + 8 * w + k) ≤ 2 ^ w * 1 :=
      Nat.mul_le_mul_left _ (by omega)
    omega

theorem magnitude_eq_sum (inp : Nat → Nat) (q k : Nat) : ∀ w,
    magnitude inp q w k = ∑ b in Finset.range w, 2 ^ b * stream_bit inp (q + 8 * b + k) := by
  intro w
  induction w with
  | zero => simp [magnitude]
  | succ w ih => rw [Finset.sum_range_succ, ← ih]; rfl

theorem or_shift_plane (d bit b : Nat) (hd : d < 2 ^ b) (hbit : bit < 2) (hb : b ≤ 7) :
    (d ||| (bit <<< b)) % 256 = d + 2 ^ b * bit := by
  have h1 : bit <<< b = 2 ^ b * bit := by rw [Nat.shiftLeft_eq, Nat.mul_comm]
  have h2 := Nat.mul_add_lt_is_or hd bit
  rw [h1, Nat.lor_comm, ← h2]
  have hp : (2:Nat) ^ (b + 1) ≤ 2 ^ 8 := Nat.pow_le_pow_right (by decide) (by omega)
  have h3 : 2 ^ b * bit ≤ 2 ^ b * 1 := Nat.mul_le_mul_left _ (by omega)
  rw [pow_succ] at hp
  have h4 : 2 ^ b * bit + d < 256 := by omega
  rw [Nat.mod_eq_of_lt h4]
  omega

namespace DecodeAmd

theorem read_plane_spec (b : Nat) (d : Nat → Nat) (s : State) (q : Nat) (hwf : WF s)
    (hroom : q + 8 ≤ 512) :
    ∃ d1, read_plane b (d, seek s q) = .ok (d1, seek s (q + 8)) ∧
      ∀ k, k < 8 → d1 k = (d k ||| (stream_bit s.inp (q + k) <<< b)) % 256 := by
  have h := loop_inv (fun p (st1 : (Nat → Nat) × State) => do
      let (v, s1) ← read_bits st1.2 1
      pure (set1 st1.1 p ((st1.1 p ||| (v <<< b)) % 256), s1))
    (fun j st => st.2 = seek s (q + j) ∧
      (∀ k, k < j → st.1 k = (d k ||| (stream_bit s.inp (q + k) <<< b)) % 256) ∧
      (∀ k, j ≤ k → st.1 k = d k))
    8 0 (d, seek s q) ⟨rfl, fun k hk => by omega, fun k _ => rfl⟩
    (by
      intro j st1 _ hj hI
      obtain ⟨d0, s0⟩ := st1
      obtain ⟨h1, h2, h3⟩ := hI
      simp only at h1 h2 h3
      subst h1
      simp only [read_bits_seek s (q + j) 1 hwf (by omega) (by omega) (by omega),
        bind_ok_eq, pure_eq_ok, stream_val_one]
      refine ⟨_, rfl, rfl, ?_, ?_⟩
      · intro k hk
        simp only [set1]
        by_cases e : k = j
        · subst e; simp [h3 k (Nat.le_refl _)]
        · rw [if_neg e]; exact h2 k (by omega)
      · intro k hk
        simp only [set1]
        rw [if_neg (by omega)]
        exact h3 k (by omega))
  obtain ⟨⟨d1, s1⟩, h1, h2, h3, _⟩ := h
  simp only at h2 h3
  subst h2
  exact ⟨d1, h1, h3⟩

theorem planes_spec (w : Nat) (d : Nat → Nat) (s : State) (q : Nat) (hwf : WF s)
    (hw : w ≤ 8) (hroom : q + 8 * w ≤ 512) (hd : ∀ k, k < 8 → d k = 0) :
    ∃ d1, for_range 0 w read_plane (d, seek s q) = .ok (d1, seek s (q + 8 * w)) ∧
      ∀ k, k < 8 → d1 k = magnitude s.inp q w k := by
  have h := loop_inv read_plane
    (fun j st => st.2 = seek s (q + 8 * j) ∧ ∀ k, k < 8 → st.1 k = magnitude s.inp q j k)
    w 0 (d, seek s q) ⟨rfl, fun k hk => by simp [magnitude, hd k hk]⟩
    (by
      intro j st1 _ hj hI
      obtain ⟨d0, s0⟩ := st1
      obtain ⟨h1, h2⟩ := hI
      simp only at h1 h2
      subst h1
      obtain ⟨d1, e1, e2⟩ := read_plane_spec j d0 s (q + 8 * j) hwf (by omega)
      refine ⟨(d1, seek s (q + 8 * j + 8)), e1, ?_, ?_⟩
      · show seek s (q + 8 * j + 8) = seek s (q + 8 * (j + 1))
        congr 1
      · intro k hk
        show d1 k = magnitude s.inp q (j + 1) k
        rw [e2 k hk, h2 k hk, or_shift_plane _ _ j (magnitude_lt _ _ _ j)
          (stream_bit_lt_two _ _) (by omega)]
        rfl)
  obtain ⟨⟨d1, s1⟩, h1, h2, h3⟩ := h
  simp only [Nat.zero_add] at h2 h3
  subst h2
  exact ⟨d1, h1, h3⟩

theorem clear_deltas_spec (d : Nat → Nat) :
    ∃ d1, clear_deltas d = .ok d1 ∧ ∀ k, k < 8 → d1 k = 0 := by
  refine ⟨_, rfl, ?_⟩
  intro k hk
  interval_cases k <;> simp [set1]

/-- The opening of a non-constant half: eight sign bits, then `w` planes of eight bits. -/
theorem read_half_spec (w : Nat) (s : State) (q : Nat) (hwf : WF s) (hw : w ≤ 8)
    (hroom : q + 8 + 8 * w ≤ 512) :
    ∃ sg d, read_half w (seek s q) = .ok (sg, d, seek s (q + 8 + 8 * w)) ∧
      ∀ k, k < 8 → sg k = stream_bit s.inp (q + k) ∧ d k = magnitude s.inp (q + 8) w k := by
  obtain ⟨sg, h1, h2⟩ := read_signs_spec (fun _ => 0) s q hwf (by omega)
  obtain ⟨d0, h3, h4⟩ := clear_deltas_spec (fun _ => 0)
  obtain ⟨d1, h5, h6⟩ := planes_spec w d0 s (q + 8) hwf hw (by omega) h4
  refine ⟨sg, d1, ?_, fun k hk => ⟨h2 k hk, h6 k hk⟩⟩
  unfold read_half
  simp only [h1, h3, h5, bind_ok_eq, pure_eq_ok]

end DecodeAmd

theorem half_sign_lt (inp : Nat → Nat) (q k : Nat) : half_sign inp q k < 2 :=
  stream_bit_lt_two _ _

theorem half_delta_lt (inp : Nat → Nat) (q w k : Nat) : half_delta inp q w k < 2 ^ w :=
  magnitude_lt _ _ _ _

theorem set2_same {α : Type} (a : Nat → Nat → α) (i j : Nat) (v : α) :
    set2 a i j v i j = v := by
  simp [set2]

theorem set2_row {α : Type} {i i1 : Nat} (h : i1 ≠ i) (a : Nat → Nat → α) (j j1 : Nat)
    (v : α) : set2 a i j v i1 j1 = a i1 j1 := by
  simp [set2, h]

namespace DecodeAmd

theorem sm_eq (inp : Nat → Nat) (q w k : Nat) (sg d : Nat → Nat)
    (h1 : sg k = half_sign inp q k) (h2 : d k = half_delta inp q w k) :
    sm sg d k = half_sm inp q w k := by
  have hb := half_sign_lt inp q k
  unfold sm half_sm
  rw [h1, h2]
  by_cases e : half_sign inp q k = 1
  · rw [if_pos e, if_pos (by omega)]
  · rw [if_neg e, if_neg (by omega)]

/-- A constant left half: the eight pixels are the base, no bit is read. -/
theorem left_const_spec (c : color_channel_info) (chan : Nat) (r : Recon)
    (hc : c.left_constant ≠ 0) :
    ∃ r1, left_side c chan r = .ok r1 ∧ r1.s = r.s ∧
      (∀ p, p < 4 → r1.upper_pixels p chan = c.left_base ∧
        r1.lower_pixels p chan = c.left_base) ∧
      (∀ p ch, (4 ≤ p ∨ ch ≠ chan) → r1.upper_pixels p ch = r.upper_pixels p ch ∧
        r1.lower_pixels p ch = r.lower_pixels p ch) := by
  unfold left_side
  rw [if_pos hc]
  refine ⟨_, rfl, rfl, ?_, ?_⟩
  · intro p hp
    interval_cases p <;> simp [set2]
  · intro p ch h
    simp only [set2]
    constructor <;>
    · repeat rw [if_neg (by omega)]

/-- A non-constant left half: seed and staggered chain, after `8 + 8 w` payload bits. -/
theorem left_nonconst_spec (c : color_channel_info) (chan : Nat) (r : Recon)
    (hwf : WF r.s) (hc : c.left_constant = 0) (hw : c.left_bits ≤ 7)
    (hroom : bit_pos r.s + 8 + 8 * c.left_bits ≤ 512) :
    ∃ r1, left_side c chan r = .ok r1 ∧
      r1.s = seek r.s (bit_pos r.s + 8 + 8 * c.left_bits) ∧
      r1.upper_pixels 0 chan =
        (if c.left_header_present ≠ 0 then
          (c.left_base + 2 * half_delta r.s.inp (bit_pos r.s) c.left_bits 0
            + half_sign r.s.inp (bit_pos r.s) 0) % 256
         else half_sm r.s.inp (bit_pos r.s) c.left_bits 0) ∧
      r1.upper_pixels 1 chan
        = (r1.upper_pixels 0 chan + half_sm r.s.inp (bit_pos r.s) c.left_bits 1) % 256 ∧
      r1.lower_pixels 0 chan
        = (r1.upper_pixels 0 chan + half_sm r.s.inp (bit_pos r.s) c.left_bits 2) % 256 ∧
      r1.lower_pixels 1 chan
        = (r1.lower_pixels 0 chan + half_sm r.s.inp (bit_pos r.s) c.left_bits 3) % 256 ∧
      r1.upper_pixels 2 chan
        = (r1.upper_pixels 1 chan + half_sm r.s.inp (bit_pos r.s) c.left_bits 4) % 256 ∧
      r1.upper_pixels 3 chan
        = (r1.upper_pixels 2 chan + half_sm r.s.inp (bit_pos r.s) c.left_bits 5) % 256 ∧
      r1.lower_pixels 2 chan
        = (r1.upper_pixels 2 chan + half_sm r.s.inp (bit_pos r.s) c.left_bits 6) % 256 ∧
      r1.lower_pixels 3 chan
        = (r1.lower_pixels 2 chan + half_sm r.s.inp (bit_pos r.s) c.left_bits 7) % 256 ∧
      (∀ p ch, (4 ≤ p ∨ ch ≠ chan) → r1.upper_pixels p ch = r.upper_pixels p ch ∧
        r1.lower_pixels p ch = r.lower_pixels p ch) := by
  obtain ⟨sg, d, hh, hk⟩ := read_half_spec c.left_bits r.s (bit_pos r.s) hwf (by omega) hroom
  rw [seek_self r.s hwf.2] at hh
  have hsm : ∀ k, k < 8 → sm sg d k = half_sm r.s.inp (bit_pos r.s) c.left_bits k :=
    fun k hk1 => sm_eq _ _ _ _ _ _ (hk k hk1).1 (hk k hk1).2
  have hs0 : sg 0 = half_sign r.s.inp (bit_pos r.s) 0 := (hk 0 (by omega)).1
  have hd0 : d 0 = half_delta r.s.inp (bit_pos r.s) c.left_bits 0 := (hk 0 (by omega)).2
  have hseed0 : (if sg 0 ≠ 0 then 255 - d 0 else d 0) = sm sg d 0 := rfl
  have hlt := half_delta_lt r.s.inp (bit_pos r.s) c.left_bits 0
  have hpow : (2:Nat) ^ c.left_bits ≤ 2 ^ 7 := Nat.pow_le_pow_right (by decide) hw
  have hsmlt : half_sm r.s.inp (bit_pos r.s) c.left_bits 0 < 256 := by
    unfold half_sm
    split <;> omega
  unfold left_side
  rw [if_neg (by omega)]
  simp only [hh, bind_ok_eq, pure_eq_ok]
  refine ⟨_, rfl, rfl, ?_, ?_, ?_, ?_, ?_, ?_, ?_, ?_, ?_⟩
  · simp only [set2_same, set2_row (show (0:Nat) ≠ 1 by decide),
      set2_row (show (0:Nat) ≠ 2 by decide), set2_row (show (0:Nat) ≠ 3 by decide)]
    rw [hseed0, hsm 0 (by omega), Nat.mod_eq_of_lt hsmlt, hs0, hd0, Nat.shiftLeft_eq,
      pow_one, Nat.mul_comm]
  · simp [set2, hsm]
  · simp [set2, hsm]
  · simp [set2, hsm]
  · simp [set2, hsm]
  · simp [set2, hsm]
  · simp [set2, hsm]
  · simp [set2, hsm]
  · intro p ch h
    have e : ∀ (a : Pixels) (i v : Nat), i < 4 → set2 a i chan v p ch = a p ch := by
      intro a i v hi
      unfold set2
      rw [if_neg (by omega)]
    constructor <;> simp only [e _ _ _ (show (0:Nat) < 4 by decide),
      e _ _ _ (show (1:Nat) < 4 by decide), e _ _ _ (show (2:Nat) < 4 by decide),
      e _ _ _ (show (3:Nat) < 4 by decide)]

/-- A constant right half with its own header byte. -/
theorem right_const_hdr_spec (c : color_channel_info) (chan : Nat) (r : Recon)
    (hc : c.right_constant ≠ 0) (hp : c.right_header_present ≠ 0) :
    ∃ r1, right_side c chan r = .ok r1 ∧ r1.s = r.s ∧
      (∀ p, 4 ≤ p → p < 8 → r1.upper_pixels p chan = c.right_base ∧
        r1.lower_pixels p chan = c.right_base) ∧
      (∀ p ch, (p < 4 ∨ 8 ≤ p ∨ ch ≠ chan) → r1.upper_pixels p ch = r.upper_pixels p ch ∧
        r1.lower_pixels p ch = r.lower_pixels p ch) := by
  unfold right_side
  rw [if_pos hc, if_pos hp]
  refine ⟨_, rfl, rfl, ?_, ?_⟩
  · intro p h1 h2
    interval_cases p <;> simp [set2]
  · intro p ch h
    simp only [set2]
    constructor <;>
    · repeat rw [if_neg (by omega)]

/-- A constant right half without header byte: the left half's upper pixel 3. -/
theorem right_const_inherit_spec (c : color_channel_info) (chan : Nat) (r : Recon)
    (hc : c.right_constant ≠ 0) (hp : c.right_header_present = 0) :
    ∃ r1, right_side c chan r = .ok r1 ∧ r1.s = r.s ∧
      (∀ p, 4 ≤ p → p < 8 → r1.upper_pixels p chan = r.upper_pixels 3 chan ∧
        r1.lower_pixels p chan = r.upper_pixels 3 chan) ∧
      (∀ p ch, (p < 4 ∨ 8 ≤ p ∨ ch ≠ chan) → r1.upper_pixels p ch = r.upper_pixels p ch ∧
        r1.lower_pixels p ch = r.lower_pixels p ch) := by
  unfold right_side
  rw [if_pos hc, if_neg (by omega)]
  refine ⟨_, rfl, rfl, ?_, ?_⟩
  · intro p h1 h2
    interval_cases p <;> simp [set2]
  · intro p ch h
    simp only [set2]
    constructor <;>
    · repeat rw [if_neg (by omega)]

/-- A non-constant right half: seed and staggered chain, after `8 + 8 w` payload bits. -/
theorem right_nonconst_spec (c : color_channel_info) (chan : Nat) (r : Recon)
    (hwf : WF r.s) (hc : c.right_constant = 0) (hw : c.right_bits ≤ 7)
    (hroom : bit_pos r.s + 8 + 8 * c.right_bits ≤ 512) :
    ∃ r1, right_side c chan r = .ok r1 ∧
      r1.s = seek r.s (bit_pos r.s + 8 + 8 * c.right_bits) ∧
      r1.upper_pixels 4 chan =
        (if c.right_header_present ≠ 0 then
          (c.right_base + 2 * half_delta r.s.inp (bit_pos r.s) c.right_bits 0
            + half_sign r.s.inp (bit_pos r.s) 0) % 256
         else (r.upper_pixels 3 chan + half_sm r.s.inp (bit_pos r.s) c.right_bits 0) % 256) ∧
      r1.upper_pixels 5 chan
        = (r1.upper_pixels 4 chan + half_sm r.s.inp (bit_pos r.s) c.right_bits 1) % 256 ∧
      r1.lower_pixels 4 chan
        = (r1.upper_pixels 4 chan + half_sm r.s.inp (bit_pos r.s) c.right_bits 2) % 256 ∧
      r1.lower_pixels 5 chan
        = (r1.lower_pixels 4 chan + half_sm r.s.inp (bit_pos r.s) c.right_bits 3) % 256 ∧
      r1.upper_pixels 6 chan
        = (r1.upper_pixels 5 chan + half_sm r.s.inp (bit_pos r.s) c.right_bits 4) % 256 ∧
      r1.upper_pixels 7 chan
        = (r1.upper_pixels 6 chan + half_sm r.s.inp (bit_pos r.s) c.right_bits 5) % 256 ∧
      r1.lower_pixels 6 chan
        = (r1.upper_pixels 6 chan + half_sm r.s.inp (bit_pos r.s) c.right_bits 6) % 256 ∧
      r1.lower_pixels 7 chan
        = (r1.lower_pixels 6 chan + half_sm r.s.inp (bit_pos r.s) c.right_bits 7) % 256 ∧
      (∀ p ch, (p < 4 ∨ 8 ≤ p ∨ ch ≠ chan) → r1.upper_pixels p ch = r.upper_pixels p ch ∧
        r1.lower_pixels p ch = r.lower_pixels p ch) := by
  obtain ⟨sg, d, hh, hk⟩ := read_half_spec c.right_bits r.s (bit_pos r.s) hwf (by omega) hroom
  rw [seek_self r.s hwf.2] at hh
  have hsm : ∀ k, k < 8 → sm sg d k = half_sm r.s.inp (bit_pos r.s) c.right_bits k :=
    fun k hk1 => sm_eq _ _ _ _ _ _ (hk k hk1).1 (hk k hk1).2
  have hs0 : sg 0 = half_sign r.s.inp (bit_pos r.s) 0 := (hk 0 (by omega)).1
  have hd0 : d 0 = half_delta r.s.inp (bit_pos r.s) c.right_bits 0 := (hk 0 (by omega)).2
  have hseed0 : (if sg 0 ≠ 0 then 255 - d 0 else d 0) = sm sg d 0 := rfl
  unfold right_side
  rw [if_neg (by omega)]
  simp only [hh, bind_ok_eq, pure_eq_ok]
  refine ⟨_, rfl, rfl, ?_, ?_, ?_, ?_, ?_, ?_, ?_, ?_, ?_⟩
  · simp only [set2_same, set2_row (show (4:Nat) ≠ 5 by decide),
      set2_row (show (4:Nat) ≠ 6 by decide), set2_row (show (4:Nat) ≠ 7 by decide)]
    rw [hseed0, hsm 0 (by omega), hs0, hd0, Nat.shiftLeft_eq, pow_one, Nat.mul_comm]
  · simp [set2, hsm]
  · simp [set2, hsm]
  · simp [set2, hsm]
  · simp [set2, hsm]
  · simp [set2, hsm]
  · simp [set2, hsm]
  · simp [set2, hsm]
  · intro p ch h
    have e : ∀ (a : Pixels) (i v : Nat), 4 ≤ i → i < 8 → set2 a i chan v p ch = a p ch := by
      intro a i v h1 h2
      unfold set2
      rw [if_neg (by omega)]
    constructor <;> simp only [e _ _ _ (show (4:Nat) ≤ 4 by decide) (show (4:Nat) < 8 by decide),
      e _ _ _ (show (4:Nat) ≤ 5 by decide) (show (5:Nat) < 8 by decide),
      e _ _ _ (show (4:Nat) ≤ 6 by decide) (show (6:Nat) < 8 by decide),
      e _ _ _ (show (4:Nat) ≤ 7 by decide) (show (7:Nat) < 8 by decide)]


set_option maxRecDepth 100000 in
/-- The bit trick of the second header on every nonzero byte. -/
theorem ctz_byte : ∀ b, b < 256 → b ≠ 0 →
    num_trailing_zero_bits b ≤ 7 ∧
    2 ^ num_trailing_zero_bits b ∣ b ∧
    ¬ 2 ^ (num_trailing_zero_bits b + 1) ∣ b ∧
    (b &&& bit_not32 (1 <<< num_trailing_zero_bits b)) % 256 = b &&& (b - 1) ∧
    (b &&& (b - 1)) + 2 ^ num_trailing_zero_bits b = b := by
  decide


theorem stream_val_byte_lt (inp : Nat → Nat) (q : Nat) : stream_val inp q 8 < 256 :=
  stream_val_lt inp 8 q

theorem second_header_left_spec (cl chan : Nat) (ci : ChanInfo) (s : State) (q : Nat)
    (hwf : WF s) (hroom : (ci cl chan).left_header_present ≠ 0 → q + 8 ≤ 512) :
    ((ci cl chan).left_header_present ≠ 0 ∧ (ci cl chan).left_constant = 0 ∧
        stream_val s.inp q 8 = 0 →
      second_header_left cl chan (ci, seek s q) = .error .zero_header_byte) ∧
    (¬ ((ci cl chan).left_header_present ≠ 0 ∧ (ci cl chan).left_constant = 0 ∧
        stream_val s.inp q 8 = 0) →
      ∃ base bits, second_header_left cl chan (ci, seek s q) =
          .ok (set2 ci cl chan { ci cl chan with left_base := base, left_bits := bits },
               seek s (if (ci cl chan).left_header_present ≠ 0 then q + 8 else q)) ∧
        stage2_side_plan (ci cl chan).left_header_present (ci cl chan).left_constant
          (stream_val s.inp q 8) 0 7 base bits) := by
  have hlt := stream_val_byte_lt s.inp q
  by_cases hp : (ci cl chan).left_header_present ≠ 0
  · have hr := read_bits_seek s q 8 hwf (by omega) (by have := hroom hp; omega) (hroom hp)
    by_cases hc : (ci cl chan).left_constant ≠ 0
    · refine ⟨fun h => absurd h.2.1 hc, fun _ => ⟨stream_val s.inp q 8, 0, ?_, ?_⟩⟩
      · unfold second_header_left
        simp only [if_pos hp, if_pos hc, hr, bind_ok_eq, pure_eq_ok]
      · exact ⟨fun _ _ => ⟨rfl, rfl⟩, fun _ h => absurd h hc, fun h => absurd h hp,
          fun h => absurd h hp⟩
    · have hc0 : (ci cl chan).left_constant = 0 := by omega
      by_cases hz : stream_val s.inp q 8 = 0
      · refine ⟨fun _ => ?_, fun h => absurd ⟨hp, hc0, hz⟩ h⟩
        unfold second_header_left
        have hz1 : ¬ (0 : Nat) ≠ stream_val s.inp q 8 := fun h => h hz.symm
        simp only [if_pos hp, if_neg hc, hr, bind_ok_eq, pure_eq_ok, if_pos hz1]
      · obtain ⟨f1, f2, f3, f4, f5⟩ := ctz_byte _ hlt hz
        refine ⟨fun h => absurd h.2.2 hz, fun _ =>
          ⟨stream_val s.inp q 8 &&& (stream_val s.inp q 8 - 1),
            num_trailing_zero_bits (stream_val s.inp q 8), ?_, ?_⟩⟩
        · unfold second_header_left
          have e : num_trailing_zero_bits (stream_val s.inp q 8) % 256
              = num_trailing_zero_bits (stream_val s.inp q 8) := by omega
          have hz1 : (0 : Nat) ≠ stream_val s.inp q 8 := fun h => hz h.symm
          have hz2 : ¬ ¬ (0 : Nat) ≠ stream_val s.inp q 8 := fun h => h hz1
          simp only [if_pos hp, if_neg hc, hr, bind_ok_eq, pure_eq_ok, if_neg hz2, f4, e]
        · exact ⟨fun _ h => absurd hc0 h, fun _ _ => ⟨f1, f2, f3, rfl, f5⟩,
            fun h => absurd h hp, fun h => absurd h hp⟩
  · have hp0 : (ci cl chan).left_header_present = 0 := by omega
    by_cases hc : (ci cl chan).left_constant ≠ 0
    · refine ⟨fun h => absurd h.1 hp, fun _ => ⟨0, 0, ?_, ?_⟩⟩
      · unfold second_header_left
        simp only [if_neg hp, if_pos hc, pure_eq_ok]
      · exact ⟨fun h => absurd h hp, fun h => absurd h hp, fun _ _ => ⟨rfl, rfl⟩,
          fun _ h => absurd h hc⟩
    · refine ⟨fun h => absurd h.1 hp, fun _ => ⟨0, 7, ?_, ?_⟩⟩
      · unfold second_header_left
        simp only [if_neg hp, if_neg hc, pure_eq_ok]
      · exact ⟨fun h => absurd h hp, fun h => absurd h hp, fun _ h => absurd h hc,
          fun _ _ => ⟨rfl, rfl⟩⟩

theorem second_header_right_spec (cl chan : Nat) (ci : ChanInfo) (s : State) (q : Nat)
    (hwf : WF s) (hroom : (ci cl chan).right_header_present ≠ 0 → q + 8 ≤ 512) :
    ((ci cl chan).right_header_present ≠ 0 ∧ (ci cl chan).right_constant = 0 ∧
        stream_val s.inp q 8 = 0 →
      second_header_right cl chan (ci, seek s q) = .error .zero_header_byte) ∧
    (¬ ((ci cl chan).right_header_present ≠ 0 ∧ (ci cl chan).right_constant = 0 ∧
        stream_val s.inp q 8 = 0) →
      ∃ base bits, second_header_right cl chan (ci, seek s q) =
          .ok (set2 ci cl chan { ci cl chan with right_base := base, right_bits := bits },
               seek s (if (ci cl chan).right_header_present ≠ 0 then q + 8 else q)) ∧
        stage2_side_plan (ci cl chan).right_header_present (ci cl chan).right_constant
          (stream_val s.inp q 8) (ci cl chan).left_base (ci cl chan).left_bits base bits) := by
  have hlt := stream_val_byte_lt s.inp q
  by_cases hp : (ci cl chan).right_header_present ≠ 0
  · have hr := read_bits_seek s q 8 hwf (by omega) (by have := hroom hp; omega) (hroom hp)
    by_cases hc : (ci cl chan).right_constant ≠ 0
    · refine ⟨fun h => absurd h.2.1 hc, fun _ => ⟨stream_val s.inp q 8, 0, ?_, ?_⟩⟩
      · unfold second_header_right
        simp only [if_pos hp, if_pos hc, hr, bind_ok_eq, pure_eq_ok]
      · exact ⟨fun _ _ => ⟨rfl, rfl⟩, fun _ h => absurd h hc, fun h => absurd h hp,
          fun h => absurd h hp⟩
    · have hc0 : (ci cl chan).right_constant = 0 := by omega
      by_cases hz : stream_val s.inp q 8 = 0
      · refine ⟨fun _ => ?_, fun h => absurd ⟨hp, hc0, hz⟩ h⟩
        unfold second_header_right
        have hz1 : ¬ (0 : Nat) ≠ stream_val s.inp q 8 := fun h => h hz.symm
        simp only [if_pos hp, if_neg hc, hr, bind_ok_eq, pure_eq_ok, if_pos hz1]
      · obtain ⟨f1, f2, f3, f4, f5⟩ := ctz_byte _ hlt hz
        refine ⟨fun h => absurd h.2.2 hz, fun _ =>
          ⟨stream_val s.inp q 8 &&& (stream_val s.inp q 8 - 1),
            num_trailing_zero_bits (stream_val s.inp q 8), ?_, ?_⟩⟩
        · unfold second_header_right
          have e : num_trailing_zero_bits (stream_val s.inp q 8) % 256
              = num_trailing_zero_bits (stream_val s.inp q 8) := by omega
          have hz1 : (0 : Nat) ≠ stream_val s.inp q 8 := fun h => hz h.symm
          have hz2 : ¬ ¬ (0 : Nat) ≠ stream_val s.inp q 8 := fun h => h hz1
          simp only [if_pos hp, if_neg hc, hr, bind_ok_eq, pure_eq_ok, if_neg hz2, f4, e]
        · exact ⟨fun _ h => absurd hc0 h, fun _ _ => ⟨f1, f2, f3, rfl, f5⟩,
            fun h => absurd h hp, fun h => absurd h hp⟩
  · have hp0 : (ci cl chan).right_header_present = 0 := by omega
    by_cases hc : (ci cl chan).right_constant ≠ 0
    · refine ⟨fun h => absurd h.1 hp, fun _ => ⟨0, 0, ?_, ?_⟩⟩
      · unfold second_header_right
        simp only [if_neg hp, if_pos hc, pure_eq_ok]
      · exact ⟨fun h => absurd h hp, fun h => absurd h hp, fun _ _ => ⟨rfl, rfl⟩,
          fun _ h => absurd h hc⟩
    · refine ⟨fun h => absurd h.1 hp, fun _ =>
        ⟨(ci cl chan).left_base, (ci cl chan).left_bits, ?_, ?_⟩⟩
      · unfold second_header_right
        simp only [if_neg hp, if_neg hc, pure_eq_ok]
      · exact ⟨fun h => absurd h hp, fun h => absurd h hp, fun _ h => absurd h hc,
          fun _ _ => ⟨rfl, rfl⟩⟩

end DecodeAmd

theorem loop_unit_ok (f : Nat → Except Fault Unit) : ∀ (n lo : Nat),
    loop (fun i _ => f i) lo n () = .ok () ↔ ∀ i, lo ≤ i → i < lo + n → f i = .ok () := by
  intro n
  induction n with
  | zero => intro lo; simp [loop]; intro i h1 h2; omega
  | succ n ih =>
    intro lo
    simp only [loop]
    cases hf : f lo with
    | error e =>
      constructor
      · intro h; cases h
      · intro h
        have := h lo (Nat.le_refl _) (by omega)
        rw [hf] at this
        cases this
    | ok u =>
      cases u
      simp only
      rw [ih (lo + 1)]
      constructor
      · intro h i h1 h2
        by_cases e : i = lo
        · subst e; exact hf
        · exact h i (by omega) (by omega)
      · intro h i h1 h2
        exact h i (by omega) (by omega)

namespace DecodeAmd

theorem check_channel_iff (c : color_channel_info) :
    check_channel c = .ok () ↔ header_pattern c ∈ checked_patterns := by
  unfold check_channel header_pattern flag_digit checked_patterns
  by_cases h1 : c.left_header_present = 0 <;> by_cases h2 : c.right_header_present = 0 <;>
    by_cases h3 : c.left_constant = 0 <;> by_cases h4 : c.right_constant = 0 <;>
    simp [h1, h2, h3, h4]

theorem check_channel_error (c : color_channel_info) (h : check_channel c ≠ .ok ()) :
    check_channel c = .error .header_pattern := by
  unfold check_channel at h ⊢
  split_ifs at h ⊢ <;> first | rfl | exact absurd rfl h

end DecodeAmd

theorem read_bits_lt_256 (s s1 : State) (n v : Nat)
    (h : DecodeAmd.read_bits s n = .ok (v, s1)) : v < 256 := by
  unfold DecodeAmd.read_bits at h
  dsimp only at h
  split_ifs at h <;> cases h <;> exact Nat.mod_lt _ (by decide)

theorem loop_unit_error (f : Nat → Except Fault Unit) (e0 : Fault)
    (hf : ∀ i, f i ≠ .ok () → f i = .error e0) : ∀ (n lo : Nat),
    loop (fun i _ => f i) lo n () ≠ .ok () → loop (fun i _ => f i) lo n () = .error e0 := by
  intro n
  induction n with
  | zero => intro lo h; exact absurd rfl h
  | succ n ih =>
    intro lo h
    simp only [loop] at h ⊢
    cases hfl : f lo with
    | ok u =>
      cases u
      rw [hfl] at h
      exact ih (lo + 1) h
    | error e =>
      have := hf lo (by rw [hfl]; intro h2; cases h2)
      rw [hfl] at this
      exact this

/-- C1. For every 64-byte buffer, every cursor with `in_byte_idx < 64` and
`in_bit_idx < 8`, and every `n ≤ 8` with `8 * in_byte_idx + in_bit_idx + n ≤ 512`,
`read_bits(n)` of decode-amd.c and of decode.c both succeed and return the integer whose
bit `i < n` is stream bit `pos + i`; the value is below `2 ^ n` (so `0` for `n = 0`), the
cursor position grows by exactly `n`, and nothing else changes. -/
theorem read_bits_value_and_advance (s : State) (n : Nat)
    (hbytes : ∀ i, i < 64 → s.inp i < 256) (hbyte : s.in_byte_idx < 64)
    (hbit : s.in_bit_idx < 8) (hn : n ≤ 8)
    (hroom : 8 * s.in_byte_idx + s.in_bit_idx + n ≤ 512) :
    (∃ v s1, DecodeAmd.read_bits s n = .ok (v, s1) ∧
      (∀ i, i < n → v / 2 ^ i % 2 = stream_bit s.inp (8 * s.in_byte_idx + s.in_bit_idx + i)) ∧
      v < 2 ^ n ∧ (n = 0 → v = 0) ∧
      8 * s1.in_byte_idx + s1.in_bit_idx = 8 * s.in_byte_idx + s.in_bit_idx + n ∧
      s1.in_bit_idx < 8 ∧ s1.inp = s.inp ∧ s1.out = s.out ∧ s1.out_idx = s.out_idx) ∧
    (∃ v s1, Decode.read_bits s n = .ok (v, s1) ∧
      (∀ i, i < n → v / 2 ^ i % 2 = stream_bit s.inp (8 * s.in_byte_idx + s.in_bit_idx + i)) ∧
      v < 2 ^ n ∧ (n = 0 → v = 0) ∧
      8 * s1.in_byte_idx + s1.in_bit_idx = 8 * s.in_byte_idx + s.in_bit_idx + n ∧
      s1.in_bit_idx < 8 ∧ s1.inp = s.inp ∧ s1.out = s.out ∧ s1.out_idx = s.out_idx) := by
  have hwf : WF s := ⟨hbytes, hbit⟩
  have hpos : bit_pos s < 512 := by unfold bit_pos; omega
  have h := DecodeAmd.read_bits_eq s n hwf hn hpos hroom
  have hv := stream_val_lt s.inp n (bit_pos s)
  have key : ∃ v s1, DecodeAmd.read_bits s n = .ok (v, s1) ∧
      (∀ i, i < n → v / 2 ^ i % 2 = stream_bit s.inp (8 * s.in_byte_idx + s.in_bit_idx + i)) ∧
      v < 2 ^ n ∧ (n = 0 → v = 0) ∧
      8 * s1.in_byte_idx + s1.in_bit_idx = 8 * s.in_byte_idx + s.in_bit_idx + n ∧
      s1.in_bit_idx < 8 ∧ s1.inp = s.inp ∧ s1.out = s.out ∧ s1.out_idx = s.out_idx := by
    refine ⟨_, _, h, fun i hi => stream_val_bit s.inp n (bit_pos s) i hi, hv, ?_,
      bit_pos_seek s _, ?_, rfl, rfl, rfl⟩
    · intro h0
      subst h0
      rfl
    · exact Nat.mod_lt _ (by decide)
  refine ⟨key, ?_⟩
  rw [Decode.read_bits_eq_amd s n hbit]
  exact key

/-- C1, at a cursor five bits into byte 0 of the buffer `A5 3C 00 ...`, reading seven
bits across the byte boundary. -/
theorem read_bits_value_and_advance_witness :
    ((∀ i, i < 64 → DecodeAmd.sample_cursor.inp i < 256) ∧
      DecodeAmd.sample_cursor.in_byte_idx < 64 ∧ DecodeAmd.sample_cursor.in_bit_idx < 8 ∧
      7 ≤ 8 ∧
      8 * DecodeAmd.sample_cursor.in_byte_idx + DecodeAmd.sample_cursor.in_bit_idx + 7 ≤ 512) ∧
    ((DecodeAmd.read_bits DecodeAmd.sample_cursor 7).toOption.map (fun r => r.1) = some 101 ∧
     (Decode.read_bits DecodeAmd.sample_cursor 7).toOption.map (fun r => r.1) = some 101) ∧
    ((∃ v s1, DecodeAmd.read_bits DecodeAmd.sample_cursor 7 = .ok (v, s1) ∧
      (∀ i, i < 7 → v / 2 ^ i % 2 = stream_bit DecodeAmd.sample_cursor.inp
        (8 * DecodeAmd.sample_cursor.in_byte_idx + DecodeAmd.sample_cursor.in_bit_idx + i)) ∧
      v < 2 ^ 7 ∧ ((7:Nat) = 0 → v = 0) ∧
      8 * s1.in_byte_idx + s1.in_bit_idx
        = 8 * DecodeAmd.sample_cursor.in_byte_idx + DecodeAmd.sample_cursor.in_bit_idx + 7 ∧
      s1.in_bit_idx < 8 ∧ s1.inp = DecodeAmd.sample_cursor.inp ∧
      s1.out = DecodeAmd.sample_cursor.out ∧ s1.out_idx = DecodeAmd.sample_cursor.out_idx) ∧
    (∃ v s1, Decode.read_bits DecodeAmd.sample_cursor 7 = .ok (v, s1) ∧
      (∀ i, i < 7 → v / 2 ^ i % 2 = stream_bit DecodeAmd.sample_cursor.inp
        (8 * DecodeAmd.sample_cursor.in_byte_idx + DecodeAmd.sample_cursor.in_bit_idx + i)) ∧
      v < 2 ^ 7 ∧ ((7:Nat) = 0 → v = 0) ∧
      8 * s1.in_byte_idx + s1.in_bit_idx
        = 8 * DecodeAmd.sample_cursor.in_byte_idx + DecodeAmd.sample_cursor.in_bit_idx + 7 ∧
      s1.in_bit_idx < 8 ∧ s1.inp = DecodeAmd.sample_cursor.inp ∧
      s1.out = DecodeAmd.sample_cursor.out ∧ s1.out_idx = DecodeAmd.sample_cursor.out_idx)) :=
  ⟨⟨by decide, by decide, by decide, by decide, by decide⟩, ⟨by decide, by decide⟩,
    read_bits_value_and_advance DecodeAmd.sample_cursor 7 (by decide) (by decide) (by decide)
      (by decide) (by decide)⟩

namespace DecodeAmd

/-- C2, as stated, fails on the combination 0100: the check accepts it although it is not
one of the ten combinations of the truth table, and a payload whose channel G of
cacheline 0 carries 0100 (stream bits 0, 1, 8, 9 are 0, 1, 0, 0) decodes to the end. -/
theorem header_0100_is_accepted :
    check_channel chan_0100 = .ok () ∧ consistency_check 1 (fun _ _ => chan_0100) = .ok () ∧
    header_pattern chan_0100 = 100 ∧ header_pattern chan_0100 ∉ table_patterns ∧
    (stream_bit payload_0100 0, stream_bit payload_0100 1, stream_bit payload_0100 8,
      stream_bit payload_0100 9) = (0, 1, 0, 0) ∧
    (decode_amd (start payload_0100) 0x28).toBool = true := by
  refine ⟨rfl, rfl, by decide, by decide, by decide, by decide⟩

/-- C2, amended. The stage-1 consistency check over `n` recovered cachelines succeeds if
and only if every channel of every one of them carries one of the eleven combinations
0001, 0011, 0100, 0101, 1000, 1001, 1011, 1100, 1101, 1110, 1111 (the ten of the truth
table and the conjectured 0100); otherwise, that is as soon as a channel carries one of
0000, 0010, 0110, 0111, 1010, it fails with the header-pattern fault. -/
theorem consistency_check_accepts_eleven (n : Nat) (ci : ChanInfo) :
    (consistency_check n ci = .ok () ↔
      ∀ cl, cl < n → ∀ chan, chan < 4 → header_pattern (ci cl chan) ∈
        [1, 11, 100, 101, 1000, 1001, 1011, 1100, 1101, 1110, 1111]) ∧
    (consistency_check n ci ≠ .ok () → consistency_check n ci = .error .header_pattern) ∧
    (∀ c : color_channel_info, check_channel c ≠ .ok () ↔
      header_pattern c ∈ [0, 10, 110, 111, 1010]) := by
  have hinner : ∀ cl, for_range 0 NUM_CHANNELS (fun chan _ => check_channel (ci cl chan)) ()
      = .ok () ↔ ∀ chan, chan < 4 → check_channel (ci cl chan) = .ok () := by
    intro cl
    unfold for_range
    rw [loop_unit_ok (fun chan => check_channel (ci cl chan)) (NUM_CHANNELS - 0) 0]
    constructor
    · intro h chan hc; exact h chan (Nat.zero_le _) (by simpa using hc)
    · intro h chan _ hc; exact h chan (by simpa using hc)
  have houter : consistency_check n ci = .ok () ↔
      ∀ cl, cl < n → ∀ chan, chan < 4 → check_channel (ci cl chan) = .ok () := by
    unfold consistency_check for_range
    rw [loop_unit_ok (fun cl => loop (fun chan _ => check_channel (ci cl chan)) 0
      (NUM_CHANNELS - 0) ()) (n - 0) 0]
    constructor
    · intro h cl hcl
      exact (hinner cl).1 (h cl (Nat.zero_le _) (by simpa using hcl))
    · intro h cl _ hcl
      exact (hinner cl).2 (h cl (by simpa using hcl))
  refine ⟨?_, ?_, ?_⟩
  · rw [houter]
    constructor
    · intro h cl hcl chan hc
      exact (check_channel_iff _).1 (h cl hcl chan hc)
    · intro h cl hcl chan hc
      exact (check_channel_iff _).2 (h cl hcl chan hc)
  · intro hne
    unfold consistency_check for_range at hne ⊢
    refine loop_unit_error (fun cl => loop (fun chan _ => check_channel (ci cl chan)) 0
      (NUM_CHANNELS - 0) ()) _ ?_ _ _ hne
    intro cl h
    exact loop_unit_error (fun chan => check_channel (ci cl chan)) _
      (fun chan => check_channel_error _) _ _ h
  · intro c
    unfold check_channel header_pattern flag_digit
    by_cases h1 : c.left_header_present = 0 <;> by_cases h2 : c.right_header_present = 0 <;>
      by_cases h3 : c.left_constant = 0 <;> by_cases h4 : c.right_constant = 0 <;>
      simp [h1, h2, h3, h4]


theorem second_header_chan_spec (cl chan : Nat) (ci : ChanInfo) (s : State) (q : Nat)
    (hwf : WF s)
    (hroom : after_header (ci cl chan).right_header_present
      (after_header (ci cl chan).left_header_present q) ≤ 512) :
    (zero_byte_fault (ci cl chan).left_header_present (ci cl chan).left_constant
        (stream_val s.inp q 8) ∨
      zero_byte_fault (ci cl chan).right_header_present (ci cl chan).right_constant
        (stream_val s.inp (after_header (ci cl chan).left_header_present q) 8) →
      second_header_chan cl chan (ci, seek s q) = .error .zero_header_byte) ∧
    (¬ zero_byte_fault (ci cl chan).left_header_present (ci cl chan).left_constant
        (stream_val s.inp q 8) →
      ¬ zero_byte_fault (ci cl chan).right_header_present (ci cl chan).right_constant
        (stream_val s.inp (after_header (ci cl chan).left_header_present q) 8) →
      ∃ lbase lbits rbase rbits,
        second_header_chan cl chan (ci, seek s q) =
          .ok (set2 ci cl chan { ci cl chan with
                left_base := lbase, left_bits := lbits, right_base := rbase, right_bits := rbits },
               seek s (after_header (ci cl chan).right_header_present
                 (after_header (ci cl chan).left_header_present q))) ∧
        stage2_side_plan (ci cl chan).left_header_present (ci cl chan).left_constant
          (stream_val s.inp q 8) 0 7 lbase lbits ∧
        stage2_side_plan (ci cl chan).right_header_present (ci cl chan).right_constant
          (stream_val s.inp (after_header (ci cl chan).left_header_present q) 8)
          lbase lbits rbase rbits) := by
  have hq1 : after_header (ci cl chan).left_header_present q
      ≤ after_header (ci cl chan).right_header_present
          (after_header (ci cl chan).left_header_present q) := by
    unfold after_header; split_ifs <;> omega
  have hL := second_header_left_spec cl chan ci s q hwf (by
    intro hp
    have : after_header (ci cl chan).left_header_present q = q + 8 := by
      unfold after_header; rw [if_pos hp]
    omega)
  by_cases hlf : zero_byte_fault (ci cl chan).left_header_present (ci cl chan).left_constant
      (stream_val s.inp q 8)
  · refine ⟨fun _ => ?_, fun h => absurd hlf h⟩
    unfold second_header_chan
    rw [hL.1 hlf]
    rfl
  · obtain ⟨lbase, lbits, hl1, hl2⟩ := hL.2 hlf
    have hR := second_header_right_spec cl chan
      (set2 ci cl chan { ci cl chan with left_base := lbase, left_bits := lbits }) s
      (after_header (ci cl chan).left_header_present q) hwf (by
        intro hp
        rw [set2_same] at hp
        have : after_header (ci cl chan).right_header_present
            (after_header (ci cl chan).left_header_present q)
            = after_header (ci cl chan).left_header_present q + 8 := by
          unfold after_header; rw [if_pos hp]
        omega)
    simp only [set2_same] at hR
    have hchan : second_header_chan cl chan (ci, seek s q) = second_header_right cl chan
        (set2 ci cl chan { ci cl chan with left_base := lbase, left_bits := lbits },
          seek s (after_header (ci cl chan).left_header_present q)) := by
      unfold second_header_chan
      rw [hl1]
      rfl
    by_cases hrf : zero_byte_fault (ci cl chan).right_header_present
        (ci cl chan).right_constant
        (stream_val s.inp (after_header (ci cl chan).left_header_present q) 8)
    · refine ⟨fun _ => ?_, fun _ h => absurd hrf h⟩
      rw [hchan]
      exact hR.1 hrf
    · refine ⟨fun h => ?_, fun _ _ => ?_⟩
      · rcases h with h | h
        · exact absurd h hlf
        · exact absurd h hrf
      · obtain ⟨rbase, rbits, hr1, hr2⟩ := hR.2 hrf
        refine ⟨lbase, lbits, rbase, rbits, ?_, hl2, hr2⟩
        rw [hchan, hr1]
        congr 2
        funext i j
        simp only [set2]
        split_ifs <;> rfl


/-- C3. Stage 2 of one channel, from any cursor with room for the header bytes that are
present.  With `lb` the eight stream bits at the cursor and `rb` the eight stream bits
after the left header byte (if present): the decode fails with the zero-byte fault when a
present, non-constant side has a zero byte; otherwise it succeeds, the cursor has advanced
by one byte per present header and by nothing per absent header, the four flags are kept,
and each side's `(base, bits)` is: `(byte, 0)` if present and constant; if present and not
constant, `bits ≤ 7` is the number of trailing zero bits of the byte and `base` is the
byte with its lowest set bit cleared, `byte AND (byte - 1)`; `(0, 0)` if absent and
constant; if absent and not constant `(0, 7)` on the left and the left `(base, bits)` of
the same channel on the right.  No other table entry changes. -/
theorem stage2_plan (cl chan : Nat) (ci : ChanInfo) (s : State)
    (hbytes : ∀ i, i < 64 → s.inp i < 256) (hbit : s.in_bit_idx < 8)
    (hroom : after_header (ci cl chan).right_header_present
      (after_header (ci cl chan).left_header_present (bit_pos s)) ≤ 512) :
    (zero_byte_fault (ci cl chan).left_header_present (ci cl chan).left_constant
        (stream_val s.inp (bit_pos s) 8) ∨
      zero_byte_fault (ci cl chan).right_header_present (ci cl chan).right_constant
        (stream_val s.inp (after_header (ci cl chan).left_header_present (bit_pos s)) 8) →
      second_header_chan cl chan (ci, s) = .error .zero_header_byte) ∧
    (¬ zero_byte_fault (ci cl chan).left_header_present (ci cl chan).left_constant
        (stream_val s.inp (bit_pos s) 8) →
      ¬ zero_byte_fault (ci cl chan).right_header_present (ci cl chan).right_constant
        (stream_val s.inp (after_header (ci cl chan).left_header_present (bit_pos s)) 8) →
      ∃ ci1 s1, second_header_chan cl chan (ci, s) = .ok (ci1, s1) ∧
        bit_pos s1 = after_header (ci cl chan).right_header_present
          (after_header (ci cl chan).left_header_present (bit_pos s)) ∧
        s1.in_bit_idx < 8 ∧ s1.inp = s.inp ∧ s1.out = s.out ∧ s1.out_idx = s.out_idx ∧
        (ci1 cl chan).left_header_present = (ci cl chan).left_header_present ∧
        (ci1 cl chan).right_header_present = (ci cl chan).right_header_present ∧
        (ci1 cl chan).left_constant = (ci cl chan).left_constant ∧
        (ci1 cl chan).right_constant = (ci cl chan).right_constant ∧
        stage2_side_plan (ci cl chan).left_header_present (ci cl chan).left_constant
          (stream_val s.inp (bit_pos s) 8) 0 7
          (ci1 cl chan).left_base (ci1 cl chan).left_bits ∧
        stage2_side_plan (ci cl chan).right_header_present (ci cl chan).right_constant
          (stream_val s.inp (after_header (ci cl chan).left_header_present (bit_pos s)) 8)
          (ci1 cl chan).left_base (ci1 cl chan).left_bits
          (ci1 cl chan).right_base (ci1 cl chan).right_bits ∧
        ∀ i j, (i ≠ cl ∨ j ≠ chan) → ci1 i j = ci i j) := by
  have hwf : WF s := ⟨hbytes, hbit⟩
  have h := second_header_chan_spec cl chan ci s (bit_pos s) hwf hroom
  rw [seek_self s hbit] at h
  refine ⟨h.1, fun h1 h2 => ?_⟩
  obtain ⟨lbase, lbits, rbase, rbits, e, p1, p2⟩ := h.2 h1 h2
  refine ⟨_, _, e, bit_pos_seek _ _, Nat.mod_lt _ (by decide), rfl, rfl, rfl, ?_, ?_, ?_, ?_,
    ?_, ?_, ?_⟩
  · rw [set2_same]
  · rw [set2_same]
  · rw [set2_same]
  · rw [set2_same]
  · rw [set2_same]; exact p1
  · rw [set2_same]; exact p2
  · intro i j hij
    unfold set2
    rw [if_neg (by omega)]

/-- C3, on the table entry with both headers present, the left side constant and the
right side not, at the start of the payload `2A 58 00 ...`: the plan is left `(0x2A, 0)`
and right `(0x50, 3)`, two bytes further. -/
theorem stage2_plan_witness :
    ((∀ i, i < 64 → sample_headers.inp i < 256) ∧
    (sample_headers.in_bit_idx < 8) ∧
    (after_header (sample_info 0 0).right_header_present
      (after_header (sample_info 0 0).left_header_present (bit_pos sample_headers)) ≤ 512)) ∧
    (second_header_chan 0 0 (sample_info, sample_headers)).toOption.map
        (fun r => (r.1 0 0, bit_pos r.2))
      = some (⟨1, 1, 0x2A, 0, 1, 0, 0x50, 3⟩, 16) ∧
    ((zero_byte_fault (sample_info 0 0).left_header_present (sample_info 0 0).left_constant
        (stream_val sample_headers.inp (bit_pos sample_headers) 8) ∨
      zero_byte_fault (sample_info 0 0).right_header_present (sample_info 0 0).right_constant
        (stream_val sample_headers.inp (after_header (sample_info 0 0).left_header_present (bit_pos sample_headers)) 8) →
      second_header_chan 0 0 (sample_info, sample_headers) = .error .zero_header_byte) ∧
    (¬ zero_byte_fault (sample_info 0 0).left_header_present (sample_info 0 0).left_constant
        (stream_val sample_headers.inp (bit_pos sample_headers) 8) →
      ¬ zero_byte_fault (sample_info 0 0).right_header_present (sample_info 0 0).right_constant
        (stream_val sample_headers.inp (after_header (sample_info 0 0).left_header_present (bit_pos sample_headers)) 8) →
      ∃ ci1 s1, second_header_chan 0 0 (sample_info, sample_headers) = .ok (ci1, s1) ∧
        bit_pos s1 = after_header (sample_info 0 0).right_header_present
          (after_header (sample_info 0 0).left_header_present (bit_pos sample_headers)) ∧
        s1.in_bit_idx < 8 ∧ s1.inp = sample_headers.inp ∧ s1.out = sample_headers.out ∧ s1.out_idx = sample_headers.out_idx ∧
        (ci1 0 0).left_header_present = (sample_info 0 0).left_header_present ∧
        (ci1 0 0).right_header_present = (sample_info 0 0).right_header_present ∧
        (ci1 0 0).left_constant = (sample_info 0 0).left_constant ∧
        (ci1 0 0).right_constant = (sample_info 0 0).right_constant ∧
        stage2_side_plan (sample_info 0 0).left_header_present (sample_info 0 0).left_constant
          (stream_val sample_headers.inp (bit_pos sample_headers) 8) 0 7
          (ci1 0 0).left_base (ci1 0 0).left_bits ∧
        stage2_side_plan (sample_info 0 0).right_header_present (sample_info 0 0).right_constant
          (stream_val sample_headers.inp (after_header (sample_info 0 0).left_header_present (bit_pos sample_headers)) 8)
          (ci1 0 0).left_base (ci1 0 0).left_bits
          (ci1 0 0).right_base (ci1 0 0).right_bits ∧
        ∀ i j, (i ≠ 0 ∨ j ≠ 0) → ci1 i j = sample_info i j)) :=
  ⟨⟨by decide, by decide, by decide⟩, by decide,
    stage2_plan 0 0 sample_info sample_headers (by decide) (by decide) (by decide)⟩


theorem ctz_le_seven (v : Nat) (h : v < 256) (h0 : v ≠ 0) :
    num_trailing_zero_bits v % 256 ≤ 7 := by
  have := (ctz_byte v h h0).1
  omega

theorem second_header_left_inv (cl chan : Nat) (st0 st1 : ChanInfo × State)
    (h : second_header_left cl chan st0 = .ok st1) :
    (st1.1 cl chan).left_bits ≤ 7 ∧
    ((st0.1 cl chan).left_header_present = 0 → (st0.1 cl chan).left_constant = 0 →
      (st1.1 cl chan).left_bits = 7 ∧ (st1.1 cl chan).left_base = 0) ∧
    (st1.1 cl chan).left_header_present = (st0.1 cl chan).left_header_present ∧
    (st1.1 cl chan).left_constant = (st0.1 cl chan).left_constant ∧
    (st1.1 cl chan).right_header_present = (st0.1 cl chan).right_header_present ∧
    (st1.1 cl chan).right_constant = (st0.1 cl chan).right_constant := by
  obtain ⟨ci0, s0⟩ := st0
  unfold second_header_left at h
  dsimp only at h ⊢
  by_cases hp : (ci0 cl chan).left_header_present ≠ 0
  · rw [if_pos hp] at h
    cases hr : read_bits s0 8 with
    | error e => rw [hr] at h; cases h
    | ok p =>
      obtain ⟨v, s2⟩ := p
      have hv := read_bits_lt_256 _ _ _ _ hr
      rw [hr] at h
      simp only [bind_ok_eq, pure_eq_ok] at h
      by_cases hc : (ci0 cl chan).left_constant ≠ 0
      · rw [if_pos hc] at h
        cases h
        dsimp only
        rw [set2_same]
        dsimp only
        exact ⟨by omega, fun h1 => absurd h1 hp, rfl, rfl, rfl, rfl⟩
      · rw [if_neg hc] at h
        by_cases hz : ¬ (0 : Nat) ≠ v
        · rw [if_pos hz] at h; cases h
        · rw [if_neg hz] at h
          cases h
          dsimp only
          rw [set2_same]
          dsimp only
          exact ⟨ctz_le_seven v hv (by omega), fun h1 => absurd h1 hp, rfl, rfl, rfl, rfl⟩
  · rw [if_neg hp] at h
    by_cases hc : (ci0 cl chan).left_constant ≠ 0
    · rw [if_pos hc] at h
      cases h
      dsimp only
      rw [set2_same]
      dsimp only
      exact ⟨by omega, fun _ h2 => absurd h2 hc, rfl, rfl, rfl, rfl⟩
    · rw [if_neg hc] at h
      cases h
      dsimp only
      rw [set2_same]
      dsimp only
      exact ⟨by omega, fun _ _ => ⟨rfl, rfl⟩, rfl, rfl, rfl, rfl⟩

theorem second_header_right_inv (cl chan : Nat) (st0 st1 : ChanInfo × State)
    (h : second_header_right cl chan st0 = .ok st1) (hl : (st0.1 cl chan).left_bits ≤ 7) :
    (st1.1 cl chan).right_bits ≤ 7 ∧
    (st1.1 cl chan).left_bits = (st0.1 cl chan).left_bits ∧
    (st1.1 cl chan).left_base = (st0.1 cl chan).left_base ∧
    (st1.1 cl chan).left_header_present = (st0.1 cl chan).left_header_present ∧
    (st1.1 cl chan).left_constant = (st0.1 cl chan).left_constant ∧
    (st1.1 cl chan).right_header_present = (st0.1 cl chan).right_header_present ∧
    (st1.1 cl chan).right_constant = (st0.1 cl chan).right_constant := by
  obtain ⟨ci0, s0⟩ := st0
  unfold second_header_right at h
  dsimp only at h hl ⊢
  by_cases hp : (ci0 cl chan).right_header_present ≠ 0
  · rw [if_pos hp] at h
    cases hr : read_bits s0 8 with
    | error e => rw [hr] at h; cases h
    | ok p =>
      obtain ⟨v, s2⟩ := p
      have hv := read_bits_lt_256 _ _ _ _ hr
      rw [hr] at h
      simp only [bind_ok_eq, pure_eq_ok] at h
      by_cases hc : (ci0 cl chan).right_constant ≠ 0
      · rw [if_pos hc] at h
        cases h
        dsimp only
        rw [set2_same]
        dsimp only
        exact ⟨by omega, rfl, rfl, rfl, rfl, rfl, rfl⟩
      · rw [if_neg hc] at h
        by_cases hz : ¬ (0 : Nat) ≠ v
        · rw [if_pos hz] at h; cases h
        · rw [if_neg hz] at h
          cases h
          dsimp only
          rw [set2_same]
          dsimp only
          exact ⟨ctz_le_seven v hv (by omega), rfl, rfl, rfl, rfl, rfl, rfl⟩
  · rw [if_neg hp] at h
    by_cases hc : (ci0 cl chan).right_constant ≠ 0
    · rw [if_pos hc] at h
      cases h
      dsimp only
      rw [set2_same]
      dsimp only
      exact ⟨by omega, rfl, rfl, rfl, rfl, rfl, rfl⟩
    · rw [if_neg hc] at h
      cases h
      dsimp only
      rw [set2_same]
      dsimp only
      exact ⟨hl, rfl, rfl, rfl, rfl, rfl, rfl⟩

/-- What every plan entry written by stage 2 satisfies. -/
theorem second_header_chan_inv (cl chan : Nat) (st0 st1 : ChanInfo × State)
    (h : second_header_chan cl chan st0 = .ok st1) :
    (st1.1 cl chan).left_bits ≤ 7 ∧ (st1.1 cl chan).right_bits ≤ 7 ∧
    ((st1.1 cl chan).left_header_present = 0 → (st1.1 cl chan).left_constant = 0 →
      (st1.1 cl chan).left_bits = 7 ∧ (st1.1 cl chan).left_base = 0) ∧
    (st1.1 cl chan).left_header_present = (st0.1 cl chan).left_header_present ∧
    (st1.1 cl chan).left_constant = (st0.1 cl chan).left_constant ∧
    (st1.1 cl chan).right_header_present = (st0.1 cl chan).right_header_present ∧
    (st1.1 cl chan).right_constant = (st0.1 cl chan).right_constant := by
  unfold second_header_chan at h
  obtain ⟨stm, h1, h2⟩ := bind_eq_ok _ _ _ h
  obtain ⟨a1, a2, a3, a4, a5, a6⟩ := second_header_left_inv cl chan st0 stm h1
  obtain ⟨b1, b2, b3, b4, b5, b6, b7⟩ := second_header_right_inv cl chan stm st1 h2 a1
  refine ⟨by omega, b1, ?_, by omega, by omega, by omega, by omega⟩
  intro e1 e2
  have := a2 (by omega) (by omega)
  omega


/-- C4. In a non-constant half whose plan entry was written by stage 2, with `s0` and
`d0` the first sign bit and the first magnitude of the half: the top-left pixel of a left
half is `(base + 2 * d0 + s0) mod 256` when its header byte was present, and when it was
absent it is `255 - d0` if `s0 = 1` and `d0` otherwise, the width then being 7 and `d0`
below 128; the top-left pixel of a right half whose header byte was present is
`(base + 2 * d0 + s0) mod 256`. -/
theorem seed_pixel (cl chan : Nat) (st0 st1 : ChanInfo × State)
    (hplan : second_header_chan cl chan st0 = .ok st1) (r : Recon)
    (hbytes : ∀ i, i < 64 → r.s.inp i < 256) (hbit : r.s.in_bit_idx < 8) :
    ((st1.1 cl chan).left_constant = 0 →
      bit_pos r.s + 8 + 8 * (st1.1 cl chan).left_bits ≤ 512 →
      ∃ r1, left_side (st1.1 cl chan) chan r = .ok r1 ∧
        r1.upper_pixels 0 chan =
          (if (st1.1 cl chan).left_header_present ≠ 0 then
            ((st1.1 cl chan).left_base
              + 2 * half_delta r.s.inp (bit_pos r.s) (st1.1 cl chan).left_bits 0
              + half_sign r.s.inp (bit_pos r.s) 0) % 256
           else if half_sign r.s.inp (bit_pos r.s) 0 = 1 then
             255 - half_delta r.s.inp (bit_pos r.s) 7 0
           else half_delta r.s.inp (bit_pos r.s) 7 0) ∧
        ((st1.1 cl chan).left_header_present = 0 →
          (st1.1 cl chan).left_bits = 7 ∧ half_delta r.s.inp (bit_pos r.s) 7 0 < 128)) ∧
    ((st1.1 cl chan).right_constant = 0 → (st1.1 cl chan).right_header_present ≠ 0 →
      bit_pos r.s + 8 + 8 * (st1.1 cl chan).right_bits ≤ 512 →
      ∃ r1, right_side (st1.1 cl chan) chan r = .ok r1 ∧
        r1.upper_pixels 4 chan =
          ((st1.1 cl chan).right_base
            + 2 * half_delta r.s.inp (bit_pos r.s) (st1.1 cl chan).right_bits 0
            + half_sign r.s.inp (bit_pos r.s) 0) % 256) := by
  have hwf : WF r.s := ⟨hbytes, hbit⟩
  obtain ⟨hl, hr, h7, _⟩ := second_header_chan_inv cl chan st0 st1 hplan
  constructor
  · intro hc hroom
    obtain ⟨r1, e1, _, e3, _⟩ := left_nonconst_spec (st1.1 cl chan) chan r hwf hc hl hroom
    refine ⟨r1, e1, ?_, ?_⟩
    · rw [e3]
      by_cases hp : (st1.1 cl chan).left_header_present ≠ 0
      · rw [if_pos hp, if_pos hp]
      · rw [if_neg hp, if_neg hp]
        have := (h7 (by omega) hc).1
        rw [this]
        rfl
    · intro hp
      have := half_delta_lt r.s.inp (bit_pos r.s) 7 0
      exact ⟨(h7 hp hc).1, by simpa using this⟩
  · intro hc hp hroom
    obtain ⟨r1, e1, _, e3, _⟩ := right_nonconst_spec (st1.1 cl chan) chan r hwf hc hr hroom
    refine ⟨r1, e1, ?_⟩
    rw [e3, if_pos hp]

/-- C5. In every non-constant half of width at most 7, with `U0..U3` / `L0..L3` the
half's upper-row and lower-row pixels and `sm(k)` the sign-magnitude step of position
`k`, modulo 256: `U1 = U0 + sm(1)`, `L0 = U0 + sm(2)`, `L1 = L0 + sm(3)`,
`U2 = U1 + sm(4)`, `U3 = U2 + sm(5)`, `L2 = U2 + sm(6)`, `L3 = L2 + sm(7)`; on the left
half these are positions 0..3, on the right half positions 4..7. -/
theorem staggered_chain (c : color_channel_info) (chan : Nat) (r : Recon)
    (hbytes : ∀ i, i < 64 → r.s.inp i < 256) (hbit : r.s.in_bit_idx < 8) :
    (c.left_constant = 0 → c.left_bits ≤ 7 → bit_pos r.s + 8 + 8 * c.left_bits ≤ 512 →
      ∃ r1, left_side c chan r = .ok r1 ∧
        r1.upper_pixels 1 chan
          = (r1.upper_pixels 0 chan + half_sm r.s.inp (bit_pos r.s) c.left_bits 1) % 256 ∧
        r1.lower_pixels 0 chan
          = (r1.upper_pixels 0 chan + half_sm r.s.inp (bit_pos r.s) c.left_bits 2) % 256 ∧
        r1.lower_pixels 1 chan
          = (r1.lower_pixels 0 chan + half_sm r.s.inp (bit_pos r.s) c.left_bits 3) % 256 ∧
        r1.upper_pixels 2 chan
          = (r1.upper_pixels 1 chan + half_sm r.s.inp (bit_pos r.s) c.left_bits 4) % 256 ∧
        r1.upper_pixels 3 chan
          = (r1.upper_pixels 2 chan + half_sm r.s.inp (bit_pos r.s) c.left_bits 5) % 256 ∧
        r1.lower_pixels 2 chan
          = (r1.upper_pixels 2 chan + half_sm r.s.inp (bit_pos r.s) c.left_bits 6) % 256 ∧
        r1.lower_pixels 3 chan
          = (r1.lower_pixels 2 chan + half_sm r.s.inp (bit_pos r.s) c.left_bits 7) % 256) ∧
    (c.right_constant = 0 → c.right_bits ≤ 7 → bit_pos r.s + 8 + 8 * c.right_bits ≤ 512 →
      ∃ r1, right_side c chan r = .ok r1 ∧
        r1.upper_pixels 5 chan
          = (r1.upper_pixels 4 chan + half_sm r.s.inp (bit_pos r.s) c.right_bits 1) % 256 ∧
        r1.lower_pixels 4 chan
          = (r1.upper_pixels 4 chan + half_sm r.s.inp (bit_pos r.s) c.right_bits 2) % 256 ∧
        r1.lower_pixels 5 chan
          = (r1.lower_pixels 4 chan + half_sm r.s.inp (bit_pos r.s) c.right_bits 3) % 256 ∧
        r1.upper_pixels 6 chan
          = (r1.upper_pixels 5 chan + half_sm r.s.inp (bit_pos r.s) c.right_bits 4) % 256 ∧
        r1.upper_pixels 7 chan
          = (r1.upper_pixels 6 chan + half_sm r.s.inp (bit_pos r.s) c.right_bits 5) % 256 ∧
        r1.lower_pixels 6 chan
          = (r1.upper_pixels 6 chan + half_sm r.s.inp (bit_pos r.s) c.right_bits 6) % 256 ∧
        r1.lower_pixels 7 chan
          = (r1.lower_pixels 6 chan + half_sm r.s.inp (bit_pos r.s) c.right_bits 7) % 256) := by
  have hwf : WF r.s := ⟨hbytes, hbit⟩
  constructor
  · intro hc hw hroom
    obtain ⟨r1, e1, _, _, a1, a2, a3, a4, a5, a6, a7, _⟩ :=
      left_nonconst_spec c chan r hwf hc hw hroom
    exact ⟨r1, e1, a1, a2, a3, a4, a5, a6, a7⟩
  · intro hc hw hroom
    obtain ⟨r1, e1, _, _, a1, a2, a3, a4, a5, a6, a7, _⟩ :=
      right_nonconst_spec c chan r hwf hc hw hroom
    exact ⟨r1, e1, a1, a2, a3, a4, a5, a6, a7⟩

/-- C6, as stated, fails: the left half of channel G of `payload_0100` has width 7 and
moves the cursor by 64 bits, not by `4 + 4 * 7 = 32`; its right half has width 0 and
moves the cursor by 8 bits, not by `4 + 4 * 0 = 4`. -/
theorem half_reads_eight_positions :
    (plan_0100.1 0 0).left_constant = 0 ∧ (plan_0100.1 0 0).left_bits = 7 ∧
    (left_side (plan_0100.1 0 0) 0 recon_0100).toOption.map (fun r => bit_pos r.s)
      = some (bit_pos recon_0100.s + 64) ∧
    bit_pos recon_0100.s + 64 ≠ bit_pos recon_0100.s + (4 + 4 * 7) ∧
    (plan_0100.1 0 0).right_constant = 0 ∧ (plan_0100.1 0 0).right_bits = 0 ∧
    (right_side (plan_0100.1 0 0) 0 recon_0100).toOption.map (fun r => bit_pos r.s)
      = some (bit_pos recon_0100.s + 8) ∧
    bit_pos recon_0100.s + 8 ≠ bit_pos recon_0100.s + (4 + 4 * 0) := by
  refine ⟨by decide, by decide, by decide, by decide, by decide, by decide, by decide,
    by decide⟩

/-- C6, amended. For every non-constant half with delta width `w ≤ 7`, the reconstructor
reads 8 sign bits and `8 * w` magnitude bits: the cursor advances by exactly `8 + 8 * w`
bits for that half.  A constant half consumes no bits. -/
theorem half_payload_size (c : color_channel_info) (chan : Nat) (r : Recon)
    (hbytes : ∀ i, i < 64 → r.s.inp i < 256) (hbit : r.s.in_bit_idx < 8) :
    (c.left_constant = 0 → c.left_bits ≤ 7 → bit_pos r.s + 8 + 8 * c.left_bits ≤ 512 →
      ∃ r1, left_side c chan r = .ok r1 ∧ bit_pos r1.s = bit_pos r.s + 8 + 8 * c.left_bits) ∧
    (c.left_constant ≠ 0 → ∃ r1, left_side c chan r = .ok r1 ∧ r1.s = r.s) ∧
    (c.right_constant = 0 → c.right_bits ≤ 7 → bit_pos r.s + 8 + 8 * c.right_bits ≤ 512 →
      ∃ r1, right_side c chan r = .ok r1 ∧
        bit_pos r1.s = bit_pos r.s + 8 + 8 * c.right_bits) ∧
    (c.right_constant ≠ 0 → ∃ r1, right_side c chan r = .ok r1 ∧ r1.s = r.s) := by
  have hwf : WF r.s := ⟨hbytes, hbit⟩
  refine ⟨?_, ?_, ?_, ?_⟩
  · intro hc hw hroom
    obtain ⟨r1, e1, e2, _⟩ := left_nonconst_spec c chan r hwf hc hw hroom
    exact ⟨r1, e1, by rw [e2, bit_pos_seek]⟩
  · intro hc
    obtain ⟨r1, e1, e2, _⟩ := left_const_spec c chan r hc
    exact ⟨r1, e1, e2⟩
  · intro hc hw hroom
    obtain ⟨r1, e1, e2, _⟩ := right_nonconst_spec c chan r hwf hc hw hroom
    exact ⟨r1, e1, by rw [e2, bit_pos_seek]⟩
  · intro hc
    by_cases hp : c.right_header_present ≠ 0
    · obtain ⟨r1, e1, e2, _⟩ := right_const_hdr_spec c chan r hc hp
      exact ⟨r1, e1, e2⟩
    · obtain ⟨r1, e1, e2, _⟩ := right_const_inherit_spec c chan r hc (by omega)
      exact ⟨r1, e1, e2⟩

/-- C7. A non-constant half of width `w ≤ 7` opens with its eight sign bits, position by
position, and only then the magnitudes, plane by plane, least significant plane first:
sign `p` is stream bit `pos + p`, and magnitude `p` is the sum over `b < w` of `2 ^ b`
times stream bit `pos + 8 + 8 * b + p`, the `p`-th bit of plane `b`.  This differs from
one `w`-bit field per position: on `plane_payload` with `w = 2` magnitude 0 is not the
two-bit field that follows the sign bits. -/
theorem bit_plane_interleaving (w : Nat) (s : State)
    (hbytes : ∀ i, i < 64 → s.inp i < 256) (hbit : s.in_bit_idx < 8) (hw : w ≤ 7)
    (hroom : bit_pos s + 8 + 8 * w ≤ 512) :
    (∃ signs deltas s1, read_half w s = .ok (signs, deltas, s1) ∧
      bit_pos s1 = bit_pos s + 8 + 8 * w ∧
      ∀ p, p < 8 → signs p = stream_bit s.inp (bit_pos s + p) ∧
        deltas p = ∑ b in Finset.range w, 2 ^ b * stream_bit s.inp (bit_pos s + 8 + 8 * b + p)) ∧
    (∃ signs deltas s1, read_half 2 plane_payload = .ok (signs, deltas, s1) ∧
      deltas 0 = 2 ∧ stream_val plane_payload.inp (bit_pos plane_payload + 8) 2 = 0) := by
  have hwf : WF s := ⟨hbytes, hbit⟩
  constructor
  · obtain ⟨sg, d, e, hk⟩ := read_half_spec w s (bit_pos s) hwf (by omega) hroom
    rw [seek_self s hbit] at e
    refine ⟨sg, d, _, e, bit_pos_seek _ _, fun p hp => ⟨(hk p hp).1, ?_⟩⟩
    rw [(hk p hp).2, magnitude_eq_sum]
  · have hwf2 : WF plane_payload := ⟨by decide, by decide⟩
    obtain ⟨sg, d, e, hk⟩ := read_half_spec 2 plane_payload (bit_pos plane_payload) hwf2
      (by decide) (by decide)
    rw [seek_self plane_payload hwf2.2] at e
    refine ⟨sg, d, _, e, ?_, by decide⟩
    rw [(hk 0 (by decide)).2]
    decide

/-- C8. When a channel's right half is constant and has no header byte, the right half
consumes no payload bits and all eight right-half pixels (upper and lower positions
4..7) equal the left half's upper pixel 3, whatever the left half was; when the left half
is itself constant that value is the left base. -/
theorem right_half_inheritance (ci : ChanInfo) (cl chan : Nat)
    (hc : (ci cl chan).right_constant ≠ 0) (hp : (ci cl chan).right_header_present = 0) :
    (∀ r r1, left_side (ci cl chan) chan r = .ok r1 →
      ∃ r2, right_side (ci cl chan) chan r1 = .ok r2 ∧ channel_sides ci cl chan r = .ok r2 ∧
        r2.s = r1.s ∧ r2.upper_pixels 3 chan = r1.upper_pixels 3 chan ∧
        ∀ p, 4 ≤ p → p < 8 → r2.upper_pixels p chan = r1.upper_pixels 3 chan ∧
          r2.lower_pixels p chan = r1.upper_pixels 3 chan) ∧
    ((ci cl chan).left_constant ≠ 0 → ∀ r,
      ∃ r2, channel_sides ci cl chan r = .ok r2 ∧ r2.s = r.s ∧
        r2.upper_pixels 3 chan = (ci cl chan).left_base ∧
        ∀ p, 4 ≤ p → p < 8 → r2.upper_pixels p chan = (ci cl chan).left_base ∧
          r2.lower_pixels p chan = (ci cl chan).left_base) := by
  have key : ∀ r r1, left_side (ci cl chan) chan r = .ok r1 →
      ∃ r2, right_side (ci cl chan) chan r1 = .ok r2 ∧ channel_sides ci cl chan r = .ok r2 ∧
        r2.s = r1.s ∧ r2.upper_pixels 3 chan = r1.upper_pixels 3 chan ∧
        ∀ p, 4 ≤ p → p < 8 → r2.upper_pixels p chan = r1.upper_pixels 3 chan ∧
          r2.lower_pixels p chan = r1.upper_pixels 3 chan := by
    intro r r1 hl
    obtain ⟨r2, e1, e2, e3, e4⟩ := right_const_inherit_spec (ci cl chan) chan r1 hc hp
    refine ⟨r2, e1, ?_, e2, (e4 3 chan (Or.inl (by decide))).1, e3⟩
    unfold channel_sides
    rw [hl]
    exact e1
  refine ⟨key, fun hlc r => ?_⟩
  obtain ⟨r1, f1, f2, f3, _⟩ := left_const_spec (ci cl chan) chan r hlc
  obtain ⟨r2, _, g2, g3, g4, g5⟩ := key r r1 f1
  have h3 := (f3 3 (by decide)).1
  refine ⟨r2, g2, by rw [g3, f2], by rw [g4, h3], fun p h1 h2 => ?_⟩
  rw [(g5 p h1 h2).1, (g5 p h1 h2).2, h3]
  exact ⟨rfl, rfl⟩


/-- C4, on channel G of cacheline 0 of `payload_0100`: the left half has no header
byte, its first sign bit is 1 and its first magnitude is 85, so its seed is 170; the
right half has the header byte `01`. -/
theorem seed_pixel_witness :
    (second_header_chan 0 0 ((fun _ _ => chan_0100), header_0100_state) = .ok plan_0100 ∧
      (∀ i, i < 64 → recon_0100.s.inp i < 256) ∧ recon_0100.s.in_bit_idx < 8) ∧
    (left_side (plan_0100.1 0 0) 0 recon_0100).toOption.map (fun r => r.upper_pixels 0 0)
      = some 170 ∧
    (((plan_0100.1 0 0).left_constant = 0 →
      bit_pos recon_0100.s + 8 + 8 * (plan_0100.1 0 0).left_bits ≤ 512 →
      ∃ r1, left_side (plan_0100.1 0 0) 0 recon_0100 = .ok r1 ∧
        r1.upper_pixels 0 0 =
          (if (plan_0100.1 0 0).left_header_present ≠ 0 then
            ((plan_0100.1 0 0).left_base
              + 2 * half_delta recon_0100.s.inp (bit_pos recon_0100.s) (plan_0100.1 0 0).left_bits 0
              + half_sign recon_0100.s.inp (bit_pos recon_0100.s) 0) % 256
           else if half_sign recon_0100.s.inp (bit_pos recon_0100.s) 0 = 1 then
             255 - half_delta recon_0100.s.inp (bit_pos recon_0100.s) 7 0
           else half_delta recon_0100.s.inp (bit_pos recon_0100.s) 7 0) ∧
        ((plan_0100.1 0 0).left_header_present = 0 →
          (plan_0100.1 0 0).left_bits = 7 ∧ half_delta recon_0100.s.inp (bit_pos recon_0100.s) 7 0 < 128)) ∧
    ((plan_0100.1 0 0).right_constant = 0 → (plan_0100.1 0 0).right_header_present ≠ 0 →
      bit_pos recon_0100.s + 8 + 8 * (plan_0100.1 0 0).right_bits ≤ 512 →
      ∃ r1, right_side (plan_0100.1 0 0) 0 recon_0100 = .ok r1 ∧
        r1.upper_pixels 4 0 =
          ((plan_0100.1 0 0).right_base
            + 2 * half_delta recon_0100.s.inp (bit_pos recon_0100.s) (plan_0100.1 0 0).right_bits 0
            + half_sign recon_0100.s.inp (bit_pos recon_0100.s) 0) % 256)) :=
  ⟨⟨rfl, by decide, by decide⟩, by decide,
    seed_pixel 0 0 ((fun _ _ => chan_0100), header_0100_state) plan_0100 rfl recon_0100
      (by decide) (by decide)⟩

/-- C5, on channel G of cacheline 0 of `payload_0100`, whose two halves are both
non-constant. -/
theorem staggered_chain_witness :
    ((∀ i, i < 64 → recon_0100.s.inp i < 256) ∧ recon_0100.s.in_bit_idx < 8) ∧
    (((plan_0100.1 0 0).left_constant = 0 → (plan_0100.1 0 0).left_bits ≤ 7 → bit_pos recon_0100.s + 8 + 8 * (plan_0100.1 0 0).left_bits ≤ 512 →
      ∃ r1, left_side (plan_0100.1 0 0) 0 recon_0100 = .ok r1 ∧
        r1.upper_pixels 1 0
          = (r1.upper_pixels 0 0 + half_sm recon_0100.s.inp (bit_pos recon_0100.s) (plan_0100.1 0 0).left_bits 1) % 256 ∧
        r1.lower_pixels 0 0
          = (r1.upper_pixels 0 0 + half_sm recon_0100.s.inp (bit_pos recon_0100.s) (plan_0100.1 0 0).left_bits 2) % 256 ∧
        r1.lower_pixels 1 0
          = (r1.lower_pixels 0 0 + half_sm recon_0100.s.inp (bit_pos recon_0100.s) (plan_0100.1 0 0).left_bits 3) % 256 ∧
        r1.upper_pixels 2 0
          = (r1.upper_pixels 1 0 + half_sm recon_0100.s.inp (bit_pos recon_0100.s) (plan_0100.1 0 0).left_bits 4) % 256 ∧
        r1.upper_pixels 3 0
          = (r1.upper_pixels 2 0 + half_sm recon_0100.s.inp (bit_pos recon_0100.s) (plan_0100.1 0 0).left_bits 5) % 256 ∧
        r1.lower_pixels 2 0
          = (r1.upper_pixels 2 0 + half_sm recon_0100.s.inp (bit_pos recon_0100.s) (plan_0100.1 0 0).left_bits 6) % 256 ∧
        r1.lower_pixels 3 0
          = (r1.lower_pixels 2 0 + half_sm recon_0100.s.inp (bit_pos recon_0100.s) (plan_0100.1 0 0).left_bits 7) % 256) ∧
    ((plan_0100.1 0 0).right_constant = 0 → (plan_0100.1 0 0).right_bits ≤ 7 → bit_pos recon_0100.s + 8 + 8 * (plan_0100.1 0 0).right_bits ≤ 512 →
      ∃ r1, right_side (plan_0100.1 0 0) 0 recon_0100 = .ok r1 ∧
        r1.upper_pixels 5 0
          = (r1.upper_pixels 4 0 + half_sm recon_0100.s.inp (bit_pos recon_0100.s) (plan_0100.1 0 0).right_bits 1) % 256 ∧
        r1.lower_pixels 4 0
          = (r1.upper_pixels 4 0 + half_sm recon_0100.s.inp (bit_pos recon_0100.s) (plan_0100.1 0 0).right_bits 2) % 256 ∧
        r1.lower_pixels 5 0
          = (r1.lower_pixels 4 0 + half_sm recon_0100.s.inp (bit_pos recon_0100.s) (plan_0100.1 0 0).right_bits 3) % 256 ∧
        r1.upper_pixels 6 0
          = (r1.upper_pixels 5 0 + half_sm recon_0100.s.inp (bit_pos recon_0100.s) (plan_0100.1 0 0).right_bits 4) % 256 ∧
        r1.upper_pixels 7 0
          = (r1.upper_pixels 6 0 + half_sm recon_0100.s.inp (bit_pos recon_0100.s) (plan_0100.1 0 0).right_bits 5) % 256 ∧
        r1.lower_pixels 6 0
          = (r1.upper_pixels 6 0 + half_sm recon_0100.s.inp (bit_pos recon_0100.s) (plan_0100.1 0 0).right_bits 6) % 256 ∧
        r1.lower_pixels 7 0
          = (r1.lower_pixels 6 0 + half_sm recon_0100.s.inp (bit_pos recon_0100.s) (plan_0100.1 0 0).right_bits 7) % 256)) :=
  ⟨⟨by decide, by decide⟩, staggered_chain (plan_0100.1 0 0) 0 recon_0100 (by decide) (by decide)⟩

/-- C6 amended, on channel G of cacheline 0 of `payload_0100`. -/
theorem half_payload_size_witness :
    ((∀ i, i < 64 → recon_0100.s.inp i < 256) ∧ recon_0100.s.in_bit_idx < 8) ∧
    (((plan_0100.1 0 0).left_constant = 0 → (plan_0100.1 0 0).left_bits ≤ 7 → bit_pos recon_0100.s + 8 + 8 * (plan_0100.1 0 0).left_bits ≤ 512 →
      ∃ r1, left_side (plan_0100.1 0 0) 0 recon_0100 = .ok r1 ∧ bit_pos r1.s = bit_pos recon_0100.s + 8 + 8 * (plan_0100.1 0 0).left_bits) ∧
    ((plan_0100.1 0 0).left_constant ≠ 0 → ∃ r1, left_side (plan_0100.1 0 0) 0 recon_0100 = .ok r1 ∧ r1.s = recon_0100.s) ∧
    ((plan_0100.1 0 0).right_constant = 0 → (plan_0100.1 0 0).right_bits ≤ 7 → bit_pos recon_0100.s + 8 + 8 * (plan_0100.1 0 0).right_bits ≤ 512 →
      ∃ r1, right_side (plan_0100.1 0 0) 0 recon_0100 = .ok r1 ∧
        bit_pos r1.s = bit_pos recon_0100.s + 8 + 8 * (plan_0100.1 0 0).right_bits) ∧
    ((plan_0100.1 0 0).right_constant ≠ 0 → ∃ r1, right_side (plan_0100.1 0 0) 0 recon_0100 = .ok r1 ∧ r1.s = recon_0100.s)) :=
  ⟨⟨by decide, by decide⟩, half_payload_size (plan_0100.1 0 0) 0 recon_0100 (by decide) (by decide)⟩

/-- C7, on the seven planes of the left half of channel G of `payload_0100`. -/
theorem bit_plane_interleaving_witness :
    ((∀ i, i < 64 → recon_0100.s.inp i < 256) ∧ recon_0100.s.in_bit_idx < 8 ∧ 7 ≤ 7 ∧
      bit_pos recon_0100.s + 8 + 8 * 7 ≤ 512) ∧
    ((∃ signs deltas s1, read_half 7 recon_0100.s = .ok (signs, deltas, s1) ∧
      bit_pos s1 = bit_pos recon_0100.s + 8 + 8 * 7 ∧
      ∀ p, p < 8 → signs p = stream_bit recon_0100.s.inp (bit_pos recon_0100.s + p) ∧
        deltas p = ∑ b in Finset.range 7, 2 ^ b * stream_bit recon_0100.s.inp (bit_pos recon_0100.s + 8 + 8 * b + p)) ∧
    (∃ signs deltas s1, read_half 2 plane_payload = .ok (signs, deltas, s1) ∧
      deltas 0 = 2 ∧ stream_val plane_payload.inp (bit_pos plane_payload + 8) 2 = 0)) :=
  ⟨⟨by decide, by decide, by decide, by decide⟩,
    bit_plane_interleaving 7 recon_0100.s (by decide) (by decide) (by decide) (by decide)⟩

/-- C8, on a channel with combination 0001. -/
theorem right_half_inheritance_witness :
    (((fun (_ _ : Nat) => chan_0001) 0 0).right_constant ≠ 0 ∧
      ((fun (_ _ : Nat) => chan_0001) 0 0).right_header_present = 0) ∧
    ((∀ r r1, left_side ((fun _ _ => chan_0001) 0 0) 0 r = .ok r1 →
      ∃ r2, right_side ((fun _ _ => chan_0001) 0 0) 0 r1 = .ok r2 ∧ channel_sides (fun _ _ => chan_0001) 0 0 r = .ok r2 ∧
        r2.s = r1.s ∧ r2.upper_pixels 3 0 = r1.upper_pixels 3 0 ∧
        ∀ p, 4 ≤ p → p < 8 → r2.upper_pixels p 0 = r1.upper_pixels 3 0 ∧
          r2.lower_pixels p 0 = r1.upper_pixels 3 0) ∧
    (((fun _ _ => chan_0001) 0 0).left_constant ≠ 0 → ∀ r,
      ∃ r2, channel_sides (fun _ _ => chan_0001) 0 0 r = .ok r2 ∧ r2.s = r.s ∧
        r2.upper_pixels 3 0 = ((fun _ _ => chan_0001) 0 0).left_base ∧
        ∀ p, 4 ≤ p → p < 8 → r2.upper_pixels p 0 = ((fun _ _ => chan_0001) 0 0).left_base ∧
          r2.lower_pixels p 0 = ((fun _ _ => chan_0001) 0 0).left_base)) :=
  ⟨⟨by decide, by decide⟩, right_half_inheritance (fun _ _ => chan_0001) 0 0 (by decide) (by decide)⟩


theorem write_pixel_spec (s : State) (r g b a : Nat) (h : s.out_idx ≤ 63) :
    ∃ s1, write_pixel s r g b a = .ok s1 ∧ s1.out_idx = s.out_idx + 1 ∧
      s1.inp = s.inp ∧ s1.in_byte_idx = s.in_byte_idx ∧ s1.in_bit_idx = s.in_bit_idx ∧
      pixel_at s1.out s.out_idx = (r, g, b, a) ∧
      ∀ i, (i < 4 * s.out_idx ∨ 4 * (s.out_idx + 1) ≤ i) → s1.out i = s.out i := by
  unfold write_pixel
  rw [if_neg (by omega)]
  refine ⟨_, rfl, ?_, rfl, rfl, rfl, ?_, ?_⟩
  · show (s.out_idx + 1) % 256 = s.out_idx + 1
    omega
  · simp only [pixel_at, set1]
    have e1 : 4 * s.out_idx = s.out_idx * 4 := by omega
    rw [e1]
    simp
  · intro i hi
    simp only [set1]
    repeat rw [if_neg (by omega)]

/-- A run of `n` pixel writes. -/
theorem write_loop_spec (px : Nat → Nat → Nat) (s : State) : ∀ (n lo : Nat),
    s.out_idx + n ≤ 64 →
    ∃ s1, loop (fun p s0 => write_g_cr_cb_pixel s0 (px p CHAN_G) (px p CHAN_CR)
        (px p CHAN_CB) (px p CHAN_A)) lo n s = .ok s1 ∧
      s1.out_idx = s.out_idx + n ∧ s1.inp = s.inp ∧ s1.in_byte_idx = s.in_byte_idx ∧
      s1.in_bit_idx = s.in_bit_idx ∧
      (∀ j, j < n → pixel_at s1.out (s.out_idx + j) = rgba_of (px (lo + j))) ∧
      ∀ i, (i < 4 * s.out_idx ∨ 4 * (s.out_idx + n) ≤ i) → s1.out i = s.out i := by
  intro n lo hn
  have h := loop_inv (fun p s0 => write_g_cr_cb_pixel s0 (px p CHAN_G) (px p CHAN_CR)
        (px p CHAN_CB) (px p CHAN_A))
    (fun j st => st.out_idx = s.out_idx + (j - lo) ∧ st.inp = s.inp ∧
      st.in_byte_idx = s.in_byte_idx ∧ st.in_bit_idx = s.in_bit_idx ∧
      (∀ k, k < j - lo → pixel_at st.out (s.out_idx + k) = rgba_of (px (lo + k))) ∧
      ∀ i, (i < 4 * s.out_idx ∨ 4 * (s.out_idx + (j - lo)) ≤ i) → st.out i = s.out i)
    n lo s ⟨by omega, rfl, rfl, rfl, fun k hk => by omega, fun i _ => rfl⟩
    (by
      intro j st hj1 hj2 ⟨a1, a2, a3, a4, a5, a6⟩
      obtain ⟨s1, b1, b2, b3, b4, b5, b6, b7⟩ := write_pixel_spec st
        ((px j CHAN_CR + px j CHAN_G) % 256) (px j CHAN_G) ((px j CHAN_CB + px j CHAN_G) % 256)
        (px j CHAN_A) (by omega)
      refine ⟨s1, b1, by omega, by rw [b3, a2], by omega, by omega, ?_, ?_⟩
      · intro k hk
        by_cases e : k = j - lo
        · have e2 : s.out_idx + k = st.out_idx := by omega
          have e3 : lo + k = j := by omega
          rw [e2, e3, b6]
          rfl
        · have hk2 : k < j - lo := by omega
          rw [← a5 k hk2]
          unfold pixel_at
          rw [b7 _ (Or.inl (by omega)), b7 _ (Or.inl (by omega)), b7 _ (Or.inl (by omega)),
            b7 _ (Or.inl (by omega))]
      · intro i hi
        rw [b7 i (by omega), a6 i (by omega)])
  obtain ⟨s1, e, c1, c2, c3, c4, c5, c6⟩ := h
  have en : lo + n - lo = n := by omega
  rw [en] at c1 c5 c6
  exact ⟨s1, e, c1, c2, c3, c4, c5, c6⟩

theorem pixel_at_frame (out0 out1 : Nat → Nat) (a b k : Nat)
    (h : ∀ i, (i < 4 * a ∨ 4 * b ≤ i) → out1 i = out0 i) (hk : k < a ∨ b ≤ k) :
    pixel_at out1 k = pixel_at out0 k := by
  unfold pixel_at
  rw [h _ (by omega), h _ (by omega), h _ (by omega), h _ (by omega)]

/-- The four quadrant loops of one cacheline. -/
theorem write_quadrants_spec (up lo : Pixels) (s : State) (h : s.out_idx + 16 ≤ 64) :
    ∃ s1, write_quadrants up lo s = .ok s1 ∧ s1.out_idx = s.out_idx + 16 ∧
      s1.inp = s.inp ∧ s1.in_byte_idx = s.in_byte_idx ∧ s1.in_bit_idx = s.in_bit_idx ∧
      (∀ j, j < 16 → pixel_at s1.out (s.out_idx + j) = rgba_of (quadrant_source up lo j)) ∧
      ∀ i, (i < 4 * s.out_idx ∨ 4 * (s.out_idx + 16) ≤ i) → s1.out i = s.out i := by
  obtain ⟨s1, e1, a1, a2, a3, a4, a5, a6⟩ := write_loop_spec up s 4 0 (by omega)
  obtain ⟨s2, e2, b1, b2, b3, b4, b5, b6⟩ := write_loop_spec lo s1 4 0 (by omega)
  obtain ⟨s3, e3, c1, c2, c3, c4, c5, c6⟩ := write_loop_spec up s2 4 4 (by omega)
  obtain ⟨s4, e4, d1, d2, d3, d4, d5, d6⟩ := write_loop_spec lo s3 4 4 (by omega)
  refine ⟨s4, ?_, by omega, by rw [d2, c2, b2, a2], by omega, by omega, ?_, ?_⟩
  · unfold write_quadrants for_range
    simp only [Nat.sub_zero, show (8:Nat) - 4 = 4 by decide]
    rw [e1, bind_ok_eq, e2, bind_ok_eq, e3, bind_ok_eq, e4]
  · intro j hj
    unfold quadrant_source
    by_cases h1 : j < 4
    · rw [if_pos h1, pixel_at_frame _ _ _ _ _ d6 (Or.inl (by omega)),
        pixel_at_frame _ _ _ _ _ c6 (Or.inl (by omega)),
        pixel_at_frame _ _ _ _ _ b6 (Or.inl (by omega)), a5 j h1, Nat.zero_add]
    · rw [if_neg h1]
      by_cases h2 : j < 8
      · rw [if_pos h2, pixel_at_frame _ _ _ _ _ d6 (Or.inl (by omega)),
          pixel_at_frame _ _ _ _ _ c6 (Or.inl (by omega))]
        have := b5 (j - 4) (by omega)
        rw [Nat.zero_add] at this
        rw [← this]
        congr 1
        omega
      · rw [if_neg h2]
        by_cases h3 : j < 12
        · rw [if_pos h3, pixel_at_frame _ _ _ _ _ d6 (Or.inl (by omega))]
          have := c5 (j - 8) (by omega)
          have e : 4 + (j - 8) = j - 4 := by omega
          rw [e] at this
          rw [← this]
          congr 1
          omega
        · rw [if_neg h3]
          have := d5 (j - 12) (by omega)
          have e : 4 + (j - 12) = j - 8 := by omega
          rw [e] at this
          rw [← this]
          congr 1
          omega
  · intro i hi
    rw [d6 i (by omega), c6 i (by omega), b6 i (by omega), a6 i (by omega)]


theorem read_bits_frame (s s1 : State) (n v : Nat) (h : read_bits s n = .ok (v, s1)) :
    s1.out = s.out ∧ s1.out_idx = s.out_idx ∧ s1.inp = s.inp := by
  unfold read_bits at h
  dsimp only at h
  split_ifs at h <;> cases h <;> exact ⟨rfl, rfl, rfl⟩

theorem read_signs_frame (st st1 : (Nat → Nat) × State) (h : read_signs st = .ok st1) :
    st1.2.out = st.2.out ∧ st1.2.out_idx = st.2.out_idx ∧ st1.2.inp = st.2.inp := by
  unfold read_signs for_range at h
  refine loop_ok_inv _ (fun _ a => a.2.out = st.2.out ∧ a.2.out_idx = st.2.out_idx ∧
    a.2.inp = st.2.inp) _ _ _ _ h ⟨rfl, rfl, rfl⟩ ?_
  intro j a b _ _ hI hb
  obtain ⟨p, h1, h2⟩ := bind_eq_ok _ _ _ hb
  obtain ⟨v, s1⟩ := p
  cases h2
  have := read_bits_frame _ _ _ _ h1
  exact ⟨this.1.trans hI.1, this.2.1.trans hI.2.1, this.2.2.trans hI.2.2⟩

theorem read_plane_frame (b : Nat) (st st1 : (Nat → Nat) × State)
    (h : read_plane b st = .ok st1) :
    st1.2.out = st.2.out ∧ st1.2.out_idx = st.2.out_idx ∧ st1.2.inp = st.2.inp := by
  unfold read_plane for_range at h
  refine loop_ok_inv _ (fun _ a => a.2.out = st.2.out ∧ a.2.out_idx = st.2.out_idx ∧
    a.2.inp = st.2.inp) _ _ _ _ h ⟨rfl, rfl, rfl⟩ ?_
  intro j a b _ _ hI hb
  obtain ⟨p, h1, h2⟩ := bind_eq_ok _ _ _ hb
  obtain ⟨v, s1⟩ := p
  cases h2
  have := read_bits_frame _ _ _ _ h1
  exact ⟨this.1.trans hI.1, this.2.1.trans hI.2.1, this.2.2.trans hI.2.2⟩

theorem read_half_frame (w : Nat) (s : State) (res : (Nat → Nat) × (Nat → Nat) × State)
    (h : read_half w s = .ok res) :
    res.2.2.out = s.out ∧ res.2.2.out_idx = s.out_idx ∧ res.2.2.inp = s.inp := by
  unfold read_half at h
  obtain ⟨p1, h1, h2⟩ := bind_eq_ok _ _ _ h
  obtain ⟨sg, s1⟩ := p1
  have f1 := read_signs_frame _ _ h1
  obtain ⟨d1, h3, h4⟩ := bind_eq_ok _ _ _ h2
  obtain ⟨p2, h5, h6⟩ := bind_eq_ok _ _ _ h4
  obtain ⟨d2, s2⟩ := p2
  cases h6
  unfold for_range at h5
  have f2 := loop_ok_inv read_plane (fun _ a => a.2.out = s1.out ∧ a.2.out_idx = s1.out_idx ∧
    a.2.inp = s1.inp) _ _ _ _ h5 ⟨rfl, rfl, rfl⟩ (by
      intro j a b _ _ hI hb
      have := read_plane_frame _ _ _ hb
      exact ⟨this.1.trans hI.1, this.2.1.trans hI.2.1, this.2.2.trans hI.2.2⟩)
  exact ⟨f2.1.trans f1.1, f2.2.1.trans f1.2.1, f2.2.2.trans f1.2.2⟩

theorem left_side_frame (c : color_channel_info) (chan : Nat) (r r1 : Recon)
    (h : left_side c chan r = .ok r1) :
    r1.s.out = r.s.out ∧ r1.s.out_idx = r.s.out_idx ∧ r1.s.inp = r.s.inp := by
  by_cases hc : c.left_constant ≠ 0
  · obtain ⟨r2, e, e2, _⟩ := left_const_spec c chan r hc
    rw [e] at h
    cases h
    rw [e2]
    exact ⟨rfl, rfl, rfl⟩
  · unfold left_side at h
    rw [if_neg hc] at h
    obtain ⟨p, h1, h2⟩ := bind_eq_ok _ _ _ h
    obtain ⟨sg, d, s1⟩ := p
    have := read_half_frame _ _ _ h1
    cases h2
    exact this

theorem right_side_frame (c : color_channel_info) (chan : Nat) (r r1 : Recon)
    (h : right_side c chan r = .ok r1) :
    r1.s.out = r.s.out ∧ r1.s.out_idx = r.s.out_idx ∧ r1.s.inp = r.s.inp := by
  by_cases hc : c.right_constant ≠ 0
  · by_cases hp : c.right_header_present ≠ 0
    · obtain ⟨r2, e, e2, _⟩ := right_const_hdr_spec c chan r hc hp
      rw [e] at h
      cases h
      rw [e2]
      exact ⟨rfl, rfl, rfl⟩
    · obtain ⟨r2, e, e2, _⟩ := right_const_inherit_spec c chan r hc (by omega)
      rw [e] at h
      cases h
      rw [e2]
      exact ⟨rfl, rfl, rfl⟩
  · unfold right_side at h
    rw [if_neg hc] at h
    obtain ⟨p, h1, h2⟩ := bind_eq_ok _ _ _ h
    obtain ⟨sg, d, s1⟩ := p
    have := read_half_frame _ _ _ h1
    cases h2
    exact this

theorem channel_sides_frame (ci : ChanInfo) (cl chan : Nat) (r r1 : Recon)
    (h : channel_sides ci cl chan r = .ok r1) :
    r1.s.out = r.s.out ∧ r1.s.out_idx = r.s.out_idx ∧ r1.s.inp = r.s.inp := by
  unfold channel_sides at h
  obtain ⟨rm, h1, h2⟩ := bind_eq_ok _ _ _ h
  have f1 := left_side_frame _ _ _ _ h1
  have f2 := right_side_frame _ _ _ _ h2
  exact ⟨f2.1.trans f1.1, f2.2.1.trans f1.2.1, f2.2.2.trans f1.2.2⟩

theorem channel_loop_frame (ci : ChanInfo) (cl : Nat) (r r1 : Recon)
    (h : for_range 0 NUM_CHANNELS (channel_sides ci cl) r = .ok r1) :
    r1.s.out = r.s.out ∧ r1.s.out_idx = r.s.out_idx ∧ r1.s.inp = r.s.inp := by
  unfold for_range at h
  exact loop_ok_inv _ (fun _ a => a.s.out = r.s.out ∧ a.s.out_idx = r.s.out_idx ∧
    a.s.inp = r.s.inp) _ _ _ _ h ⟨rfl, rfl, rfl⟩ (by
      intro j a b _ _ hI hb
      have := channel_sides_frame _ _ _ _ _ hb
      exact ⟨this.1.trans hI.1, this.2.1.trans hI.2.1, this.2.2.trans hI.2.2⟩)

/-- One cacheline of the reconstruction, when it succeeds from pixel index `idx` with
room for 16 pixels: the channel loop leaves the output alone and the quadrant loops
write 16 pixels in quadrant order. -/
theorem reconstruct_cl_inv (ci : ChanInfo) (cl : Nat) (r r1 : Recon)
    (h : reconstruct_cl ci cl r = .ok r1) (hidx : r.s.out_idx + 16 ≤ 64) :
    ∃ rm, for_range 0 NUM_CHANNELS (channel_sides ci cl) r = .ok rm ∧
      r1.upper_pixels = rm.upper_pixels ∧ r1.lower_pixels = rm.lower_pixels ∧
      r1.s.out_idx = r.s.out_idx + 16 ∧ r1.s.inp = r.s.inp ∧
      (∀ j, j < 16 → pixel_at r1.s.out (r.s.out_idx + j)
        = rgba_of (quadrant_source rm.upper_pixels rm.lower_pixels j)) ∧
      ∀ i, (i < 4 * r.s.out_idx ∨ 4 * (r.s.out_idx + 16) ≤ i) → r1.s.out i = r.s.out i := by
  unfold reconstruct_cl at h
  obtain ⟨rm, h1, h2⟩ := bind_eq_ok _ _ _ h
  obtain ⟨f1, f2, f3⟩ := channel_loop_frame _ _ _ _ h1
  obtain ⟨s1, e, a1, a2, _, _, a5, a6⟩ := write_quadrants_spec rm.upper_pixels rm.lower_pixels
    rm.s (by omega)
  rw [e] at h2
  cases h2
  refine ⟨rm, h1, rfl, rfl, by simp only; omega, by simp only; rw [a2, f3], ?_, ?_⟩
  · intro j hj
    have := a5 j hj
    rw [f2] at this
    exact this
  · intro i hi
    simp only
    rw [a6 i (by omega), f1]

end DecodeAmd

theorem loop_split {σ : Type} (body : Nat → σ → Except Fault σ) : ∀ (m n lo : Nat) (st : σ),
    loop body lo (m + n) st = (loop body lo m st >>= loop body (lo + m) n) := by
  intro m
  induction m with
  | zero => intro n lo st; simp only [Nat.zero_add, loop, Nat.add_zero]; rfl
  | succ m ih =>
    intro n lo st
    have e : m + 1 + n = (m + n) + 1 := by omega
    rw [e]
    simp only [loop]
    cases hb : body lo st with
    | error e => rfl
    | ok st1 =>
      simp only
      rw [ih n (lo + 1) st1]
      have e2 : lo + 1 + m = lo + (m + 1) := by omega
      rw [e2]

/-- A successful loop passes through every iteration. -/
theorem loop_ok_at {σ : Type} (body : Nat → σ → Except Fault σ) (n lo k : Nat) (st st1 : σ)
    (h : loop body lo n st = .ok st1) (hk : k < n) :
    ∃ a b, loop body lo k st = .ok a ∧ body (lo + k) a = .ok b ∧
      loop body (lo + k + 1) (n - k - 1) b = .ok st1 := by
  have e : n = k + (1 + (n - k - 1)) := by omega
  rw [e, loop_split] at h
  obtain ⟨a, h1, h2⟩ := bind_eq_ok _ _ _ h
  rw [loop_split] at h2
  obtain ⟨b, h3, h4⟩ := bind_eq_ok _ _ _ h2
  refine ⟨a, b, h1, ?_, h4⟩
  simp only [loop] at h3
  cases hb : body (lo + k) a with
  | error e => rw [hb] at h3; cases h3
  | ok b1 => rw [hb] at h3; simp only at h3; exact h3

namespace DecodeAmd

/-- The reconstruction loop, when it succeeds from pixel index 0: cacheline `k` starts at
pixel `16 k`, and the pixels it writes are the final ones. -/
theorem reconstruct_inv (n : Nat) (ci : ChanInfo) (r0 r1 : Recon)
    (h : reconstruct n ci r0 = .ok r1) (h0 : r0.s.out_idx = 0) (hn : n ≤ 4) :
    r1.s.out_idx = 16 * n ∧ r1.s.inp = r0.s.inp ∧
    (∀ i, 64 * n ≤ i → r1.s.out i = r0.s.out i) ∧
    ∀ k, k < n → ∃ rk rm, reconstruct k ci r0 = .ok rk ∧ rk.s.out_idx = 16 * k ∧
      for_range 0 NUM_CHANNELS (channel_sides ci k) rk = .ok rm ∧
      ∀ j, j < 16 → pixel_at r1.s.out (16 * k + j)
        = rgba_of (quadrant_source rm.upper_pixels rm.lower_pixels j) := by
  have prefix_inv : ∀ m a, m ≤ 4 → loop (reconstruct_cl ci) 0 m r0 = .ok a →
      a.s.out_idx = 16 * m ∧ a.s.inp = r0.s.inp ∧
      ∀ i, 64 * m ≤ i → a.s.out i = r0.s.out i := by
    intro m a hm ha
    have := loop_ok_inv (reconstruct_cl ci)
      (fun j x => x.s.out_idx = 16 * j ∧ x.s.inp = r0.s.inp ∧
        ∀ i, 64 * j ≤ i → x.s.out i = r0.s.out i)
      m 0 r0 a ha ⟨by omega, rfl, fun _ _ => rfl⟩ (by
        intro j x y _ hj ⟨hx1, hx2, hx3⟩ hb
        obtain ⟨_, _, _, _, c4, c5, _, c7⟩ := reconstruct_cl_inv ci j x y hb (by omega)
        refine ⟨by omega, c5.trans hx2, fun i hi => ?_⟩
        rw [c7 i (by omega), hx3 i (by omega)])
    simpa using this
  unfold reconstruct for_range at h
  rw [Nat.sub_zero] at h
  obtain ⟨p1, p2, p3⟩ := prefix_inv n r1 hn h
  refine ⟨p1, p2, p3, fun k hk => ?_⟩
  obtain ⟨a, b, h1, h2, h3⟩ := loop_ok_at _ n 0 k r0 r1 h hk
  rw [Nat.zero_add] at h2 h3
  obtain ⟨q1, _, _⟩ := prefix_inv k a (by omega) h1
  obtain ⟨rm, c1, _, _, c4, _, c6, _⟩ := reconstruct_cl_inv ci k a b h2 (by omega)
  refine ⟨a, rm, ?_, q1, c1, ?_⟩
  · unfold reconstruct for_range
    rw [Nat.sub_zero]
    exact h1
  · have suffix_inv := loop_ok_inv (reconstruct_cl ci)
      (fun j x => x.s.out_idx = 16 * j ∧ ∀ i, i < 64 * (k + 1) → x.s.out i = b.s.out i)
      (n - k - 1) (k + 1) b r1 h3 ⟨by omega, fun _ _ => rfl⟩ (by
        intro j x y hj1 hj2 ⟨hx1, hx2⟩ hb
        obtain ⟨_, _, _, _, d4, _, _, d7⟩ := reconstruct_cl_inv ci j x y hb (by omega)
        refine ⟨by omega, fun i hi => ?_⟩
        rw [d7 i (by omega), hx2 i hi])
    intro j hj
    have e := c6 j hj
    rw [q1] at e
    rw [← e]
    unfold pixel_at
    rw [suffix_inv.2 _ (by omega), suffix_inv.2 _ (by omega), suffix_inv.2 _ (by omega),
      suffix_inv.2 _ (by omega)]


/-- Both sides of a flat channel: no bit is read, the column is the header byte. -/
theorem channel_sides_flat (ci : ChanInfo) (cl chan : Nat) (v : Nat) (r : Recon)
    (hf : flat_channel (ci cl chan) v) :
    ∃ r1, channel_sides ci cl chan r = .ok r1 ∧ r1.s = r.s ∧
      (∀ p, p < 8 → r1.upper_pixels p chan = v ∧ r1.lower_pixels p chan = v) ∧
      ∀ p ch, ch ≠ chan → r1.upper_pixels p ch = r.upper_pixels p ch ∧
        r1.lower_pixels p ch = r.lower_pixels p ch := by
  obtain ⟨f1, f2, f3, f4, f5, f6⟩ := hf
  obtain ⟨r1, a1, a2, a3, a4⟩ := left_const_spec (ci cl chan) chan r f3
  obtain ⟨r2, b1, b2, b3, b4⟩ := right_const_hdr_spec (ci cl chan) chan r1 f4 f2
  refine ⟨r2, ?_, b2.trans a2, ?_, ?_⟩
  · unfold channel_sides
    rw [a1]
    exact b1
  · intro p hp
    by_cases h4 : p < 4
    · have := b4 p chan (Or.inl h4)
      rw [this.1, this.2, (a3 p h4).1, (a3 p h4).2, f5]
      exact ⟨rfl, rfl⟩
    · have := b3 p (by omega) hp
      rw [this.1, this.2, f6]
      exact ⟨rfl, rfl⟩
  · intro p ch hch
    have h1 := b4 p ch (Or.inr (Or.inr hch))
    have h2 := a4 p ch (Or.inr hch)
    rw [h1.1, h1.2, h2.1, h2.2]
    exact ⟨rfl, rfl⟩

/-- The channel loop of a cacheline whose four channels are flat. -/
theorem channel_loop_flat (ci : ChanInfo) (cl : Nat) (v : Nat → Nat) (r : Recon)
    (hf : ∀ chan, chan < 4 → flat_channel (ci cl chan) (v chan)) :
    ∃ rm, for_range 0 NUM_CHANNELS (channel_sides ci cl) r = .ok rm ∧ rm.s = r.s ∧
      ∀ chan, chan < 4 → ∀ p, p < 8 →
        rm.upper_pixels p chan = v chan ∧ rm.lower_pixels p chan = v chan := by
  have h := loop_inv (channel_sides ci cl)
    (fun j x => x.s = r.s ∧ ∀ chan, chan < j → ∀ p, p < 8 →
      x.upper_pixels p chan = v chan ∧ x.lower_pixels p chan = v chan)
    4 0 r ⟨rfl, fun chan hc => by omega⟩ (by
      intro j x _ hj ⟨hx1, hx2⟩
      obtain ⟨r1, a1, a2, a3, a4⟩ := channel_sides_flat ci cl j (v j) x (hf j (by omega))
      refine ⟨r1, a1, a2.trans hx1, fun chan hc p hp => ?_⟩
      by_cases e : chan = j
      · subst e; exact a3 p hp
      · have := a4 p chan e
        rw [this.1, this.2]
        exact hx2 chan (by omega) p hp)
  obtain ⟨rm, e, h1, h2⟩ := h
  exact ⟨rm, e, h1, h2⟩

theorem quadrant_source_flat (up lo : Pixels) (v : Nat → Nat)
    (h : ∀ chan, chan < 4 → ∀ p, p < 8 → up p chan = v chan ∧ lo p chan = v chan)
    (j : Nat) (hj : j < 16) :
    rgba_of (quadrant_source up lo j) = ((v 1 + v 0) % 256, v 0, (v 2 + v 0) % 256, v 3) := by
  unfold rgba_of quadrant_source
  split_ifs
  · rw [(h 0 (by decide) j (by omega)).1, (h 1 (by decide) j (by omega)).1,
      (h 2 (by decide) j (by omega)).1, (h 3 (by decide) j (by omega)).1]
  · rw [(h 0 (by decide) (j - 4) (by omega)).2, (h 1 (by decide) (j - 4) (by omega)).2,
      (h 2 (by decide) (j - 4) (by omega)).2, (h 3 (by decide) (j - 4) (by omega)).2]
  · rw [(h 0 (by decide) (j - 4) (by omega)).1, (h 1 (by decide) (j - 4) (by omega)).1,
      (h 2 (by decide) (j - 4) (by omega)).1, (h 3 (by decide) (j - 4) (by omega)).1]
  · rw [(h 0 (by decide) (j - 8) (by omega)).2, (h 1 (by decide) (j - 8) (by omega)).2,
      (h 2 (by decide) (j - 8) (by omega)).2, (h 3 (by decide) (j - 8) (by omega)).2]

/-- One flat cacheline of the reconstruction, from pixel index `idx` with room for 16. -/
theorem reconstruct_cl_flat (ci : ChanInfo) (cl : Nat) (v : Nat → Nat) (r : Recon)
    (hf : ∀ chan, chan < 4 → flat_channel (ci cl chan) (v chan))
    (hidx : r.s.out_idx + 16 ≤ 64) :
    ∃ r1, reconstruct_cl ci cl r = .ok r1 ∧ r1.s.out_idx = r.s.out_idx + 16 ∧
      r1.s.inp = r.s.inp ∧ r1.s.in_byte_idx = r.s.in_byte_idx ∧
      r1.s.in_bit_idx = r.s.in_bit_idx := by
  obtain ⟨rm, e, h1, _⟩ := channel_loop_flat ci cl v r hf
  obtain ⟨s1, e2, a1, a2, a3, a4, _, _⟩ := write_quadrants_spec rm.upper_pixels
    rm.lower_pixels rm.s (by rw [h1]; exact hidx)
  refine ⟨{ rm with s := s1 }, ?_, by rw [a1, h1], by rw [a2, h1], by rw [a3, h1],
    by rw [a4, h1]⟩
  unfold reconstruct_cl
  rw [e, bind_ok_eq, e2]
  rfl


theorem read_presence_spec (cl chan : Nat) (ci : ChanInfo) (s : State) (q : Nat)
    (hwf : WF s) (hroom : q + 2 ≤ 512) :
    ∃ ci1, read_presence cl chan (ci, seek s q) = .ok (ci1, seek s (q + 2)) ∧
      (ci1 cl chan).left_header_present = stream_bit s.inp q ∧
      (ci1 cl chan).right_header_present = stream_bit s.inp (q + 1) ∧
      (ci1 cl chan).left_constant = (ci cl chan).left_constant ∧
      (ci1 cl chan).right_constant = (ci cl chan).right_constant ∧
      ∀ i j, (i ≠ cl ∨ j ≠ chan) → ci1 i j = ci i j := by
  unfold read_presence
  simp only [read_bits_seek s q 1 hwf (by omega) (by omega) (by omega),
    read_bits_seek s (q + 1) 1 hwf (by omega) (by omega) (by omega), bind_ok_eq, pure_eq_ok,
    stream_val_one]
  refine ⟨_, rfl, ?_, ?_, ?_, ?_, ?_⟩
  · simp only [set2_same]
  · simp only [set2_same]
  · simp only [set2_same]
  · simp only [set2_same]
  · intro i j hij
    unfold set2
    rw [if_neg (by omega), if_neg (by omega)]

theorem read_constant_spec (cl chan : Nat) (ci : ChanInfo) (s : State) (q : Nat)
    (hwf : WF s) (hroom : q + 2 ≤ 512) :
    ∃ ci1, read_constant cl chan (ci, seek s q) = .ok (ci1, seek s (q + 2)) ∧
      (ci1 cl chan).left_constant = stream_bit s.inp q ∧
      (ci1 cl chan).right_constant = stream_bit s.inp (q + 1) ∧
      (ci1 cl chan).left_header_present = (ci cl chan).left_header_present ∧
      (ci1 cl chan).right_header_present = (ci cl chan).right_header_present ∧
      ∀ i j, (i ≠ cl ∨ j ≠ chan) → ci1 i j = ci i j := by
  unfold read_constant
  simp only [read_bits_seek s q 1 hwf (by omega) (by omega) (by omega),
    read_bits_seek s (q + 1) 1 hwf (by omega) (by omega) (by omega), bind_ok_eq, pure_eq_ok,
    stream_val_one]
  refine ⟨_, rfl, ?_, ?_, ?_, ?_, ?_⟩
  · simp only [set2_same]
  · simp only [set2_same]
  · simp only [set2_same]
  · simp only [set2_same]
  · intro i j hij
    unfold set2
    rw [if_neg (by omega), if_neg (by omega)]

/-- The first header of one cacheline, read from bit `16 cl`. -/
theorem first_header_cl_spec (cl : Nat) (ci : ChanInfo) (s : State) (hwf : WF s)
    (hroom : 16 * cl + 16 ≤ 512) :
    ∃ ci1, first_header_cl cl (ci, seek s (16 * cl)) = .ok (ci1, seek s (16 * cl + 16)) ∧
      (∀ chan, chan < 4 → stage1_flags s.inp cl chan (ci1 cl chan)) ∧
      ∀ i j, i ≠ cl → ci1 i j = ci i j := by
  have h1 := loop_inv (read_presence cl)
    (fun j st => st.2 = seek s (16 * cl + 2 * j) ∧
      (∀ chan, chan < j →
        (st.1 cl chan).left_header_present = stream_bit s.inp (16 * cl + 2 * chan) ∧
        (st.1 cl chan).right_header_present = stream_bit s.inp (16 * cl + 2 * chan + 1)) ∧
      ∀ i j, i ≠ cl → st.1 i j = ci i j)
    4 0 (ci, seek s (16 * cl)) ⟨rfl, fun chan hc => by omega, fun _ _ _ => rfl⟩ (by
      intro j st _ hj ⟨a1, a2, a3⟩
      obtain ⟨ci0, s0⟩ := st
      simp only at a1 a2 a3
      subst a1
      obtain ⟨ci1, e, b1, b2, _, _, b5⟩ := read_presence_spec cl j ci0 s (16 * cl + 2 * j) hwf
        (by omega)
      refine ⟨(ci1, seek s (16 * cl + 2 * j + 2)), e, ?_, ?_, ?_⟩
      · show seek s (16 * cl + 2 * j + 2) = seek s (16 * cl + 2 * (j + 1))
        congr 1
      · intro chan hc
        by_cases e2 : chan = j
        · subst e2; exact ⟨b1, b2⟩
        · dsimp only
          rw [b5 cl chan (Or.inr e2)]
          exact a2 chan (by omega)
      · intro i k hi
        show ci1 i k = ci i k
        rw [b5 i k (Or.inl hi)]
        exact a3 i k hi)
  obtain ⟨⟨cia, sa⟩, ea, a1, a2, a3⟩ := h1
  simp only at a1 a2 a3
  subst a1
  have h2 := loop_inv (read_constant cl)
    (fun j st => st.2 = seek s (16 * cl + 8 + 2 * j) ∧
      (∀ chan, chan < j →
        (st.1 cl chan).left_constant = stream_bit s.inp (16 * cl + 8 + 2 * chan) ∧
        (st.1 cl chan).right_constant = stream_bit s.inp (16 * cl + 8 + 2 * chan + 1)) ∧
      (∀ chan, chan < 4 →
        (st.1 cl chan).left_header_present = stream_bit s.inp (16 * cl + 2 * chan) ∧
        (st.1 cl chan).right_header_present = stream_bit s.inp (16 * cl + 2 * chan + 1)) ∧
      ∀ i j, i ≠ cl → st.1 i j = ci i j)
    4 0 (cia, seek s (16 * cl + 2 * (0 + 4)))
    ⟨rfl, fun chan hc => by omega, fun chan hc => a2 chan (by omega), a3⟩ (by
      intro j st _ hj ⟨c1, c2, c3, c4⟩
      obtain ⟨ci0, s0⟩ := st
      simp only at c1 c2 c3 c4
      subst c1
      obtain ⟨ci1, e, b1, b2, b3, b4, b5⟩ := read_constant_spec cl j ci0 s
        (16 * cl + 8 + 2 * j) hwf (by omega)
      refine ⟨(ci1, seek s (16 * cl + 8 + 2 * j + 2)), e, ?_, ?_, ?_, ?_⟩
      · show seek s (16 * cl + 8 + 2 * j + 2) = seek s (16 * cl + 8 + 2 * (j + 1))
        congr 1
      · intro chan hc
        by_cases e2 : chan = j
        · subst e2; exact ⟨b1, b2⟩
        · dsimp only
          rw [b5 cl chan (Or.inr e2)]
          exact c2 chan (by omega)
      · intro chan hc
        by_cases e2 : chan = j
        · subst e2
          dsimp only
          rw [b3, b4]
          exact c3 chan hc
        · dsimp only
          rw [b5 cl chan (Or.inr e2)]
          exact c3 chan hc
      · intro i k hi
        show ci1 i k = ci i k
        rw [b5 i k (Or.inl hi)]
        exact c4 i k hi)
  obtain ⟨⟨cib, sb⟩, eb, c1, c2, c3, c4⟩ := h2
  simp only at c1 c2 c3 c4
  subst c1
  refine ⟨cib, ?_, fun chan hc => ⟨(c3 chan hc).1, (c3 chan hc).2, (c2 chan (by omega)).1,
    (c2 chan (by omega)).2⟩, c4⟩
  unfold first_header_cl for_range
  simp only [Nat.sub_zero]
  rw [ea, bind_ok_eq]
  exact eb

/-- The first header of `n` cachelines from the start of the payload: 2 bytes each, the
flags being the stream bits of `stage1_flags`. -/
theorem first_header_spec (n : Nat) (ci : ChanInfo) (s : State) (hwf : WF s) (hn : n ≤ 32) :
    ∃ ci1, first_header n (ci, seek s 0) = .ok (ci1, seek s (16 * n)) ∧
      ∀ cl, cl < n → ∀ chan, chan < 4 → stage1_flags s.inp cl chan (ci1 cl chan) := by
  have h := loop_inv first_header_cl
    (fun j st => st.2 = seek s (16 * j) ∧
      ∀ cl, cl < j → ∀ chan, chan < 4 → stage1_flags s.inp cl chan (st.1 cl chan))
    n 0 (ci, seek s 0) ⟨rfl, fun cl hc => by omega⟩ (by
      intro j st _ hj ⟨a1, a2⟩
      obtain ⟨ci0, s0⟩ := st
      simp only at a1 a2
      subst a1
      obtain ⟨ci1, e, b1, b2⟩ := first_header_cl_spec j ci0 s hwf (by omega)
      refine ⟨(ci1, seek s (16 * j + 16)), e, ?_, ?_⟩
      · show seek s (16 * j + 16) = seek s (16 * (j + 1))
        congr 1
      · intro cl hc chan hch
        by_cases e2 : cl = j
        · subst e2; exact b1 chan hch
        · show stage1_flags s.inp cl chan (ci1 cl chan)
          rw [b2 cl chan e2]
          exact a2 cl (by omega) chan hch)
  obtain ⟨⟨ci1, s1⟩, e, a1, a2⟩ := h
  simp only [Nat.zero_add] at a1 a2
  subst a1
  refine ⟨ci1, ?_, a2⟩
  unfold first_header for_range
  rw [Nat.sub_zero]
  exact e


/-- Stage 2 of a channel with combination 1111: two header bytes, two flat values. -/
theorem second_header_chan_flat (cl chan : Nat) (ci : ChanInfo) (s : State) (q : Nat)
    (hwf : WF s) (hroom : q + 16 ≤ 512) (hf : all_flags_set (ci cl chan)) :
    ∃ ci1, second_header_chan cl chan (ci, seek s q) = .ok (ci1, seek s (q + 16)) ∧
      all_flags_set (ci1 cl chan) ∧
      (ci1 cl chan).left_base = stream_val s.inp q 8 ∧
      (ci1 cl chan).right_base = stream_val s.inp (q + 8) 8 ∧
      ∀ i j, (i ≠ cl ∨ j ≠ chan) → ci1 i j = ci i j := by
  obtain ⟨f1, f2, f3, f4⟩ := hf
  have e1 : after_header (ci cl chan).left_header_present q = q + 8 := by
    unfold after_header; rw [if_pos f1]
  have e2 : after_header (ci cl chan).right_header_present (q + 8) = q + 16 := by
    unfold after_header; rw [if_pos f2]
  have h := second_header_chan_spec cl chan ci s q hwf (by rw [e1, e2]; exact hroom)
  rw [e1, e2] at h
  obtain ⟨lbase, lbits, rbase, rbits, e, p1, p2⟩ := h.2 (fun hz => f3 hz.2.1) (fun hz => f4 hz.2.1)
  refine ⟨_, e, ?_, ?_, ?_, ?_⟩
  · rw [set2_same]
    exact ⟨f1, f2, f3, f4⟩
  · rw [set2_same]
    exact (p1.1 f1 f3).1
  · rw [set2_same]
    exact (p2.1 f2 f4).1
  · intro i j hij
    unfold set2
    rw [if_neg (by omega)]

/-- Stage 2 when every channel of the `n` recovered cachelines has combination 1111: the
header bytes of cacheline `cl`, channel `chan` are the two bytes at bit
`16 n + 64 cl + 16 chan`. -/
theorem second_header_flat (n : Nat) (ci : ChanInfo) (s : State) (hwf : WF s) (hn : n ≤ 4)
    (hf : ∀ cl, cl < n → ∀ chan, chan < 4 → all_flags_set (ci cl chan)) :
    ∃ ci1, second_header n (ci, seek s (16 * n)) = .ok (ci1, seek s (16 * n + 64 * n)) ∧
      ∀ cl, cl < n → ∀ chan, chan < 4 → all_flags_set (ci1 cl chan) ∧
        (ci1 cl chan).left_base = stream_val s.inp (16 * n + 64 * cl + 16 * chan) 8 ∧
        (ci1 cl chan).right_base = stream_val s.inp (16 * n + 64 * cl + 16 * chan + 8) 8 := by
  have inner : ∀ cl ci0, cl < n →
      (∀ chan, chan < 4 → all_flags_set (ci0 cl chan)) →
      ∃ ci1, for_range 0 NUM_CHANNELS (second_header_chan cl)
          (ci0, seek s (16 * n + 64 * cl)) = .ok (ci1, seek s (16 * n + 64 * cl + 64)) ∧
        (∀ chan, chan < 4 → all_flags_set (ci1 cl chan) ∧
          (ci1 cl chan).left_base = stream_val s.inp (16 * n + 64 * cl + 16 * chan) 8 ∧
          (ci1 cl chan).right_base = stream_val s.inp (16 * n + 64 * cl + 16 * chan + 8) 8) ∧
        ∀ i j, i ≠ cl → ci1 i j = ci0 i j := by
    intro cl ci0 hcl hfl
    have h := loop_inv (second_header_chan cl)
      (fun j st => st.2 = seek s (16 * n + 64 * cl + 16 * j) ∧
        (∀ chan, chan < j → all_flags_set (st.1 cl chan) ∧
          (st.1 cl chan).left_base = stream_val s.inp (16 * n + 64 * cl + 16 * chan) 8 ∧
          (st.1 cl chan).right_base
            = stream_val s.inp (16 * n + 64 * cl + 16 * chan + 8) 8) ∧
        (∀ chan, j ≤ chan → chan < 4 → all_flags_set (st.1 cl chan)) ∧
        ∀ i k, i ≠ cl → st.1 i k = ci0 i k)
      4 0 (ci0, seek s (16 * n + 64 * cl))
      ⟨rfl, fun chan hc => by omega, fun chan _ hc => hfl chan hc, fun _ _ _ => rfl⟩ (by
        intro j st _ hj ⟨a1, a2, a3, a4⟩
        obtain ⟨cia, sa⟩ := st
        simp only at a1 a2 a3 a4
        subst a1
        obtain ⟨ci1, e, b1, b2, b3, b4⟩ := second_header_chan_flat cl j cia s
          (16 * n + 64 * cl + 16 * j) hwf (by omega) (a3 j (Nat.le_refl _) (by omega))
        refine ⟨(ci1, seek s (16 * n + 64 * cl + 16 * j + 16)), e, ?_, ?_, ?_, ?_⟩
        · show seek s (16 * n + 64 * cl + 16 * j + 16) = seek s (16 * n + 64 * cl + 16 * (j + 1))
          congr 1
        · intro chan hc
          by_cases e2 : chan = j
          · subst e2; exact ⟨b1, b2, b3⟩
          · dsimp only
            rw [b4 cl chan (Or.inr e2)]
            exact a2 chan (by omega)
        · intro chan h1 h2
          dsimp only
          rw [b4 cl chan (Or.inr (by omega))]
          exact a3 chan (by omega) h2
        · intro i k hi
          dsimp only
          rw [b4 i k (Or.inl hi)]
          exact a4 i k hi)
    obtain ⟨⟨ci1, s1⟩, e, a1, a2, _, a4⟩ := h
    simp only at a1 a2 a4
    subst a1
    refine ⟨ci1, ?_, a2, a4⟩
    unfold for_range
    rw [Nat.sub_zero]
    exact e
  have h := loop_inv (fun cl st1 => for_range 0 NUM_CHANNELS (second_header_chan cl) st1)
    (fun j st => st.2 = seek s (16 * n + 64 * j) ∧
      (∀ cl, cl < j → ∀ chan, chan < 4 → all_flags_set (st.1 cl chan) ∧
        (st.1 cl chan).left_base = stream_val s.inp (16 * n + 64 * cl + 16 * chan) 8 ∧
        (st.1 cl chan).right_base = stream_val s.inp (16 * n + 64 * cl + 16 * chan + 8) 8) ∧
      ∀ cl, j ≤ cl → cl < n → ∀ chan, chan < 4 → all_flags_set (st.1 cl chan))
    n 0 (ci, seek s (16 * n))
    ⟨rfl, fun cl hc => by omega, fun cl _ hc => hf cl hc⟩ (by
      intro j st _ hj ⟨a1, a2, a3⟩
      obtain ⟨cia, sa⟩ := st
      simp only at a1 a2 a3
      subst a1
      obtain ⟨ci1, e, b1, b2⟩ := inner j cia (by omega) (a3 j (Nat.le_refl _) (by omega))
      refine ⟨(ci1, seek s (16 * n + 64 * j + 64)), e, ?_, ?_, ?_⟩
      · show seek s (16 * n + 64 * j + 64) = seek s (16 * n + 64 * (j + 1))
        congr 1
      · intro cl hc chan hch
        by_cases e2 : cl = j
        · subst e2; exact b1 chan hch
        · dsimp only
          rw [b2 cl chan e2]
          exact a2 cl (by omega) chan hch
      · intro cl h1 h2 chan hch
        dsimp only
        rw [b2 cl chan (by omega)]
        exact a3 cl (by omega) h2 chan hch)
  obtain ⟨⟨ci1, s1⟩, e, a1, a2, _⟩ := h
  simp only [Nat.zero_add] at a1 a2
  subst a1
  refine ⟨ci1, ?_, a2⟩
  unfold second_header for_range
  rw [Nat.sub_zero]
  exact e

end DecodeAmd

/-- A loop whose every iteration keeps a relation to the entry state keeps it. -/
theorem loop_frame {σ : Type} (body : Nat → σ → Except Fault σ) (R : σ → σ → Prop)
    (hrefl : ∀ a, R a a) (htrans : ∀ a b c, R a b → R b c → R a c)
    (hbody : ∀ j a b, body j a = .ok b → R a b) (n lo : Nat) (st st1 : σ)
    (h : loop body lo n st = .ok st1) : R st st1 :=
  loop_ok_inv body (fun _ a => R st a) n lo st st1 h (hrefl st)
    (fun j a b _ _ hI hb => htrans _ _ _ hI (hbody j a b hb))

/-- The relation "same output buffer, same pixel index, same input". -/
theorem same_out_trans (a b c : State)
    (h1 : b.out = a.out ∧ b.out_idx = a.out_idx ∧ b.inp = a.inp)
    (h2 : c.out = b.out ∧ c.out_idx = b.out_idx ∧ c.inp = b.inp) :
    c.out = a.out ∧ c.out_idx = a.out_idx ∧ c.inp = a.inp :=
  ⟨h2.1.trans h1.1, h2.2.1.trans h1.2.1, h2.2.2.trans h1.2.2⟩

namespace DecodeAmd

theorem read_presence_frame (cl chan : Nat) (st st1 : ChanInfo × State)
    (h : read_presence cl chan st = .ok st1) :
    st1.2.out = st.2.out ∧ st1.2.out_idx = st.2.out_idx ∧ st1.2.inp = st.2.inp := by
  unfold read_presence at h
  obtain ⟨p, h1, h2⟩ := bind_eq_ok _ _ _ h
  obtain ⟨v, s1⟩ := p
  obtain ⟨p2, h3, h4⟩ := bind_eq_ok _ _ _ h2
  obtain ⟨v2, s2⟩ := p2
  cases h4
  exact same_out_trans _ _ _ (read_bits_frame _ _ _ _ h1) (read_bits_frame _ _ _ _ h3)

theorem read_constant_frame (cl chan : Nat) (st st1 : ChanInfo × State)
    (h : read_constant cl chan st = .ok st1) :
    st1.2.out = st.2.out ∧ st1.2.out_idx = st.2.out_idx ∧ st1.2.inp = st.2.inp := by
  unfold read_constant at h
  obtain ⟨p, h1, h2⟩ := bind_eq_ok _ _ _ h
  obtain ⟨v, s1⟩ := p
  obtain ⟨p2, h3, h4⟩ := bind_eq_ok _ _ _ h2
  obtain ⟨v2, s2⟩ := p2
  cases h4
  exact same_out_trans _ _ _ (read_bits_frame _ _ _ _ h1) (read_bits_frame _ _ _ _ h3)

theorem first_header_frame (n : Nat) (st st1 : ChanInfo × State)
    (h : first_header n st = .ok st1) :
    st1.2.out = st.2.out ∧ st1.2.out_idx = st.2.out_idx ∧ st1.2.inp = st.2.inp := by
  unfold first_header for_range at h
  refine loop_frame first_header_cl
    (fun a b => b.2.out = a.2.out ∧ b.2.out_idx = a.2.out_idx ∧ b.2.inp = a.2.inp)
    (fun _ => ⟨rfl, rfl, rfl⟩) (fun a b c h1 h2 => same_out_trans _ _ _ h1 h2) ?_ _ _ _ _ h
  intro cl a b hb
  unfold first_header_cl for_range at hb
  obtain ⟨m, h1, h2⟩ := bind_eq_ok _ _ _ hb
  have f1 := loop_frame (read_presence cl)
    (fun a b => b.2.out = a.2.out ∧ b.2.out_idx = a.2.out_idx ∧ b.2.inp = a.2.inp)
    (fun _ => ⟨rfl, rfl, rfl⟩) (fun a b c h1 h2 => same_out_trans _ _ _ h1 h2)
    (fun j x y hxy => read_presence_frame cl j x y hxy) _ _ _ _ h1
  have f2 := loop_frame (read_constant cl)
    (fun a b => b.2.out = a.2.out ∧ b.2.out_idx = a.2.out_idx ∧ b.2.inp = a.2.inp)
    (fun _ => ⟨rfl, rfl, rfl⟩) (fun a b c h1 h2 => same_out_trans _ _ _ h1 h2)
    (fun j x y hxy => read_constant_frame cl j x y hxy) _ _ _ _ h2
  exact same_out_trans _ _ _ f1 f2

theorem second_header_left_frame (cl chan : Nat) (st st1 : ChanInfo × State)
    (h : second_header_left cl chan st = .ok st1) :
    st1.2.out = st.2.out ∧ st1.2.out_idx = st.2.out_idx ∧ st1.2.inp = st.2.inp := by
  obtain ⟨ci0, s0⟩ := st
  unfold second_header_left at h
  dsimp only at h ⊢
  split_ifs at h with hp hc
  · obtain ⟨p, h1, h2⟩ := bind_eq_ok _ _ _ h
    obtain ⟨v, s1⟩ := p
    cases h2
    exact read_bits_frame _ _ _ _ h1
  · obtain ⟨p, h1, h2⟩ := bind_eq_ok _ _ _ h
    obtain ⟨v, s1⟩ := p
    dsimp only at h2
    split_ifs at h2
    cases h2
    exact read_bits_frame _ _ _ _ h1
  · cases h
    exact ⟨rfl, rfl, rfl⟩
  · cases h
    exact ⟨rfl, rfl, rfl⟩

theorem second_header_right_frame (cl chan : Nat) (st st1 : ChanInfo × State)
    (h : second_header_right cl chan st = .ok st1) :
    st1.2.out = st.2.out ∧ st1.2.out_idx = st.2.out_idx ∧ st1.2.inp = st.2.inp := by
  obtain ⟨ci0, s0⟩ := st
  unfold second_header_right at h
  dsimp only at h ⊢
  split_ifs at h with hp hc
  · obtain ⟨p, h1, h2⟩ := bind_eq_ok _ _ _ h
    obtain ⟨v, s1⟩ := p
    cases h2
    exact read_bits_frame _ _ _ _ h1
  · obtain ⟨p, h1, h2⟩ := bind_eq_ok _ _ _ h
    obtain ⟨v, s1⟩ := p
    dsimp only at h2
    split_ifs at h2
    cases h2
    exact read_bits_frame _ _ _ _ h1
  · cases h
    exact ⟨rfl, rfl, rfl⟩
  · cases h
    exact ⟨rfl, rfl, rfl⟩

theorem second_header_frame (n : Nat) (st st1 : ChanInfo × State)
    (h : second_header n st = .ok st1) :
    st1.2.out = st.2.out ∧ st1.2.out_idx = st.2.out_idx ∧ st1.2.inp = st.2.inp := by
  unfold second_header for_range at h
  refine loop_frame _
    (fun a b => b.2.out = a.2.out ∧ b.2.out_idx = a.2.out_idx ∧ b.2.inp = a.2.inp)
    (fun _ => ⟨rfl, rfl, rfl⟩) (fun a b c h1 h2 => same_out_trans _ _ _ h1 h2) ?_ _ _ _ _ h
  intro cl a b hb
  refine loop_frame (second_header_chan cl)
    (fun a b => b.2.out = a.2.out ∧ b.2.out_idx = a.2.out_idx ∧ b.2.inp = a.2.inp)
    (fun _ => ⟨rfl, rfl, rfl⟩) (fun a b c h1 h2 => same_out_trans _ _ _ h1 h2) ?_ _ _ _ _ hb
  intro chan x y hxy
  unfold second_header_chan at hxy
  obtain ⟨m, h1, h2⟩ := bind_eq_ok _ _ _ hxy
  exact same_out_trans _ _ _ (second_header_left_frame _ _ _ _ h1)
    (second_header_right_frame _ _ _ _ h2)

theorem decode_plan_frame (n : Nat) (s : State) (st1 : ChanInfo × State)
    (h : decode_plan n s = .ok st1) :
    st1.2.out = s.out ∧ st1.2.out_idx = s.out_idx ∧ st1.2.inp = s.inp := by
  unfold decode_plan at h
  obtain ⟨m, h1, h2⟩ := bind_eq_ok _ _ _ h
  obtain ⟨u, _, h4⟩ := bind_eq_ok _ _ _ h2
  exact same_out_trans _ _ _ (first_header_frame _ _ _ h1) (second_header_frame _ _ _ h4)

theorem mode_table_le (dcc n : Nat) (h : mode_table dcc = .ok n) : n ≤ 4 := by
  unfold mode_table at h
  split_ifs at h <;> cases h <;> decide

/-- The phases of a successful `decode_amd`. -/
theorem decode_amd_inv (s s1 : State) (dcc : Nat) (h : decode_amd s dcc = .ok s1) :
    ∃ n ci sp r1, mode_table dcc = .ok n ∧ decode_plan n s = .ok (ci, sp) ∧
      reconstruct n ci { upper_pixels := fun _ _ => 0, lower_pixels := fun _ _ => 0, s := sp }
        = .ok r1 ∧ s1 = r1.s := by
  unfold decode_amd at h
  obtain ⟨n, h1, h2⟩ := bind_eq_ok _ _ _ h
  obtain ⟨p, h3, h4⟩ := bind_eq_ok _ _ _ h2
  obtain ⟨ci, sp⟩ := p
  obtain ⟨r1, h5, h6⟩ := bind_eq_ok _ _ _ h4
  cases h6
  exact ⟨n, ci, sp, r1, h1, h3, h5, rfl⟩

end DecodeAmd

theorem eq_ok_value_or {α : Type} (x : Except Fault α) (d : α) (h : x.toBool = true) :
    x = .ok (value_or x d) := by
  cases x with
  | error e => cases h
  | ok a => rfl

theorem stream_val_aligned (inp : Nat → Nat) (b : Nat) (h : inp b < 256) :
    stream_val inp (8 * b) 8 = inp b := by
  have := stream_val_within inp b 8 0 (by omega)
  rw [Nat.add_zero] at this
  rw [this, pow_zero, Nat.div_one]
  exact Nat.mod_eq_of_lt h

theorem stream_bit_of_ff (inp : Nat → Nat) (k : Nat) (h : inp (k / 8) = 255) :
    stream_bit inp k = 1 := by
  unfold stream_bit
  rw [h]
  have hk : k % 8 < 8 := Nat.mod_lt _ (by decide)
  generalize k % 8 = m at hk
  interval_cases m <;> rfl

namespace DecodeAmd

theorem consistency_check_of_all (n : Nat) (ci : ChanInfo)
    (h : ∀ cl, cl < n → ∀ chan, chan < 4 → check_channel (ci cl chan) = .ok ()) :
    consistency_check n ci = .ok () := by
  unfold consistency_check for_range
  rw [loop_unit_ok (fun cl => loop (fun chan _ => check_channel (ci cl chan)) 0
    (NUM_CHANNELS - 0) ()) (n - 0) 0]
  intro cl _ hcl
  rw [loop_unit_ok (fun chan => check_channel (ci cl chan)) (NUM_CHANNELS - 0) 0]
  intro chan _ hch
  exact h cl (by simpa using hcl) chan (by simpa using hch)

theorem check_channel_flat (c : color_channel_info) (h : all_flags_set c) :
    check_channel c = .ok () := by
  unfold check_channel
  rw [if_pos h.1, if_pos h.2.1]

/-- The pixels of a flat cacheline in a successful reconstruction. -/
theorem flat_pixels (n : Nat) (ci : ChanInfo) (r0 r1 : Recon)
    (h : reconstruct n ci r0 = .ok r1) (h0 : r0.s.out_idx = 0) (hn : n ≤ 4)
    (k : Nat) (hk : k < n) (v : Nat → Nat)
    (hf : ∀ chan, chan < 4 → flat_channel (ci k chan) (v chan)) (j : Nat) (hj : j < 16) :
    pixel_at r1.s.out (16 * k + j) = ((v 1 + v 0) % 256, v 0, (v 2 + v 0) % 256, v 3) := by
  obtain ⟨_, _, _, hpix⟩ := reconstruct_inv n ci r0 r1 h h0 hn
  obtain ⟨rk, rm, _, _, e1, e2⟩ := hpix k hk
  obtain ⟨rm2, e3, _, e4⟩ := channel_loop_flat ci k v rk hf
  rw [e1] at e3
  cases e3
  rw [e2 j hj]
  exact quadrant_source_flat _ _ v e4 j hj

/-- The reconstruction of `n` cachelines that are all flat succeeds without reading. -/
theorem reconstruct_flat (n : Nat) (ci : ChanInfo) (r0 : Recon) (v : Nat → Nat → Nat)
    (h0 : r0.s.out_idx = 0) (hn : n ≤ 4)
    (hf : ∀ cl, cl < n → ∀ chan, chan < 4 → flat_channel (ci cl chan) (v cl chan)) :
    ∃ r1, reconstruct n ci r0 = .ok r1 ∧ r1.s.in_byte_idx = r0.s.in_byte_idx ∧
      r1.s.in_bit_idx = r0.s.in_bit_idx := by
  have h := loop_inv (reconstruct_cl ci)
    (fun j x => x.s.out_idx = 16 * j ∧ x.s.in_byte_idx = r0.s.in_byte_idx ∧
      x.s.in_bit_idx = r0.s.in_bit_idx)
    n 0 r0 ⟨by omega, rfl, rfl⟩ (by
      intro j x _ hj ⟨a1, a2, a3⟩
      obtain ⟨r1, e, b1, _, b3, b4⟩ := reconstruct_cl_flat ci j (v j) x (hf j (by omega))
        (by omega)
      exact ⟨r1, e, by omega, by omega, by omega⟩)
  obtain ⟨r1, e, _, a2, a3⟩ := h
  refine ⟨r1, ?_, a2, a3⟩
  unfold reconstruct for_range
  rw [Nat.sub_zero]
  exact e


/-- C9. Mode 0x28.  First, in every successful decode from pixel index 0: if in the plan
of cacheline `k` every channel is header-present and constant on both sides, with header
byte `v c` on both sides of channel `c`, then the 16 output pixels of that cacheline are
`(R, G, B, A) = ((v Cr + v G) mod 256, v G, (v Cb + v G) mod 256, v A)`.  Second, for
every payload whose first-header bytes 0..7 are `FF` and whose 32 header bytes carry
`v c` on both sides of channel `c` in all four cachelines, the decode succeeds after 320
bits and all 64 output pixels are that same pixel. -/
theorem constant_flat_decode :
    (∀ (s s1 : State), decode_amd s 0x28 = .ok s1 → s.out_idx = 0 →
      ∃ ci sp, decode_plan 4 s = .ok (ci, sp) ∧
        ∀ (k : Nat) (v : Nat → Nat), k < 4 →
          (∀ chan, chan < 4 → flat_channel (ci k chan) (v chan)) →
          ∀ j, j < 16 → pixel_at s1.out (16 * k + j)
            = ((v CHAN_CR + v CHAN_G) % 256, v CHAN_G, (v CHAN_CB + v CHAN_G) % 256,
                v CHAN_A)) ∧
    (∀ (inp v : Nat → Nat), (∀ i, i < 64 → inp i < 256) → (∀ i, i < 8 → inp i = 255) →
      (∀ cl, cl < 4 → ∀ chan, chan < 4 →
        inp (8 + 8 * cl + 2 * chan) = v chan ∧ inp (8 + 8 * cl + 2 * chan + 1) = v chan) →
      ∃ s1, decode_amd (start inp) 0x28 = .ok s1 ∧ bit_pos s1 = 320 ∧
        ∀ j, j < 64 → pixel_at s1.out j
          = ((v CHAN_CR + v CHAN_G) % 256, v CHAN_G, (v CHAN_CB + v CHAN_G) % 256,
              v CHAN_A)) := by
  constructor
  · intro s s1 h h0
    obtain ⟨n, ci, sp, r1, h1, h2, h3, h4⟩ := decode_amd_inv s s1 _ h
    have hn : n = 4 := by
      have : mode_table 0x28 = .ok 4 := rfl
      rw [this] at h1
      cases h1
      rfl
    subst hn
    subst h4
    refine ⟨ci, sp, h2, fun k v hk hf j hj => ?_⟩
    have hidx : sp.out_idx = s.out_idx := (decode_plan_frame 4 s (ci, sp) h2).2.1
    exact flat_pixels 4 ci _ r1 h3 (hidx.trans h0) (by decide) k hk v hf j hj
  · intro inp v hbytes hff hv
    have hwf : WF (start inp) := ⟨hbytes, Nat.zero_lt_succ _⟩
    have hs : seek (start inp) 0 = start inp := rfl
    obtain ⟨ci1, e1, f1⟩ := first_header_spec 4 (fun _ _ => ⟨0, 0, 0, 0, 0, 0, 0, 0⟩)
      (start inp) hwf (by decide)
    rw [hs] at e1
    have hflags : ∀ cl, cl < 4 → ∀ chan, chan < 4 → all_flags_set (ci1 cl chan) := by
      intro cl hcl chan hch
      obtain ⟨a1, a2, a3, a4⟩ := f1 cl hcl chan hch
      have b : ∀ k, k < 64 → stream_bit (start inp).inp k = 1 := fun k hk =>
        stream_bit_of_ff _ k (hff _ (by omega))
      rw [b _ (by omega)] at a1 a2 a3 a4
      exact ⟨by omega, by omega, by omega, by omega⟩
    have hcheck := consistency_check_of_all 4 ci1
      (fun cl hcl chan hch => check_channel_flat _ (hflags cl hcl chan hch))
    obtain ⟨ci2, e2, f2⟩ := second_header_flat 4 ci1 (start inp) hwf (by decide) hflags
    have hplan : decode_plan 4 (start inp) = .ok (ci2, seek (start inp) 320) := by
      unfold decode_plan
      rw [e1, bind_ok_eq]
      dsimp only
      rw [hcheck, bind_ok_eq]
      exact e2
    have hflat : ∀ cl, cl < 4 → ∀ chan, chan < 4 → flat_channel (ci2 cl chan) (v chan) := by
      intro cl hcl chan hch
      obtain ⟨a1, a2, a3⟩ := f2 cl hcl chan hch
      change (ci2 cl chan).left_base = stream_val inp _ 8 at a2
      change (ci2 cl chan).right_base = stream_val inp _ 8 at a3
      have p1 : 16 * 4 + 64 * cl + 16 * chan = 8 * (8 + 8 * cl + 2 * chan) := by omega
      have p2 : 16 * 4 + 64 * cl + 16 * chan + 8 = 8 * (8 + 8 * cl + 2 * chan + 1) := by omega
      rw [p1, stream_val_aligned _ _ (hbytes _ (by omega))] at a2
      rw [p2, stream_val_aligned _ _ (hbytes _ (by omega))] at a3
      exact ⟨a1.1, a1.2.1, a1.2.2.1, a1.2.2.2, a2.trans (hv cl hcl chan hch).1,
        a3.trans (hv cl hcl chan hch).2⟩
    obtain ⟨r1, e3, g1, g2⟩ := reconstruct_flat 4 ci2
      { upper_pixels := fun _ _ => 0, lower_pixels := fun _ _ => 0,
        s := seek (start inp) 320 } (fun cl chan => v chan) rfl (by decide) hflat
    refine ⟨r1.s, ?_, ?_, fun j hj => ?_⟩
    · unfold decode_amd
      have : mode_table 0x28 = .ok 4 := rfl
      rw [this, bind_ok_eq, hplan, bind_ok_eq]
      dsimp only
      rw [e3]
      rfl
    · unfold bit_pos
      rw [g1, g2]
      rfl
    · have := flat_pixels 4 ci2 _ r1 e3 rfl (by decide) (j / 16) (by omega) v
        (hflat (j / 16) (by omega)) (j % 16) (Nat.mod_lt _ (by decide))
      have e : 16 * (j / 16) + j % 16 = j := by omega
      rw [e] at this
      exact this

set_option maxRecDepth 1000000 in
/-- C9, on `flat_payload`, the scenario G = 10, Cr = 20, Cb = 30, A = 255: all 64
output pixels are R = 30, G = 10, B = 40, A = 255, by the theorem and by evaluation. -/
theorem constant_flat_decode_witness :
    ((∀ i, i < 64 → flat_payload i < 256) ∧ (∀ i, i < 8 → flat_payload i = 255) ∧
      (∀ cl, cl < 4 → ∀ chan, chan < 4 →
        flat_payload (8 + 8 * cl + 2 * chan) = bytes [10, 20, 30, 255] chan ∧
        flat_payload (8 + 8 * cl + 2 * chan + 1) = bytes [10, 20, 30, 255] chan)) ∧
    (decode_amd (start flat_payload) 0x28).toOption.map
        (fun s => (List.range 64).map (pixel_at s.out))
      = some (List.replicate 64 (30, 10, 40, 255)) ∧
    (∃ s1, decode_amd (start flat_payload) 0x28 = .ok s1 ∧ bit_pos s1 = 320 ∧
      ∀ j, j < 64 → pixel_at s1.out j = (30, 10, 40, 255)) :=
  ⟨⟨by decide, by decide, by decide⟩, by decide,
    constant_flat_decode.2 flat_payload (bytes [10, 20, 30, 255]) (by decide) (by decide)
      (by decide)⟩

/-- C10. In every successful decode from pixel index 0, for every recovered cacheline
`k`: its quadrant loops start at pixel `16 k`, and with `rm` the pixel arrays at the end
of its channel loop, output pixels `16k + 0..3` are upper positions 0..3, `16k + 4..7`
lower positions 0..3, `16k + 8..11` upper positions 4..7 and `16k + 12..15` lower
positions 4..7; pixel `i` is the four bytes `4i .. 4i + 3`, in the order R, G, B, A. -/
theorem quadrant_output_order (s s1 : State) (dcc : Nat) (h : decode_amd s dcc = .ok s1)
    (h0 : s.out_idx = 0) :
    ∃ n ci sp, mode_table dcc = .ok n ∧ decode_plan n s = .ok (ci, sp) ∧
      s1.out_idx = 16 * n ∧
      ∀ k, k < n → ∃ rk rm,
        reconstruct k ci { upper_pixels := fun _ _ => 0, lower_pixels := fun _ _ => 0, s := sp }
          = .ok rk ∧
        rk.s.out_idx = 16 * k ∧
        for_range 0 NUM_CHANNELS (channel_sides ci k) rk = .ok rm ∧
        ∀ p, p < 4 →
          (s1.out (4 * (16 * k + p)), s1.out (4 * (16 * k + p) + 1),
            s1.out (4 * (16 * k + p) + 2), s1.out (4 * (16 * k + p) + 3))
            = rgba_of (rm.upper_pixels p) ∧
          pixel_at s1.out (16 * k + p) = rgba_of (rm.upper_pixels p) ∧
          pixel_at s1.out (16 * k + 4 + p) = rgba_of (rm.lower_pixels p) ∧
          pixel_at s1.out (16 * k + 8 + p) = rgba_of (rm.upper_pixels (4 + p)) ∧
          pixel_at s1.out (16 * k + 12 + p) = rgba_of (rm.lower_pixels (4 + p)) := by
  obtain ⟨n, ci, sp, r1, h1, h2, h3, h4⟩ := decode_amd_inv s s1 _ h
  subst h4
  have hn := mode_table_le _ _ h1
  have hidx : sp.out_idx = s.out_idx := (decode_plan_frame n s (ci, sp) h2).2.1
  obtain ⟨a1, _, _, a4⟩ := reconstruct_inv n ci _ r1 h3 (hidx.trans h0) hn
  refine ⟨n, ci, sp, h1, h2, a1, fun k hk => ?_⟩
  obtain ⟨rk, rm, b1, b2, b3, b4⟩ := a4 k hk
  refine ⟨rk, rm, b1, b2, b3, fun p hp => ?_⟩
  have q0 := b4 p (by omega)
  have q1 := b4 (4 + p) (by omega)
  have q2 := b4 (8 + p) (by omega)
  have q3 := b4 (12 + p) (by omega)
  have s0 : quadrant_source rm.upper_pixels rm.lower_pixels p = rm.upper_pixels p := by
    unfold quadrant_source; rw [if_pos hp]
  have s1' : quadrant_source rm.upper_pixels rm.lower_pixels (4 + p) = rm.lower_pixels p := by
    unfold quadrant_source
    rw [if_neg (by omega), if_pos (by omega), show 4 + p - 4 = p by omega]
  have s2 : quadrant_source rm.upper_pixels rm.lower_pixels (8 + p)
      = rm.upper_pixels (4 + p) := by
    unfold quadrant_source
    rw [if_neg (by omega), if_neg (by omega), if_pos (by omega),
      show 8 + p - 4 = 4 + p by omega]
  have s3 : quadrant_source rm.upper_pixels rm.lower_pixels (12 + p)
      = rm.lower_pixels (4 + p) := by
    unfold quadrant_source
    rw [if_neg (by omega), if_neg (by omega), if_neg (by omega),
      show 12 + p - 8 = 4 + p by omega]
  rw [s0] at q0
  rw [s1'] at q1
  rw [s2] at q2
  rw [s3] at q3
  refine ⟨q0, q0, ?_, ?_, ?_⟩
  · rw [← q1, show 16 * k + 4 + p = 16 * k + (4 + p) by omega]
  · rw [← q2, show 16 * k + 8 + p = 16 * k + (8 + p) by omega]
  · rw [← q3, show 16 * k + 12 + p = 16 * k + (12 + p) by omega]


set_option maxRecDepth 1000000 in
/-- C10, on the mode-0x28 decode of `payload_0100`: the first cacheline's channel G has
upper pixels 170, 16, 15, 15, 1, 0, 0, 0 and lower pixels 49, 49, 14, 14, 0, 255, 0, 0,
and the output holds them quadrant by quadrant. -/
theorem quadrant_output_order_witness :
    (decode_amd (start payload_0100) 0x28 = .ok decoded_0100 ∧
      (start payload_0100).out_idx = 0) ∧
    (List.range 16).map (fun k => (pixel_at decoded_0100.out k).2.1)
      = [170, 16, 15, 15, 49, 49, 14, 14, 1, 0, 0, 0, 0, 255, 0, 0] ∧
    (∃ n ci sp, mode_table 0x28 = .ok n ∧ decode_plan n (start payload_0100) = .ok (ci, sp) ∧
      decoded_0100.out_idx = 16 * n ∧
      ∀ k, k < n → ∃ rk rm,
        reconstruct k ci { upper_pixels := fun _ _ => 0, lower_pixels := fun _ _ => 0, s := sp }
          = .ok rk ∧
        rk.s.out_idx = 16 * k ∧
        for_range 0 NUM_CHANNELS (channel_sides ci k) rk = .ok rm ∧
        ∀ p, p < 4 →
          (decoded_0100.out (4 * (16 * k + p)), decoded_0100.out (4 * (16 * k + p) + 1),
            decoded_0100.out (4 * (16 * k + p) + 2), decoded_0100.out (4 * (16 * k + p) + 3))
            = rgba_of (rm.upper_pixels p) ∧
          pixel_at decoded_0100.out (16 * k + p) = rgba_of (rm.upper_pixels p) ∧
          pixel_at decoded_0100.out (16 * k + 4 + p) = rgba_of (rm.lower_pixels p) ∧
          pixel_at decoded_0100.out (16 * k + 8 + p) = rgba_of (rm.upper_pixels (4 + p)) ∧
          pixel_at decoded_0100.out (16 * k + 12 + p) = rgba_of (rm.lower_pixels (4 + p))) :=
  ⟨⟨eq_ok_value_or _ _ (by decide), rfl⟩, by decide,
    quadrant_output_order (start payload_0100) decoded_0100 0x28
      (eq_ok_value_or _ _ (by decide)) rfl⟩

end DecodeAmd

/-! ## Vendor A: mode table and partial recovery -/

namespace DecodeAmd

/-- C11. The mode switch of `decode_amd` returns a cacheline count exactly for the codes
0x28 (4), 0xcc (3) and 0x66 (2).  For every other code the decode fails with the
unsupported-mode fault whatever the globals are: the switch comes first, so the fault
arises with no bit read and no pixel written, also on globals where every `read_bits`
and every `write_pixel` faults. -/
theorem amd_mode_table :
    (∀ dcc n, mode_table dcc = .ok n ↔
      (dcc = 0x28 ∧ n = 4) ∨ (dcc = 0xcc ∧ n = 3) ∨ (dcc = 0x66 ∧ n = 2)) ∧
    (∀ dcc, dcc ≠ 0x28 → dcc ≠ 0xcc → dcc ≠ 0x66 →
      mode_table dcc = .error .unsupported_mode ∧
      ∀ s, decode_amd s dcc = .error .unsupported_mode) ∧
    (∀ s : State, 64 ≤ s.in_byte_idx → ∀ n, read_bits s n ≠ .error .unsupported_mode ∧
      ∃ e, read_bits s n = .error e) ∧
    (∀ s : State, 64 ≤ s.out_idx → ∀ r g b a, write_pixel s r g b a = .error .output_full) ∧
    (∀ dcc, dcc = 0x28 ∨ dcc = 0xcc ∨ dcc = 0x66 →
      decode_amd exhausted dcc = .error .input_exhausted) := by
  refine ⟨?_, ?_, ?_, ?_, ?_⟩
  · intro dcc n
    unfold mode_table
    constructor
    · intro h
      split_ifs at h with h1 h2 h3
      · cases h; exact Or.inl ⟨h1, rfl⟩
      · cases h; exact Or.inr (Or.inl ⟨h2, rfl⟩)
      · cases h; exact Or.inr (Or.inr ⟨h3, rfl⟩)
    · rintro (⟨h1, h2⟩ | ⟨h1, h2⟩ | ⟨h1, h2⟩) <;> subst h1 <;> subst h2 <;> rfl
  · intro dcc h1 h2 h3
    have hm : mode_table dcc = .error .unsupported_mode := by
      unfold mode_table
      rw [if_neg h1, if_neg h2, if_neg h3]
    refine ⟨hm, fun s => ?_⟩
    unfold decode_amd
    rw [hm]
    rfl
  · intro s hs n
    unfold read_bits
    by_cases hn : n ≤ 8
    · rw [if_neg (by omega), if_pos (by omega)]
      exact ⟨(by intro h; cases h), _, rfl⟩
    · rw [if_pos hn]
      exact ⟨(by intro h; cases h), _, rfl⟩
  · intro s hs r g b a
    unfold write_pixel
    rw [if_pos (by omega)]
  · rintro dcc (h | h | h) <;> subst h <;> rfl

/-- C12. A successful `decode_amd` from pixel index 0 and an all-zero output buffer
writes exactly 64 pixels in mode 0x28; exactly 48 in mode 0xcc, where output bytes
192..255 stay zero; exactly 32 in mode 0x66, where output bytes 128..255 stay zero. -/
theorem amd_partial_recovery (s s1 : State) (dcc : Nat) (h : decode_amd s dcc = .ok s1)
    (h0 : s.out_idx = 0) (hz : ∀ i, s.out i = 0) :
    (dcc = 0x28 → s1.out_idx = 64) ∧
    (dcc = 0xcc → s1.out_idx = 48 ∧ ∀ i, 192 ≤ i → i < 256 → s1.out i = 0) ∧
    (dcc = 0x66 → s1.out_idx = 32 ∧ ∀ i, 128 ≤ i → i < 256 → s1.out i = 0) := by
  obtain ⟨n, ci, sp, r1, h1, h2, h3, h4⟩ := decode_amd_inv s s1 _ h
  subst h4
  have hn := mode_table_le _ _ h1
  obtain ⟨f1, f2, _⟩ := decode_plan_frame n s (ci, sp) h2
  have f1' : sp.out = s.out := f1
  have f2' : sp.out_idx = s.out_idx := f2
  obtain ⟨a1, _, a3, _⟩ := reconstruct_inv n ci _ r1 h3 (f2'.trans h0) hn
  have hout : ∀ i, 64 * n ≤ i → r1.s.out i = 0 := by
    intro i hi
    rw [a3 i hi]
    show sp.out i = 0
    rw [f1', hz]
  refine ⟨?_, ?_, ?_⟩
  · intro hd
    subst hd
    have : mode_table 0x28 = .ok 4 := rfl
    rw [this] at h1
    cases h1
    exact a1
  · intro hd
    subst hd
    have : mode_table 0xcc = .ok 3 := rfl
    rw [this] at h1
    cases h1
    exact ⟨a1, fun i hi _ => hout i (by omega)⟩
  · intro hd
    subst hd
    have : mode_table 0x66 = .ok 2 := rfl
    rw [this] at h1
    cases h1
    exact ⟨a1, fun i hi _ => hout i (by omega)⟩

set_option maxRecDepth 1000000 in
/-- C12, on the mode-0xcc decode of `flat_payload`: 48 pixels, the first `(9, 255, 19,
30)`, and 64 trailing zero bytes. -/
theorem amd_partial_recovery_witness :
    (decode_amd (start flat_payload) 0xcc = .ok decoded_flat_cc ∧
      (start flat_payload).out_idx = 0 ∧ ∀ i, (start flat_payload).out i = 0) ∧
    (decoded_flat_cc.out_idx = 48 ∧ pixel_at decoded_flat_cc.out 0 = (9, 255, 19, 30)) ∧
    ((0xcc = 0x28 → decoded_flat_cc.out_idx = 64) ∧
    (0xcc = 0xcc → decoded_flat_cc.out_idx = 48 ∧
      ∀ i, 192 ≤ i → i < 256 → decoded_flat_cc.out i = 0) ∧
    (0xcc = 0x66 → decoded_flat_cc.out_idx = 32 ∧
      ∀ i, 128 ≤ i → i < 256 → decoded_flat_cc.out i = 0)) :=
  ⟨⟨eq_ok_value_or _ _ (by decide), rfl, fun _ => rfl⟩, by decide,
    amd_partial_recovery (start flat_payload) decoded_flat_cc 0xcc
      (eq_ok_value_or _ _ (by decide)) rfl (fun _ => rfl)⟩

end DecodeAmd

/-! ## decode.c: runs of zero bits -/

theorem stream_val_eq_zero_iff (inp : Nat → Nat) (n : Nat) : ∀ q,
    stream_val inp q n = 0 ↔ ∀ i, i < n → stream_bit inp (q + i) = 0 := by
  induction n with
  | zero => intro q; simp [stream_val]
  | succ n ih =>
    intro q
    simp only [stream_val]
    constructor
    · intro h i hi
      have h1 : stream_bit inp q = 0 := by omega
      have h2 : stream_val inp (q + 1) n = 0 := by omega
      cases i with
      | zero => exact h1
      | succ i =>
        have := (ih (q + 1)).1 h2 i (by omega)
        have e : q + (i + 1) = q + 1 + i := by omega
        rw [e]
        exact this
    · intro h
      have h1 := h 0 (by omega)
      have h2 : stream_val inp (q + 1) n = 0 := (ih (q + 1)).2 (fun i hi => by
        have := h (i + 1) (by omega)
        have e : q + (i + 1) = q + 1 + i := by omega
        rw [e] at this
        exact this)
      rw [Nat.add_zero] at h1
      omega

/-- A read that succeeds had room: at most 8 bits, ending inside the buffer. -/
theorem DecodeAmd.read_bits_room (s s1 : State) (n v : Nat) (hwf : WF s)
    (h : DecodeAmd.read_bits s n = .ok (v, s1)) :
    n ≤ 8 ∧ bit_pos s < 512 ∧ bit_pos s + n ≤ 512 := by
  have hbit := hwf.2
  unfold DecodeAmd.read_bits at h
  dsimp only at h
  unfold bit_pos
  split_ifs at h with h1 h2 h3 h4 h5
  · omega
  · omega
  · have e1 : (s.in_byte_idx + 1) % 256 = s.in_byte_idx + 1 := by omega
    rw [e1] at h5
    omega

theorem Decode.read_bits_window (s : State) (q n : Nat) (hwf : WF s) (hn : n ≤ 8)
    (hlt : q < 512) (hroom : q + n ≤ 512) :
    Decode.read_bits (seek s q) n = .ok (stream_val s.inp q n, seek s (q + n)) := by
  rw [Decode.read_bits_eq_amd _ _ (WF_seek s q hwf).2]
  exact DecodeAmd.read_bits_seek s q n hwf hn hlt hroom

/-- A read of decode.c that succeeds: it had room, and its result is the window. -/
theorem Decode.read_bits_inv (s s1 : State) (n v : Nat) (hwf : WF s)
    (h : Decode.read_bits s n = .ok (v, s1)) :
    n ≤ 8 ∧ bit_pos s < 512 ∧ bit_pos s + n ≤ 512 ∧
    v = stream_val s.inp (bit_pos s) n ∧ s1 = seek s (bit_pos s + n) := by
  rw [Decode.read_bits_eq_amd _ _ hwf.2] at h
  obtain ⟨h1, h2, h3⟩ := DecodeAmd.read_bits_room s s1 n v hwf h
  rw [DecodeAmd.read_bits_eq s n hwf h1 h2 h3] at h
  cases h
  exact ⟨h1, h2, h3, rfl, rfl⟩

namespace Decode

theorem discard_chunks_fuel : ∀ (f1 f2 count : Nat) (s : State), count ≤ f1 → count ≤ f2 →
    discard_chunks f1 s count = discard_chunks f2 s count := by
  intro f1
  induction f1 with
  | zero =>
    intro f2 count s h1 _
    have : count = 0 := by omega
    subst this
    cases f2 <;> simp [discard_chunks]
  | succ f1 ih =>
    intro f2 count s h1 h2
    cases f2 with
    | zero =>
      have : count = 0 := by omega
      subst this
      simp [discard_chunks]
    | succ f2 =>
      simp only [discard_chunks]
      by_cases hc : count > 8
      · rw [if_pos hc, if_pos hc]
        cases hr : read_bits s 8 with
        | error e => rfl
        | ok p =>
          obtain ⟨bits, s1⟩ := p
          simp only
          by_cases hb : ¬ bits = 0
          · rw [if_pos hb, if_pos hb]
          · rw [if_neg hb, if_neg hb]
            exact ih f2 (count - 8) s1 (by omega) (by omega)
      · rw [if_neg hc, if_neg hc]

/-- Up to 8 bits: one read and the zero test. -/
theorem rdz_small (s : State) (n : Nat) (hn : n ≤ 8) :
    read_and_discard_zero_bits s n =
      (match read_bits s n with
       | .error e => .error e
       | .ok (bits, s1) => if ¬ bits = 0 then .error .nonzero_padding else .ok s1) := by
  unfold read_and_discard_zero_bits
  have : discard_chunks n s n = .ok (s, n) := by
    cases n with
    | zero => rfl
    | succ m =>
      simp only [discard_chunks]
      rw [if_neg (by omega)]
  rw [this]
  simp only [bind_ok_eq]
  cases read_bits s n with
  | error e => rfl
  | ok p => rfl

/-- More than 8 bits: one byte, the zero test, and the rest. -/
theorem rdz_large (s : State) (n : Nat) (hn : 8 < n) :
    read_and_discard_zero_bits s n =
      (match read_bits s 8 with
       | .error e => .error e
       | .ok (bits, s1) =>
         if ¬ bits = 0 then .error .nonzero_padding
         else read_and_discard_zero_bits s1 (n - 8)) := by
  unfold read_and_discard_zero_bits
  obtain ⟨m, rfl⟩ : ∃ m, n = m + 1 := ⟨n - 1, by omega⟩
  simp only [discard_chunks]
  rw [if_pos hn]
  cases hr : read_bits s 8 with
  | error e => rfl
  | ok p =>
    obtain ⟨bits, s1⟩ := p
    simp only
    by_cases hb : ¬ bits = 0
    · rw [if_pos hb, if_pos hb]
      rfl
    · rw [if_neg hb, if_neg hb, discard_chunks_fuel m (m + 1 - 8) (m + 1 - 8) s1 (by omega)
        (Nat.le_refl _)]

/-- The zero run at a cursor with room: success exactly when the `n` bits are zero. -/
theorem rdz_spec (s : State) (hwf : WF s) : ∀ (n q : Nat), q < 512 → q + n ≤ 512 →
    read_and_discard_zero_bits (seek s q) n =
      if stream_val s.inp q n = 0 then .ok (seek s (q + n)) else .error .nonzero_padding := by
  intro n
  induction n using Nat.strong_induction_on with
  | _ n ih =>
    intro q hq hroom
    by_cases hn : n ≤ 8
    · rw [rdz_small _ _ hn, read_bits_window s q n hwf hn hq hroom]
      simp only
      by_cases hz : stream_val s.inp q n = 0
      · rw [if_pos hz, if_neg (by simp [hz])]
      · rw [if_neg hz, if_pos hz]
    · rw [rdz_large _ _ (by omega), read_bits_window s q 8 hwf (by omega) hq (by omega)]
      simp only
      have hsplit := stream_val_add s.inp 8 (n - 8) q
      have e : 8 + (n - 8) = n := by omega
      rw [e] at hsplit
      by_cases hz : stream_val s.inp q 8 = 0
      · rw [if_neg (by simp [hz]), ih (n - 8) (by omega) (q + 8) (by omega) (by omega)]
        have e2 : q + 8 + (n - 8) = q + n := by omega
        rw [e2, hsplit, hz]
        by_cases hz2 : stream_val s.inp (q + 8) (n - 8) = 0
        · rw [if_pos hz2, if_pos (by rw [hz2]; rfl)]
        · rw [if_neg hz2, if_neg (by
            intro hh
            have : (2:Nat) ^ 8 * stream_val s.inp (q + 8) (n - 8) = 0 := by omega
            rcases Nat.mul_eq_zero.1 this with h1 | h1
            · simp at h1
            · exact hz2 h1)]
      · rw [if_pos hz, if_neg (by rw [hsplit]; omega)]

/-- A zero run that succeeds had room. -/
theorem rdz_room : ∀ (n : Nat) (s s1 : State), WF s →
    read_and_discard_zero_bits s n = .ok s1 → bit_pos s < 512 ∧ bit_pos s + n ≤ 512 := by
  intro n
  induction n using Nat.strong_induction_on with
  | _ n ih =>
    intro s s1 hwf h
    by_cases hn : n ≤ 8
    · rw [rdz_small _ _ hn] at h
      cases hr : read_bits s n with
      | error e => rw [hr] at h; cases h
      | ok p =>
        obtain ⟨bits, s2⟩ := p
        obtain ⟨_, h2, h3, _⟩ := read_bits_inv s s2 n bits hwf hr
        exact ⟨h2, h3⟩
    · rw [rdz_large _ _ (by omega)] at h
      cases hr : read_bits s 8 with
      | error e => rw [hr] at h; cases h
      | ok p =>
        obtain ⟨bits, s2⟩ := p
        obtain ⟨_, h2, h3, _, h5⟩ := read_bits_inv s s2 8 bits hwf hr
        rw [hr] at h
        simp only at h
        split_ifs at h
        subst h5
        obtain ⟨_, k2⟩ := ih (n - 8) (by omega) _ s1 (WF_seek s _ hwf) h
        rw [bit_pos_seek] at k2
        exact ⟨h2, by omega⟩

end Decode

/-- C20. For every count `n` in 0..255 and every cursor, `read_and_discard_zero_bits(n)`
fails if any of the next `n` stream bits is 1; if it succeeds then all `n` bits were 0 and
the cursor has advanced by exactly `n`, nothing else changing.  When the `n` bits lie
inside the buffer the call succeeds exactly when they are all zero, and a set bit makes
it fail with the nonzero-padding fault, whatever the number of chunks. -/
theorem Decode.expect_zero_bits (s : State) (n : Nat)
    (hbytes : ∀ i, i < 64 → s.inp i < 256) (hbit : s.in_bit_idx < 8) (hn : n ≤ 255) :
    (∀ s1, Decode.read_and_discard_zero_bits s n = .ok s1 →
      (∀ i, i < n → stream_bit s.inp (bit_pos s + i) = 0) ∧
      bit_pos s1 = bit_pos s + n ∧ s1 = seek s (bit_pos s + n)) ∧
    ((∃ i, i < n ∧ stream_bit s.inp (bit_pos s + i) = 1) →
      ∃ e, Decode.read_and_discard_zero_bits s n = .error e) ∧
    (bit_pos s < 512 → bit_pos s + n ≤ 512 →
      ((∀ i, i < n → stream_bit s.inp (bit_pos s + i) = 0) →
        Decode.read_and_discard_zero_bits s n = .ok (seek s (bit_pos s + n))) ∧
      ((∃ i, i < n ∧ stream_bit s.inp (bit_pos s + i) = 1) →
        Decode.read_and_discard_zero_bits s n = .error .nonzero_padding)) := by
  have _ := hn
  have hwf : WF s := ⟨hbytes, hbit⟩
  have hself := seek_self s hbit
  have spec : bit_pos s < 512 → bit_pos s + n ≤ 512 →
      Decode.read_and_discard_zero_bits s n =
        if stream_val s.inp (bit_pos s) n = 0 then .ok (seek s (bit_pos s + n))
        else .error .nonzero_padding := by
    intro h1 h2
    have := Decode.rdz_spec s hwf n (bit_pos s) h1 h2
    rw [hself] at this
    exact this
  have inv : ∀ s1, Decode.read_and_discard_zero_bits s n = .ok s1 →
      (∀ i, i < n → stream_bit s.inp (bit_pos s + i) = 0) ∧
      bit_pos s1 = bit_pos s + n ∧ s1 = seek s (bit_pos s + n) := by
    intro s1 h
    obtain ⟨h1, h2⟩ := Decode.rdz_room n s s1 hwf h
    rw [spec h1 h2] at h
    split_ifs at h with hz
    cases h
    exact ⟨(stream_val_eq_zero_iff s.inp n (bit_pos s)).1 hz, bit_pos_seek s _, rfl⟩
  refine ⟨inv, ?_, ?_⟩
  · rintro ⟨i, hi, hset⟩
    cases hr : Decode.read_and_discard_zero_bits s n with
    | error e => exact ⟨e, rfl⟩
    | ok s1 =>
      have := (inv s1 hr).1 i hi
      omega
  · intro h1 h2
    rw [spec h1 h2]
    constructor
    · intro hz
      rw [if_pos ((stream_val_eq_zero_iff s.inp n (bit_pos s)).2 hz)]
    · rintro ⟨i, hi, hset⟩
      rw [if_neg]
      intro hz
      have := (stream_val_eq_zero_iff s.inp n (bit_pos s)).1 hz i hi
      omega

/-- C20, at a cursor three bits into a buffer whose only set bit is stream bit 20: a run
of 17 bits (three chunks) succeeds and ends at bit 20, a run of 18 bits fails. -/
theorem Decode.expect_zero_bits_witness :
    ((∀ i, i < 64 → Decode.zero_run_cursor.inp i < 256) ∧
      Decode.zero_run_cursor.in_bit_idx < 8 ∧ 17 ≤ 255) ∧
    ((Decode.read_and_discard_zero_bits Decode.zero_run_cursor 17).toOption.map bit_pos
        = some 20 ∧
      (Decode.read_and_discard_zero_bits Decode.zero_run_cursor 18).toBool = false) ∧
    ((∀ s1, Decode.read_and_discard_zero_bits Decode.zero_run_cursor 17 = .ok s1 →
      (∀ i, i < 17 → stream_bit Decode.zero_run_cursor.inp
        (bit_pos Decode.zero_run_cursor + i) = 0) ∧
      bit_pos s1 = bit_pos Decode.zero_run_cursor + 17 ∧
      s1 = seek Decode.zero_run_cursor (bit_pos Decode.zero_run_cursor + 17)) ∧
    ((∃ i, i < 17 ∧ stream_bit Decode.zero_run_cursor.inp
        (bit_pos Decode.zero_run_cursor + i) = 1) →
      ∃ e, Decode.read_and_discard_zero_bits Decode.zero_run_cursor 17 = .error e) ∧
    (bit_pos Decode.zero_run_cursor < 512 → bit_pos Decode.zero_run_cursor + 17 ≤ 512 →
      ((∀ i, i < 17 → stream_bit Decode.zero_run_cursor.inp
          (bit_pos Decode.zero_run_cursor + i) = 0) →
        Decode.read_and_discard_zero_bits Decode.zero_run_cursor 17
          = .ok (seek Decode.zero_run_cursor (bit_pos Decode.zero_run_cursor + 17))) ∧
      ((∃ i, i < 17 ∧ stream_bit Decode.zero_run_cursor.inp
          (bit_pos Decode.zero_run_cursor + i) = 1) →
        Decode.read_and_discard_zero_bits Decode.zero_run_cursor 17
          = .error .nonzero_padding))) :=
  ⟨⟨by decide, by decide, by decide⟩, ⟨by decide, by decide⟩,
    Decode.expect_zero_bits Decode.zero_run_cursor 17 (by decide) (by decide) (by decide)⟩

/-! ## decode.c: the gen11 mode table and the extension flags -/

theorem fault_of_eq_some {α : Type} (x : Except Fault α) (e : Fault)
    (h : fault_of x = some e) : x = .error e := by
  cases x with
  | error e1 => simp only [fault_of, Option.some.injEq] at h; rw [h]
  | ok a => simp [fault_of] at h

theorem fault_of_eq_none {α : Type} (x : Except Fault α)
    (h : fault_of x = none) : ∃ a, x = .ok a := by
  cases x with
  | error e1 => simp [fault_of] at h
  | ok a => exact ⟨a, rfl⟩

namespace Decode

set_option maxRecDepth 1000000 in
theorem extension_flags_table : ∀ ext, ext < 256 →
    fault_of (extension_flags ext) = (if flag_count ext = 4 then none else some .uniform_count) ∧
    (extension_flags ext).toOption.map (fun f => (List.range 8).map f) =
      (if flag_count ext = 4 then some ((List.range 8).map (fun k => ext / 2 ^ k % 2))
       else none) := by
  decide


/-- The two reads at the head of `decode_11th_gen`, with room for them. -/
theorem gen11_head (s : State) (ccs : Int) (m : Nat × Nat × Nat) (hwf : WF s)
    (hroom : bit_pos s + 9 ≤ 512) (hm : mode_table ccs = .ok m) :
    decode_11th_gen s ccs =
      if stream_val s.inp (bit_pos s + 1) 8 ≠ 0 then
        if ¬ ccs = 6 then .error .extension_mode
        else decode_11th_gen_extension (seek s (bit_pos s + 9))
          (stream_val s.inp (bit_pos s) 1) (stream_val s.inp (bit_pos s + 1) 8)
      else decode_11th_gen_plain (seek s (bit_pos s + 9)) (stream_val s.inp (bit_pos s) 1)
        m.1 m.2.1 m.2.2 := by
  unfold decode_11th_gen
  rw [hm]
  obtain ⟨bpp, f1, f2⟩ := m
  have h1 := read_bits_window s (bit_pos s) 1 hwf (by omega) (by omega) (by omega)
  rw [seek_self s hwf.2] at h1
  have h2 := read_bits_window s (bit_pos s + 1) 8 hwf (by omega) (by omega) (by omega)
  simp only [bind_ok_eq, h1, h2]

/-- C13. The mode switch of `decode_11th_gen` yields a budget and the two recovered-half
flags exactly for the codes 1 (6 bits, both halves), 2 (12 bits, first half only),
6 (14 bits, both halves) and 8 (12 bits, second half only).  Every other code makes the
decode fail with the unsupported-mode fault whatever the globals are: the switch comes
first, so the fault arises with no bit read and no pixel written, also on globals where
every read and every write faults; on those globals the four accepted codes fault in
their first read instead, and on the all-zero payload they decode to the end. -/
theorem gen11_mode_table :
    (∀ ccs m, mode_table ccs = .ok m ↔
      (ccs = 1 ∧ m = (6, 1, 1)) ∨ (ccs = 2 ∧ m = (12, 1, 0)) ∨
      (ccs = 6 ∧ m = (14, 1, 1)) ∨ (ccs = 8 ∧ m = (12, 0, 1))) ∧
    (∀ ccs, ccs ≠ 1 → ccs ≠ 2 → ccs ≠ 6 → ccs ≠ 8 →
      mode_table ccs = .error .unsupported_mode ∧
      ∀ s, decode_11th_gen s ccs = .error .unsupported_mode) ∧
    (∀ s : State, 64 ≤ s.in_byte_idx → ∀ n, read_bits s n ≠ .error .unsupported_mode ∧
      ∃ e, read_bits s n = .error e) ∧
    (∀ s : State, 32 ≤ s.out_idx → ∀ r g b a,
      write_pixel s r g b a = .error .output_full ∧
      write_pixel_block_order s r g b a = .error .output_full) ∧
    (∀ ccs, ccs = 1 ∨ ccs = 2 ∨ ccs = 6 ∨ ccs = 8 →
      decode_11th_gen DecodeAmd.exhausted ccs = .error .input_exhausted ∧
      (decode_11th_gen (DecodeAmd.start zero_payload) ccs).toBool = true) := by
  refine ⟨?_, ?_, ?_, ?_, ?_⟩
  · intro ccs m
    unfold mode_table
    constructor
    · intro h
      split_ifs at h with h1 h2 h3 h4
      · cases h; exact Or.inl ⟨h1, rfl⟩
      · cases h; exact Or.inr (Or.inl ⟨h2, rfl⟩)
      · cases h; exact Or.inr (Or.inr (Or.inl ⟨h3, rfl⟩))
      · cases h; exact Or.inr (Or.inr (Or.inr ⟨h4, rfl⟩))
    · rintro (⟨h1, h2⟩ | ⟨h1, h2⟩ | ⟨h1, h2⟩ | ⟨h1, h2⟩) <;> subst h1 <;> subst h2 <;> rfl
  · intro ccs h1 h2 h3 h4
    have hm : mode_table ccs = .error .unsupported_mode := by
      unfold mode_table
      rw [if_neg h1, if_neg h2, if_neg h3, if_neg h4]
    refine ⟨hm, fun s => ?_⟩
    unfold decode_11th_gen
    rw [hm]
    rfl
  · intro s hs n
    unfold read_bits
    by_cases hn : n ≤ 8
    · rw [if_neg (by omega), if_pos (by omega)]
      exact ⟨(by intro h; cases h), _, rfl⟩
    · rw [if_pos hn]
      exact ⟨(by intro h; cases h), _, rfl⟩
  · intro s hs r g b a
    unfold write_pixel write_pixel_block_order
    rw [if_pos (by omega), if_pos (by omega)]
    exact ⟨rfl, rfl⟩
  · rintro ccs (h | h | h | h) <;> subst h <;> exact ⟨rfl, by decide⟩

/-- C19. In a supported mode, with the nine leading bits inside the buffer: when the
extension byte (the 8 bits after the `inter_pred` bit) is nonzero, a mode other than 6
fails with the extension-mode fault and mode 6 fails with the uniform-count fault unless
exactly four of the eight bits are set; with exactly four set, the flags are the bits of
the byte, lowest first, and the decode continues with the body of the extension decode
at bit 9.  When the extension byte is zero the decode is the plain one in every mode. -/
theorem gen11_extension_acceptance (s : State) (ccs : Int)
    (hbytes : ∀ i, i < 64 → s.inp i < 256) (hbit : s.in_bit_idx < 8)
    (hroom : bit_pos s + 9 ≤ 512)
    (hmode : ccs = 1 ∨ ccs = 2 ∨ ccs = 6 ∨ ccs = 8) :
    (stream_val s.inp (bit_pos s + 1) 8 ≠ 0 → ccs ≠ 6 →
      decode_11th_gen s ccs = .error .extension_mode) ∧
    (stream_val s.inp (bit_pos s + 1) 8 ≠ 0 → ccs = 6 →
      flag_count (stream_val s.inp (bit_pos s + 1) 8) ≠ 4 →
      decode_11th_gen s ccs = .error .uniform_count) ∧
    (stream_val s.inp (bit_pos s + 1) 8 ≠ 0 → ccs = 6 →
      flag_count (stream_val s.inp (bit_pos s + 1) 8) = 4 →
      ∃ flags, extension_flags (stream_val s.inp (bit_pos s + 1) 8) = .ok flags ∧
        (∀ sw, sw < 8 → flags sw = stream_bit s.inp (bit_pos s + 1 + sw)) ∧
        decode_11th_gen s ccs =
          extension_body (seek s (bit_pos s + 9)) (stream_bit s.inp (bit_pos s)) flags) ∧
    (stream_val s.inp (bit_pos s + 1) 8 = 0 →
      ∃ bpp first second, mode_table ccs = .ok (bpp, first, second) ∧
        decode_11th_gen s ccs =
          decode_11th_gen_plain (seek s (bit_pos s + 9)) (stream_bit s.inp (bit_pos s))
            bpp first second) := by
  have hwf : WF s := ⟨hbytes, hbit⟩
  obtain ⟨m, hm⟩ : ∃ m, mode_table ccs = .ok m := by
    rcases hmode with h | h | h | h <;> subst h <;> exact ⟨_, rfl⟩
  have hd := gen11_head s ccs m hwf hroom hm
  rw [stream_val_one] at hd
  have hlt := stream_val_lt s.inp 8 (bit_pos s + 1)
  obtain ⟨t1, t2⟩ := extension_flags_table _ hlt
  refine ⟨?_, ?_, ?_, ?_⟩
  · intro he hc
    rw [hd, if_pos he, if_pos hc]
  · intro he hc hf
    rw [hd, if_pos he, if_neg (by simp [hc])]
    rw [if_neg hf] at t1
    unfold decode_11th_gen_extension
    rw [fault_of_eq_some _ _ t1]
    rfl
  · intro he hc hf
    rw [if_pos hf] at t1 t2
    obtain ⟨flags, hfl⟩ := fault_of_eq_none _ t1
    refine ⟨flags, hfl, ?_, ?_⟩
    · intro sw hsw
      rw [hfl] at t2
      simp only [Except.toOption, Option.map_some', Option.some.injEq] at t2
      have := List.map_inj_left.1 t2 sw (List.mem_range.2 hsw)
      rw [this]
      exact stream_val_bit s.inp 8 (bit_pos s + 1) sw hsw
    · rw [hd, if_pos he, if_neg (by simp [hc])]
      unfold decode_11th_gen_extension
      rw [hfl]
      rfl
  · intro he
    obtain ⟨bpp, f1, f2⟩ := m
    refine ⟨bpp, f1, f2, hm, ?_⟩
    rw [hd, if_neg (by simp [he])]

end Decode

/-- C19, on the payload that starts with the byte 0x1e (`inter_pred` 0, extension byte
0x0f) in mode 6; the same payload fails in mode 1, and an extension byte with two set
bits fails in mode 6. -/
theorem Decode.gen11_extension_acceptance_witness :
    ((∀ i, i < 64 → Decode.four_flags.inp i < 256) ∧
      Decode.four_flags.in_bit_idx < 8 ∧
      bit_pos Decode.four_flags + 9 ≤ 512 ∧
      ((6 : Int) = 1 ∨ (6 : Int) = 2 ∨ (6 : Int) = 6 ∨ (6 : Int) = 8)) ∧
    (stream_val Decode.four_flags.inp (bit_pos Decode.four_flags + 1) 8 = 15 ∧
      flag_count 15 = 4 ∧
      fault_of (Decode.decode_11th_gen Decode.four_flags 1) = some .extension_mode ∧
      fault_of (Decode.decode_11th_gen Decode.two_flags 6) = some .uniform_count) ∧
    ((stream_val Decode.four_flags.inp (bit_pos Decode.four_flags + 1) 8 ≠ 0 → (6 : Int) ≠ 6 →
      Decode.decode_11th_gen Decode.four_flags (6 : Int) = .error .extension_mode) ∧
    (stream_val Decode.four_flags.inp (bit_pos Decode.four_flags + 1) 8 ≠ 0 → (6 : Int) = 6 →
      flag_count (stream_val Decode.four_flags.inp (bit_pos Decode.four_flags + 1) 8) ≠ 4 →
      Decode.decode_11th_gen Decode.four_flags (6 : Int) = .error .uniform_count) ∧
    (stream_val Decode.four_flags.inp (bit_pos Decode.four_flags + 1) 8 ≠ 0 → (6 : Int) = 6 →
      flag_count (stream_val Decode.four_flags.inp (bit_pos Decode.four_flags + 1) 8) = 4 →
      ∃ flags, Decode.extension_flags (stream_val Decode.four_flags.inp (bit_pos Decode.four_flags +
          1) 8) = .ok flags ∧
        (∀ sw, sw < 8 → flags sw = stream_bit Decode.four_flags.inp (bit_pos Decode.four_flags + 1 +
            sw)) ∧
        Decode.decode_11th_gen Decode.four_flags (6 : Int) =
          Decode.extension_body (seek Decode.four_flags (bit_pos Decode.four_flags + 9)) (stream_bit
              Decode.four_flags.inp (bit_pos Decode.four_flags)) flags) ∧
    (stream_val Decode.four_flags.inp (bit_pos Decode.four_flags + 1) 8 = 0 →
      ∃ bpp first second, Decode.mode_table (6 : Int) = .ok (bpp, first, second) ∧
        Decode.decode_11th_gen Decode.four_flags (6 : Int) =
          Decode.decode_11th_gen_plain (seek Decode.four_flags (bit_pos Decode.four_flags + 9))
              (stream_bit Decode.four_flags.inp (bit_pos Decode.four_flags))
            bpp first second)) :=
  ⟨⟨by decide, by decide, by decide, by decide⟩,
    ⟨by decide, by decide, by decide, by decide⟩,
    Decode.gen11_extension_acceptance Decode.four_flags 6 (by decide) (by decide) (by decide)
      (by decide)⟩

/-! ## decode.c: loops and pixel writes -/

/-- A loop whose body succeeds exactly under a condition on the index: the loop succeeds
exactly when the condition holds at every index, and then the invariant holds at the end. -/
theorem loop_char {σ : Type} (body : Nat → σ → Except Fault σ) (I : Nat → σ → Prop)
    (C : Nat → Prop) : ∀ (n lo : Nat) (st : σ), I lo st →
    (∀ j a, lo ≤ j → j < lo + n → I j a →
      (C j → ∃ b, body j a = .ok b ∧ I (j + 1) b) ∧ (¬ C j → ∃ e, body j a = .error e)) →
    ((∀ j, lo ≤ j → j < lo + n → C j) → ∃ st1, loop body lo n st = .ok st1 ∧ I (lo + n) st1) ∧
    (∀ st1, loop body lo n st = .ok st1 →
      (∀ j, lo ≤ j → j < lo + n → C j) ∧ I (lo + n) st1) := by
  intro n
  induction n with
  | zero =>
    intro lo st hI _
    refine ⟨fun _ => ⟨st, rfl, hI⟩, ?_⟩
    intro st1 h
    simp only [loop, Except.ok.injEq] at h
    subst h
    exact ⟨fun j h1 h2 => by omega, hI⟩
  | succ n ih =>
    intro lo st hI hstep
    obtain ⟨s1, s2⟩ := hstep lo st (Nat.le_refl _) (by omega) hI
    have e : lo + (n + 1) = lo + 1 + n := by omega
    constructor
    · intro hC
      obtain ⟨b, hb, hIb⟩ := s1 (hC lo (Nat.le_refl _) (by omega))
      obtain ⟨f, _⟩ := ih (lo + 1) b hIb (fun j a h1 h2 h3 => hstep j a (by omega) (by omega) h3)
      obtain ⟨st1, hl, hI1⟩ := f (fun j h1 h2 => hC j (by omega) (by omega))
      refine ⟨st1, ?_, ?_⟩
      · simp only [loop, hb]
        exact hl
      · rw [e]; exact hI1
    · intro st1 h
      simp only [loop] at h
      by_cases hc : C lo
      · obtain ⟨b, hb, hIb⟩ := s1 hc
        rw [hb] at h
        obtain ⟨_, g⟩ := ih (lo + 1) b hIb
          (fun j a h1 h2 h3 => hstep j a (by omega) (by omega) h3)
        obtain ⟨g1, g2⟩ := g st1 h
        refine ⟨?_, ?_⟩
        · intro j h1 h2
          by_cases ej : j = lo
          · rw [ej]; exact hc
          · exact g1 j (by omega) (by omega)
        · rw [e]; exact g2
      · obtain ⟨e1, he1⟩ := s2 hc
        rw [he1] at h
        cases h

namespace Decode

theorem read_bits_at (s : State) (n : Nat) (hwf : WF s) (hn : n ≤ 8)
    (hlt : bit_pos s < 512) (hroom : bit_pos s + n ≤ 512) :
    read_bits s n = .ok (stream_val s.inp (bit_pos s) n, seek s (bit_pos s + n)) := by
  have h := read_bits_window s (bit_pos s) n hwf hn hlt hroom
  rw [seek_self s hwf.2] at h
  exact h

theorem rdz_at (s : State) (n : Nat) (hwf : WF s)
    (hlt : bit_pos s < 512) (hroom : bit_pos s + n ≤ 512) :
    read_and_discard_zero_bits s n =
      if stream_val s.inp (bit_pos s) n = 0 then .ok (seek s (bit_pos s + n))
      else .error .nonzero_padding := by
  have h := rdz_spec s hwf n (bit_pos s) hlt hroom
  rw [seek_self s hwf.2] at h
  exact h

theorem block_order_inj : ∀ i, i < 32 → ∀ j, j < 32 → block_order i = block_order j → i = j := by
  decide

theorem block_order_lt : ∀ i, i < 32 → block_order i < 32 := by decide

theorem block_order_half : ∀ i, i < 32 → (block_order i < 16 ↔ i < 16) := by decide

theorem block_order_surj : ∀ j, j < 32 → ∃ i, i < 32 ∧ block_order i = j := by decide

theorem write_pixel_block_order_spec (s : State) (r g b a : Nat) (h : s.out_idx ≤ 31) :
    ∃ s1, write_pixel_block_order s r g b a = .ok s1 ∧ s1.out_idx = s.out_idx + 1 ∧
      s1.inp = s.inp ∧ s1.in_byte_idx = s.in_byte_idx ∧ s1.in_bit_idx = s.in_bit_idx ∧
      DecodeAmd.pixel_at s1.out (block_order s.out_idx) = (r, g, b, a) ∧
      (∀ k, k ≠ block_order s.out_idx → DecodeAmd.pixel_at s1.out k = DecodeAmd.pixel_at s.out k) ∧
      (∀ i, 128 ≤ i → s1.out i = s.out i) := by
  unfold write_pixel_block_order
  rw [if_neg (by omega)]
  have hb := block_order_lt s.out_idx (by omega)
  refine ⟨_, rfl, ?_, rfl, rfl, rfl, ?_, ?_, ?_⟩
  · show (s.out_idx + 1) % 256 = s.out_idx + 1
    omega
  · simp only [DecodeAmd.pixel_at, set1]
    have e1 : 4 * block_order s.out_idx = block_order s.out_idx * 4 := by omega
    rw [e1]
    simp
  · intro k hk
    simp only [DecodeAmd.pixel_at, set1]
    repeat rw [if_neg (by omega)]
  · intro i hi
    simp only [set1]
    repeat rw [if_neg (by omega)]

theorem write_pixel_slot (s : State) (r g b a : Nat) (h : s.out_idx ≤ 31) :
    ∃ s1, write_pixel s r g b a = .ok s1 ∧ s1.out_idx = s.out_idx + 1 ∧
      s1.inp = s.inp ∧ s1.in_byte_idx = s.in_byte_idx ∧ s1.in_bit_idx = s.in_bit_idx ∧
      DecodeAmd.pixel_at s1.out s.out_idx = (r, g, b, a) ∧
      (∀ k, k ≠ s.out_idx → DecodeAmd.pixel_at s1.out k = DecodeAmd.pixel_at s.out k) ∧
      (∀ i, 128 ≤ i → s1.out i = s.out i) := by
  unfold write_pixel
  rw [if_neg (by omega)]
  refine ⟨_, rfl, ?_, rfl, rfl, rfl, ?_, ?_, ?_⟩
  · show (s.out_idx + 1) % 256 = s.out_idx + 1
    omega
  · simp only [DecodeAmd.pixel_at, set1]
    have e1 : 4 * s.out_idx = s.out_idx * 4 := by omega
    rw [e1]
    simp
  · intro k hk
    simp only [DecodeAmd.pixel_at, set1]
    repeat rw [if_neg (by omega)]
  · intro i hi
    simp only [set1]
    repeat rw [if_neg (by omega)]

/-- The cursor facts a state shares with `s` advanced to bit `q`. -/
theorem WF_of_cursor (s st : State) (q : Nat) (hwf : WF s) (h1 : st.inp = s.inp)
    (h2 : st.in_byte_idx = q / 8) (h3 : st.in_bit_idx = q % 8) : WF st ∧ bit_pos st = q := by
  refine ⟨⟨?_, ?_⟩, ?_⟩
  · rw [h1]; exact hwf.1
  · rw [h3]; omega
  · unfold bit_pos; rw [h2, h3]; omega

end Decode

/-! ## decode.c: the gen8 decoder -/

namespace Decode

theorem gen8_width_eq (skip field : Nat) (hf : field < 8) :
    gen8_width skip field =
      if skip ≠ 0 ∧ field ≠ 0 then .error .skipped_width
      else .ok (gen8_spec_width skip field) := by
  unfold gen8_width gen8_spec_width
  by_cases hs : skip ≠ 0
  · rw [if_pos hs, if_pos hs]
    by_cases h0 : field = 0
    · rw [if_neg (by simp [h0]), if_neg (by simp [h0]), h0]
    · rw [if_pos h0, if_pos ⟨hs, h0⟩]
  · rw [if_neg hs, if_neg hs, if_neg (by tauto)]
    have : (field + 1) % 256 = field + 1 := by omega
    rw [this]

theorem gen8_spec_width_le (skip field : Nat) (hf : field < 8) :
    gen8_spec_width skip field ≤ 8 := by
  unfold gen8_spec_width
  split_ifs <;> omega

/-- The header of `decode_8th_gen` read from bit 0. -/
theorem gen8_read_header_spec (s : State) (hwf : WF s) :
    (gen8_header_ok s.inp →
      gen8_read_header (seek s 0) = .ok (gen8_spec_header s.inp, seek s 48)) ∧
    (¬ gen8_header_ok s.inp → ∃ e, gen8_read_header (seek s 0) = .error e) := by
  have r0 : read_bits (seek s 0) 1 = .ok (stream_bit s.inp 0, seek s 1) := by
    rw [← stream_val_one]; exact read_bits_window s 0 1 hwf (by omega) (by omega) (by omega)
  have r1 : read_bits (seek s 1) 1 = .ok (stream_bit s.inp 1, seek s 2) := by
    rw [← stream_val_one]; exact read_bits_window s 1 1 hwf (by omega) (by omega) (by omega)
  have r2 : read_bits (seek s 2) 1 = .ok (stream_bit s.inp 2, seek s 3) := by
    rw [← stream_val_one]; exact read_bits_window s 2 1 hwf (by omega) (by omega) (by omega)
  have r3 : read_bits (seek s 3) 1 = .ok (stream_bit s.inp 3, seek s 4) := by
    rw [← stream_val_one]; exact read_bits_window s 3 1 hwf (by omega) (by omega) (by omega)
  have b0 : read_bits (seek s 4) 8 = .ok (stream_val s.inp 4 8, seek s 12) :=
    read_bits_window s 4 8 hwf (by omega) (by omega) (by omega)
  have b1 : read_bits (seek s 12) 8 = .ok (stream_val s.inp 12 8, seek s 20) :=
    read_bits_window s 12 8 hwf (by omega) (by omega) (by omega)
  have b2 : read_bits (seek s 20) 8 = .ok (stream_val s.inp 20 8, seek s 28) :=
    read_bits_window s 20 8 hwf (by omega) (by omega) (by omega)
  have b3 : read_bits (seek s 28) 8 = .ok (stream_val s.inp 28 8, seek s 36) :=
    read_bits_window s 28 8 hwf (by omega) (by omega) (by omega)
  have w0 : read_bits (seek s 36) 3 = .ok (stream_val s.inp 36 3, seek s 39) :=
    read_bits_window s 36 3 hwf (by omega) (by omega) (by omega)
  have w1 : read_bits (seek s 39) 3 = .ok (stream_val s.inp 39 3, seek s 42) :=
    read_bits_window s 39 3 hwf (by omega) (by omega) (by omega)
  have w2 : read_bits (seek s 42) 3 = .ok (stream_val s.inp 42 3, seek s 45) :=
    read_bits_window s 42 3 hwf (by omega) (by omega) (by omega)
  have w3 : read_bits (seek s 45) 3 = .ok (stream_val s.inp 45 3, seek s 48) :=
    read_bits_window s 45 3 hwf (by omega) (by omega) (by omega)
  have f0 := stream_val_lt s.inp 3 36
  have f1 := stream_val_lt s.inp 3 39
  have f2 := stream_val_lt s.inp 3 42
  have f3 := stream_val_lt s.inp 3 45
  have g0 := gen8_width_eq (stream_bit s.inp 0) _ f0
  have g1 := gen8_width_eq (stream_bit s.inp 1) _ f1
  have g2 := gen8_width_eq (stream_bit s.inp 2) _ f2
  have g3 := gen8_width_eq (stream_bit s.inp 3) _ f3
  have l0 := gen8_spec_width_le (stream_bit s.inp 0) _ f0
  have l1 := gen8_spec_width_le (stream_bit s.inp 1) _ f1
  have l2 := gen8_spec_width_le (stream_bit s.inp 2) _ f2
  have l3 := gen8_spec_width_le (stream_bit s.inp 3) _ f3
  unfold gen8_read_header
  simp only [r0, r1, r2, r3, b0, b1, b2, b3, w0, w1, w2, w3, bind_ok_eq, g0, g1, g2, g3]
  constructor
  · rintro ⟨h0, h1, h2, h3, h4⟩
    rw [if_neg (fun c => c.2 (h0 c.1))]
    simp only [bind_ok_eq]
    rw [if_neg (fun c => c.2 (h1 c.1))]
    simp only [bind_ok_eq]
    rw [if_neg (fun c => c.2 (h2 c.1))]
    simp only [bind_ok_eq]
    rw [if_neg (fun c => c.2 (h3 c.1))]
    simp only [bind_ok_eq]
    have h4' : gen8_spec_width (stream_bit s.inp 0) (stream_val s.inp 36 3)
      + gen8_spec_width (stream_bit s.inp 1) (stream_val s.inp 39 3)
      + gen8_spec_width (stream_bit s.inp 2) (stream_val s.inp 42 3)
      + gen8_spec_width (stream_bit s.inp 3) (stream_val s.inp 45 3) ≤ 14 := h4
    rw [if_neg (by omega)]
    have e : (14 - (gen8_spec_width (stream_bit s.inp 0) (stream_val s.inp 36 3)
      + gen8_spec_width (stream_bit s.inp 1) (stream_val s.inp 39 3)
      + gen8_spec_width (stream_bit s.inp 2) (stream_val s.inp 42 3)
      + gen8_spec_width (stream_bit s.inp 3) (stream_val s.inp 45 3))) % 256
      = 14 - (gen8_spec_width (stream_bit s.inp 0) (stream_val s.inp 36 3)
      + gen8_spec_width (stream_bit s.inp 1) (stream_val s.inp 39 3)
      + gen8_spec_width (stream_bit s.inp 2) (stream_val s.inp 42 3)
      + gen8_spec_width (stream_bit s.inp 3) (stream_val s.inp 45 3)) := by omega
    rw [e]
    simp only [pure_eq_ok, gen8_spec_header]
  · intro hno
    by_cases c0 : stream_bit s.inp 0 ≠ 0 ∧ stream_val s.inp 36 3 ≠ 0
    · rw [if_pos c0]; exact ⟨_, rfl⟩
    rw [if_neg c0]
    simp only [bind_ok_eq]
    by_cases c1 : stream_bit s.inp 1 ≠ 0 ∧ stream_val s.inp 39 3 ≠ 0
    · rw [if_pos c1]; exact ⟨_, rfl⟩
    rw [if_neg c1]
    simp only [bind_ok_eq]
    by_cases c2 : stream_bit s.inp 2 ≠ 0 ∧ stream_val s.inp 42 3 ≠ 0
    · rw [if_pos c2]; exact ⟨_, rfl⟩
    rw [if_neg c2]
    simp only [bind_ok_eq]
    by_cases c3 : stream_bit s.inp 3 ≠ 0 ∧ stream_val s.inp 45 3 ≠ 0
    · rw [if_pos c3]; exact ⟨_, rfl⟩
    rw [if_neg c3]
    simp only [bind_ok_eq]
    by_cases c4 : gen8_spec_width (stream_bit s.inp 0) (stream_val s.inp 36 3)
      + gen8_spec_width (stream_bit s.inp 1) (stream_val s.inp 39 3)
      + gen8_spec_width (stream_bit s.inp 2) (stream_val s.inp 42 3)
      + gen8_spec_width (stream_bit s.inp 3) (stream_val s.inp 45 3) ≤ 14
    · exfalso
      apply hno
      exact ⟨fun a => Decidable.byContradiction (fun b => c0 ⟨a, b⟩),
        fun a => Decidable.byContradiction (fun b => c1 ⟨a, b⟩),
        fun a => Decidable.byContradiction (fun b => c2 ⟨a, b⟩),
        fun a => Decidable.byContradiction (fun b => c3 ⟨a, b⟩), c4⟩
    · rw [if_pos c4]; exact ⟨_, rfl⟩


theorem gen8_spec_header_wf (inp : Nat → Nat) (h : gen8_header_ok inp) :
    gen8_wf (gen8_spec_header inp) := by
  obtain ⟨_, _, _, _, h4⟩ := h
  have f0 := stream_val_lt inp 3 36
  have f1 := stream_val_lt inp 3 39
  have f2 := stream_val_lt inp 3 42
  have f3 := stream_val_lt inp 3 45
  have l0 := gen8_spec_width_le (stream_bit inp 0) _ f0
  have l1 := gen8_spec_width_le (stream_bit inp 1) _ f1
  have l2 := gen8_spec_width_le (stream_bit inp 2) _ f2
  have l3 := gen8_spec_width_le (stream_bit inp 3) _ f3
  have w : ∀ skip field, skip ≠ 0 → gen8_spec_width skip field = 0 := by
    intro skip field hs
    unfold gen8_spec_width
    rw [if_pos hs]
  refine ⟨w _ _, w _ _, w _ _, w _ _, l0, l1, l2, l3, ?_⟩
  unfold gen8_delta_bits
  show _ + (14 - _) = 14
  have h4' : gen8_spec_width (stream_bit inp 0) (stream_val inp 36 3)
      + gen8_spec_width (stream_bit inp 1) (stream_val inp 39 3)
      + gen8_spec_width (stream_bit inp 2) (stream_val inp 42 3)
      + gen8_spec_width (stream_bit inp 3) (stream_val inp 45 3) ≤ 14 := h4
  show gen8_spec_width (stream_bit inp 0) (stream_val inp 36 3)
      + gen8_spec_width (stream_bit inp 1) (stream_val inp 39 3)
      + gen8_spec_width (stream_bit inp 2) (stream_val inp 42 3)
      + gen8_spec_width (stream_bit inp 3) (stream_val inp 45 3) + (14 - _) = 14
  omega

theorem gen8_channel_seek (s : State) (q skip base bits : Nat) (hwf : WF s)
    (hs : skip ≠ 0 → bits = 0) (hb : bits ≤ 8) (hq : q < 512) (hroom : q + bits ≤ 512) :
    gen8_channel (seek s q) skip base bits =
      .ok (spec_channel skip base (stream_val s.inp q bits), seek s (q + bits)) := by
  unfold gen8_channel spec_channel
  by_cases h0 : skip = 0
  · rw [if_pos h0, if_pos h0, read_bits_window s q bits hwf hb hq hroom]
    rfl
  · rw [if_neg h0, if_neg h0, hs h0]
    rfl

/-- One pixel of the gen8 loop, up to the write, at a cursor with room. -/
theorem gen8_reconstruct_seek (h : gen8_header) (s : State) (q : Nat) (hwf : WF s)
    (hh : gen8_wf h) (hroom : q + 14 < 512) :
    gen8_reconstruct h (seek s q) =
      if stream_val s.inp (q + gen8_delta_bits h) h.unused_bits = 0 then
        .ok (gen8_spec_pixel h s.inp q, seek s (q + 14))
      else .error .nonzero_padding := by
  obtain ⟨s0, s1, s2, s3, l0, l1, l2, l3, hsum⟩ := hh
  unfold gen8_delta_bits at hsum
  unfold gen8_reconstruct
  rw [gen8_channel_seek s q _ _ _ hwf s0 l0 (by omega) (by omega)]
  simp only [bind_ok_eq]
  rw [gen8_channel_seek s _ _ _ _ hwf s1 l1 (by omega) (by omega)]
  simp only [bind_ok_eq]
  rw [gen8_channel_seek s _ _ _ _ hwf s2 l2 (by omega) (by omega)]
  simp only [bind_ok_eq]
  rw [gen8_channel_seek s _ _ _ _ hwf s3 l3 (by omega) (by omega)]
  simp only [bind_ok_eq]
  rw [rdz_spec s hwf _ _ (by omega) (by omega)]
  have e : q + h.delta_r_bits + h.delta_g_bits + h.delta_b_bits + h.delta_a_bits
      + h.unused_bits = q + 14 := by omega
  have e2 : q + gen8_delta_bits h
      = q + h.delta_r_bits + h.delta_g_bits + h.delta_b_bits + h.delta_a_bits := by
    unfold gen8_delta_bits; omega
  rw [e, e2]
  split_ifs
  · rfl
  · rfl

/-- The pixel loop of `decode_8th_gen` from bit 48 and pixel index 0: it succeeds exactly
when the unused bits of all 32 pixels are zero, and pixel `k` is then in slot `k`. -/
theorem gen8_loop_char (h : gen8_header) (s : State) (hwf : WF s) (hh : gen8_wf h)
    (h0 : s.out_idx = 0) :
    ((∀ j, j < 32 → gen8_pad_zero h s.inp j) →
      ∃ st1, for_range 0 32 (gen8_pixel h) (seek s 48) = .ok st1 ∧
        st1.inp = s.inp ∧ st1.in_byte_idx = 62 ∧ st1.in_bit_idx = 0 ∧ st1.out_idx = 32 ∧
        (∀ k, k < 32 → DecodeAmd.pixel_at st1.out k = gen8_spec_pixel h s.inp (48 + 14 * k)) ∧
        ∀ i, 128 ≤ i → st1.out i = s.out i) ∧
    (∀ st1, for_range 0 32 (gen8_pixel h) (seek s 48) = .ok st1 →
      (∀ j, j < 32 → gen8_pad_zero h s.inp j) ∧
        st1.inp = s.inp ∧ st1.in_byte_idx = 62 ∧ st1.in_bit_idx = 0 ∧ st1.out_idx = 32 ∧
        (∀ k, k < 32 → DecodeAmd.pixel_at st1.out k = gen8_spec_pixel h s.inp (48 + 14 * k)) ∧
        ∀ i, 128 ≤ i → st1.out i = s.out i) := by
  have key := loop_char (gen8_pixel h)
    (fun j st => st.inp = s.inp ∧ st.in_byte_idx = (48 + 14 * j) / 8 ∧
      st.in_bit_idx = (48 + 14 * j) % 8 ∧ st.out_idx = j ∧
      (∀ k, k < j → DecodeAmd.pixel_at st.out k = gen8_spec_pixel h s.inp (48 + 14 * k)) ∧
      ∀ i, 128 ≤ i → st.out i = s.out i)
    (fun j => gen8_pad_zero h s.inp j) 32 0 (seek s 48)
    ⟨rfl, rfl, rfl, h0, fun k hk => by omega, fun i _ => rfl⟩
    (by
      intro j a _ hj ⟨a1, a2, a3, a4, a5, a6⟩
      obtain ⟨wa, pa⟩ := WF_of_cursor s a _ hwf a1 a2 a3
      have hrec := gen8_reconstruct_seek h a (48 + 14 * j) wa hh (by omega)
      rw [← pa, seek_self a wa.2, pa, a1] at hrec
      have hpix : gen8_pixel h j a = (gen8_reconstruct h a >>= fun r =>
          write_pixel r.2 r.1.1 r.1.2.1 r.1.2.2.1 r.1.2.2.2) := rfl
      rw [hpix, hrec]
      constructor
      · intro hc
        have hc' : stream_val s.inp (48 + 14 * j + gen8_delta_bits h) h.unused_bits = 0 := hc
        rw [if_pos hc']
        simp only [bind_ok_eq]
        obtain ⟨s1, b1, b2, b3, b4, b5, b6, b7, b8⟩ := write_pixel_slot (seek a (48 + 14 * j + 14))
          (gen8_spec_pixel h s.inp (48 + 14 * j)).1 (gen8_spec_pixel h s.inp (48 + 14 * j)).2.1
          (gen8_spec_pixel h s.inp (48 + 14 * j)).2.2.1
          (gen8_spec_pixel h s.inp (48 + 14 * j)).2.2.2
          (by show a.out_idx ≤ 31; omega)
        have o1 : (seek a (48 + 14 * j + 14)).out_idx = j := a4
        refine ⟨s1, b1, by rw [b3]; exact a1, ?_, ?_, by rw [b2, o1], ?_, ?_⟩
        · rw [b4]
          show (48 + 14 * j + 14) / 8 = (48 + 14 * (j + 1)) / 8
          rw [show 48 + 14 * (j + 1) = 48 + 14 * j + 14 by omega]
        · rw [b5]
          show (48 + 14 * j + 14) % 8 = (48 + 14 * (j + 1)) % 8
          rw [show 48 + 14 * (j + 1) = 48 + 14 * j + 14 by omega]
        · intro k hk
          by_cases ek : k = j
          · rw [ek]
            rw [o1] at b6
            rw [b6]
          · rw [b7 k (by rw [o1]; exact ek)]
            exact a5 k (by omega)
        · intro i hi
          rw [b8 i hi]
          exact a6 i hi
      · intro hc
        have hc' : ¬ stream_val s.inp (48 + 14 * j + gen8_delta_bits h) h.unused_bits = 0 := hc
        rw [if_neg hc']
        exact ⟨_, rfl⟩)
  obtain ⟨k1, k2⟩ := key
  constructor
  · intro hC
    obtain ⟨st1, e, c1, c2, c3, c4, c5, c6⟩ := k1 (fun j _ hj => hC j (by omega))
    exact ⟨st1, e, c1, c2, c3, c4, c5, c6⟩
  · intro st1 e
    obtain ⟨hC, c1, c2, c3, c4, c5, c6⟩ := k2 st1 e
    exact ⟨fun j hj => hC j (by omega) (by omega), c1, c2, c3, c4, c5, c6⟩


/-- The whole of `decode_8th_gen` from the initial globals: when it succeeds, when it
fails in the trailing 16 bits, and what it leaves. -/
theorem gen8_decode_char (s : State) (hwf : WF s) (hb : s.in_byte_idx = 0)
    (hbit : s.in_bit_idx = 0) (h0 : s.out_idx = 0) :
    (gen8_header_ok s.inp → (∀ j, j < 32 → gen8_pad_zero (gen8_spec_header s.inp) s.inp j) →
      stream_val s.inp 496 16 = 0 → ∃ s1, decode_8th_gen s = .ok s1 ∧ gen8_result s s1) ∧
    (gen8_header_ok s.inp → (∀ j, j < 32 → gen8_pad_zero (gen8_spec_header s.inp) s.inp j) →
      stream_val s.inp 496 16 ≠ 0 → decode_8th_gen s = .error .nonzero_padding) ∧
    (∀ s1, decode_8th_gen s = .ok s1 →
      gen8_header_ok s.inp ∧ (∀ j, j < 32 → gen8_pad_zero (gen8_spec_header s.inp) s.inp j) ∧
      stream_val s.inp 496 16 = 0 ∧ gen8_result s s1) := by
  have hs : seek s 0 = s := by
    have := seek_self s hwf.2
    have e : bit_pos s = 0 := by unfold bit_pos; omega
    rw [e] at this
    exact this
  obtain ⟨hd1, hd2⟩ := gen8_read_header_spec s hwf
  rw [hs] at hd1 hd2
  have hdec : ∀ h s1, gen8_read_header s = .ok (h, s1) →
      decode_8th_gen s = (for_range 0 32 (gen8_pixel h) s1 >>= fun s2 =>
        read_and_discard_zero_bits s2 16) := by
    intro h s1 e
    unfold decode_8th_gen
    rw [e]
    rfl
  -- the trailing 16 bits, after a loop that ended at bit 496
  have tail : ∀ st1 : State, st1.inp = s.inp → st1.in_byte_idx = 62 → st1.in_bit_idx = 0 →
      read_and_discard_zero_bits st1 16 =
        if stream_val s.inp 496 16 = 0 then .ok (seek st1 512) else .error .nonzero_padding := by
    intro st1 c1 c2 c3
    obtain ⟨w1, p1⟩ := WF_of_cursor s st1 496 hwf c1 (by rw [c2]) (by rw [c3])
    have := rdz_at st1 16 w1 (by omega) (by omega)
    rw [p1, c1] at this
    exact this
  have res : ∀ st1 : State, st1.inp = s.inp → st1.out_idx = 32 →
      (∀ k, k < 32 → DecodeAmd.pixel_at st1.out k
        = gen8_spec_pixel (gen8_spec_header s.inp) s.inp (48 + 14 * k)) →
      (∀ i, 128 ≤ i → st1.out i = s.out i) → gen8_result s (seek st1 512) :=
    fun st1 c1 c4 c5 c6 => ⟨c1, rfl, rfl, c4, c5, c6⟩
  refine ⟨?_, ?_, ?_⟩
  · intro hok hpad htail
    have hh := gen8_spec_header_wf s.inp hok
    obtain ⟨l1, _⟩ := gen8_loop_char _ s hwf hh h0
    obtain ⟨st1, e, c1, c2, c3, c4, c5, c6⟩ := l1 hpad
    rw [hdec _ _ (hd1 hok), e]
    simp only [bind_ok_eq]
    rw [tail st1 c1 c2 c3, if_pos htail]
    exact ⟨_, rfl, res st1 c1 c4 c5 c6⟩
  · intro hok hpad htail
    have hh := gen8_spec_header_wf s.inp hok
    obtain ⟨l1, _⟩ := gen8_loop_char _ s hwf hh h0
    obtain ⟨st1, e, c1, c2, c3, c4, c5, c6⟩ := l1 hpad
    rw [hdec _ _ (hd1 hok), e]
    simp only [bind_ok_eq]
    rw [tail st1 c1 c2 c3, if_neg htail]
  · intro s1 hs1
    by_cases hok : gen8_header_ok s.inp
    · have hh := gen8_spec_header_wf s.inp hok
      obtain ⟨_, l2⟩ := gen8_loop_char _ s hwf hh h0
      rw [hdec _ _ (hd1 hok)] at hs1
      obtain ⟨st1, e, e2⟩ := bind_eq_ok _ _ _ hs1
      obtain ⟨hpad, c1, c2, c3, c4, c5, c6⟩ := l2 st1 e
      rw [tail st1 c1 c2 c3] at e2
      split_ifs at e2 with htail
      cases e2
      exact ⟨hok, hpad, htail, res st1 c1 c4 c5 c6⟩
    · obtain ⟨e, he⟩ := hd2 hok
      unfold decode_8th_gen at hs1
      rw [he] at hs1
      cases hs1

end Decode

/-- C15. From the initial globals, on a payload whose four skip flags (bits 0..3) are
set, whose four 3-bit width fields (bits 36..47) are zero and whose bits 48..495 are zero:
if the final 16 bits are zero too, `decode_8th_gen` succeeds, consumes all 512 bits and
writes 32 pixels all equal to the bases `(base_r, base_g, base_b, base_a)` of bits 4..35;
if any of the final 16 bits is set, the decode fails, with the nonzero-padding fault. -/
theorem Decode.gen8_flat_scenario (s : State)
    (hbytes : ∀ i, i < 64 → s.inp i < 256) (hbyte : s.in_byte_idx = 0)
    (hbit : s.in_bit_idx = 0) (hout : s.out_idx = 0)
    (hskip : ∀ k, k < 4 → stream_bit s.inp k = 1)
    (hrest : ∀ k, 36 ≤ k → k < 496 → stream_bit s.inp k = 0) :
    ((∀ k, 496 ≤ k → k < 512 → stream_bit s.inp k = 0) →
      ∃ s1, Decode.decode_8th_gen s = .ok s1 ∧ s1.out_idx = 32 ∧ bit_pos s1 = 512 ∧
        ∀ k, k < 32 → DecodeAmd.pixel_at s1.out k =
          (stream_val s.inp 4 8, stream_val s.inp 12 8, stream_val s.inp 20 8,
            stream_val s.inp 28 8)) ∧
    ((∃ k, 496 ≤ k ∧ k < 512 ∧ stream_bit s.inp k = 1) →
      Decode.decode_8th_gen s = .error .nonzero_padding) := by
  have hwf : WF s := ⟨hbytes, by omega⟩
  have k0 := hskip 0 (by omega)
  have k1 := hskip 1 (by omega)
  have k2 := hskip 2 (by omega)
  have k3 := hskip 3 (by omega)
  have z : ∀ q n, 36 ≤ q → q + n ≤ 496 → stream_val s.inp q n = 0 := by
    intro q n h1 h2
    exact (stream_val_eq_zero_iff s.inp n q).2 (fun i hi => hrest _ (by omega) (by omega))
  have w : ∀ f, Decode.gen8_spec_width 1 f = 0 := fun f => rfl
  have hd : (Decode.gen8_spec_header s.inp).delta_r_bits = 0 ∧
      (Decode.gen8_spec_header s.inp).delta_g_bits = 0 ∧
      (Decode.gen8_spec_header s.inp).delta_b_bits = 0 ∧
      (Decode.gen8_spec_header s.inp).delta_a_bits = 0 ∧
      (Decode.gen8_spec_header s.inp).unused_bits = 14 := by
    simp only [Decode.gen8_spec_header, k0, k1, k2, k3, w]
    exact ⟨trivial, trivial, trivial, trivial, trivial⟩
  obtain ⟨d0, d1, d2, d3, d4⟩ := hd
  have hsk : (Decode.gen8_spec_header s.inp).skip_r = 1 ∧
      (Decode.gen8_spec_header s.inp).skip_g = 1 ∧
      (Decode.gen8_spec_header s.inp).skip_b = 1 ∧
      (Decode.gen8_spec_header s.inp).skip_a = 1 := ⟨k0, k1, k2, k3⟩
  have hok : Decode.gen8_header_ok s.inp :=
    ⟨fun _ => z 36 3 (by omega) (by omega), fun _ => z 39 3 (by omega) (by omega),
      fun _ => z 42 3 (by omega) (by omega), fun _ => z 45 3 (by omega) (by omega),
      by rw [d0, d1, d2, d3]; omega⟩
  have hpad : ∀ j, j < 32 → Decode.gen8_pad_zero (Decode.gen8_spec_header s.inp) s.inp j := by
    intro j hj
    unfold Decode.gen8_pad_zero Decode.gen8_delta_bits
    rw [d0, d1, d2, d3, d4]
    exact z _ _ (by omega) (by omega)
  have hpx : ∀ k, Decode.gen8_spec_pixel (Decode.gen8_spec_header s.inp) s.inp (48 + 14 * k) =
      (stream_val s.inp 4 8, stream_val s.inp 12 8, stream_val s.inp 20 8,
        stream_val s.inp 28 8) := by
    intro k
    unfold Decode.gen8_spec_pixel Decode.spec_channel
    rw [hsk.1, hsk.2.1, hsk.2.2.1, hsk.2.2.2]
    rfl
  obtain ⟨c1, c2, _⟩ := Decode.gen8_decode_char s hwf hbyte hbit hout
  constructor
  · intro htail
    have ht : stream_val s.inp 496 16 = 0 :=
      (stream_val_eq_zero_iff s.inp 16 496).2 (fun i hi => htail _ (by omega) (by omega))
    obtain ⟨s1, e, r1, r2, r3, r4, r5, _⟩ := c1 hok hpad ht
    refine ⟨s1, e, r4, ?_, ?_⟩
    · unfold bit_pos; rw [r2, r3]
    · intro k hk
      rw [r5 k hk, hpx]
  · rintro ⟨k, h1, h2, h3⟩
    apply c2 hok hpad
    intro ht
    have := (stream_val_eq_zero_iff s.inp 16 496).1 ht (k - 496) (by omega)
    rw [show 496 + (k - 496) = k by omega] at this
    omega

set_option maxRecDepth 1000000 in
/-- C15, on the payload `1f 20 30 40 00 ...`: bases R=1, G=2, B=3, A=4 give 32 pixels equal
to (1, 2, 3, 4); with the last bit of the buffer set the decode fails. -/
theorem Decode.gen8_flat_scenario_witness :
    ((∀ i, i < 64 → Decode.gen8_flat.inp i < 256) ∧ Decode.gen8_flat.in_byte_idx = 0 ∧
      Decode.gen8_flat.in_bit_idx = 0 ∧ Decode.gen8_flat.out_idx = 0 ∧
      (∀ k, k < 4 → stream_bit Decode.gen8_flat.inp k = 1) ∧
      (∀ k, 36 ≤ k → k < 496 → stream_bit Decode.gen8_flat.inp k = 0)) ∧
    ((Decode.decode_8th_gen Decode.gen8_flat).toBool = true ∧
      (∀ k, k < 32 → DecodeAmd.pixel_at Decode.gen8_flat_decoded.out k = (1, 2, 3, 4)) ∧
      fault_of (Decode.decode_8th_gen Decode.gen8_flat_dirty) = some .nonzero_padding) ∧
    (((∀ k, 496 ≤ k → k < 512 → stream_bit Decode.gen8_flat.inp k = 0) →
      ∃ s1, Decode.decode_8th_gen Decode.gen8_flat = .ok s1 ∧ s1.out_idx = 32 ∧
        bit_pos s1 = 512 ∧
        ∀ k, k < 32 → DecodeAmd.pixel_at s1.out k =
          (stream_val Decode.gen8_flat.inp 4 8, stream_val Decode.gen8_flat.inp 12 8,
            stream_val Decode.gen8_flat.inp 20 8, stream_val Decode.gen8_flat.inp 28 8)) ∧
    ((∃ k, 496 ≤ k ∧ k < 512 ∧ stream_bit Decode.gen8_flat.inp k = 1) →
      Decode.decode_8th_gen Decode.gen8_flat = .error .nonzero_padding)) :=
  ⟨⟨by decide, by decide, by decide, by decide, by decide, by decide⟩,
    ⟨by decide, by decide, by decide⟩,
    Decode.gen8_flat_scenario Decode.gen8_flat (by decide) (by decide) (by decide) (by decide)
      (by decide) (by decide)⟩

/-! ## decode.c: the plain gen11 decoder -/

/-- A failing index makes a loop fail, with a fault of the kind its body raises. -/
theorem loop_char_error {σ : Type} (body : Nat → σ → Except Fault σ) (I : Nat → σ → Prop)
    (C : Nat → Prop) (E : Fault → Prop) : ∀ (n lo : Nat) (st : σ), I lo st →
    (∀ j a, lo ≤ j → j < lo + n → I j a →
      (C j → ∃ b, body j a = .ok b ∧ I (j + 1) b) ∧
      (¬ C j → ∃ e, body j a = .error e ∧ E e)) →
    (∃ j, lo ≤ j ∧ j < lo + n ∧ ¬ C j) → ∃ e, loop body lo n st = .error e ∧ E e := by
  intro n
  induction n with
  | zero =>
    intro lo st _ _ ⟨j, h1, h2, _⟩
    omega
  | succ n ih =>
    intro lo st hI hstep ⟨j, h1, h2, h3⟩
    obtain ⟨s1, s2⟩ := hstep lo st (Nat.le_refl _) (by omega) hI
    by_cases hc : C lo
    · obtain ⟨b, hb, hIb⟩ := s1 hc
      have hj : j ≠ lo := fun e => h3 (e ▸ hc)
      obtain ⟨e, he, hE⟩ := ih (lo + 1) b hIb
        (fun j a h1 h2 h3 => hstep j a (by omega) (by omega) h3) ⟨j, by omega, by omega, h3⟩
      refine ⟨e, ?_, hE⟩
      simp only [loop, hb]
      exact he
    · obtain ⟨e, he, hE⟩ := s2 hc
      refine ⟨e, ?_, hE⟩
      simp only [loop, he]

namespace Decode

/-- The three width fields at bit `q`, their checks, and the derived alpha width. -/
theorem read_widths_spec (s : State) (q ip budget : Nat) (hwf : WF s) (hq : q + 12 ≤ 512)
    (hbud : budget ≤ 255) :
    (gen11_widths_ok s.inp q ip budget →
      read_widths (seek s q) ip budget =
        .ok (gen11_spec_widths s.inp q ip budget, seek s (q + 12))) ∧
    (¬ gen11_widths_ok s.inp q ip budget →
      ∃ e, read_widths (seek s q) ip budget = .error e ∧
        (e = .width_too_large ∨ e = .width_budget)) := by
  have r0 : read_bits (seek s q) 4 = .ok (stream_val s.inp q 4, seek s (q + 4)) :=
    read_bits_window s q 4 hwf (by omega) (by omega) (by omega)
  have r1 : read_bits (seek s (q + 4)) 4 = .ok (stream_val s.inp (q + 4) 4, seek s (q + 8)) :=
    read_bits_window s (q + 4) 4 hwf (by omega) (by omega) (by omega)
  have r2 : read_bits (seek s (q + 8)) 4 = .ok (stream_val s.inp (q + 8) 4, seek s (q + 12)) :=
    read_bits_window s (q + 8) 4 hwf (by omega) (by omega) (by omega)
  have key : ∀ r g b : Nat, spec_width_r s.inp q ip = r → spec_width_g s.inp q ip = g →
      spec_width_b s.inp q ip = b →
      read_widths (seek s q) ip budget =
        (if ¬ r ≤ 8 then .error .width_too_large
         else if ¬ g ≤ 8 then .error .width_too_large
         else if ¬ b ≤ 8 then .error .width_too_large
         else if ¬ r + g + b ≤ budget then .error .width_budget
         else
           if (budget - (r + g + b)) % 256 > 8 then
             .ok ({ delta_r_bits := r, delta_g_bits := g, delta_b_bits := b, delta_a_bits := 8,
                    unused_bits := ((budget - (r + g + b)) % 256 - 8) % 256 }, seek s (q + 12))
           else
             .ok ({ delta_r_bits := r, delta_g_bits := g, delta_b_bits := b,
                    delta_a_bits := (budget - (r + g + b)) % 256,
                    unused_bits := 0 }, seek s (q + 12))) := by
    intro r g b hr hg hb
    unfold read_widths
    unfold spec_width_r at hr
    unfold spec_width_g at hg
    unfold spec_width_b at hb
    by_cases hip : ip ≠ 0
    · rw [if_pos hip] at hr hg hb
      rw [if_pos hip]
      simp only [r0, r1, r2, bind_ok_eq, pure_eq_ok, hr, hg, hb]
    · rw [if_neg hip] at hr hg hb
      rw [if_neg hip]
      simp only [r0, r1, r2, bind_ok_eq, pure_eq_ok, hr, hg, hb]
  rw [key _ _ _ rfl rfl rfl]
  constructor
  · rintro ⟨h1, h2, h3, h4⟩
    unfold spec_width_sum at h4
    rw [if_neg (by omega), if_neg (by omega), if_neg (by omega), if_neg (by omega)]
    have e : (budget - (spec_width_r s.inp q ip + spec_width_g s.inp q ip
        + spec_width_b s.inp q ip)) % 256
        = budget - (spec_width_r s.inp q ip + spec_width_g s.inp q ip
        + spec_width_b s.inp q ip) := by omega
    rw [e]
    unfold gen11_spec_widths spec_width_sum
    by_cases ha : budget - (spec_width_r s.inp q ip + spec_width_g s.inp q ip
        + spec_width_b s.inp q ip) > 8
    · rw [if_pos ha]
      have e1 : min (budget - (spec_width_r s.inp q ip + spec_width_g s.inp q ip
        + spec_width_b s.inp q ip)) 8 = 8 := by omega
      have e2 : (budget - (spec_width_r s.inp q ip + spec_width_g s.inp q ip
        + spec_width_b s.inp q ip) - 8) % 256 = budget - (spec_width_r s.inp q ip
        + spec_width_g s.inp q ip + spec_width_b s.inp q ip) - 8 := by omega
      rw [e1, e2]
    · rw [if_neg ha]
      have e1 : min (budget - (spec_width_r s.inp q ip + spec_width_g s.inp q ip
        + spec_width_b s.inp q ip)) 8 = budget - (spec_width_r s.inp q ip
        + spec_width_g s.inp q ip + spec_width_b s.inp q ip) := by omega
      rw [e1, Nat.sub_self]
  · intro hno
    by_cases h1 : spec_width_r s.inp q ip ≤ 8
    · rw [if_neg (by omega)]
      by_cases h2 : spec_width_g s.inp q ip ≤ 8
      · rw [if_neg (by omega)]
        by_cases h3 : spec_width_b s.inp q ip ≤ 8
        · rw [if_neg (by omega)]
          by_cases h4 : spec_width_r s.inp q ip + spec_width_g s.inp q ip
              + spec_width_b s.inp q ip ≤ budget
          · exact absurd ⟨h1, h2, h3, h4⟩ hno
          · rw [if_pos h4]
            exact ⟨_, rfl, Or.inr rfl⟩
        · rw [if_pos h3]
          exact ⟨_, rfl, Or.inl rfl⟩
      · rw [if_pos h2]
        exact ⟨_, rfl, Or.inl rfl⟩
    · rw [if_pos h1]
      exact ⟨_, rfl, Or.inl rfl⟩

theorem gen11_spec_widths_wf (inp : Nat → Nat) (q ip budget : Nat)
    (h : gen11_widths_ok inp q ip budget) :
    gen11_wf (gen11_spec_widths inp q ip budget) budget := by
  obtain ⟨h1, h2, h3, h4⟩ := h
  unfold gen11_wf gen11_delta_bits gen11_spec_widths
  unfold spec_width_sum at h4 ⊢
  refine ⟨h1, h2, h3, ?_, ?_⟩
  · show min _ 8 ≤ 8
    omega
  · show spec_width_r inp q ip + spec_width_g inp q ip + spec_width_b inp q ip
      + min (budget - (spec_width_r inp q ip + spec_width_g inp q ip + spec_width_b inp q ip)) 8
      + (budget - (spec_width_r inp q ip + spec_width_g inp q ip + spec_width_b inp q ip)
        - min (budget - (spec_width_r inp q ip + spec_width_g inp q ip
          + spec_width_b inp q ip)) 8) = budget
    omega

/-- The four base bytes at bit `q`. -/
theorem read_bases_spec (s : State) (q ip : Nat) (hwf : WF s) (hq : q + 32 ≤ 512) :
    read_bases (seek s q) ip = .ok (gen11_spec_bases s.inp q ip, seek s (q + 32)) := by
  have r0 : read_bits (seek s q) 8 = .ok (stream_val s.inp q 8, seek s (q + 8)) :=
    read_bits_window s q 8 hwf (by omega) (by omega) (by omega)
  have r1 : read_bits (seek s (q + 8)) 8 = .ok (stream_val s.inp (q + 8) 8, seek s (q + 16)) :=
    read_bits_window s (q + 8) 8 hwf (by omega) (by omega) (by omega)
  have r2 : read_bits (seek s (q + 16)) 8 =
      .ok (stream_val s.inp (q + 16) 8, seek s (q + 24)) :=
    read_bits_window s (q + 16) 8 hwf (by omega) (by omega) (by omega)
  have r3 : read_bits (seek s (q + 24)) 8 =
      .ok (stream_val s.inp (q + 24) 8, seek s (q + 32)) :=
    read_bits_window s (q + 24) 8 hwf (by omega) (by omega) (by omega)
  unfold read_bases gen11_spec_bases
  by_cases hip : ip ≠ 0
  · simp only [if_pos hip, r0, r1, r2, r3, bind_ok_eq, pure_eq_ok]
  · simp only [if_neg hip, r0, r1, r2, r3, bind_ok_eq, pure_eq_ok]


/-- One recovered pixel of the gen11 loop, up to the write, at a cursor with room. -/
theorem gen11_reconstruct_seek (ip : Nat) (w : channel_widths) (bs : channel_bases)
    (s : State) (q bpp : Nat) (hwf : WF s) (hw : gen11_wf w bpp) (hroom : q + bpp < 512) :
    gen11_reconstruct ip w bs (seek s q) =
      if stream_val s.inp (q + gen11_delta_bits w) w.unused_bits = 0 then
        .ok (gen11_spec_pixel ip w bs s.inp q, seek s (q + bpp))
      else .error .nonzero_padding := by
  obtain ⟨l0, l1, l2, l3, hsum⟩ := hw
  unfold gen11_delta_bits at hsum ⊢
  unfold gen11_reconstruct gen11_spec_pixel
  by_cases hip : ip ≠ 0
  · rw [if_pos hip, if_pos hip]
    rw [read_bits_window s q _ hwf l2 (by omega) (by omega)]
    simp only [bind_ok_eq]
    rw [read_bits_window s _ _ hwf l0 (by omega) (by omega)]
    simp only [bind_ok_eq]
    rw [read_bits_window s _ _ hwf l1 (by omega) (by omega)]
    simp only [bind_ok_eq, pure_eq_ok]
    rw [read_bits_window s _ _ hwf l3 (by omega) (by omega)]
    simp only [bind_ok_eq]
    rw [rdz_spec s hwf _ _ (by omega) (by omega)]
    have e : q + w.delta_b_bits + w.delta_r_bits + w.delta_g_bits + w.delta_a_bits
        + w.unused_bits = q + bpp := by omega
    have e2 : q + (w.delta_r_bits + w.delta_g_bits + w.delta_b_bits + w.delta_a_bits)
        = q + w.delta_b_bits + w.delta_r_bits + w.delta_g_bits + w.delta_a_bits := by omega
    rw [e, e2]
    split_ifs
    · simp only [bind_ok_eq, pure_eq_ok, predicted_rgb, Nat.mod_add_mod]
    · rfl
  · rw [if_neg hip, if_neg hip]
    rw [read_bits_window s q _ hwf l0 (by omega) (by omega)]
    simp only [bind_ok_eq]
    rw [read_bits_window s _ _ hwf l1 (by omega) (by omega)]
    simp only [bind_ok_eq]
    rw [read_bits_window s _ _ hwf l2 (by omega) (by omega)]
    simp only [bind_ok_eq, pure_eq_ok]
    rw [read_bits_window s _ _ hwf l3 (by omega) (by omega)]
    simp only [bind_ok_eq]
    rw [rdz_spec s hwf _ _ (by omega) (by omega)]
    have e : q + w.delta_r_bits + w.delta_g_bits + w.delta_b_bits + w.delta_a_bits
        + w.unused_bits = q + bpp := by omega
    have e2 : q + (w.delta_r_bits + w.delta_g_bits + w.delta_b_bits + w.delta_a_bits)
        = q + w.delta_r_bits + w.delta_g_bits + w.delta_b_bits + w.delta_a_bits := by omega
    rw [e, e2]
    split_ifs
    · simp only [bind_ok_eq, pure_eq_ok, independent_rgb]
    · rfl


theorem recovered_before_succ (first second k : Nat) :
    gen11_recovered_before first second (k + 1) =
      gen11_recovered_before first second k
        + (if gen11_recovered first second k then 1 else 0) := by
  unfold gen11_recovered_before gen11_recovered
  by_cases h1 : first = 0 <;> by_cases h2 : second = 0 <;> by_cases hk : k < 16 <;>
    simp [h1, h2, hk] <;> omega

theorem recovered_before_le (first second k : Nat) :
    gen11_recovered_before first second k ≤ k := by
  unfold gen11_recovered_before
  split_ifs <;> omega

theorem gen11_pixel_pos_succ (bpp first second k : Nat) :
    gen11_pixel_pos bpp first second (k + 1) =
      gen11_pixel_pos bpp first second k
        + (if gen11_recovered first second k then bpp else 0) := by
  unfold gen11_pixel_pos
  rw [recovered_before_succ]
  split_ifs
  · rw [Nat.mul_add, Nat.mul_one, Nat.add_assoc]
  · rfl

theorem gen11_pixel_pos_le (bpp first second k : Nat) (hb : bpp ≤ 14) :
    gen11_pixel_pos bpp first second k ≤ 53 + 14 * k := by
  unfold gen11_pixel_pos
  have h1 := recovered_before_le first second k
  have h2 : bpp * gen11_recovered_before first second k ≤ 14 * k := Nat.mul_le_mul hb h1
  omega

/-- The pixel loop of `decode_11th_gen` from bit 53 and pixel index 0: it succeeds exactly
when the unused bits of every recovered pixel are zero, pixel `k` is then in slot
`block_order k`, and a recovered pixel with a set unused bit gives the nonzero-padding
fault. -/
theorem gen11_loop_char (ip : Nat) (w : channel_widths) (bs : channel_bases)
    (bpp first second : Nat) (s : State) (hwf : WF s) (hw : gen11_wf w bpp) (hb : bpp ≤ 14)
    (h0 : s.out_idx = 0) :
    ((∀ j, j < 32 → gen11_pad_zero w s.inp bpp first second j) →
      ∃ st1, for_range 0 32 (gen11_pixel ip w bs first second) (seek s 53) = .ok st1 ∧
        st1.inp = s.inp ∧ st1.in_byte_idx = gen11_pixel_pos bpp first second 32 / 8 ∧
        st1.in_bit_idx = gen11_pixel_pos bpp first second 32 % 8 ∧ st1.out_idx = 32 ∧
        (∀ k, k < 32 → DecodeAmd.pixel_at st1.out (block_order k)
          = gen11_expected ip w bs s.inp bpp first second k) ∧
        ∀ i, 128 ≤ i → st1.out i = s.out i) ∧
    (∀ st1, for_range 0 32 (gen11_pixel ip w bs first second) (seek s 53) = .ok st1 →
      (∀ j, j < 32 → gen11_pad_zero w s.inp bpp first second j) ∧
        st1.inp = s.inp ∧ st1.in_byte_idx = gen11_pixel_pos bpp first second 32 / 8 ∧
        st1.in_bit_idx = gen11_pixel_pos bpp first second 32 % 8 ∧ st1.out_idx = 32 ∧
        (∀ k, k < 32 → DecodeAmd.pixel_at st1.out (block_order k)
          = gen11_expected ip w bs s.inp bpp first second k) ∧
        ∀ i, 128 ≤ i → st1.out i = s.out i) ∧
    ((∃ j, j < 32 ∧ ¬ gen11_pad_zero w s.inp bpp first second j) →
      for_range 0 32 (gen11_pixel ip w bs first second) (seek s 53)
        = .error .nonzero_padding) := by
  have hstep : ∀ j a, 0 ≤ j → j < 0 + 32 →
      (a.inp = s.inp ∧ a.in_byte_idx = gen11_pixel_pos bpp first second j / 8 ∧
        a.in_bit_idx = gen11_pixel_pos bpp first second j % 8 ∧ a.out_idx = j ∧
        (∀ k, k < j → DecodeAmd.pixel_at a.out (block_order k)
          = gen11_expected ip w bs s.inp bpp first second k) ∧
        ∀ i, 128 ≤ i → a.out i = s.out i) →
      (gen11_pad_zero w s.inp bpp first second j →
        ∃ b, gen11_pixel ip w bs first second j a = .ok b ∧
          (b.inp = s.inp ∧ b.in_byte_idx = gen11_pixel_pos bpp first second (j + 1) / 8 ∧
            b.in_bit_idx = gen11_pixel_pos bpp first second (j + 1) % 8 ∧ b.out_idx = j + 1 ∧
            (∀ k, k < j + 1 → DecodeAmd.pixel_at b.out (block_order k)
              = gen11_expected ip w bs s.inp bpp first second k) ∧
            ∀ i, 128 ≤ i → b.out i = s.out i)) ∧
      (¬ gen11_pad_zero w s.inp bpp first second j →
        ∃ e, gen11_pixel ip w bs first second j a = .error e ∧ e = .nonzero_padding) := by
    intro j a _ hj ⟨a1, a2, a3, a4, a5, a6⟩
    have hj32 : j < 32 := by omega
    obtain ⟨wa, pa⟩ := WF_of_cursor s a _ hwf a1 a2 a3
    have hpos := gen11_pixel_pos_succ bpp first second j
    have hle := gen11_pixel_pos_le bpp first second j hb
    -- what a write at pixel index `j` establishes
    have after : ∀ (c : State) (px : Pixel), c.inp = s.inp → c.out = a.out → c.out_idx = j →
        c.in_byte_idx = gen11_pixel_pos bpp first second (j + 1) / 8 →
        c.in_bit_idx = gen11_pixel_pos bpp first second (j + 1) % 8 →
        px = gen11_expected ip w bs s.inp bpp first second j →
        ∃ b, write_pixel_block_order c px.1 px.2.1 px.2.2.1 px.2.2.2 = .ok b ∧
          (b.inp = s.inp ∧ b.in_byte_idx = gen11_pixel_pos bpp first second (j + 1) / 8 ∧
            b.in_bit_idx = gen11_pixel_pos bpp first second (j + 1) % 8 ∧ b.out_idx = j + 1 ∧
            (∀ k, k < j + 1 → DecodeAmd.pixel_at b.out (block_order k)
              = gen11_expected ip w bs s.inp bpp first second k) ∧
            ∀ i, 128 ≤ i → b.out i = s.out i) := by
      intro c px c1 c2 c3 c4 c5 c6
      obtain ⟨b, b1, b2, b3, b4, b5, b6, b7, b8⟩ :=
        write_pixel_block_order_spec c px.1 px.2.1 px.2.2.1 px.2.2.2 (by omega)
      refine ⟨b, b1, by rw [b3, c1], by rw [b4, c4], by rw [b5, c5], by rw [b2, c3], ?_, ?_⟩
      · intro k hk
        by_cases ek : k = j
        · rw [ek, ← c6]
          rw [c3] at b6
          rw [b6]
        · rw [b7 (block_order k) (by
            rw [c3]
            intro hbo
            exact ek (block_order_inj k (by omega) j hj32 hbo)), c2]
          exact a5 k (by omega)
      · intro i hi
        rw [b8 i hi, c2]
        exact a6 i hi
    by_cases hrec : gen11_recovered first second j
    · -- a recovered pixel
      rw [if_pos hrec] at hpos
      have hbody : gen11_pixel ip w bs first second j a =
          (gen11_reconstruct ip w bs a >>= fun r =>
            write_pixel_block_order r.2 r.1.1 r.1.2.1 r.1.2.2.1 r.1.2.2.2) := by
        unfold gen11_pixel
        rw [if_neg hrec.1, if_neg hrec.2]
      have hr := gen11_reconstruct_seek ip w bs a (gen11_pixel_pos bpp first second j) bpp wa hw
        (by omega)
      rw [← pa, seek_self a wa.2, pa, a1] at hr
      rw [hbody, hr]
      constructor
      · intro hc
        rw [if_pos (hc hrec)]
        simp only [bind_ok_eq]
        exact after _ _ a1 rfl a4 (by rw [hpos]; rfl) (by rw [hpos]; rfl)
          (by unfold gen11_expected; rw [if_pos hrec])
      · intro hc
        rw [if_neg (fun h => hc (fun _ => h))]
        exact ⟨_, rfl, rfl⟩
    · -- a pixel that is not in the payload
      rw [if_neg hrec, Nat.add_zero] at hpos
      have hbody : gen11_pixel ip w bs first second j a = write_pixel_block_order a 0 0 0 0 := by
        unfold gen11_pixel
        by_cases c1 : j < 16 ∧ first = 0
        · rw [if_pos c1]
        · rw [if_neg c1]
          by_cases c2 : j ≥ 16 ∧ second = 0
          · rw [if_pos c2]
          · exact absurd ⟨c1, c2⟩ hrec
      rw [hbody]
      constructor
      · intro _
        exact after a (0, 0, 0, 0) a1 rfl a4 (by rw [hpos]; exact a2) (by rw [hpos]; exact a3)
          (by unfold gen11_expected; rw [if_neg hrec])
      · intro hc
        exact absurd (fun h => absurd h hrec) hc
  have hI0 : (seek s 53).inp = s.inp ∧
      (seek s 53).in_byte_idx = gen11_pixel_pos bpp first second 0 / 8 ∧
      (seek s 53).in_bit_idx = gen11_pixel_pos bpp first second 0 % 8 ∧
      (seek s 53).out_idx = 0 ∧
      (∀ k, k < 0 → DecodeAmd.pixel_at (seek s 53).out (block_order k)
        = gen11_expected ip w bs s.inp bpp first second k) ∧
      ∀ i, 128 ≤ i → (seek s 53).out i = s.out i := by
    have e : gen11_pixel_pos bpp first second 0 = 53 := by
      unfold gen11_pixel_pos gen11_recovered_before
      split_ifs <;> simp
    rw [e]
    exact ⟨rfl, rfl, rfl, h0, fun k hk => by omega, fun i _ => rfl⟩
  obtain ⟨k1, k2⟩ := loop_char (gen11_pixel ip w bs first second) _ _ 32 0 (seek s 53) hI0
    (fun j a h1 h2 h3 => ⟨(hstep j a h1 h2 h3).1, fun hc =>
      let ⟨e, he, _⟩ := (hstep j a h1 h2 h3).2 hc
      ⟨e, he⟩⟩)
  have k3 := loop_char_error (gen11_pixel ip w bs first second) _ _ (fun e => e = .nonzero_padding)
    32 0 (seek s 53) hI0 hstep
  refine ⟨?_, ?_, ?_⟩
  · intro hC
    obtain ⟨st1, e, c⟩ := k1 (fun j _ hj => hC j (by omega))
    exact ⟨st1, e, c⟩
  · intro st1 e
    obtain ⟨hC, c⟩ := k2 st1 e
    exact ⟨fun j hj => hC j (by omega) (by omega), c⟩
  · rintro ⟨j, hj, hc⟩
    obtain ⟨e, he, hE⟩ := k3 ⟨j, by omega, by omega, hc⟩
    rw [← hE]
    exact he


theorem mode_table_facts (ccs : Int) (bpp first second : Nat)
    (hm : mode_table ccs = .ok (bpp, first, second)) :
    bpp ≤ 14 ∧ bpp ≤ 255 ∧
    (((512 : Int) - 21 - 32 - ((((if first ≠ 0 then 16 else 0)
      + (if second ≠ 0 then 16 else 0)) % 256 : Nat) : Int) * (bpp : Int)) % 256).toNat = 11 ∧
    gen11_pixel_pos bpp first second 32 + 11 ≤ 512 := by
  unfold mode_table at hm
  split_ifs at hm <;> cases hm <;> decide

/-- The plain decode from bit 9 in terms of its three stages. -/
theorem gen11_plain_unfold (s : State) (ip bpp first second : Nat) (hwf : WF s)
    (hbpp : bpp ≤ 255) (hok : gen11_widths_ok s.inp 9 ip bpp) :
    decode_11th_gen_plain (seek s 9) ip bpp first second =
      (for_range 0 32 (gen11_pixel ip (gen11_spec_widths s.inp 9 ip bpp)
          (gen11_spec_bases s.inp 21 ip) first second) (seek s 53) >>= fun s3 =>
        read_and_discard_zero_bits s3
          (((512 : Int) - 21 - 32 - ((((if first ≠ 0 then 16 else 0)
            + (if second ≠ 0 then 16 else 0)) % 256 : Nat) : Int) * (bpp : Int)) % 256).toNat) := by
  unfold decode_11th_gen_plain
  have h1 : read_widths (seek s 9) ip bpp = .ok (gen11_spec_widths s.inp 9 ip bpp, seek s 21) :=
    (read_widths_spec s 9 ip bpp hwf (by omega) hbpp).1 hok
  have h2 : read_bases (seek s 21) ip = .ok (gen11_spec_bases s.inp 21 ip, seek s 53) :=
    read_bases_spec s 21 ip hwf (by omega)
  rw [h1]
  simp only [bind_ok_eq]
  rw [h2]
  rfl


/-- The whole of a plain `decode_11th_gen` (extension byte zero) from the initial globals:
when it succeeds, how it fails, and what it leaves. -/
theorem gen11_decode_char (s : State) (ccs : Int) (bpp first second : Nat) (hwf : WF s)
    (hbyte : s.in_byte_idx = 0) (hbit : s.in_bit_idx = 0) (h0 : s.out_idx = 0)
    (hm : mode_table ccs = .ok (bpp, first, second)) (hext : stream_val s.inp 1 8 = 0) :
    (gen11_widths_ok s.inp 9 (stream_bit s.inp 0) bpp →
      (∀ j, j < 32 → gen11_pad_zero (gen11_spec_widths s.inp 9 (stream_bit s.inp 0) bpp)
        s.inp bpp first second j) →
      stream_val s.inp (gen11_pixel_pos bpp first second 32) 11 = 0 →
      ∃ s1, decode_11th_gen s ccs = .ok s1 ∧ gen11_result s bpp first second s1) ∧
    (∀ s1, decode_11th_gen s ccs = .ok s1 →
      gen11_widths_ok s.inp 9 (stream_bit s.inp 0) bpp ∧
      (∀ j, j < 32 → gen11_pad_zero (gen11_spec_widths s.inp 9 (stream_bit s.inp 0) bpp)
        s.inp bpp first second j) ∧
      stream_val s.inp (gen11_pixel_pos bpp first second 32) 11 = 0 ∧
      gen11_result s bpp first second s1) ∧
    (¬ gen11_widths_ok s.inp 9 (stream_bit s.inp 0) bpp →
      ∃ e, decode_11th_gen s ccs = .error e ∧ (e = .width_too_large ∨ e = .width_budget)) ∧
    (gen11_widths_ok s.inp 9 (stream_bit s.inp 0) bpp →
      (∃ j, j < 32 ∧ ¬ gen11_pad_zero (gen11_spec_widths s.inp 9 (stream_bit s.inp 0) bpp)
        s.inp bpp first second j) →
      decode_11th_gen s ccs = .error .nonzero_padding) ∧
    (gen11_widths_ok s.inp 9 (stream_bit s.inp 0) bpp →
      (∀ j, j < 32 → gen11_pad_zero (gen11_spec_widths s.inp 9 (stream_bit s.inp 0) bpp)
        s.inp bpp first second j) →
      stream_val s.inp (gen11_pixel_pos bpp first second 32) 11 ≠ 0 →
      decode_11th_gen s ccs = .error .nonzero_padding) := by
  have hp : bit_pos s = 0 := by unfold bit_pos; omega
  obtain ⟨m1, m2, m3, m4⟩ := mode_table_facts ccs bpp first second hm
  have hd := gen11_head s ccs (bpp, first, second) hwf (by omega) hm
  rw [hp, stream_val_one] at hd
  have e9 : (0 : Nat) + 9 = 9 := rfl
  have e1 : (0 : Nat) + 1 = 1 := rfl
  rw [e9, e1, if_neg (by simp [hext])] at hd
  rw [hd]
  show (_ → _ → _ → ∃ s1, decode_11th_gen_plain (seek s 9) (stream_bit s.inp 0) bpp first second
      = .ok s1 ∧ _) ∧
    (∀ s1, decode_11th_gen_plain (seek s 9) (stream_bit s.inp 0) bpp first second = .ok s1 → _) ∧
    (_ → ∃ e, decode_11th_gen_plain (seek s 9) (stream_bit s.inp 0) bpp first second
      = .error e ∧ _) ∧
    (_ → _ → decode_11th_gen_plain (seek s 9) (stream_bit s.inp 0) bpp first second = _) ∧
    (_ → _ → _ → decode_11th_gen_plain (seek s 9) (stream_bit s.inp 0) bpp first second = _)
  have tail : ∀ st1 : State, st1.inp = s.inp →
      st1.in_byte_idx = gen11_pixel_pos bpp first second 32 / 8 →
      st1.in_bit_idx = gen11_pixel_pos bpp first second 32 % 8 →
      read_and_discard_zero_bits st1 11 =
        if stream_val s.inp (gen11_pixel_pos bpp first second 32) 11 = 0 then
          .ok (seek st1 (gen11_pixel_pos bpp first second 32 + 11))
        else .error .nonzero_padding := by
    intro st1 c1 c2 c3
    obtain ⟨w1, p1⟩ := WF_of_cursor s st1 _ hwf c1 c2 c3
    have := rdz_at st1 11 w1 (by omega) (by omega)
    rw [p1, c1] at this
    exact this
  have res : ∀ st1 : State, st1.inp = s.inp → st1.out_idx = 32 →
      (∀ k, k < 32 → DecodeAmd.pixel_at st1.out (block_order k)
        = gen11_expected (stream_bit s.inp 0)
            (gen11_spec_widths s.inp 9 (stream_bit s.inp 0) bpp)
            (gen11_spec_bases s.inp 21 (stream_bit s.inp 0)) s.inp bpp first second k) →
      (∀ i, 128 ≤ i → st1.out i = s.out i) →
      gen11_result s bpp first second (seek st1 (gen11_pixel_pos bpp first second 32 + 11)) :=
    fun st1 c1 c4 c5 c6 => ⟨c1, bit_pos_seek _ _, Nat.mod_lt _ (by omega), c4, c5, c6⟩
  have loopc := fun hok => gen11_loop_char (stream_bit s.inp 0)
    (gen11_spec_widths s.inp 9 (stream_bit s.inp 0) bpp)
    (gen11_spec_bases s.inp 21 (stream_bit s.inp 0)) bpp first second s hwf
    (gen11_spec_widths_wf s.inp 9 (stream_bit s.inp 0) bpp hok) m1 h0
  have unf := gen11_plain_unfold s (stream_bit s.inp 0) bpp first second hwf m2
  refine ⟨?_, ?_, ?_, ?_, ?_⟩
  · intro hok hpad htail
    obtain ⟨l1, _, _⟩ := loopc hok
    obtain ⟨st1, e, c1, c2, c3, c4, c5, c6⟩ := l1 hpad
    rw [unf hok, e, m3]
    simp only [bind_ok_eq]
    rw [tail st1 c1 c2 c3, if_pos htail]
    exact ⟨_, rfl, res st1 c1 c4 c5 c6⟩
  · intro s1 hs1
    by_cases hok : gen11_widths_ok s.inp 9 (stream_bit s.inp 0) bpp
    · obtain ⟨_, l2, _⟩ := loopc hok
      rw [unf hok, m3] at hs1
      obtain ⟨st1, e, e2⟩ := bind_eq_ok _ _ _ hs1
      obtain ⟨hpad, c1, c2, c3, c4, c5, c6⟩ := l2 st1 e
      rw [tail st1 c1 c2 c3] at e2
      split_ifs at e2 with htail
      cases e2
      exact ⟨hok, hpad, htail, res st1 c1 c4 c5 c6⟩
    · obtain ⟨e, he, _⟩ := (read_widths_spec s 9 (stream_bit s.inp 0) bpp hwf (by omega) m2).2 hok
      unfold decode_11th_gen_plain at hs1
      rw [he] at hs1
      cases hs1
  · intro hok
    obtain ⟨e, he, hE⟩ := (read_widths_spec s 9 (stream_bit s.inp 0) bpp hwf (by omega) m2).2 hok
    refine ⟨e, ?_, hE⟩
    unfold decode_11th_gen_plain
    rw [he]
    rfl
  · intro hok hbad
    obtain ⟨_, _, l3⟩ := loopc hok
    rw [unf hok, l3 hbad]
    rfl
  · intro hok hpad htail
    obtain ⟨l1, _, _⟩ := loopc hok
    obtain ⟨st1, e, c1, c2, c3, c4, c5, c6⟩ := l1 hpad
    rw [unf hok, e, m3]
    simp only [bind_ok_eq]
    rw [tail st1 c1 c2 c3, if_neg htail]


theorem pixel_zero_bytes (out : Nat → Nat) (k : Nat)
    (h : DecodeAmd.pixel_at out k = (0, 0, 0, 0)) : ∀ i, 4 * k ≤ i → i < 4 * k + 4 → out i = 0 := by
  unfold DecodeAmd.pixel_at at h
  simp only [Prod.mk.injEq] at h
  obtain ⟨h0, h1, h2, h3⟩ := h
  intro i hi1 hi2
  have : i = 4 * k ∨ i = 4 * k + 1 ∨ i = 4 * k + 2 ∨ i = 4 * k + 3 := by omega
  rcases this with e | e | e | e <;> rw [e] <;> assumption

/-- The width conditions do not depend on the order in which the fields are assigned. -/
theorem gen11_widths_ok_iff (inp : Nat → Nat) (q ip budget : Nat) :
    gen11_widths_ok inp q ip budget ↔
      (stream_val inp q 4 ≤ 8 ∧ stream_val inp (q + 4) 4 ≤ 8 ∧ stream_val inp (q + 8) 4 ≤ 8 ∧
        stream_val inp q 4 + stream_val inp (q + 4) 4 + stream_val inp (q + 8) 4 ≤ budget) := by
  unfold gen11_widths_ok spec_width_sum spec_width_r spec_width_g spec_width_b
  by_cases hip : ip ≠ 0
  · simp only [if_pos hip]
    constructor
    · rintro ⟨a, b, c, d⟩; exact ⟨c, a, b, by omega⟩
    · rintro ⟨a, b, c, d⟩; exact ⟨b, c, a, by omega⟩
  · simp only [if_neg hip]

theorem spec_width_sum_eq (inp : Nat → Nat) (q ip : Nat) :
    spec_width_sum inp q ip =
      stream_val inp q 4 + stream_val inp (q + 4) 4 + stream_val inp (q + 8) 4 := by
  unfold spec_width_sum spec_width_r spec_width_g spec_width_b
  by_cases hip : ip ≠ 0
  · simp only [if_pos hip]; omega
  · simp only [if_neg hip]

/-- Slots of the half that is not recovered hold the zero pixel. -/
theorem gen11_unrecovered_slot (s s1 : State) (bpp first second : Nat)
    (hr : gen11_result s bpp first second s1) (t : Nat) (ht : t < 32)
    (hun : ¬ gen11_recovered first second t ∧ (t < 16 → first = 0) ∧ (16 ≤ t → second = 0)) :
    DecodeAmd.pixel_at s1.out t = (0, 0, 0, 0) := by
  obtain ⟨_, _, _, _, r5, _⟩ := hr
  obtain ⟨k, hk, hbo⟩ := block_order_surj t ht
  have hh := block_order_half k hk
  rw [hbo] at hh
  rw [← hbo, r5 k hk]
  unfold gen11_expected
  rw [if_neg]
  rintro ⟨c1, c2⟩
  by_cases h16 : t < 16
  · exact c1 ⟨hh.1 h16, hun.2.1 h16⟩
  · exact c2 ⟨by omega, hun.2.2 (by omega)⟩

end Decode

/-- C14. In a successful non-extension `decode_11th_gen` from the initial globals, mode 2
leaves output pixels 16..31 (bytes 64..127) zero and mode 8 leaves output pixels 0..15
(bytes 0..63) zero.  No payload bit is spent on the half that is not recovered: in both
modes the `j`-th recovered pixel (decode index `j` in mode 2, `16 + j` in mode 8, stored
in slot `block_order` of that index) is the pixel of the 12 stream bits that start at bit
`53 + 12 j`, right after the 53-bit header, and the cursor ends at bit
`53 + 16 * 12 + 11`. -/
theorem Decode.gen11_partial_recovery (s s1 : State) (ccs : Int)
    (hbytes : ∀ i, i < 64 → s.inp i < 256) (hbyte : s.in_byte_idx = 0)
    (hbit : s.in_bit_idx = 0) (hout : s.out_idx = 0)
    (hext : stream_val s.inp 1 8 = 0) (hmode : ccs = 2 ∨ ccs = 8)
    (h : Decode.decode_11th_gen s ccs = .ok s1) :
    (ccs = 2 →
      (∀ i, 64 ≤ i → i < 128 → s1.out i = 0) ∧
      (∀ k, 16 ≤ k → k < 32 → DecodeAmd.pixel_at s1.out k = (0, 0, 0, 0)) ∧
      ∀ j, j < 16 → DecodeAmd.pixel_at s1.out (Decode.block_order j) =
        Decode.gen11_spec_pixel (stream_bit s.inp 0)
          (Decode.gen11_spec_widths s.inp 9 (stream_bit s.inp 0) 12)
          (Decode.gen11_spec_bases s.inp 21 (stream_bit s.inp 0)) s.inp (53 + 12 * j)) ∧
    (ccs = 8 →
      (∀ i, i < 64 → s1.out i = 0) ∧
      (∀ k, k < 16 → DecodeAmd.pixel_at s1.out k = (0, 0, 0, 0)) ∧
      ∀ j, j < 16 → DecodeAmd.pixel_at s1.out (Decode.block_order (16 + j)) =
        Decode.gen11_spec_pixel (stream_bit s.inp 0)
          (Decode.gen11_spec_widths s.inp 9 (stream_bit s.inp 0) 12)
          (Decode.gen11_spec_bases s.inp 21 (stream_bit s.inp 0)) s.inp (53 + 12 * j)) ∧
    bit_pos s1 = 53 + 16 * 12 + 11 := by
  have hwf : WF s := ⟨hbytes, by omega⟩
  have key : ∀ first second, (first = 1 ∧ second = 0) ∨ (first = 0 ∧ second = 1) →
      Decode.mode_table ccs = .ok (12, first, second) →
      Decode.gen11_result s 12 first second s1 := by
    intro first second _ hm
    exact ((Decode.gen11_decode_char s ccs 12 first second hwf hbyte hbit hout hm hext).2.1
      s1 h).2.2.2
  have zero_bytes : ∀ lo, (∀ k, lo ≤ k → k < lo + 16 → DecodeAmd.pixel_at s1.out k = (0, 0, 0, 0)) →
      ∀ i, 4 * lo ≤ i → i < 4 * lo + 64 → s1.out i = 0 := by
    intro lo hz i h1 h2
    exact Decode.pixel_zero_bytes s1.out (i / 4) (hz (i / 4) (by omega) (by omega)) i
      (by omega) (by omega)
  refine ⟨?_, ?_, ?_⟩
  · intro hc
    subst hc
    have hr := key 1 0 (Or.inl ⟨rfl, rfl⟩) rfl
    have hz : ∀ k, 16 ≤ k → k < 32 → DecodeAmd.pixel_at s1.out k = (0, 0, 0, 0) := by
      intro k h1 h2
      exact Decode.gen11_unrecovered_slot s s1 12 1 0 hr k h2
        ⟨fun c => c.2 ⟨h1, rfl⟩, fun c => by omega, fun _ => rfl⟩
    refine ⟨fun i h1 h2 => zero_bytes 16 (fun k a b => hz k a (by omega)) i (by omega) (by omega),
      hz, ?_⟩
    intro j hj
    rw [hr.2.2.2.2.1 j (by omega)]
    unfold Decode.gen11_expected
    rw [if_pos ⟨fun c => by omega, fun c => by omega⟩]
    have e : Decode.gen11_pixel_pos 12 1 0 j = 53 + 12 * j := by
      unfold Decode.gen11_pixel_pos Decode.gen11_recovered_before
      simp only [ne_eq, one_ne_zero, not_false_eq_true, if_true, not_true_eq_false, if_false]
      rw [Nat.min_eq_left (by omega)]
      omega
    rw [e]
  · intro hc
    subst hc
    have hr := key 0 1 (Or.inr ⟨rfl, rfl⟩) rfl
    have hz : ∀ k, k < 16 → DecodeAmd.pixel_at s1.out k = (0, 0, 0, 0) := by
      intro k h2
      exact Decode.gen11_unrecovered_slot s s1 12 0 1 hr k (by omega)
        ⟨fun c => c.1 ⟨h2, rfl⟩, fun _ => rfl, fun c => by omega⟩
    refine ⟨fun i h2 => zero_bytes 0 (fun k a b => hz k (by omega)) i (by omega) (by omega),
      hz, ?_⟩
    intro j hj
    rw [hr.2.2.2.2.1 (16 + j) (by omega)]
    unfold Decode.gen11_expected
    rw [if_pos ⟨fun c => by omega, fun c => by omega⟩]
    have e : Decode.gen11_pixel_pos 12 0 1 (16 + j) = 53 + 12 * j := by
      unfold Decode.gen11_pixel_pos Decode.gen11_recovered_before
      simp only [ne_eq, one_ne_zero, not_false_eq_true, if_true, not_true_eq_false, if_false]
      omega
    rw [e]
  · rcases hmode with hc | hc
    · subst hc
      have hr := key 1 0 (Or.inl ⟨rfl, rfl⟩) rfl
      rw [hr.2.1]
      decide
    · subst hc
      have hr := key 0 1 (Or.inr ⟨rfl, rfl⟩) rfl
      rw [hr.2.1]
      decide

set_option maxRecDepth 1000000 in
/-- C14, on the mode-8 decode of `gen11_pred`: slots 0..15 are zero, the pixel decoded
third of the second half is in slot 20, and the cursor ends at bit 256; the mode-2 decode
of the same payload leaves slots 16..31 zero. -/
theorem Decode.gen11_partial_recovery_witness :
    ((∀ i, i < 64 → Decode.gen11_pred.inp i < 256) ∧
      Decode.gen11_pred.in_byte_idx = 0 ∧
      Decode.gen11_pred.in_bit_idx = 0 ∧
      Decode.gen11_pred.out_idx = 0 ∧
      stream_val Decode.gen11_pred.inp 1 8 = 0 ∧
      ((8 : Int) = 2 ∨ (8 : Int) = 8) ∧
      Decode.decode_11th_gen Decode.gen11_pred (8 : Int) = .ok Decode.gen11_pred_mode8) ∧
    (DecodeAmd.pixel_at Decode.gen11_pred_mode8.out 20 = (32, 53, 12, 42) ∧
      Decode.gen11_spec_pixel 1 (Decode.gen11_spec_widths Decode.gen11_pred.inp 9 1 12)
        (Decode.gen11_spec_bases Decode.gen11_pred.inp 21 1) Decode.gen11_pred.inp (53 + 12 * 2)
        = (32, 53, 12, 42) ∧
      bit_pos Decode.gen11_pred_mode8 = 256 ∧
      (∀ k, k < 16 → DecodeAmd.pixel_at Decode.gen11_pred_mode8.out k = (0, 0, 0, 0)) ∧
      (Decode.decode_11th_gen Decode.gen11_pred 2).toBool = true ∧
      (∀ k, 16 ≤ k → k < 32 → DecodeAmd.pixel_at Decode.gen11_pred_mode2.out k = (0, 0, 0, 0)) ∧
      DecodeAmd.pixel_at Decode.gen11_pred_mode2.out 4 = (32, 53, 12, 42)) ∧
    (((8 : Int) = 2 →
      (∀ i, 64 ≤ i → i < 128 → Decode.gen11_pred_mode8.out i = 0) ∧
      (∀ k, 16 ≤ k → k < 32 → DecodeAmd.pixel_at Decode.gen11_pred_mode8.out k = (0, 0, 0, 0)) ∧
      ∀ j, j < 16 → DecodeAmd.pixel_at Decode.gen11_pred_mode8.out (Decode.block_order j) =
        Decode.gen11_spec_pixel (stream_bit Decode.gen11_pred.inp 0)
          (Decode.gen11_spec_widths Decode.gen11_pred.inp 9 (stream_bit Decode.gen11_pred.inp 0) 12)
          (Decode.gen11_spec_bases Decode.gen11_pred.inp 21 (stream_bit Decode.gen11_pred.inp 0))
              Decode.gen11_pred.inp (53 + 12 * j)) ∧
    ((8 : Int) = 8 →
      (∀ i, i < 64 → Decode.gen11_pred_mode8.out i = 0) ∧
      (∀ k, k < 16 → DecodeAmd.pixel_at Decode.gen11_pred_mode8.out k = (0, 0, 0, 0)) ∧
      ∀ j, j < 16 → DecodeAmd.pixel_at Decode.gen11_pred_mode8.out (Decode.block_order (16 + j)) =
        Decode.gen11_spec_pixel (stream_bit Decode.gen11_pred.inp 0)
          (Decode.gen11_spec_widths Decode.gen11_pred.inp 9 (stream_bit Decode.gen11_pred.inp 0) 12)
          (Decode.gen11_spec_bases Decode.gen11_pred.inp 21 (stream_bit Decode.gen11_pred.inp 0))
              Decode.gen11_pred.inp (53 + 12 * j)) ∧
    bit_pos Decode.gen11_pred_mode8 = 53 + 16 * 12 + 11) :=
  ⟨⟨by decide, by decide, by decide, by decide, by decide, by decide, eq_ok_value_or _ _ (by decide)⟩,
    ⟨by decide, by decide, by decide, by decide, by decide, by decide, by decide⟩,
    Decode.gen11_partial_recovery Decode.gen11_pred Decode.gen11_pred_mode8 8 (by decide)
      (by decide) (by decide) (by decide) (by decide) (by decide) (eq_ok_value_or _ _ (by decide))⟩

/-- C16. In a successful non-extension `decode_11th_gen` from the initial globals, let
pixel `k` be recovered and let its data start at bit `q`.  When the first payload bit
(`inter_pred`) is 1, the three 4-bit widths at bits 9, 13, 17 are those of B, R, G, the
base bytes at bits 21, 29, 37, 45 are those of B, R, G, A, the deltas of the pixel come in
the order B, R, G, A, and the pixel is `b = (base_b + Db) mod 256`,
`r = (base_r + b + Dr) mod 256`, `g = (base_g + floor((b + r) / 2) + Dg) mod 256` with
the reconstructed `b` and `r`.  When the bit is 0 the order is R, G, B throughout and each
channel is `(base + D) mod 256`.  Alpha is `(base_a + Da) mod 256` in both cases; every
`D` is the unsigned value of its stream bits. -/
theorem Decode.gen11_inter_channel_prediction (s s1 : State) (ccs : Int)
    (bpp first second k q : Nat)
    (hbytes : ∀ i, i < 64 → s.inp i < 256) (hbyte : s.in_byte_idx = 0)
    (hbit : s.in_bit_idx = 0) (hout : s.out_idx = 0)
    (hm : Decode.mode_table ccs = .ok (bpp, first, second))
    (hext : stream_val s.inp 1 8 = 0)
    (h : Decode.decode_11th_gen s ccs = .ok s1)
    (hk : k < 32) (hrec : Decode.gen11_recovered first second k)
    (hq : q = Decode.gen11_pixel_pos bpp first second k) :
    (stream_bit s.inp 0 = 1 →
      ∀ wb wr wg wa, wb = stream_val s.inp 9 4 → wr = stream_val s.inp 13 4 →
        wg = stream_val s.inp 17 4 → wa = min (bpp - (wb + wr + wg)) 8 →
      ∀ b r g a, b = (stream_val s.inp 21 8 + stream_val s.inp q wb) % 256 →
        r = (stream_val s.inp 29 8 + b + stream_val s.inp (q + wb) wr) % 256 →
        g = (stream_val s.inp 37 8 + (b + r) / 2 + stream_val s.inp (q + wb + wr) wg) % 256 →
        a = (stream_val s.inp 45 8 + stream_val s.inp (q + wb + wr + wg) wa) % 256 →
        DecodeAmd.pixel_at s1.out (Decode.block_order k) = (r, g, b, a)) ∧
    (stream_bit s.inp 0 = 0 →
      ∀ wr wg wb wa, wr = stream_val s.inp 9 4 → wg = stream_val s.inp 13 4 →
        wb = stream_val s.inp 17 4 → wa = min (bpp - (wr + wg + wb)) 8 →
      ∀ r g b a, r = (stream_val s.inp 21 8 + stream_val s.inp q wr) % 256 →
        g = (stream_val s.inp 29 8 + stream_val s.inp (q + wr) wg) % 256 →
        b = (stream_val s.inp 37 8 + stream_val s.inp (q + wr + wg) wb) % 256 →
        a = (stream_val s.inp 45 8 + stream_val s.inp (q + wr + wg + wb) wa) % 256 →
        DecodeAmd.pixel_at s1.out (Decode.block_order k) = (r, g, b, a)) := by
  have hwf : WF s := ⟨hbytes, by omega⟩
  obtain ⟨_, _, _, hr⟩ :=
    (Decode.gen11_decode_char s ccs bpp first second hwf hbyte hbit hout hm hext).2.1 s1 h
  have hpx := hr.2.2.2.2.1 k hk
  unfold Decode.gen11_expected at hpx
  rw [if_pos hrec, ← hq] at hpx
  rw [hpx]
  constructor
  · intro hip wb wr wg wa e1 e2 e3 e4 b r g a e5 e6 e7 e8
    subst e1 e2 e3 e5 e6 e7
    rw [e8, e4, hip]
    simp only [Decode.gen11_spec_pixel, Decode.gen11_spec_widths, Decode.gen11_spec_bases,
      Decode.predicted_rgb, Decode.spec_width_sum, Decode.spec_width_r, Decode.spec_width_g,
      Decode.spec_width_b, ne_eq, one_ne_zero, not_false_eq_true, if_true, Prod.mk.injEq]
    have c1 : stream_val s.inp 13 4 + stream_val s.inp 17 4 + stream_val s.inp 9 4
        = stream_val s.inp 9 4 + stream_val s.inp 13 4 + stream_val s.inp 17 4 := by omega
    refine ⟨trivial, trivial, trivial, ?_⟩
    rw [c1]
  · intro hip wr wg wb wa e1 e2 e3 e4 r g b a e5 e6 e7 e8
    subst e1 e2 e3 e5 e6 e7
    rw [e8, e4, hip]
    simp only [Decode.gen11_spec_pixel, Decode.gen11_spec_widths, Decode.gen11_spec_bases,
      Decode.independent_rgb, Decode.spec_width_sum, Decode.spec_width_r, Decode.spec_width_g,
      Decode.spec_width_b, ne_eq, not_true_eq_false, if_false]

set_option maxRecDepth 1000000 in
/-- C16, on the mode-8 decode of `gen11_pred` (`inter_pred` 1) at decode index 18, whose
data starts at bit 77: widths B=2, R=1, G=1, bases B=10, R=20, G=30, A=40, deltas Db=2, Dr=0,
Dg=1, Da=2 give b = 12, r = 20 + 12 = 32, g = 30 + 22 + 1 = 53, a = 42, stored in slot 20;
and pixel 3 of the mode-6 decode of `gen11_indep` (`inter_pred` 0) is (2, 3, 3, 7). -/
theorem Decode.gen11_inter_channel_prediction_witness :
    ((∀ i, i < 64 → Decode.gen11_pred.inp i < 256) ∧
      Decode.gen11_pred.in_byte_idx = 0 ∧
      Decode.gen11_pred.in_bit_idx = 0 ∧
      Decode.gen11_pred.out_idx = 0 ∧
      Decode.mode_table (8 : Int) = .ok (12, 0, 1) ∧
      stream_val Decode.gen11_pred.inp 1 8 = 0 ∧
      Decode.decode_11th_gen Decode.gen11_pred (8 : Int) = .ok Decode.gen11_pred_mode8 ∧
      18 < 32 ∧
      Decode.gen11_recovered 0 1 18 ∧
      77 = Decode.gen11_pixel_pos 12 0 1 18) ∧
    (stream_bit Decode.gen11_pred.inp 0 = 1 ∧
      (stream_val Decode.gen11_pred.inp 9 4, stream_val Decode.gen11_pred.inp 13 4, stream_val
          Decode.gen11_pred.inp 17 4) = (2, 1, 1) ∧
      (stream_val Decode.gen11_pred.inp 21 8, stream_val Decode.gen11_pred.inp 29 8, stream_val
          Decode.gen11_pred.inp 37 8,
        stream_val Decode.gen11_pred.inp 45 8) = (10, 20, 30, 40) ∧
      (stream_val Decode.gen11_pred.inp 77 2, stream_val Decode.gen11_pred.inp 79 1, stream_val
          Decode.gen11_pred.inp 80 1,
        stream_val Decode.gen11_pred.inp 81 8) = (2, 0, 1, 2) ∧
      Decode.block_order 18 = 20 ∧
      DecodeAmd.pixel_at Decode.gen11_pred_mode8.out 20 = (32, 53, 12, 42) ∧
      stream_bit Decode.gen11_indep.inp 0 = 0 ∧
      (Decode.decode_11th_gen Decode.gen11_indep 6).toBool = true ∧
      DecodeAmd.pixel_at Decode.gen11_indep_mode6.out (Decode.block_order 3) = (2, 3, 3, 7)) ∧
    ((stream_bit Decode.gen11_pred.inp 0 = 1 →
      ∀ wb wr wg wa, wb = stream_val Decode.gen11_pred.inp 9 4 → wr = stream_val
          Decode.gen11_pred.inp 13 4 →
        wg = stream_val Decode.gen11_pred.inp 17 4 → wa = min (12 - (wb + wr + wg)) 8 →
      ∀ b r g a, b = (stream_val Decode.gen11_pred.inp 21 8 + stream_val Decode.gen11_pred.inp 77
          wb) % 256 →
        r = (stream_val Decode.gen11_pred.inp 29 8 + b + stream_val Decode.gen11_pred.inp (77 + wb)
            wr) % 256 →
        g = (stream_val Decode.gen11_pred.inp 37 8 + (b + r) / 2 + stream_val Decode.gen11_pred.inp
            (77 + wb + wr) wg) % 256 →
        a = (stream_val Decode.gen11_pred.inp 45 8 + stream_val Decode.gen11_pred.inp (77 + wb + wr
            + wg) wa) % 256 →
        DecodeAmd.pixel_at Decode.gen11_pred_mode8.out (Decode.block_order 18) = (r, g, b, a)) ∧
    (stream_bit Decode.gen11_pred.inp 0 = 0 →
      ∀ wr wg wb wa, wr = stream_val Decode.gen11_pred.inp 9 4 → wg = stream_val
          Decode.gen11_pred.inp 13 4 →
        wb = stream_val Decode.gen11_pred.inp 17 4 → wa = min (12 - (wr + wg + wb)) 8 →
      ∀ r g b a, r = (stream_val Decode.gen11_pred.inp 21 8 + stream_val Decode.gen11_pred.inp 77
          wr) % 256 →
        g = (stream_val Decode.gen11_pred.inp 29 8 + stream_val Decode.gen11_pred.inp (77 + wr) wg)
            % 256 →
        b = (stream_val Decode.gen11_pred.inp 37 8 + stream_val Decode.gen11_pred.inp (77 + wr + wg)
            wb) % 256 →
        a = (stream_val Decode.gen11_pred.inp 45 8 + stream_val Decode.gen11_pred.inp (77 + wr + wg
            + wb) wa) % 256 →
        DecodeAmd.pixel_at Decode.gen11_pred_mode8.out (Decode.block_order 18) = (r, g, b, a))) :=
  ⟨⟨by decide, by decide, by decide, by decide, rfl, by decide, eq_ok_value_or _ _ (by decide),
      by decide, by decide, by decide⟩,
    ⟨by decide, by decide, by decide, by decide, by decide, by decide, by decide, by decide,
      by decide⟩,
    Decode.gen11_inter_channel_prediction Decode.gen11_pred Decode.gen11_pred_mode8 8 12 0 1 18 77
      (by decide) (by decide) (by decide) (by decide) (rfl) (by decide)
      (eq_ok_value_or _ _ (by decide)) (by decide) (by decide) (by decide)⟩

/-- C17. In a non-extension `decode_11th_gen` from the initial globals with budget `bpp`
(6, 12 or 14 by the mode table), the decode fails at the header, with the width faults,
unless each of the three 4-bit widths at bits 9, 13, 17 is at most 8 and their sum is at
most `bpp`.  Otherwise the widths are read, the alpha width is `min (bpp - sum) 8` and
`bpp - sum - alpha` bits are left unused; one pixel at a cursor `q` takes exactly `bpp`
bits and fails with the nonzero-padding fault exactly when one of its unused bits is set;
a recovered pixel with a set unused bit makes the decode fail; and a successful decode has
all those bits zero and ends `bpp` bits per recovered pixel, plus 11, after the header. -/
theorem Decode.gen11_pixel_budget (s : State) (ccs : Int) (bpp first second : Nat)
    (hbytes : ∀ i, i < 64 → s.inp i < 256) (hbyte : s.in_byte_idx = 0)
    (hbit : s.in_bit_idx = 0) (hout : s.out_idx = 0)
    (hm : Decode.mode_table ccs = .ok (bpp, first, second))
    (hext : stream_val s.inp 1 8 = 0) :
    (bpp = 6 ∨ bpp = 12 ∨ bpp = 14) ∧
    (¬ (stream_val s.inp 9 4 ≤ 8 ∧ stream_val s.inp 13 4 ≤ 8 ∧ stream_val s.inp 17 4 ≤ 8 ∧
        stream_val s.inp 9 4 + stream_val s.inp 13 4 + stream_val s.inp 17 4 ≤ bpp) →
      ∃ e, Decode.decode_11th_gen s ccs = .error e ∧
        (e = .width_too_large ∨ e = .width_budget)) ∧
    ((stream_val s.inp 9 4 ≤ 8 ∧ stream_val s.inp 13 4 ≤ 8 ∧ stream_val s.inp 17 4 ≤ 8 ∧
        stream_val s.inp 9 4 + stream_val s.inp 13 4 + stream_val s.inp 17 4 ≤ bpp) →
      ∃ w, Decode.read_widths (seek s 9) (stream_bit s.inp 0) bpp = .ok (w, seek s 21) ∧
        w.delta_r_bits + w.delta_g_bits + w.delta_b_bits =
          stream_val s.inp 9 4 + stream_val s.inp 13 4 + stream_val s.inp 17 4 ∧
        w.delta_a_bits = min (bpp - (w.delta_r_bits + w.delta_g_bits + w.delta_b_bits)) 8 ∧
        w.unused_bits = bpp - (w.delta_r_bits + w.delta_g_bits + w.delta_b_bits)
          - w.delta_a_bits ∧
        (∀ bs q, q + bpp < 512 →
          Decode.gen11_reconstruct (stream_bit s.inp 0) w bs (seek s q) =
            if stream_val s.inp (q + Decode.gen11_delta_bits w) w.unused_bits = 0 then
              .ok (Decode.gen11_spec_pixel (stream_bit s.inp 0) w bs s.inp q, seek s (q + bpp))
            else .error .nonzero_padding) ∧
        ((∃ k, k < 32 ∧ Decode.gen11_recovered first second k ∧
            stream_val s.inp (Decode.gen11_pixel_pos bpp first second k
              + Decode.gen11_delta_bits w) w.unused_bits ≠ 0) →
          Decode.decode_11th_gen s ccs = .error .nonzero_padding) ∧
        (∀ s1, Decode.decode_11th_gen s ccs = .ok s1 →
          (∀ k, k < 32 → Decode.gen11_recovered first second k →
            stream_val s.inp (Decode.gen11_pixel_pos bpp first second k
              + Decode.gen11_delta_bits w) w.unused_bits = 0) ∧
          bit_pos s1 = 53 + bpp * Decode.gen11_recovered_before first second 32 + 11)) := by
  have hwf : WF s := ⟨hbytes, by omega⟩
  obtain ⟨m1, m2, _, _⟩ := Decode.mode_table_facts ccs bpp first second hm
  obtain ⟨_, c2, c3, c4, _⟩ :=
    Decode.gen11_decode_char s ccs bpp first second hwf hbyte hbit hout hm hext
  have hiff := Decode.gen11_widths_ok_iff s.inp 9 (stream_bit s.inp 0) bpp
  have hsum := Decode.spec_width_sum_eq s.inp 9 (stream_bit s.inp 0)
  refine ⟨?_, ?_, ?_⟩
  · unfold Decode.mode_table at hm
    split_ifs at hm <;> cases hm <;> simp
  · intro hno
    exact c3 (fun hok => hno (hiff.1 hok))
  · intro hraw
    have hok := hiff.2 hraw
    have hw := Decode.gen11_spec_widths_wf s.inp 9 (stream_bit s.inp 0) bpp hok
    refine ⟨Decode.gen11_spec_widths s.inp 9 (stream_bit s.inp 0) bpp,
      (Decode.read_widths_spec s 9 (stream_bit s.inp 0) bpp hwf (by omega) m2).1 hok,
      hsum, ?_, ?_, ?_, ?_, ?_⟩
    · show min (bpp - Decode.spec_width_sum s.inp 9 (stream_bit s.inp 0)) 8 = _
      rfl
    · show bpp - Decode.spec_width_sum s.inp 9 (stream_bit s.inp 0)
        - min (bpp - Decode.spec_width_sum s.inp 9 (stream_bit s.inp 0)) 8 = _
      rfl
    · intro bs q hq
      exact Decode.gen11_reconstruct_seek _ _ bs s q bpp hwf hw hq
    · rintro ⟨k, hk, hrec, hbad⟩
      exact c4 hok ⟨k, hk, fun hp => hbad (hp hrec)⟩
    · intro s1 hs1
      obtain ⟨_, hpad, _, hr⟩ := c2 s1 hs1
      refine ⟨fun k hk hrec => hpad k hk hrec, ?_⟩
      rw [hr.2.1]
      rfl

set_option maxRecDepth 1000000 in
/-- C17, on the mode-6 decode of `gen11_indep`: widths 1, 1, 1 under the budget 14 give
alpha 8 and 3 unused bits, the decode succeeds and ends at bit 53 + 14 * 32 + 11 = 512;
with stream bit 64, an unused bit of pixel 0, set it fails; a width of 9 and widths 4, 4, 0
under the budget 6 fail at the header. -/
theorem Decode.gen11_pixel_budget_witness :
    ((∀ i, i < 64 → Decode.gen11_indep.inp i < 256) ∧
      Decode.gen11_indep.in_byte_idx = 0 ∧
      Decode.gen11_indep.in_bit_idx = 0 ∧
      Decode.gen11_indep.out_idx = 0 ∧
      Decode.mode_table (6 : Int) = .ok (14, 1, 1) ∧
      stream_val Decode.gen11_indep.inp 1 8 = 0) ∧
    ((stream_val Decode.gen11_indep.inp 9 4, stream_val Decode.gen11_indep.inp 13 4, stream_val
        Decode.gen11_indep.inp 17 4) = (1, 1, 1) ∧
      (Decode.read_widths (seek Decode.gen11_indep 9) 0 14).toOption.map (fun r => r.1) =
        some { delta_r_bits := 1, delta_g_bits := 1, delta_b_bits := 1, delta_a_bits := 8,
               unused_bits := 3 } ∧
      (Decode.decode_11th_gen Decode.gen11_indep 6).toBool = true ∧
      bit_pos Decode.gen11_indep_mode6 = 512 ∧
      stream_bit Decode.gen11_indep_dirty.inp 64 = 1 ∧
      fault_of (Decode.decode_11th_gen Decode.gen11_indep_dirty 6) = some .nonzero_padding ∧
      stream_val Decode.gen11_wide.inp 9 4 = 9 ∧
      fault_of (Decode.decode_11th_gen Decode.gen11_wide 6) = some .width_too_large ∧
      (stream_val Decode.gen11_over_budget.inp 9 4, stream_val Decode.gen11_over_budget.inp 13 4,
        stream_val Decode.gen11_over_budget.inp 17 4) = (4, 4, 0) ∧
      fault_of (Decode.decode_11th_gen Decode.gen11_over_budget 1) = some .width_budget) ∧
    ((14 = 6 ∨ 14 = 12 ∨ 14 = 14) ∧
    (¬ (stream_val Decode.gen11_indep.inp 9 4 ≤ 8 ∧ stream_val Decode.gen11_indep.inp 13 4 ≤ 8 ∧
        stream_val Decode.gen11_indep.inp 17 4 ≤ 8 ∧
        stream_val Decode.gen11_indep.inp 9 4 + stream_val Decode.gen11_indep.inp 13 4 + stream_val
            Decode.gen11_indep.inp 17 4 ≤ 14) →
      ∃ e, Decode.decode_11th_gen Decode.gen11_indep (6 : Int) = .error e ∧
        (e = .width_too_large ∨ e = .width_budget)) ∧
    ((stream_val Decode.gen11_indep.inp 9 4 ≤ 8 ∧ stream_val Decode.gen11_indep.inp 13 4 ≤ 8 ∧
        stream_val Decode.gen11_indep.inp 17 4 ≤ 8 ∧
        stream_val Decode.gen11_indep.inp 9 4 + stream_val Decode.gen11_indep.inp 13 4 + stream_val
            Decode.gen11_indep.inp 17 4 ≤ 14) →
      ∃ w, Decode.read_widths (seek Decode.gen11_indep 9) (stream_bit Decode.gen11_indep.inp 0) 14 =
          .ok (w, seek Decode.gen11_indep 21) ∧
        w.delta_r_bits + w.delta_g_bits + w.delta_b_bits =
          stream_val Decode.gen11_indep.inp 9 4 + stream_val Decode.gen11_indep.inp 13 4 +
              stream_val Decode.gen11_indep.inp 17 4 ∧
        w.delta_a_bits = min (14 - (w.delta_r_bits + w.delta_g_bits + w.delta_b_bits)) 8 ∧
        w.unused_bits = 14 - (w.delta_r_bits + w.delta_g_bits + w.delta_b_bits)
          - w.delta_a_bits ∧
        (∀ bs q, q + 14 < 512 →
          Decode.gen11_reconstruct (stream_bit Decode.gen11_indep.inp 0) w bs (seek
              Decode.gen11_indep q) =
            if stream_val Decode.gen11_indep.inp (q + Decode.gen11_delta_bits w) w.unused_bits = 0
                then
              .ok (Decode.gen11_spec_pixel (stream_bit Decode.gen11_indep.inp 0) w bs
                  Decode.gen11_indep.inp q, seek Decode.gen11_indep (q + 14))
            else .error .nonzero_padding) ∧
        ((∃ k, k < 32 ∧ Decode.gen11_recovered 1 1 k ∧
            stream_val Decode.gen11_indep.inp (Decode.gen11_pixel_pos 14 1 1 k
              + Decode.gen11_delta_bits w) w.unused_bits ≠ 0) →
          Decode.decode_11th_gen Decode.gen11_indep (6 : Int) = .error .nonzero_padding) ∧
        (∀ s1, Decode.decode_11th_gen Decode.gen11_indep (6 : Int) = .ok s1 →
          (∀ k, k < 32 → Decode.gen11_recovered 1 1 k →
            stream_val Decode.gen11_indep.inp (Decode.gen11_pixel_pos 14 1 1 k
              + Decode.gen11_delta_bits w) w.unused_bits = 0) ∧
          bit_pos s1 = 53 + 14 * Decode.gen11_recovered_before 1 1 32 + 11))) :=
  ⟨⟨by decide, by decide, by decide, by decide, rfl, by decide⟩,
    ⟨by decide, by decide, by decide, by decide, by decide, by decide, by decide, by decide,
      by decide, by decide⟩,
    Decode.gen11_pixel_budget Decode.gen11_indep 6 14 1 1 (by decide) (by decide) (by decide)
      (by decide) (rfl) (by decide)⟩

/-! ## decode.c: output order -/

namespace Decode

theorem write_pixel_block_order_inv (s s1 : State) (r g b a : Nat)
    (h : write_pixel_block_order s r g b a = .ok s1) :
    s.out_idx ≤ 31 ∧ s1.out_idx = s.out_idx + 1 ∧
      DecodeAmd.pixel_at s1.out (block_order s.out_idx) = (r, g, b, a) ∧
      ∀ k, k ≠ block_order s.out_idx → DecodeAmd.pixel_at s1.out k = DecodeAmd.pixel_at s.out k := by
  by_cases hle : s.out_idx ≤ 31
  · obtain ⟨s2, b1, b2, _, _, _, b6, b7, _⟩ := write_pixel_block_order_spec s r g b a hle
    rw [b1] at h
    cases h
    exact ⟨hle, b2, b6, b7⟩
  · unfold write_pixel_block_order at h
    rw [if_pos hle] at h
    cases h

/-- A run of `copies` writes of one pixel that succeeds. -/
theorem write_copies_inv (px : Pixel) (copies : Nat) (s s1 : State)
    (h : for_range 0 copies
      (fun _ s0 => write_pixel_block_order s0 px.1 px.2.1 px.2.2.1 px.2.2.2) s = .ok s1) :
    s1.out_idx = s.out_idx + copies ∧
      ∀ j, j < copies → DecodeAmd.pixel_at s1.out (block_order (s.out_idx + j)) = px := by
  have key := loop_ok_inv
    (fun _ s0 => write_pixel_block_order s0 px.1 px.2.1 px.2.2.1 px.2.2.2)
    (fun i st => st.out_idx = s.out_idx + i ∧ (0 < i → st.out_idx ≤ 32) ∧
      ∀ j, j < i → DecodeAmd.pixel_at st.out (block_order (s.out_idx + j)) = px)
    (copies - 0) 0 s s1 h ⟨rfl, fun h => by omega, fun j hj => by omega⟩
    (by
      intro i a b _ _ ⟨a1, _, a3⟩ hb
      obtain ⟨b1, b2, b3, b4⟩ := write_pixel_block_order_inv a b _ _ _ _ hb
      refine ⟨by omega, fun _ => by omega, ?_⟩
      intro j hj
      by_cases ej : j = i
      · rw [ej, ← a1, b3]
      · rw [b4 _ (by
          rw [a1]
          intro hbo
          have := block_order_inj (s.out_idx + j) (by omega) (s.out_idx + i) (by omega) hbo
          omega)]
        exact a3 j (by omega))
  have e : 0 + (copies - 0) = copies := by omega
  rw [e] at key
  exact ⟨key.1, key.2.2⟩

/-- One pixel of the extension decode that succeeds: it is the pixel drained from the
current delta buffer, stored `copies` times from the current pixel index on, each in the
slot the table gives. -/
theorem ext_pixel_inv (ip : Nat) (w : channel_widths) (bs : channel_bases) (copies : Nat)
    (st st1 : ExtState) (h : ext_pixel ip w bs copies st = .ok st1) :
    ∃ px bb, ext_reconstruct ip w bs (st.delta_bb st.delta_bb_idx) = .ok (px, bb) ∧
      st1.s.out_idx = st.s.out_idx + copies ∧
      ∀ j, j < copies → DecodeAmd.pixel_at st1.s.out (block_order (st.s.out_idx + j)) = px := by
  unfold ext_pixel at h
  obtain ⟨⟨px, bb⟩, h1, h2⟩ := bind_eq_ok _ _ _ h
  obtain ⟨s1, h3, h4⟩ := bind_eq_ok _ _ _ h2
  cases h4
  obtain ⟨c1, c2⟩ := write_copies_inv px copies st.s s1 h3
  exact ⟨px, bb, h1, c1, c2⟩

theorem block_order_swap : ∀ k, k < 32 → block_order k =
    if k % 8 = 2 ∨ k % 8 = 3 then k + 2 else if k % 8 = 4 ∨ k % 8 = 5 then k - 2 else k := by
  decide

end Decode

set_option maxRecDepth 1000000 in
/-- C18, as stated, fails for gen8: `decode_8th_gen` stores its pixels with `write_pixel`,
in decode order.  On `gen8_single` the decode succeeds, the pixel reconstructed third
(`k = 2`, data at bit 76) is (1, 0, 0, 0) and every other pixel is zero; that pixel is in
slot 2, while slot `block_order 2 = 4` holds a zero pixel. -/
theorem Decode.gen8_stores_in_decode_order :
    (Decode.decode_8th_gen Decode.gen8_single).toBool = true ∧
    Decode.gen8_spec_pixel (Decode.gen8_spec_header Decode.gen8_single.inp)
      Decode.gen8_single.inp (48 + 14 * 2) = (1, 0, 0, 0) ∧
    (∀ k, k < 32 → k ≠ 2 →
      Decode.gen8_spec_pixel (Decode.gen8_spec_header Decode.gen8_single.inp)
        Decode.gen8_single.inp (48 + 14 * k) = (0, 0, 0, 0)) ∧
    ((Decode.gen8_read_header Decode.gen8_single).toOption.map (fun r => r.1)
      = some (Decode.gen8_spec_header Decode.gen8_single.inp)) ∧
    ((Decode.gen8_reconstruct (Decode.gen8_spec_header Decode.gen8_single.inp)
      (seek Decode.gen8_single 76)).toOption.map (fun r => r.1) = some (1, 0, 0, 0)) ∧
    Decode.block_order 2 = 4 ∧
    DecodeAmd.pixel_at Decode.gen8_single_decoded.out 2 = (1, 0, 0, 0) ∧
    DecodeAmd.pixel_at Decode.gen8_single_decoded.out (Decode.block_order 2) = (0, 0, 0, 0) := by
  refine ⟨by decide, by decide, by decide, by decide, by decide, by decide, by decide, by decide⟩

/-- C18, amended. From the initial globals: a successful `decode_8th_gen` stores the
`k`-th reconstructed pixel (the pixel of the 14 stream bits from bit `48 + 14 k`) in
output slot `k`, without permutation; a successful non-extension `decode_11th_gen` stores
the `k`-th pixel of the decode order (reconstructed, or zero in a half that is not
recovered) in slot `block_order k`; every pixel of the extension decode is stored, once
or four times, in the slots `block_order` gives for the pixel indices it takes.  The table
exchanges entries 2, 3 with 4, 5 inside every group of eight. -/
theorem Decode.vendor_b_output_order (s : State)
    (hbytes : ∀ i, i < 64 → s.inp i < 256) (hbyte : s.in_byte_idx = 0)
    (hbit : s.in_bit_idx = 0) (hout : s.out_idx = 0) :
    (∀ s1, Decode.decode_8th_gen s = .ok s1 → ∀ k, k < 32 →
      DecodeAmd.pixel_at s1.out k =
        Decode.gen8_spec_pixel (Decode.gen8_spec_header s.inp) s.inp (48 + 14 * k)) ∧
    (∀ ccs bpp first second s1, Decode.mode_table ccs = .ok (bpp, first, second) →
      stream_val s.inp 1 8 = 0 → Decode.decode_11th_gen s ccs = .ok s1 → ∀ k, k < 32 →
      DecodeAmd.pixel_at s1.out (Decode.block_order k) =
        Decode.gen11_expected (stream_bit s.inp 0)
          (Decode.gen11_spec_widths s.inp 9 (stream_bit s.inp 0) bpp)
          (Decode.gen11_spec_bases s.inp 21 (stream_bit s.inp 0)) s.inp bpp first second k) ∧
    (∀ ip w bs copies st st1, Decode.ext_pixel ip w bs copies st = .ok st1 →
      ∃ px bb, Decode.ext_reconstruct ip w bs (st.delta_bb st.delta_bb_idx) = .ok (px, bb) ∧
        st1.s.out_idx = st.s.out_idx + copies ∧
        ∀ j, j < copies →
          DecodeAmd.pixel_at st1.s.out (Decode.block_order (st.s.out_idx + j)) = px) ∧
    (∀ k, k < 32 → Decode.block_order k =
      if k % 8 = 2 ∨ k % 8 = 3 then k + 2 else if k % 8 = 4 ∨ k % 8 = 5 then k - 2 else k) := by
  have hwf : WF s := ⟨hbytes, by omega⟩
  refine ⟨?_, ?_, Decode.ext_pixel_inv, Decode.block_order_swap⟩
  · intro s1 h k hk
    obtain ⟨_, _, _, hr⟩ := (Decode.gen8_decode_char s hwf hbyte hbit hout).2.2 s1 h
    exact hr.2.2.2.2.1 k hk
  · intro ccs bpp first second s1 hm hext h k hk
    obtain ⟨_, _, _, hr⟩ :=
      (Decode.gen11_decode_char s ccs bpp first second hwf hbyte hbit hout hm hext).2.1 s1 h
    exact hr.2.2.2.2.1 k hk

set_option maxRecDepth 1000000 in
/-- C18 amended, on `gen11_pred`: its mode-8 decode stores the pixel of decode index 18
in slot `block_order 18 = 20`; the gen8 decode of `gen8_single` stores its pixel 2 in
slot 2. -/
theorem Decode.vendor_b_output_order_witness :
    ((∀ i, i < 64 → Decode.gen11_pred.inp i < 256) ∧
      Decode.gen11_pred.in_byte_idx = 0 ∧
      Decode.gen11_pred.in_bit_idx = 0 ∧
      Decode.gen11_pred.out_idx = 0) ∧
    ((Decode.decode_11th_gen Decode.gen11_pred 8).toBool = true ∧
      Decode.block_order 18 = 20 ∧
      Decode.gen11_expected 1 (Decode.gen11_spec_widths Decode.gen11_pred.inp 9 1 12)
        (Decode.gen11_spec_bases Decode.gen11_pred.inp 21 1) Decode.gen11_pred.inp 12 0 1 18
        = (32, 53, 12, 42) ∧
      DecodeAmd.pixel_at Decode.gen11_pred_mode8.out 20 = (32, 53, 12, 42) ∧
      DecodeAmd.pixel_at Decode.gen11_pred_mode8.out 18 = (30, 50, 10, 44) ∧
      (Decode.decode_8th_gen Decode.gen8_single).toBool = true ∧
      DecodeAmd.pixel_at Decode.gen8_single_decoded.out 2 = (1, 0, 0, 0)) ∧
    ((∀ s1, Decode.decode_8th_gen Decode.gen11_pred = .ok s1 → ∀ k, k < 32 →
      DecodeAmd.pixel_at s1.out k =
        Decode.gen8_spec_pixel (Decode.gen8_spec_header Decode.gen11_pred.inp) Decode.gen11_pred.inp
            (48 + 14 * k)) ∧
    (∀ ccs bpp first second s1, Decode.mode_table ccs = .ok (bpp, first, second) →
      stream_val Decode.gen11_pred.inp 1 8 = 0 → Decode.decode_11th_gen Decode.gen11_pred ccs = .ok
          s1 → ∀ k, k < 32 →
      DecodeAmd.pixel_at s1.out (Decode.block_order k) =
        Decode.gen11_expected (stream_bit Decode.gen11_pred.inp 0)
          (Decode.gen11_spec_widths Decode.gen11_pred.inp 9 (stream_bit Decode.gen11_pred.inp 0)
              bpp)
          (Decode.gen11_spec_bases Decode.gen11_pred.inp 21 (stream_bit Decode.gen11_pred.inp 0))
              Decode.gen11_pred.inp bpp first second k) ∧
    (∀ ip w bs copies st st1, Decode.ext_pixel ip w bs copies st = .ok st1 →
      ∃ px bb, Decode.ext_reconstruct ip w bs (st.delta_bb st.delta_bb_idx) = .ok (px, bb) ∧
        st1.s.out_idx = st.s.out_idx + copies ∧
        ∀ j, j < copies →
          DecodeAmd.pixel_at st1.s.out (Decode.block_order (st.s.out_idx + j)) = px) ∧
    (∀ k, k < 32 → Decode.block_order k =
      if k % 8 = 2 ∨ k % 8 = 3 then k + 2 else if k % 8 = 4 ∨ k % 8 = 5 then k - 2 else k)) :=
  ⟨⟨by decide, by decide, by decide, by decide⟩,
    ⟨by decide, by decide, by decide, by decide, by decide, by decide, by decide⟩,
    Decode.vendor_b_output_order Decode.gen11_pred (by decide) (by decide) (by decide) (by decide)⟩

/-! ## The bit reader: bounds, cursor range, one bit at a time -/

theorem lsb_first_stream_bits (inp : Nat → Nat) (n : Nat) : ∀ q,
    lsb_first (stream_bits inp q n) = stream_val inp q n := by
  induction n with
  | zero => intro q; rfl
  | succ n ih => intro q; simp only [stream_bits, lsb_first, stream_val, ih]

theorem stream_bits_length (inp : Nat → Nat) (n : Nat) : ∀ q,
    (stream_bits inp q n).length = n := by
  induction n with
  | zero => intro q; rfl
  | succ n ih => intro q; simp only [stream_bits, List.length_cons, ih]

theorem stream_bits_getD (inp : Nat → Nat) (n : Nat) : ∀ q i, i < n →
    (stream_bits inp q n).getD i 0 = stream_bit inp (q + i) := by
  induction n with
  | zero => intro q i h; omega
  | succ n ih =>
    intro q i h
    cases i with
    | zero => rfl
    | succ i =>
      simp only [stream_bits, List.getD_cons_succ]
      rw [ih (q + 1) i (by omega)]
      rw [show q + 1 + i = q + (i + 1) by omega]

/-- A read fails exactly at the end of the buffer or when it would run past it. -/
theorem DecodeAmd.read_bits_fails_iff (s : State) (n : Nat) (hwf : WF s) (hn : n ≤ 8) :
    (∃ e, DecodeAmd.read_bits s n = .error e) ↔ (512 ≤ bit_pos s ∨ 512 < bit_pos s + n) := by
  constructor
  · rintro ⟨e, he⟩
    by_contra hc
    rw [DecodeAmd.read_bits_eq s n hwf hn (by omega) (by omega)] at he
    cases he
  · intro h
    cases hr : DecodeAmd.read_bits s n with
    | error e => exact ⟨e, rfl⟩
    | ok p =>
      obtain ⟨v, s1⟩ := p
      have := DecodeAmd.read_bits_room s s1 n v hwf hr
      omega

theorem Decode.read_bits_fails_when (s : State) (n : Nat) (hwf : WF s) (hn : n ≤ 8) :
    (∃ e, Decode.read_bits s n = .error e) ↔ (512 ≤ bit_pos s ∨ 512 < bit_pos s + n) := by
  rw [Decode.read_bits_eq_amd _ _ hwf.2]
  exact DecodeAmd.read_bits_fails_iff s n hwf hn

/-- A read at a cursor whose byte index is out of range fails on the first assertion. -/
theorem read_bits_at_end (s : State) (n : Nat) (hn : n ≤ 8) (h : 64 ≤ s.in_byte_idx) :
    DecodeAmd.read_bits s n = .error .input_exhausted ∧
    Decode.read_bits s n = .error .input_exhausted := by
  unfold DecodeAmd.read_bits Decode.read_bits
  rw [if_neg (by omega), if_pos (by omega), if_neg (by omega), if_pos (by omega)]
  exact ⟨rfl, rfl⟩

/-- What a successful run of reads of decode-amd.c leaves. -/
theorem DecodeAmd.read_run_inv : ∀ (ns : List Nat) (s0 s : State), WF s0 →
    DecodeAmd.read_run ns s0 = .ok s →
    s = seek s0 (bit_pos s0 + ns.sum) ∧ (ns ≠ [] → bit_pos s0 + ns.sum ≤ 512) ∧
    ∀ n, n ∈ ns → n ≤ 8 := by
  intro ns
  induction ns with
  | nil =>
    intro s0 s hwf h
    simp only [DecodeAmd.read_run, Except.ok.injEq] at h
    subst h
    refine ⟨?_, fun h => absurd rfl h, fun n hn => by cases hn⟩
    rw [List.sum_nil, Nat.add_zero, seek_self _ hwf.2]
  | cons n ns ih =>
    intro s0 s hwf h
    simp only [DecodeAmd.read_run] at h
    cases hr : DecodeAmd.read_bits s0 n with
    | error e => rw [hr] at h; cases h
    | ok p =>
      obtain ⟨v, s1⟩ := p
      rw [hr] at h
      simp only at h
      obtain ⟨h1, h2, h3⟩ := DecodeAmd.read_bits_room s0 s1 n v hwf hr
      rw [DecodeAmd.read_bits_eq s0 n hwf h1 h2 h3] at hr
      cases hr
      obtain ⟨i1, i2, i3⟩ := ih _ s (WF_seek s0 _ hwf) h
      rw [bit_pos_seek, seek_seek] at i1
      rw [bit_pos_seek] at i2
      refine ⟨?_, ?_, ?_⟩
      · rw [i1, List.sum_cons, Nat.add_assoc]
      · intro _
        rw [List.sum_cons]
        by_cases hns : ns = []
        · rw [hns, List.sum_nil]; omega
        · have := i2 hns
          omega
      · intro m hm
        rcases List.mem_cons.1 hm with e | e
        · rw [e]; exact h1
        · exact i3 m e

/-- On cursors with a bit offset in range the two files read alike, also in a run. -/
theorem Decode.read_run_eq_amd : ∀ (ns : List Nat) (s0 : State), WF s0 →
    Decode.read_run ns s0 = DecodeAmd.read_run ns s0 := by
  intro ns
  induction ns with
  | nil => intro s0 _; rfl
  | cons n ns ih =>
    intro s0 hwf
    simp only [Decode.read_run, DecodeAmd.read_run]
    rw [Decode.read_bits_eq_amd _ _ hwf.2]
    cases hr : DecodeAmd.read_bits s0 n with
    | error e => rfl
    | ok p =>
      obtain ⟨v, s1⟩ := p
      simp only
      obtain ⟨h1, h2, h3⟩ := DecodeAmd.read_bits_room s0 s1 n v hwf hr
      rw [DecodeAmd.read_bits_eq s0 n hwf h1 h2 h3] at hr
      cases hr
      exact ih _ (WF_seek s0 _ hwf)

/-- The cursors that reads reach from the start of the buffer. -/
theorem reached_cursor (s0 s : State) (ns : List Nat) (hwf : WF s0)
    (hbyte : s0.in_byte_idx = 0) (hbit : s0.in_bit_idx = 0)
    (hreach : DecodeAmd.read_run ns s0 = .ok s ∨ Decode.read_run ns s0 = .ok s) :
    WF s ∧ s.inp = s0.inp ∧ bit_pos s = ns.sum ∧ bit_pos s ≤ 512 ∧ s = seek s0 ns.sum := by
  have hp : bit_pos s0 = 0 := by unfold bit_pos; omega
  have h : DecodeAmd.read_run ns s0 = .ok s := by
    rcases hreach with h | h
    · exact h
    · rw [← Decode.read_run_eq_amd ns s0 hwf]; exact h
  obtain ⟨i1, i2, _⟩ := DecodeAmd.read_run_inv ns s0 s hwf h
  rw [hp, Nat.zero_add] at i1 i2
  refine ⟨by rw [i1]; exact WF_seek s0 _ hwf, by rw [i1]; rfl, by rw [i1, bit_pos_seek], ?_, i1⟩
  rw [i1, bit_pos_seek]
  by_cases hns : ns = []
  · rw [hns, List.sum_nil]; omega
  · exact i2 hns

set_option maxRecDepth 1000000 in
/-- C21, as stated, fails at the end of the buffer: 64 successful reads of 8 bits reach
the cursor (64, 0), at bit 512; there `8 * byte_index + bit_offset + 0 > 512` is false,
yet `read_bits(0)` fails in both files, on the assertion `in_byte_idx < 64`. -/
theorem read_of_no_bits_fails_at_end :
    (Decode.read_run (List.replicate 64 8) (DecodeAmd.start zero_payload)).toBool = true ∧
    (DecodeAmd.read_run (List.replicate 64 8) (DecodeAmd.start zero_payload)).toOption.map
      (fun s => (s.in_byte_idx, s.in_bit_idx)) = some (64, 0) ∧
    (end_cursor.in_byte_idx, end_cursor.in_bit_idx) = (64, 0) ∧
    ¬ (8 * end_cursor.in_byte_idx + end_cursor.in_bit_idx + 0 > 512) ∧
    fault_of (Decode.read_bits end_cursor 0) = some .input_exhausted ∧
    fault_of (DecodeAmd.read_bits end_cursor 0) = some .input_exhausted := by
  refine ⟨by decide, by decide, by decide, by decide, by decide, by decide⟩

/-- C21, amended. At every cursor that successful reads reach from the start of the
buffer, and for every `n` in 0..8, `read_bits(n)` of either file fails if and only if the
cursor is at bit 512 or the requested bits extend past bit 512.  A read that ends exactly
at bit 512 succeeds and leaves the cursor there; a read of no bits succeeds and changes
nothing at every position before bit 512, and fails at bit 512. -/
theorem read_bits_bounds (s0 s : State) (ns : List Nat) (n : Nat)
    (hbytes : ∀ i, i < 64 → s0.inp i < 256) (hbyte : s0.in_byte_idx = 0)
    (hbit : s0.in_bit_idx = 0)
    (hreach : DecodeAmd.read_run ns s0 = .ok s ∨ Decode.read_run ns s0 = .ok s)
    (hn : n ≤ 8) :
    ((∃ e, DecodeAmd.read_bits s n = .error e) ↔
      (bit_pos s = 512 ∨ 512 < bit_pos s + n)) ∧
    ((∃ e, Decode.read_bits s n = .error e) ↔
      (bit_pos s = 512 ∨ 512 < bit_pos s + n)) ∧
    (bit_pos s < 512 → bit_pos s + n = 512 →
      ∃ v s1, DecodeAmd.read_bits s n = .ok (v, s1) ∧ Decode.read_bits s n = .ok (v, s1) ∧
        bit_pos s1 = 512) ∧
    (bit_pos s < 512 →
      DecodeAmd.read_bits s 0 = .ok (0, s) ∧ Decode.read_bits s 0 = .ok (0, s)) ∧
    (bit_pos s = 512 →
      DecodeAmd.read_bits s 0 = .error .input_exhausted ∧
      Decode.read_bits s 0 = .error .input_exhausted) := by
  have hwf0 : WF s0 := ⟨hbytes, by omega⟩
  obtain ⟨hwf, _, _, hle, _⟩ := reached_cursor s0 s ns hwf0 hbyte hbit hreach
  have e1 := DecodeAmd.read_bits_fails_iff s n hwf hn
  have e2 := Decode.read_bits_fails_when s n hwf hn
  have hiff : (512 ≤ bit_pos s ∨ 512 < bit_pos s + n) ↔
      (bit_pos s = 512 ∨ 512 < bit_pos s + n) := by
    constructor
    · rintro (h | h)
      · exact Or.inl (by omega)
      · exact Or.inr h
    · rintro (h | h)
      · exact Or.inl (by omega)
      · exact Or.inr h
  refine ⟨e1.trans hiff, e2.trans hiff, ?_, ?_, ?_⟩
  · intro h1 h2
    have ha := DecodeAmd.read_bits_eq s n hwf hn h1 (by omega)
    refine ⟨_, _, ha, ?_, ?_⟩
    · rw [Decode.read_bits_eq_amd _ _ hwf.2]; exact ha
    · rw [bit_pos_seek]; exact h2
  · intro h1
    have ha := DecodeAmd.read_bits_eq s 0 hwf (by omega) h1 (by omega)
    rw [Nat.add_zero, seek_self s hwf.2] at ha
    have hv : stream_val s.inp (bit_pos s) 0 = 0 := rfl
    rw [hv] at ha
    refine ⟨ha, ?_⟩
    rw [Decode.read_bits_eq_amd _ _ hwf.2]; exact ha
  · intro h1
    have hb := hwf.2
    have : 64 ≤ s.in_byte_idx := by unfold bit_pos at h1; omega
    exact read_bits_at_end s 0 (by omega) this

set_option maxRecDepth 1000000 in
/-- C21 amended, at the cursor (2, 5) that reads of 8, 8 and 5 bits reach on the buffer
`A5 3C CF 01 ...`, for a read of 7 bits, which returns 14. -/
theorem read_bits_bounds_witness :
    ((∀ i, i < 64 → mid_start.inp i < 256) ∧ mid_start.in_byte_idx = 0 ∧
      mid_start.in_bit_idx = 0 ∧
      (DecodeAmd.read_run [8, 8, 5] mid_start = .ok mid_cursor ∨
        Decode.read_run [8, 8, 5] mid_start = .ok mid_cursor) ∧ 7 ≤ 8) ∧
    ((mid_cursor.in_byte_idx, mid_cursor.in_bit_idx) = (2, 5) ∧
      (Decode.read_bits mid_cursor 7).toOption.map (fun r => r.1) = some 14 ∧
      (DecodeAmd.read_bits mid_cursor 7).toOption.map (fun r => r.1) = some 14) ∧
    (((∃ e, DecodeAmd.read_bits mid_cursor 7 = .error e) ↔
      (bit_pos mid_cursor = 512 ∨ 512 < bit_pos mid_cursor + 7)) ∧
    ((∃ e, Decode.read_bits mid_cursor 7 = .error e) ↔
      (bit_pos mid_cursor = 512 ∨ 512 < bit_pos mid_cursor + 7)) ∧
    (bit_pos mid_cursor < 512 → bit_pos mid_cursor + 7 = 512 →
      ∃ v s1, DecodeAmd.read_bits mid_cursor 7 = .ok (v, s1) ∧
        Decode.read_bits mid_cursor 7 = .ok (v, s1) ∧ bit_pos s1 = 512) ∧
    (bit_pos mid_cursor < 512 →
      DecodeAmd.read_bits mid_cursor 0 = .ok (0, mid_cursor) ∧
      Decode.read_bits mid_cursor 0 = .ok (0, mid_cursor)) ∧
    (bit_pos mid_cursor = 512 →
      DecodeAmd.read_bits mid_cursor 0 = .error .input_exhausted ∧
      Decode.read_bits mid_cursor 0 = .error .input_exhausted)) :=
  ⟨⟨by decide, by decide, by decide, Or.inr (eq_ok_value_or _ _ (by decide)), by decide⟩,
    ⟨by decide, by decide, by decide⟩,
    read_bits_bounds mid_start mid_cursor [8, 8, 5] 7 (by decide) (by decide) (by decide)
      (Or.inr (eq_ok_value_or _ _ (by decide))) (by decide)⟩

set_option maxRecDepth 1000000 in
/-- C22, as stated, fails: a successful read that ends at bit 512 leaves the byte index
at 64, outside [0, 64).  So do 63 reads of 8 bits and two of 4 bits in decode-amd.c, 64
reads of 8 bits in decode.c, and the successful `decode_8th_gen` of the flat payload. -/
theorem cursor_rests_at_byte_64 :
    (DecodeAmd.start zero_payload).in_byte_idx = 0 ∧
    (DecodeAmd.start zero_payload).in_bit_idx = 0 ∧
    (DecodeAmd.read_run (List.replicate 63 8 ++ [4, 4]) (DecodeAmd.start zero_payload)).toBool
      = true ∧
    (end_cursor_amd.in_byte_idx, end_cursor_amd.in_bit_idx) = (64, 0) ∧
    ¬ end_cursor_amd.in_byte_idx < 64 ∧
    (Decode.read_run (List.replicate 64 8) (DecodeAmd.start zero_payload)).toOption.map
      (fun s => s.in_byte_idx) = some 64 ∧
    (Decode.decode_8th_gen Decode.gen8_flat).toBool = true ∧
    Decode.gen8_flat_decoded.in_byte_idx = 64 := by
  refine ⟨by decide, by decide, by decide, by decide, by decide, by decide, by decide,
    by decide⟩

/-- C22, amended. Starting from the cursor (0, 0), after every successful `read_bits`
call of either file the bit offset is in [0, 8) and the byte index in [0, 64]; the byte
index is 64 exactly when the reads have taken all 512 bits, and then the bit offset is 0.
The cursor is at the bit whose number is the sum of the widths read. -/
theorem cursor_range (s0 s : State) (ns : List Nat)
    (hbytes : ∀ i, i < 64 → s0.inp i < 256) (hbyte : s0.in_byte_idx = 0)
    (hbit : s0.in_bit_idx = 0)
    (hreach : DecodeAmd.read_run ns s0 = .ok s ∨ Decode.read_run ns s0 = .ok s) :
    s.in_bit_idx < 8 ∧ s.in_byte_idx ≤ 64 ∧
    8 * s.in_byte_idx + s.in_bit_idx = ns.sum ∧
    (s.in_byte_idx = 64 ↔ ns.sum = 512) ∧
    (s.in_byte_idx = 64 → s.in_bit_idx = 0) ∧
    (s.in_byte_idx < 64 ↔ ns.sum < 512) := by
  have hwf0 : WF s0 := ⟨hbytes, by omega⟩
  obtain ⟨hwf, _, hsum, hle, _⟩ := reached_cursor s0 s ns hwf0 hbyte hbit hreach
  have hb := hwf.2
  unfold bit_pos at hsum hle
  refine ⟨hb, by omega, hsum, ?_, by omega, ?_⟩
  · constructor <;> intro h <;> omega
  · constructor <;> intro h <;> omega

set_option maxRecDepth 1000000 in
/-- C22 amended, on the reads of 8, 8 and 5 bits from the start of `A5 3C CF 01 ...`. -/
theorem cursor_range_witness :
    ((∀ i, i < 64 → mid_start.inp i < 256) ∧ mid_start.in_byte_idx = 0 ∧
      mid_start.in_bit_idx = 0 ∧
      (DecodeAmd.read_run [8, 8, 5] mid_start = .ok mid_cursor ∨
        Decode.read_run [8, 8, 5] mid_start = .ok mid_cursor)) ∧
    ((mid_cursor.in_byte_idx, mid_cursor.in_bit_idx) = (2, 5)) ∧
    (mid_cursor.in_bit_idx < 8 ∧ mid_cursor.in_byte_idx ≤ 64 ∧
    8 * mid_cursor.in_byte_idx + mid_cursor.in_bit_idx = [8, 8, 5].sum ∧
    (mid_cursor.in_byte_idx = 64 ↔ [8, 8, 5].sum = 512) ∧
    (mid_cursor.in_byte_idx = 64 → mid_cursor.in_bit_idx = 0) ∧
    (mid_cursor.in_byte_idx < 64 ↔ [8, 8, 5].sum < 512)) :=
  ⟨⟨by decide, by decide, by decide, Or.inr (eq_ok_value_or _ _ (by decide))⟩, by decide,
    cursor_range mid_start mid_cursor [8, 8, 5] (by decide) (by decide) (by decide)
      (Or.inr (eq_ok_value_or _ _ (by decide)))⟩

theorem DecodeAmd.read_singly_seek (s : State) (hwf : WF s) : ∀ (n q : Nat), q + n ≤ 512 →
    DecodeAmd.read_singly n (seek s q) = .ok (stream_bits s.inp q n, seek s (q + n)) := by
  intro n
  induction n with
  | zero => intro q _; rfl
  | succ n ih =>
    intro q hq
    simp only [DecodeAmd.read_singly]
    rw [DecodeAmd.read_bits_seek s q 1 hwf (by omega) (by omega) (by omega)]
    simp only
    rw [ih (q + 1) (by omega), stream_val_one]
    simp only [stream_bits]
    rw [show q + 1 + n = q + (n + 1) by omega]

theorem Decode.read_singly_window (s : State) (hwf : WF s) : ∀ (n q : Nat), q + n ≤ 512 →
    Decode.read_singly n (seek s q) = .ok (stream_bits s.inp q n, seek s (q + n)) := by
  intro n
  induction n with
  | zero => intro q _; rfl
  | succ n ih =>
    intro q hq
    simp only [Decode.read_singly]
    rw [Decode.read_bits_window s q 1 hwf (by omega) (by omega) (by omega)]
    simp only
    rw [ih (q + 1) (by omega), stream_val_one]
    simp only [stream_bits]
    rw [show q + 1 + n = q + (n + 1) by omega]

/-- C23. For every buffer, every cursor with a bit offset in 0..7 in a byte that has a
successor byte, and every `n` in 0..8: the `n` successive calls `read_bits(1)` succeed and
return the next `n` stream bits in order, and one call `read_bits(n)` returns the number
whose bit `i` is the `i`-th of those results (least significant first) and leaves the
same cursor; in decode-amd.c and in decode.c alike. -/
theorem bit_reader_equivalence (s : State) (n : Nat)
    (hbytes : ∀ i, i < 64 → s.inp i < 256) (hbit : s.in_bit_idx < 8)
    (hsucc : s.in_byte_idx + 1 < 64) (hn : n ≤ 8) :
    (∃ bs s1, DecodeAmd.read_singly n s = .ok (bs, s1) ∧ bs.length = n ∧
      (∀ i, i < n → bs.getD i 0 = stream_bit s.inp (bit_pos s + i)) ∧
      DecodeAmd.read_bits s n = .ok (lsb_first bs, s1) ∧
      bit_pos s1 = bit_pos s + n ∧ s1.in_bit_idx < 8) ∧
    (∃ bs s1, Decode.read_singly n s = .ok (bs, s1) ∧ bs.length = n ∧
      (∀ i, i < n → bs.getD i 0 = stream_bit s.inp (bit_pos s + i)) ∧
      Decode.read_bits s n = .ok (lsb_first bs, s1) ∧
      bit_pos s1 = bit_pos s + n ∧ s1.in_bit_idx < 8) := by
  have hwf : WF s := ⟨hbytes, hbit⟩
  have hp : bit_pos s + n ≤ 512 := by unfold bit_pos; omega
  have hlt : bit_pos s < 512 := by unfold bit_pos; omega
  have hself := seek_self s hbit
  have a1 := DecodeAmd.read_singly_seek s hwf n (bit_pos s) hp
  have a2 := Decode.read_singly_window s hwf n (bit_pos s) hp
  rw [hself] at a1 a2
  have hr := DecodeAmd.read_bits_eq s n hwf hn hlt hp
  have hw := WF_seek s (bit_pos s + n) hwf
  constructor
  · refine ⟨_, _, a1, stream_bits_length _ _ _, stream_bits_getD _ _ _, ?_, bit_pos_seek _ _,
      hw.2⟩
    rw [lsb_first_stream_bits]
    exact hr
  · refine ⟨_, _, a2, stream_bits_length _ _ _, stream_bits_getD _ _ _, ?_, bit_pos_seek _ _,
      hw.2⟩
    rw [lsb_first_stream_bits, Decode.read_bits_eq_amd _ _ hbit]
    exact hr

set_option maxRecDepth 1000000 in
/-- C23, at the cursor (2, 5) of the buffer `A5 3C CF 01 ...` for 7 bits: the single
bits are 0, 1, 1, 1, 0, 0, 0 and the one read returns 14. -/
theorem bit_reader_equivalence_witness :
    ((∀ i, i < 64 → mid_cursor.inp i < 256) ∧ mid_cursor.in_bit_idx < 8 ∧
      mid_cursor.in_byte_idx + 1 < 64 ∧ 7 ≤ 8) ∧
    ((Decode.read_singly 7 mid_cursor).toOption.map (fun r => r.1)
        = some [0, 1, 1, 1, 0, 0, 0] ∧
      (DecodeAmd.read_singly 7 mid_cursor).toOption.map (fun r => r.1)
        = some [0, 1, 1, 1, 0, 0, 0] ∧
      lsb_first [0, 1, 1, 1, 0, 0, 0] = 14 ∧
      (Decode.read_bits mid_cursor 7).toOption.map (fun r => r.1) = some 14) ∧
    ((∃ bs s1, DecodeAmd.read_singly 7 mid_cursor = .ok (bs, s1) ∧ bs.length = 7 ∧
      (∀ i, i < 7 → bs.getD i 0 = stream_bit mid_cursor.inp (bit_pos mid_cursor + i)) ∧
      DecodeAmd.read_bits mid_cursor 7 = .ok (lsb_first bs, s1) ∧
      bit_pos s1 = bit_pos mid_cursor + 7 ∧ s1.in_bit_idx < 8) ∧
    (∃ bs s1, Decode.read_singly 7 mid_cursor = .ok (bs, s1) ∧ bs.length = 7 ∧
      (∀ i, i < 7 → bs.getD i 0 = stream_bit mid_cursor.inp (bit_pos mid_cursor + i)) ∧
      Decode.read_bits mid_cursor 7 = .ok (lsb_first bs, s1) ∧
      bit_pos s1 = bit_pos mid_cursor + 7 ∧ s1.in_bit_idx < 8)) :=
  ⟨⟨by decide, by decide, by decide, by decide⟩, ⟨by decide, by decide, by decide, by decide⟩,
    bit_reader_equivalence mid_cursor 7 (by decide) (by decide) (by decide) (by decide)⟩

/-! ## decode.c: the bit buffer -/

namespace Decode

theorem buffer_bits_spec (bb : bitbuffer) (v c : Nat) (hc : c ≤ 8)
    (hu : bb.bits_used + c ≤ 32) (hb : bb.buf < 2 ^ bb.bits_used) (hv : v < 2 ^ c) :
    buffer_bits bb v c =
      .ok { buf := bb.buf + 2 ^ bb.bits_used * v, bits_used := bb.bits_used + c } := by
  unfold buffer_bits
  rw [if_neg (by omega), if_neg (by omega)]
  have h1 : v <<< bb.bits_used = 2 ^ bb.bits_used * v := by
    rw [Nat.shiftLeft_eq, Nat.mul_comm]
  have h2 : 2 ^ bb.bits_used * v < 2 ^ 32 := by
    have : 2 ^ bb.bits_used * v < 2 ^ bb.bits_used * 2 ^ c :=
      (Nat.mul_lt_mul_left (Nat.two_pow_pos _)).2 hv
    rw [← pow_add] at this
    exact Nat.lt_of_lt_of_le this (Nat.pow_le_pow_right (by decide) hu)
  have h3 := Nat.mul_add_lt_is_or hb v
  rw [h1, Nat.mod_eq_of_lt h2, Nat.lor_comm, ← h3]
  have h4 : (bb.bits_used + c) % 256 = bb.bits_used + c := by omega
  rw [h4, Nat.add_comm]

theorem buffer_bits_used (bb bb1 : bitbuffer) (v c : Nat) (h : buffer_bits bb v c = .ok bb1) :
    bb1.bits_used = bb.bits_used + c ∧ c ≤ 8 ∧ bb.bits_used + c ≤ 32 := by
  unfold buffer_bits at h
  split_ifs at h with h1 h2
  cases h
  refine ⟨?_, by omega, by omega⟩
  show (bb.bits_used + c) % 256 = bb.bits_used + c
  omega

theorem fill_chunks_fuel : ∀ (f1 f2 count : Nat) (st : bitbuffer × State),
    count ≤ f1 → count ≤ f2 → fill_chunks f1 st count = fill_chunks f2 st count := by
  intro f1
  induction f1 with
  | zero =>
    intro f2 count st h1 _
    have : count = 0 := by omega
    subst this
    cases f2 <;> simp [fill_chunks]
  | succ f1 ih =>
    intro f2 count st h1 h2
    cases f2 with
    | zero =>
      have : count = 0 := by omega
      subst this
      simp [fill_chunks]
    | succ f2 =>
      simp only [fill_chunks]
      by_cases hc : count > 8
      · rw [if_pos hc, if_pos hc]
        cases hr : read_bits st.2 8 with
        | error e => rfl
        | ok p =>
          obtain ⟨v, s1⟩ := p
          simp only
          cases hb : buffer_bits st.1 v 8 with
          | error e => rfl
          | ok bb1 =>
            simp only
            exact ih f2 (count - 8) (bb1, s1) (by omega) (by omega)
      · rw [if_neg hc, if_neg hc]

/-- Nothing to fill. -/
theorem rbib_zero (bb : bitbuffer) (s : State) :
    read_bits_into_buffer bb s 0 = .ok (bb, s) := rfl

/-- Up to 8 bits: one read, one store. -/
theorem rbib_small (bb : bitbuffer) (s : State) (n : Nat) (h0 : 0 < n) (hn : n ≤ 8) :
    read_bits_into_buffer bb s n =
      (match read_bits s n with
       | .error e => .error e
       | .ok (v, s2) =>
         match buffer_bits bb v n with
         | .error e => .error e
         | .ok bb2 => .ok (bb2, s2)) := by
  unfold read_bits_into_buffer
  have : fill_chunks n (bb, s) n = .ok ((bb, s), n) := by
    cases n with
    | zero => rfl
    | succ m =>
      simp only [fill_chunks]
      rw [if_neg (by omega)]
  rw [this]
  simp only [bind_ok_eq]
  rw [if_pos h0]
  cases read_bits s n with
  | error e => rfl
  | ok p =>
    obtain ⟨v, s2⟩ := p
    simp only [bind_ok_eq]
    cases buffer_bits bb v n with
    | error e => rfl
    | ok bb2 => rfl

/-- More than 8 bits: one byte read and stored, and the rest. -/
theorem rbib_large (bb : bitbuffer) (s : State) (n : Nat) (hn : 8 < n) :
    read_bits_into_buffer bb s n =
      (match read_bits s 8 with
       | .error e => .error e
       | .ok (v, s1) =>
         match buffer_bits bb v 8 with
         | .error e => .error e
         | .ok bb1 => read_bits_into_buffer bb1 s1 (n - 8)) := by
  unfold read_bits_into_buffer
  obtain ⟨m, rfl⟩ : ∃ m, n = m + 1 := ⟨n - 1, by omega⟩
  simp only [fill_chunks]
  rw [if_pos hn]
  cases hr : read_bits s 8 with
  | error e => rfl
  | ok p =>
    obtain ⟨v, s1⟩ := p
    simp only
    cases hb : buffer_bits bb v 8 with
    | error e => rfl
    | ok bb1 =>
      simp only
      rw [fill_chunks_fuel m (m + 1 - 8) (m + 1 - 8) (bb1, s1) (by omega) (Nat.le_refl _)]

/-- A fill with room in the buffer and in the input: the new bits go above the old. -/
theorem rbib_spec (s : State) (hwf : WF s) : ∀ (n : Nat) (bb : bitbuffer) (q : Nat),
    bb.bits_used + n ≤ 32 → q + n ≤ 512 → bb.buf < 2 ^ bb.bits_used →
    read_bits_into_buffer bb (seek s q) n =
      .ok ({ buf := bb.buf + 2 ^ bb.bits_used * stream_val s.inp q n,
             bits_used := bb.bits_used + n }, seek s (q + n)) := by
  intro n
  induction n using Nat.strong_induction_on with
  | _ n ih =>
    intro bb q hu hq hb
    rcases Nat.eq_zero_or_pos n with h0 | h0
    · subst h0
      rw [rbib_zero]
      simp [stream_val]
    by_cases hn : n ≤ 8
    · rw [rbib_small _ _ _ h0 hn, read_bits_window s q n hwf hn (by omega) hq]
      simp only
      rw [buffer_bits_spec bb _ n hn hu hb (stream_val_lt _ _ _)]
    · rw [rbib_large _ _ _ (by omega), read_bits_window s q 8 hwf (by omega) (by omega)
        (by omega)]
      simp only
      rw [buffer_bits_spec bb _ 8 (by omega) (by omega) hb (stream_val_lt _ _ _)]
      simp only
      have hb1 : bb.buf + 2 ^ bb.bits_used * stream_val s.inp q 8 < 2 ^ (bb.bits_used + 8) := by
        have h1 := stream_val_lt s.inp 8 q
        have h2 : 2 ^ bb.bits_used * stream_val s.inp q 8 ≤ 2 ^ bb.bits_used * 255 :=
          Nat.mul_le_mul_left _ (by omega)
        have e : (2:Nat) ^ (bb.bits_used + 8) = 2 ^ bb.bits_used * 256 := by
          rw [pow_add]; rfl
        rw [e]
        generalize 2 ^ bb.bits_used = P at hb h2 ⊢
        generalize P * stream_val s.inp q 8 = X at h2 ⊢
        omega
      have hu1 : bb.bits_used + 8 + (n - 8) ≤ 32 := by omega
      have hq1 : q + 8 + (n - 8) ≤ 512 := by omega
      have key := ih (n - 8) (by omega)
        { buf := bb.buf + 2 ^ bb.bits_used * stream_val s.inp q 8,
          bits_used := bb.bits_used + 8 } (q + 8) hu1 hq1 hb1
      rw [key]
      have hsplit := stream_val_add s.inp 8 (n - 8) q
      have e : 8 + (n - 8) = n := by omega
      rw [e] at hsplit
      have e2 : q + 8 + (n - 8) = q + n := by omega
      have e3 : bb.bits_used + 8 + (n - 8) = bb.bits_used + n := by omega
      have e4 : bb.buf + 2 ^ bb.bits_used * stream_val s.inp q 8
          + 2 ^ (bb.bits_used + 8) * stream_val s.inp (q + 8) (n - 8)
          = bb.buf + 2 ^ bb.bits_used * stream_val s.inp q n := by
        rw [hsplit, pow_add, Nat.mul_add, Nat.mul_assoc, Nat.add_assoc]
      show Except.ok ((⟨bb.buf + 2 ^ bb.bits_used * stream_val s.inp q 8
          + 2 ^ (bb.bits_used + 8) * stream_val s.inp (q + 8) (n - 8),
          bb.bits_used + 8 + (n - 8)⟩ : bitbuffer), seek s (q + 8 + (n - 8))) = _
      rw [e2, e3, e4]

/-- A fill that would pass 32 buffered bits fails. -/
theorem rbib_overflow : ∀ (n : Nat) (bb : bitbuffer) (s : State), bb.bits_used ≤ 32 →
    32 < bb.bits_used + n → ∃ e, read_bits_into_buffer bb s n = .error e := by
  intro n
  induction n using Nat.strong_induction_on with
  | _ n ih =>
    intro bb s hu hover
    by_cases hn : n ≤ 8
    · rw [rbib_small _ _ _ (by omega) hn]
      cases read_bits s n with
      | error e => exact ⟨e, rfl⟩
      | ok p =>
        obtain ⟨v, s2⟩ := p
        simp only
        have : buffer_bits bb v n = .error .buffer_overflow := by
          unfold buffer_bits
          rw [if_neg (by omega), if_pos (by omega)]
        rw [this]
        exact ⟨_, rfl⟩
    · rw [rbib_large _ _ _ (by omega)]
      cases read_bits s 8 with
      | error e => exact ⟨e, rfl⟩
      | ok p =>
        obtain ⟨v, s1⟩ := p
        simp only
        cases hbb : buffer_bits bb v 8 with
        | error e => exact ⟨e, rfl⟩
        | ok bb1 =>
          simp only
          obtain ⟨u1, u2⟩ := buffer_bits_used bb bb1 v 8 hbb
          exact ih (n - 8) (by omega) bb1 s1 (by omega) (by omega)

/-- Taking `k` buffered bits: the low `k` bits, the rest moves down. -/
theorem rbb_spec (bb : bitbuffer) (k : Nat) (hk : k ≤ 8) (hu : k ≤ bb.bits_used)
    (h32 : bb.bits_used ≤ 255) :
    read_buffered_bits bb k =
      .ok (bb.buf % 2 ^ k, { buf := bb.buf / 2 ^ k, bits_used := bb.bits_used - k }) := by
  unfold read_buffered_bits
  rw [if_neg (by omega), if_neg (by omega)]
  have h1 : bb.buf % 2 ^ k < 256 := by
    have := Nat.mod_lt bb.buf (Nat.two_pow_pos k)
    have hp : (2:Nat) ^ k ≤ 2 ^ 8 := Nat.pow_le_pow_right (by decide) hk
    omega
  have h2 : (bb.bits_used - k) % 256 = bb.bits_used - k := by omega
  rw [Nat.one_shiftLeft, Nat.and_pow_two_sub_one_eq_mod, Nat.mod_eq_of_lt h1,
    Nat.shiftRight_eq_div_pow, h2]

theorem stream_val_mod (inp : Nat → Nat) (q n k : Nat) (hk : k ≤ n) :
    stream_val inp q n % 2 ^ k = stream_val inp q k ∧
    stream_val inp q n / 2 ^ k = stream_val inp (q + k) (n - k) := by
  have hsplit := stream_val_add inp k (n - k) q
  have e : k + (n - k) = n := by omega
  rw [e] at hsplit
  have hlt := stream_val_lt inp k q
  have hpos : 0 < 2 ^ k := Nat.two_pow_pos k
  rw [hsplit]
  constructor
  · rw [Nat.add_mul_mod_self_left, Nat.mod_eq_of_lt hlt]
  · rw [Nat.add_mul_div_left _ _ hpos, Nat.div_eq_of_lt hlt, Nat.zero_add]

/-- A run of takes from a buffer that holds `n` stream bits: consecutive windows. -/
theorem take_run_spec (inp : Nat → Nat) : ∀ (ks : List Nat) (q n : Nat),
    (∀ k, k ∈ ks → k ≤ 8) → ks.sum ≤ n → n ≤ 255 →
    take_run ks { buf := stream_val inp q n, bits_used := n } =
      .ok (stream_windows inp q ks,
        { buf := stream_val inp (q + ks.sum) (n - ks.sum), bits_used := n - ks.sum }) := by
  intro ks
  induction ks with
  | nil => intro q n _ _ _; rfl
  | cons k ks ih =>
    intro q n hks hsum hn
    rw [List.sum_cons] at hsum
    have hk := hks k (List.mem_cons_self _ _)
    simp only [take_run]
    rw [rbb_spec _ k hk (by show k ≤ n; omega) hn]
    simp only
    obtain ⟨m1, m2⟩ := stream_val_mod inp q n k (by omega)
    rw [m1, m2, ih (q + k) (n - k) (fun j hj => hks j (List.mem_cons_of_mem _ hj)) (by omega)
      (by omega)]
    simp only [stream_windows, List.sum_cons]
    rw [show q + k + ks.sum = q + (k + ks.sum) by omega,
      show n - k - ks.sum = n - (k + ks.sum) by omega]

/-- A run of reads whose reads all start before the end of the buffer: the same windows. -/
theorem read_values_spec (s : State) (hwf : WF s) : ∀ (ks : List Nat) (q : Nat),
    (∀ k, k ∈ ks → k ≤ 8) → q + ks.sum ≤ 512 →
    (q + ks.sum < 512 ∨ ∀ k, k ∈ ks → 0 < k) →
    read_values ks (seek s q) = .ok (stream_windows s.inp q ks, seek s (q + ks.sum)) := by
  intro ks
  induction ks with
  | nil => intro q _ _ _; rfl
  | cons k ks ih =>
    intro q hks hsum hpos
    rw [List.sum_cons] at hsum hpos
    have hk := hks k (List.mem_cons_self _ _)
    have hq : q < 512 := by
      rcases hpos with h | h
      · omega
      · have := h k (List.mem_cons_self _ _)
        omega
    simp only [read_values]
    rw [read_bits_window s q k hwf hk hq (by omega)]
    simp only
    rw [ih (q + k) (fun j hj => hks j (List.mem_cons_of_mem _ hj)) (by omega) (by
      rcases hpos with h | h
      · exact Or.inl (by omega)
      · exact Or.inr (fun j hj => h j (List.mem_cons_of_mem _ hj)))]
    simp only [stream_windows, List.sum_cons]
    rw [show q + k + ks.sum = q + (k + ks.sum) by omega]

end Decode

set_option maxRecDepth 1000000 in
/-- C24, as stated, fails at the end of the buffer.  From the cursor at bit 504 a fill of
8 bits succeeds, and the takes of 8 and 0 bits (sum 8) return `A5` and `0`; but from that
cursor `read_bits(8)` followed by `read_bits(0)` does not return: the second call is made
at bit 512 and fails on the assertion `in_byte_idx < 64`. -/
theorem Decode.buffered_take_at_buffer_end :
    bit_pos Decode.last_byte_cursor = 504 ∧
    (Decode.read_bits_into_buffer Decode.init_bitbuffer Decode.last_byte_cursor 8).toOption.map
      (fun r => (r.1, bit_pos r.2)) = some ({ buf := 0xA5, bits_used := 8 }, 512) ∧
    (∀ k, k ∈ [8, 0] → k ≤ 8) ∧ [8, 0].sum ≤ 8 ∧
    (Decode.take_run [8, 0] { buf := 0xA5, bits_used := 8 }).toOption.map (fun r => r.1)
      = some [0xA5, 0] ∧
    (Decode.read_values [8] Decode.last_byte_cursor).toOption.map (fun r => r.1)
      = some [0xA5] ∧
    fault_of (Decode.read_values [8, 0] Decode.last_byte_cursor) = some .input_exhausted := by
  refine ⟨by decide, by decide, by decide, by decide, by decide, by decide, by decide⟩

/-- C24, amended. For an empty bit buffer and every `n <= 32` that fits in the remaining
input, `read_bits_into_buffer(bb, n)` leaves `bits_used = n` and `buf` equal to the
integer of the next `n` stream bits, least significant first, and advances the cursor by
`n`.  Afterwards takes `read_buffered_bits(k_j)` with every `k_j <= 8` and sum at most
`n` return the consecutive windows of those stream bits, without touching the cursor (a
take has no access to it).  These are the values that `read_bits(k_1)`, `read_bits(k_2)`,
... return from the original cursor whenever every one of these reads starts before bit
512, which holds if the takes stop short of bit 512 or none of them has width 0.  A fill
past 32 buffered bits fails, and so does a take of more bits than are buffered. -/
theorem Decode.bit_buffer_round_trip (s : State) (n : Nat) (ks : List Nat)
    (hbytes : ∀ i, i < 64 → s.inp i < 256) (hbit : s.in_bit_idx < 8)
    (hn : n ≤ 32) (hfit : bit_pos s + n ≤ 512)
    (hks : ∀ k, k ∈ ks → k ≤ 8) (hsum : ks.sum ≤ n) :
    (∃ bb, Decode.read_bits_into_buffer Decode.init_bitbuffer s n
        = .ok (bb, seek s (bit_pos s + n)) ∧
      bit_pos (seek s (bit_pos s + n)) = bit_pos s + n ∧
      bb.bits_used = n ∧ bb.buf = stream_val s.inp (bit_pos s) n ∧ bb.buf < 2 ^ n ∧
      (∀ i, i < n → bb.buf / 2 ^ i % 2 = stream_bit s.inp (bit_pos s + i)) ∧
      ∃ bb2, Decode.take_run ks bb = .ok (stream_windows s.inp (bit_pos s) ks, bb2) ∧
        bb2.bits_used = n - ks.sum ∧
        ((bit_pos s + ks.sum < 512 ∨ ∀ k, k ∈ ks → 0 < k) →
          Decode.read_values ks s
            = .ok (stream_windows s.inp (bit_pos s) ks, seek s (bit_pos s + ks.sum)))) ∧
    (∀ (bb : Decode.bitbuffer) (s2 : State) (m : Nat), bb.bits_used ≤ 32 →
      32 < bb.bits_used + m → ∃ e, Decode.read_bits_into_buffer bb s2 m = .error e) ∧
    (∀ (bb : Decode.bitbuffer) (k : Nat), bb.bits_used < k →
      ∃ e, Decode.read_buffered_bits bb k = .error e) := by
  have hwf : WF s := ⟨hbytes, hbit⟩
  have hself := seek_self s hbit
  refine ⟨?_, fun bb s2 m => Decode.rbib_overflow m bb s2, ?_⟩
  · have hfill := Decode.rbib_spec s hwf n Decode.init_bitbuffer (bit_pos s)
      (by show 0 + n ≤ 32; omega) hfit (by show 0 < 2 ^ 0; decide)
    rw [hself] at hfill
    have e1 : (0 : Nat) + 2 ^ 0 * stream_val s.inp (bit_pos s) n
        = stream_val s.inp (bit_pos s) n := by simp
    have hfill2 : Decode.read_bits_into_buffer Decode.init_bitbuffer s n =
        .ok (⟨stream_val s.inp (bit_pos s) n, n⟩, seek s (bit_pos s + n)) := by
      rw [hfill]
      show Except.ok ((⟨0 + 2 ^ 0 * stream_val s.inp (bit_pos s) n, 0 + n⟩ : Decode.bitbuffer),
        seek s (bit_pos s + n)) = _
      rw [e1, Nat.zero_add]
    refine ⟨_, hfill2, bit_pos_seek _ _, rfl, rfl, stream_val_lt _ _ _,
      fun i hi => stream_val_bit s.inp n (bit_pos s) i hi, _,
      Decode.take_run_spec s.inp ks (bit_pos s) n hks hsum (by omega), rfl, ?_⟩
    intro hpos
    have := Decode.read_values_spec s hwf ks (bit_pos s) hks (by omega) hpos
    rw [hself] at this
    exact this
  · intro bb k hk
    unfold Decode.read_buffered_bits
    by_cases h8 : k ≤ 8
    · rw [if_neg (by omega), if_pos (by omega)]
      exact ⟨_, rfl⟩
    · rw [if_pos h8]
      exact ⟨_, rfl⟩

set_option maxRecDepth 1000000 in
/-- C24 amended, at bit 3 of the buffer `A5 3C CF 01 ...` for a fill of 22 bits and takes of
5, 0, 8 and 3 bits: the buffer holds 0x39e794 and the takes return 20, 0, 60, 7, as the
reads do. -/
theorem Decode.bit_buffer_round_trip_witness :
    ((∀ i, i < 64 → Decode.fill_cursor.inp i < 256) ∧
      Decode.fill_cursor.in_bit_idx < 8 ∧
      22 ≤ 32 ∧
      bit_pos Decode.fill_cursor + 22 ≤ 512 ∧
      (∀ k, k ∈ [5, 0, 8, 3] → k ≤ 8) ∧
      [5, 0, 8, 3].sum ≤ 22) ∧
    ((Decode.read_bits_into_buffer Decode.init_bitbuffer Decode.fill_cursor 22).toOption.map
        (fun r => (r.1, bit_pos r.2)) = some ({ buf := 0x39e794, bits_used := 22 }, 25) ∧
      (Decode.take_run [5, 0, 8, 3] { buf := 0x39e794, bits_used := 22 }).toOption.map
        (fun r => r.1) = some [20, 0, 60, 7] ∧
      (Decode.read_values [5, 0, 8, 3] Decode.fill_cursor).toOption.map (fun r => r.1) = some [20,
          0, 60, 7] ∧
      fault_of (Decode.read_bits_into_buffer { buf := 0, bits_used := 30 } Decode.fill_cursor 3)
        = some .buffer_overflow ∧
      fault_of (Decode.read_buffered_bits { buf := 0, bits_used := 2 } 3) = some .buffer_underflow)
          ∧
    ((∃ bb, Decode.read_bits_into_buffer Decode.init_bitbuffer Decode.fill_cursor 22
        = .ok (bb, seek Decode.fill_cursor (bit_pos Decode.fill_cursor + 22)) ∧
      bit_pos (seek Decode.fill_cursor (bit_pos Decode.fill_cursor + 22)) = bit_pos
          Decode.fill_cursor + 22 ∧
      bb.bits_used = 22 ∧ bb.buf = stream_val Decode.fill_cursor.inp (bit_pos Decode.fill_cursor) 22
          ∧ bb.buf < 2 ^ 22 ∧
      (∀ i, i < 22 → bb.buf / 2 ^ i % 2 = stream_bit Decode.fill_cursor.inp (bit_pos
          Decode.fill_cursor + i)) ∧
      ∃ bb2, Decode.take_run [5, 0, 8, 3] bb = .ok (stream_windows Decode.fill_cursor.inp (bit_pos
          Decode.fill_cursor) [5, 0, 8, 3], bb2) ∧
        bb2.bits_used = 22 - [5, 0, 8, 3].sum ∧
        ((bit_pos Decode.fill_cursor + [5, 0, 8, 3].sum < 512 ∨ ∀ k, k ∈ [5, 0, 8, 3] → 0 < k) →
          Decode.read_values [5, 0, 8, 3] Decode.fill_cursor
            = .ok (stream_windows Decode.fill_cursor.inp (bit_pos Decode.fill_cursor) [5, 0, 8, 3],
                seek Decode.fill_cursor (bit_pos Decode.fill_cursor + [5, 0, 8, 3].sum)))) ∧
    (∀ (bb : Decode.bitbuffer) (s2 : State) (m : Nat), bb.bits_used ≤ 32 →
      32 < bb.bits_used + m → ∃ e, Decode.read_bits_into_buffer bb s2 m = .error e) ∧
    (∀ (bb : Decode.bitbuffer) (k : Nat), bb.bits_used < k →
      ∃ e, Decode.read_buffered_bits bb k = .error e)) :=
  ⟨⟨by decide, by decide, by decide, by decide, by decide, by decide⟩,
    ⟨by decide, by decide, by decide, by decide, by decide⟩,
    Decode.bit_buffer_round_trip Decode.fill_cursor 22 [5, 0, 8, 3] (by decide) (by decide)
      (by decide) (by decide) (by decide) (by decide)⟩

/-! ## The all-zero payload -/

set_option maxRecDepth 1000000 in
/-- C25. On the 64-byte all-zero input, `decode_8th_gen` and `decode_11th_gen` in each of
the modes 1, 2, 6 and 8 succeed with 32 pixels written, all equal to (0, 0, 0, 0), and
with the cursor at or before bit 512 (at 512 for gen8 and mode 6, at 256 for modes 1, 2
and 8).  `decode_amd` in each of the modes 0x28, 0xcc and 0x66 (4, 3, 2 cachelines) reads
the first header, which ends at bit 16 per cacheline, finds the combination 0000 and
fails in the consistency check with the header-pattern fault.  No decode ends with the
fault of a read beyond byte 63. -/
theorem all_zero_payload :
    (∀ i, i < 64 → zero_start.inp i = 0) ∧
    ((Decode.decode_8th_gen zero_start).toBool = true ∧ zero_gen8.out_idx = 32 ∧
      (∀ k, k < 32 → DecodeAmd.pixel_at zero_gen8.out k = (0, 0, 0, 0)) ∧
      bit_pos zero_gen8 = 512) ∧
    (∀ ccs, ccs ∈ [(1 : Int), 2, 6, 8] →
      (Decode.decode_11th_gen zero_start ccs).toBool = true ∧ (zero_gen11 ccs).out_idx = 32 ∧
      (∀ k, k < 32 → DecodeAmd.pixel_at (zero_gen11 ccs).out k = (0, 0, 0, 0)) ∧
      bit_pos (zero_gen11 ccs) ≤ 512) ∧
    (bit_pos (zero_gen11 1), bit_pos (zero_gen11 2), bit_pos (zero_gen11 6),
      bit_pos (zero_gen11 8)) = (256, 256, 512, 256) ∧
    (∀ m, m ∈ [(0x28, 4), (0xcc, 3), (0x66, 2)] →
      (DecodeAmd.mode_table m.1).toOption = some m.2 ∧
      (DecodeAmd.first_header m.2 (fun _ _ => ⟨0, 0, 0, 0, 0, 0, 0, 0⟩, zero_start)).toBool
        = true ∧
      bit_pos (zero_stage1 m.2).2 = 16 * m.2 ∧
      DecodeAmd.header_pattern ((zero_stage1 m.2).1 0 0) = 0 ∧
      fault_of (DecodeAmd.check_channel ((zero_stage1 m.2).1 0 0)) = some .header_pattern ∧
      fault_of (DecodeAmd.consistency_check m.2 (zero_stage1 m.2).1) = some .header_pattern ∧
      fault_of (DecodeAmd.decode_amd zero_start m.1) = some .header_pattern) ∧
    (fault_of (Decode.decode_8th_gen zero_start) ≠ some .input_exhausted ∧
      (∀ ccs, ccs ∈ [(1 : Int), 2, 6, 8] →
        fault_of (Decode.decode_11th_gen zero_start ccs) ≠ some .input_exhausted) ∧
      (∀ dcc, dcc ∈ [0x28, 0xcc, 0x66] →
        fault_of (DecodeAmd.decode_amd zero_start dcc) ≠ some .input_exhausted)) := by
  refine ⟨by decide, ⟨by decide, by decide, by decide, by decide⟩, by decide, by decide,
    by decide, ⟨by decide, by decide, by decide⟩⟩

/-! ## decode-amd.c: the decoder table against the consistency check -/

namespace DecodeAmd

theorem check_channel_rejects (c : color_channel_info) :
    check_channel c = .error .header_pattern ↔ header_pattern c ∈ [0, 10, 110, 111, 1010] := by
  unfold check_channel header_pattern flag_digit
  by_cases h1 : c.left_header_present = 0 <;> by_cases h2 : c.right_header_present = 0 <;>
    by_cases h3 : c.left_constant = 0 <;> by_cases h4 : c.right_constant = 0 <;>
    simp [h1, h2, h3, h4]

theorem header_pattern_0100 (c : color_channel_info) (h : header_pattern c = 100) :
    c.left_header_present = 0 ∧ c.right_header_present ≠ 0 ∧ c.left_constant = 0 ∧
      c.right_constant = 0 := by
  unfold header_pattern flag_digit at h
  by_cases h1 : c.left_header_present = 0 <;> by_cases h2 : c.right_header_present = 0 <;>
    by_cases h3 : c.left_constant = 0 <;> by_cases h4 : c.right_constant = 0 <;>
    simp [h1, h2, h3, h4] at h ⊢

theorem header_pattern_1000 (c : color_channel_info) (h : header_pattern c = 1000) :
    c.left_header_present ≠ 0 ∧ c.right_header_present = 0 ∧ c.left_constant = 0 ∧
      c.right_constant = 0 := by
  unfold header_pattern flag_digit at h
  by_cases h1 : c.left_header_present = 0 <;> by_cases h2 : c.right_header_present = 0 <;>
    by_cases h3 : c.left_constant = 0 <;> by_cases h4 : c.right_constant = 0 <;>
    simp [h1, h2, h3, h4] at h ⊢

theorem consistency_check_ok_iff (n : Nat) (ci : ChanInfo) :
    consistency_check n ci = .ok () ↔
      ∀ cl, cl < n → ∀ chan, chan < 4 → check_channel (ci cl chan) = .ok () := by
  unfold consistency_check for_range
  rw [loop_unit_ok (fun cl => loop (fun chan _ => check_channel (ci cl chan)) 0
    (NUM_CHANNELS - 0) ()) (n - 0) 0]
  constructor
  · intro h cl hcl chan hch
    have h1 := h cl (Nat.zero_le _) (by simpa using hcl)
    rw [loop_unit_ok (fun chan => check_channel (ci cl chan)) (NUM_CHANNELS - 0) 0] at h1
    exact h1 chan (Nat.zero_le _) (by simpa using hch)
  · intro h cl _ hcl
    rw [loop_unit_ok (fun chan => check_channel (ci cl chan)) (NUM_CHANNELS - 0) 0]
    intro chan _ hch
    exact h cl (by simpa using hcl) chan (by simpa using hch)

theorem consistency_check_error (n : Nat) (ci : ChanInfo)
    (hne : consistency_check n ci ≠ .ok ()) :
    consistency_check n ci = .error .header_pattern := by
  unfold consistency_check for_range at hne ⊢
  refine loop_unit_error (fun cl => loop (fun chan _ => check_channel (ci cl chan)) 0
    (NUM_CHANNELS - 0) ()) _ ?_ _ _ hne
  intro cl h
  exact loop_unit_error (fun chan => check_channel (ci cl chan)) _
    (fun chan => check_channel_error _) _ _ h

/-- C26. The consistency check against the decoder table.  A channel fails the check,
with the header-pattern fault, exactly when its combination (lhp rhp lconst rconst) is one
of the five that the table leaves without a meaning, 0000, 0010, 0110, 0111, 1010, and
passes it exactly when it is one of the eleven others; the check over `n` cachelines
succeeds exactly when all their channels carry one of the eleven, and fails with the
header-pattern fault exactly when some channel carries one of the five.  For a channel
with the combination 0100, stage 2 reads one header byte, the right one: the left plan is
base 0 and width 7, the right width is the number of trailing zero bits of that byte and
the right base the byte with its lowest set bit cleared.  The left half then reads 8 sign
bits and 56 magnitude bits and its top-left pixel is the 7-bit sign-magnitude value
`255 - d0` or `d0`; the right half's top-left pixel is `(base + 2 * d0 + s0) mod 256`
with its own header byte's base. -/
theorem decoder_table_check (n : Nat) (ci : ChanInfo) (cl chan : Nat) (s : State) (r : Recon)
    (hbytes : ∀ i, i < 64 → s.inp i < 256) (hbit : s.in_bit_idx < 8)
    (hpat : header_pattern (ci cl chan) = 100)
    (hroom : bit_pos s + 8 ≤ 512) (hbyte : stream_val s.inp (bit_pos s) 8 ≠ 0)
    (hrbytes : ∀ i, i < 64 → r.s.inp i < 256) (hrbit : r.s.in_bit_idx < 8) :
    (∀ c : color_channel_info, check_channel c = .error .header_pattern ↔
      header_pattern c ∈ [0, 10, 110, 111, 1010]) ∧
    (∀ c : color_channel_info, check_channel c = .ok () ↔
      header_pattern c ∈ [1, 11, 100, 101, 1000, 1001, 1011, 1100, 1101, 1110, 1111]) ∧
    (consistency_check n ci = .ok () ↔
      ∀ i, i < n → ∀ j, j < 4 → header_pattern (ci i j) ∈
        [1, 11, 100, 101, 1000, 1001, 1011, 1100, 1101, 1110, 1111]) ∧
    (consistency_check n ci = .error .header_pattern ↔
      ∃ i, i < n ∧ ∃ j, j < 4 ∧ header_pattern (ci i j) ∈ [0, 10, 110, 111, 1010]) ∧
    check_channel (ci cl chan) = .ok () ∧
    ∃ ci1 s1, second_header_chan cl chan (ci, s) = .ok (ci1, s1) ∧
      bit_pos s1 = bit_pos s + 8 ∧
      header_pattern (ci1 cl chan) = 100 ∧
      (ci1 cl chan).left_base = 0 ∧ (ci1 cl chan).left_bits = 7 ∧
      (ci1 cl chan).right_bits ≤ 7 ∧
      2 ^ (ci1 cl chan).right_bits ∣ stream_val s.inp (bit_pos s) 8 ∧
      ¬ 2 ^ ((ci1 cl chan).right_bits + 1) ∣ stream_val s.inp (bit_pos s) 8 ∧
      (ci1 cl chan).right_base + 2 ^ (ci1 cl chan).right_bits
        = stream_val s.inp (bit_pos s) 8 ∧
      (bit_pos r.s + 64 ≤ 512 →
        ∃ r1, left_side (ci1 cl chan) chan r = .ok r1 ∧
          bit_pos r1.s = bit_pos r.s + 64 ∧
          half_delta r.s.inp (bit_pos r.s) 7 0 < 128 ∧
          r1.upper_pixels 0 chan =
            (if half_sign r.s.inp (bit_pos r.s) 0 = 1
              then 255 - half_delta r.s.inp (bit_pos r.s) 7 0
              else half_delta r.s.inp (bit_pos r.s) 7 0)) ∧
      (bit_pos r.s + 8 + 8 * (ci1 cl chan).right_bits ≤ 512 →
        ∃ r1, right_side (ci1 cl chan) chan r = .ok r1 ∧
          bit_pos r1.s = bit_pos r.s + 8 + 8 * (ci1 cl chan).right_bits ∧
          r1.upper_pixels 4 chan =
            ((ci1 cl chan).right_base
              + 2 * half_delta r.s.inp (bit_pos r.s) (ci1 cl chan).right_bits 0
              + half_sign r.s.inp (bit_pos r.s) 0) % 256) := by
  have hwf : WF s := ⟨hbytes, hbit⟩
  have hrwf : WF r.s := ⟨hrbytes, hrbit⟩
  obtain ⟨f1, f2, f3, f4⟩ := header_pattern_0100 _ hpat
  have hok : ∀ c : color_channel_info, check_channel c = .ok () ↔
      header_pattern c ∈ [1, 11, 100, 101, 1000, 1001, 1011, 1100, 1101, 1110, 1111] :=
    fun c => check_channel_iff c
  refine ⟨check_channel_rejects, hok, ?_, ?_, ?_, ?_⟩
  · rw [consistency_check_ok_iff]
    exact ⟨fun h i hi j hj => (hok _).1 (h i hi j hj), fun h i hi j hj => (hok _).2 (h i hi j hj)⟩
  · constructor
    · intro h
      by_contra hno
      have hall : ∀ i, i < n → ∀ j, j < 4 → check_channel (ci i j) = .ok () := by
        intro i hi j hj
        by_contra hne
        exact hno ⟨i, hi, j, hj, (check_channel_rejects _).1 (check_channel_error _ hne)⟩
      rw [(consistency_check_ok_iff n ci).2 hall] at h
      cases h
    · rintro ⟨i, hi, j, hj, hm⟩
      apply consistency_check_error
      intro h
      have := (consistency_check_ok_iff n ci).1 h i hi j hj
      rw [(check_channel_rejects _).2 hm] at this
      cases this
  · rw [hok, hpat]; decide
  · have hah : after_header (ci cl chan).right_header_present
        (after_header (ci cl chan).left_header_present (bit_pos s)) = bit_pos s + 8 := by
      simp [after_header, f1, f2]
    have hah0 : after_header (ci cl chan).left_header_present (bit_pos s) = bit_pos s := by
      simp [after_header, f1]
    have h := second_header_chan_spec cl chan ci s (bit_pos s) hwf (by rw [hah]; exact hroom)
    rw [seek_self s hbit, hah, hah0] at h
    obtain ⟨lbase, lbits, rbase, rbits, e, p1, p2⟩ := h.2
      (fun z => f2 (by have := z.1; omega) |>.elim) (fun z => hbyte z.2.2)
    obtain ⟨el1, el2⟩ := p1.2.2.2 f1 f3
    obtain ⟨q1, q2, q3, _, q5⟩ := p2.2.1 f2 f4
    subst el1 el2
    refine ⟨_, _, e, bit_pos_seek _ _, ?_, ?_, ?_, ?_, ?_, ?_, ?_, ?_, ?_⟩
    · rw [set2_same]; exact hpat
    · rw [set2_same]
    · rw [set2_same]
    · rw [set2_same]; exact q1
    · rw [set2_same]; exact q2
    · rw [set2_same]; exact q3
    · rw [set2_same]; exact q5
    · intro hr
      rw [set2_same]
      obtain ⟨r1, e1, e2, e3, _⟩ := left_nonconst_spec
        { ci cl chan with left_base := 0, left_bits := 7, right_base := rbase,
                          right_bits := rbits } chan r hrwf f3 (show (7 : Nat) ≤ 7 by decide)
        (show bit_pos r.s + 8 + 8 * 7 ≤ 512 by omega)
      refine ⟨r1, e1, ?_, ?_, ?_⟩
      · rw [e2, bit_pos_seek]
        show bit_pos r.s + 8 + 8 * 7 = bit_pos r.s + 64
        omega
      · simpa using half_delta_lt r.s.inp (bit_pos r.s) 7 0
      · rw [e3, if_neg (by simpa using f1)]
        rfl
    · intro hr
      rw [set2_same] at hr ⊢
      obtain ⟨r1, e1, e2, e3, _⟩ := right_nonconst_spec
        { ci cl chan with left_base := 0, left_bits := 7, right_base := rbase,
                          right_bits := rbits } chan r hrwf f4 q1 hr
      refine ⟨r1, e1, ?_, ?_⟩
      · rw [e2, bit_pos_seek]
      · rw [e3, if_pos f2]

set_option maxRecDepth 1000000 in
/-- C26, on a channel with the combination 0100 whose right header byte is `58`, in front of
the half `A5 81 02 03 04 05 06 07`: the check passes, the plan is left `(0, 7)` and right
`(0x50, 3)`, the left seed is `255 - 85 = 170` and a right half read from the same bits
has the seed `0x50 + 2 * 5 + 1 = 91`. -/
theorem decoder_table_check_witness :
    ((∀ i, i < 64 → table_0100_start.inp i < 256) ∧
      table_0100_start.in_bit_idx < 8 ∧
      header_pattern ((fun _ _ => chan_0100) 0 0) = 100 ∧
      bit_pos table_0100_start + 8 ≤ 512 ∧
      stream_val table_0100_start.inp (bit_pos table_0100_start) 8 ≠ 0 ∧
      (∀ i, i < 64 → table_0100_recon.s.inp i < 256) ∧
      table_0100_recon.s.in_bit_idx < 8) ∧
    ((second_header_chan 0 0 (fun _ _ => chan_0100, table_0100_start)).toOption.map
        (fun st => (st.1 0 0, bit_pos st.2)) = some (⟨0, 0, 0, 7, 1, 0, 0x50, 3⟩, 8) ∧
      (left_side ⟨0, 0, 0, 7, 1, 0, 0x50, 3⟩ 0 table_0100_recon).toOption.map
        (fun r => (r.upper_pixels 0 0, bit_pos r.s)) = some (170, 72) ∧
      (right_side ⟨0, 0, 0, 7, 1, 0, 0x50, 3⟩ 0 table_0100_recon).toOption.map
        (fun r => (r.upper_pixels 4 0, bit_pos r.s)) = some (91, 40)) ∧
    ((∀ c : color_channel_info, check_channel c = .error .header_pattern ↔
      header_pattern c ∈ [0, 10, 110, 111, 1010]) ∧
    (∀ c : color_channel_info, check_channel c = .ok () ↔
      header_pattern c ∈ [1, 11, 100, 101, 1000, 1001, 1011, 1100, 1101, 1110, 1111]) ∧
    (consistency_check 1 (fun _ _ => chan_0100) = .ok () ↔
      ∀ i, i < 1 → ∀ j, j < 4 → header_pattern ((fun _ _ => chan_0100) i j) ∈
        [1, 11, 100, 101, 1000, 1001, 1011, 1100, 1101, 1110, 1111]) ∧
    (consistency_check 1 (fun _ _ => chan_0100) = .error .header_pattern ↔
      ∃ i, i < 1 ∧ ∃ j, j < 4 ∧ header_pattern ((fun _ _ => chan_0100) i j) ∈ [0, 10, 110, 111,
          1010]) ∧
    check_channel ((fun _ _ => chan_0100) 0 0) = .ok () ∧
    ∃ ci1 s1, second_header_chan 0 0 ((fun _ _ => chan_0100), table_0100_start) = .ok (ci1, s1) ∧
      bit_pos s1 = bit_pos table_0100_start + 8 ∧
      header_pattern (ci1 0 0) = 100 ∧
      (ci1 0 0).left_base = 0 ∧ (ci1 0 0).left_bits = 7 ∧
      (ci1 0 0).right_bits ≤ 7 ∧
      2 ^ (ci1 0 0).right_bits ∣ stream_val table_0100_start.inp (bit_pos table_0100_start) 8 ∧
      ¬ 2 ^ ((ci1 0 0).right_bits + 1) ∣ stream_val table_0100_start.inp (bit_pos table_0100_start)
          8 ∧
      (ci1 0 0).right_base + 2 ^ (ci1 0 0).right_bits
        = stream_val table_0100_start.inp (bit_pos table_0100_start) 8 ∧
      (bit_pos table_0100_recon.s + 64 ≤ 512 →
        ∃ r1, left_side (ci1 0 0) 0 table_0100_recon = .ok r1 ∧
          bit_pos r1.s = bit_pos table_0100_recon.s + 64 ∧
          half_delta table_0100_recon.s.inp (bit_pos table_0100_recon.s) 7 0 < 128 ∧
          r1.upper_pixels 0 0 =
            (if half_sign table_0100_recon.s.inp (bit_pos table_0100_recon.s) 0 = 1
              then 255 - half_delta table_0100_recon.s.inp (bit_pos table_0100_recon.s) 7 0
              else half_delta table_0100_recon.s.inp (bit_pos table_0100_recon.s) 7 0)) ∧
      (bit_pos table_0100_recon.s + 8 + 8 * (ci1 0 0).right_bits ≤ 512 →
        ∃ r1, right_side (ci1 0 0) 0 table_0100_recon = .ok r1 ∧
          bit_pos r1.s = bit_pos table_0100_recon.s + 8 + 8 * (ci1 0 0).right_bits ∧
          r1.upper_pixels 4 0 =
            ((ci1 0 0).right_base
              + 2 * half_delta table_0100_recon.s.inp (bit_pos table_0100_recon.s) (ci1 0 0).right_bits 0
              + half_sign table_0100_recon.s.inp (bit_pos table_0100_recon.s) 0) % 256)) :=
  ⟨⟨by decide, by decide, by decide, by decide, by decide, by decide, by decide⟩,
    ⟨by decide, by decide, by decide⟩,
    decoder_table_check 1 (fun _ _ => chan_0100) 0 0 table_0100_start table_0100_recon (by decide)
      (by decide) (by decide) (by decide) (by decide) (by decide) (by decide)⟩

end DecodeAmd

/-! ## decode-amd.c: a right half without header byte -/

namespace DecodeAmd

/-- C27. A channel with the combination 1000 (left header byte, no right header byte,
neither side constant).  Stage 2 reads one header byte, the left one, and gives both sides
the same plan: the width `w` is the number of trailing zero bits of that byte, the base is
the byte with its lowest set bit cleared.  In the reconstruction the left half reads 8
sign bits and `8 w` magnitude bits, then the right half reads its own 8 sign bits and
`8 w` magnitude bits; the right half's top-left pixel is the left half's upper pixel 3
plus `sm(0)`, modulo 256, where `sm(0)` is `255 - d0` if the right half's first sign bit
is 1 and `d0` otherwise; the other right-half pixels follow the chain
`U5 = U4 + sm(1)`, `L4 = U4 + sm(2)`, `L5 = L4 + sm(3)`, `U6 = U5 + sm(4)`,
`U7 = U6 + sm(5)`, `L6 = U6 + sm(6)`, `L7 = L6 + sm(7)`, the chain of the left half
shifted by four positions; the left-half pixels are not touched by the right half. -/
theorem right_half_without_header (ci : ChanInfo) (cl chan : Nat) (s : State) (r : Recon)
    (hbytes : ∀ i, i < 64 → s.inp i < 256) (hbit : s.in_bit_idx < 8)
    (hpat : header_pattern (ci cl chan) = 1000)
    (hroom : bit_pos s + 8 ≤ 512) (hbyte : stream_val s.inp (bit_pos s) 8 ≠ 0)
    (hrbytes : ∀ i, i < 64 → r.s.inp i < 256) (hrbit : r.s.in_bit_idx < 8) :
    ∃ ci1 s1 w, second_header_chan cl chan (ci, s) = .ok (ci1, s1) ∧
      bit_pos s1 = bit_pos s + 8 ∧
      header_pattern (ci1 cl chan) = 1000 ∧
      w ≤ 7 ∧ 2 ^ w ∣ stream_val s.inp (bit_pos s) 8 ∧
      ¬ 2 ^ (w + 1) ∣ stream_val s.inp (bit_pos s) 8 ∧
      (ci1 cl chan).left_bits = w ∧ (ci1 cl chan).right_bits = w ∧
      (ci1 cl chan).left_base + 2 ^ w = stream_val s.inp (bit_pos s) 8 ∧
      (ci1 cl chan).right_base = (ci1 cl chan).left_base ∧
      (bit_pos r.s + 2 * (8 + 8 * w) ≤ 512 →
        ∃ rl r1, left_side (ci1 cl chan) chan r = .ok rl ∧
          right_side (ci1 cl chan) chan rl = .ok r1 ∧
          channel_sides ci1 cl chan r = .ok r1 ∧
          bit_pos rl.s = bit_pos r.s + 8 + 8 * w ∧
          bit_pos r1.s = bit_pos rl.s + 8 + 8 * w ∧
          rl.upper_pixels 1 chan
            = (rl.upper_pixels 0 chan + half_sm r.s.inp (bit_pos r.s) w 1) % 256 ∧
          rl.lower_pixels 0 chan
            = (rl.upper_pixels 0 chan + half_sm r.s.inp (bit_pos r.s) w 2) % 256 ∧
          rl.lower_pixels 1 chan
            = (rl.lower_pixels 0 chan + half_sm r.s.inp (bit_pos r.s) w 3) % 256 ∧
          rl.upper_pixels 2 chan
            = (rl.upper_pixels 1 chan + half_sm r.s.inp (bit_pos r.s) w 4) % 256 ∧
          rl.upper_pixels 3 chan
            = (rl.upper_pixels 2 chan + half_sm r.s.inp (bit_pos r.s) w 5) % 256 ∧
          rl.lower_pixels 2 chan
            = (rl.upper_pixels 2 chan + half_sm r.s.inp (bit_pos r.s) w 6) % 256 ∧
          rl.lower_pixels 3 chan
            = (rl.lower_pixels 2 chan + half_sm r.s.inp (bit_pos r.s) w 7) % 256 ∧
          r1.upper_pixels 4 chan =
            (rl.upper_pixels 3 chan +
              (if half_sign r.s.inp (bit_pos rl.s) 0 = 1
                then 255 - half_delta r.s.inp (bit_pos rl.s) w 0
                else half_delta r.s.inp (bit_pos rl.s) w 0)) % 256 ∧
          r1.upper_pixels 5 chan
            = (r1.upper_pixels 4 chan + half_sm r.s.inp (bit_pos rl.s) w 1) % 256 ∧
          r1.lower_pixels 4 chan
            = (r1.upper_pixels 4 chan + half_sm r.s.inp (bit_pos rl.s) w 2) % 256 ∧
          r1.lower_pixels 5 chan
            = (r1.lower_pixels 4 chan + half_sm r.s.inp (bit_pos rl.s) w 3) % 256 ∧
          r1.upper_pixels 6 chan
            = (r1.upper_pixels 5 chan + half_sm r.s.inp (bit_pos rl.s) w 4) % 256 ∧
          r1.upper_pixels 7 chan
            = (r1.upper_pixels 6 chan + half_sm r.s.inp (bit_pos rl.s) w 5) % 256 ∧
          r1.lower_pixels 6 chan
            = (r1.upper_pixels 6 chan + half_sm r.s.inp (bit_pos rl.s) w 6) % 256 ∧
          r1.lower_pixels 7 chan
            = (r1.lower_pixels 6 chan + half_sm r.s.inp (bit_pos rl.s) w 7) % 256 ∧
          ∀ p, p < 4 → r1.upper_pixels p chan = rl.upper_pixels p chan ∧
            r1.lower_pixels p chan = rl.lower_pixels p chan) := by
  have hwf : WF s := ⟨hbytes, hbit⟩
  have hrwf : WF r.s := ⟨hrbytes, hrbit⟩
  obtain ⟨f1, f2, f3, f4⟩ := header_pattern_1000 _ hpat
  have hah : after_header (ci cl chan).right_header_present
      (after_header (ci cl chan).left_header_present (bit_pos s)) = bit_pos s + 8 := by
    simp [after_header, f1, f2]
  have hah0 : after_header (ci cl chan).left_header_present (bit_pos s) = bit_pos s + 8 := by
    simp [after_header, f1]
  have h := second_header_chan_spec cl chan ci s (bit_pos s) hwf (by rw [hah]; exact hroom)
  rw [seek_self s hbit, hah, hah0] at h
  obtain ⟨lbase, lbits, rbase, rbits, e, p1, p2⟩ := h.2
    (fun z => hbyte z.2.2) (fun z => z.1 f2)
  obtain ⟨q1, q2, q3, _, q5⟩ := p1.2.1 f1 f3
  obtain ⟨el1, el2⟩ := p2.2.2.2 f2 f4
  subst el1 el2
  refine ⟨_, _, rbits, e, bit_pos_seek _ _, ?_, q1, q2, q3, ?_, ?_, ?_, ?_, ?_⟩
  · rw [set2_same]; exact hpat
  · rw [set2_same]
  · rw [set2_same]
  · rw [set2_same]; exact q5
  · rw [set2_same]
  · intro hr
    rw [set2_same]
    obtain ⟨rl, a1, a2, _, a4, a5, a6, a7, a8, a9, a10, _⟩ := left_nonconst_spec
      { ci cl chan with left_base := rbase, left_bits := rbits, right_base := rbase,
                        right_bits := rbits } chan r hrwf f3 q1
      (show bit_pos r.s + 8 + 8 * rbits ≤ 512 by omega)
    have hlwf : WF rl.s := by rw [a2]; exact WF_seek _ _ hrwf
    have hlpos : bit_pos rl.s = bit_pos r.s + 8 + 8 * rbits := by rw [a2, bit_pos_seek]
    have hlinp : rl.s.inp = r.s.inp := by rw [a2]; rfl
    obtain ⟨r1, b1, b2, b3, b4, b5, b6, b7, b8, b9, b10, b11⟩ := right_nonconst_spec
      { ci cl chan with left_base := rbase, left_bits := rbits, right_base := rbase,
                        right_bits := rbits } chan rl hlwf f4 q1
      (show bit_pos rl.s + 8 + 8 * rbits ≤ 512 by omega)
    rw [hlinp] at b3 b4 b5 b6 b7 b8 b9 b10
    refine ⟨rl, r1, a1, b1, ?_, hlpos, ?_, a4, a5, a6, a7, a8, a9, a10, ?_, b4, b5, b6, b7, b8,
      b9, b10, fun p hp => b11 p chan (Or.inl hp)⟩
    · unfold channel_sides
      rw [set2_same, a1]
      exact b1
    · rw [b2, bit_pos_seek]
    · rw [b3, if_neg (by simpa using f2)]
      rfl

set_option maxRecDepth 1000000 in
/-- C27, on a channel with the combination 1000 whose left header byte is `58`, followed by
the left half `A5 81 42 24` and the right half `5A 0F 33 55`: both sides get the plan
`(0x50, 3)`, the left half ends with upper pixel 3 equal to 80, the right half has first
sign 0 and first magnitude 7, so its top-left pixel is 87, and the cursor ends 64 bits
after the header byte. -/
theorem right_half_without_header_witness :
    ((∀ i, i < 64 → payload_1000.inp i < 256) ∧
      payload_1000.in_bit_idx < 8 ∧
      header_pattern ((fun _ _ => chan_1000) 0 0) = 1000 ∧
      bit_pos payload_1000 + 8 ≤ 512 ∧
      stream_val payload_1000.inp (bit_pos payload_1000) 8 ≠ 0 ∧
      (∀ i, i < 64 → recon_1000.s.inp i < 256) ∧
      recon_1000.s.in_bit_idx < 8) ∧
    ((second_header_chan 0 0 (fun _ _ => chan_1000, payload_1000)).toOption.map
        (fun st => (st.1 0 0, bit_pos st.2)) = some (⟨1, 0, 0x50, 3, 0, 0, 0x50, 3⟩, 8) ∧
      (channel_sides (fun _ _ => ⟨1, 0, 0x50, 3, 0, 0, 0x50, 3⟩) 0 0 recon_1000).toOption.map
        (fun r => (r.upper_pixels 3 0, r.upper_pixels 4 0, bit_pos r.s)) = some (80, 87, 72) ∧
      (half_sign payload_1000.inp 40 0, half_delta payload_1000.inp 40 3 0) = (0, 7)) ∧
    (∃ ci1 s1 w, second_header_chan 0 0 ((fun _ _ => chan_1000), payload_1000) = .ok (ci1, s1) ∧
      bit_pos s1 = bit_pos payload_1000 + 8 ∧
      header_pattern (ci1 0 0) = 1000 ∧
      w ≤ 7 ∧ 2 ^ w ∣ stream_val payload_1000.inp (bit_pos payload_1000) 8 ∧
      ¬ 2 ^ (w + 1) ∣ stream_val payload_1000.inp (bit_pos payload_1000) 8 ∧
      (ci1 0 0).left_bits = w ∧ (ci1 0 0).right_bits = w ∧
      (ci1 0 0).left_base + 2 ^ w = stream_val payload_1000.inp (bit_pos payload_1000) 8 ∧
      (ci1 0 0).right_base = (ci1 0 0).left_base ∧
      (bit_pos recon_1000.s + 2 * (8 + 8 * w) ≤ 512 →
        ∃ rl r1, left_side (ci1 0 0) 0 recon_1000 = .ok rl ∧
          right_side (ci1 0 0) 0 rl = .ok r1 ∧
          channel_sides ci1 0 0 recon_1000 = .ok r1 ∧
          bit_pos rl.s = bit_pos recon_1000.s + 8 + 8 * w ∧
          bit_pos r1.s = bit_pos rl.s + 8 + 8 * w ∧
          rl.upper_pixels 1 0
            = (rl.upper_pixels 0 0 + half_sm recon_1000.s.inp (bit_pos recon_1000.s) w 1) % 256 ∧
          rl.lower_pixels 0 0
            = (rl.upper_pixels 0 0 + half_sm recon_1000.s.inp (bit_pos recon_1000.s) w 2) % 256 ∧
          rl.lower_pixels 1 0
            = (rl.lower_pixels 0 0 + half_sm recon_1000.s.inp (bit_pos recon_1000.s) w 3) % 256 ∧
          rl.upper_pixels 2 0
            = (rl.upper_pixels 1 0 + half_sm recon_1000.s.inp (bit_pos recon_1000.s) w 4) % 256 ∧
          rl.upper_pixels 3 0
            = (rl.upper_pixels 2 0 + half_sm recon_1000.s.inp (bit_pos recon_1000.s) w 5) % 256 ∧
          rl.lower_pixels 2 0
            = (rl.upper_pixels 2 0 + half_sm recon_1000.s.inp (bit_pos recon_1000.s) w 6) % 256 ∧
          rl.lower_pixels 3 0
            = (rl.lower_pixels 2 0 + half_sm recon_1000.s.inp (bit_pos recon_1000.s) w 7) % 256 ∧
          r1.upper_pixels 4 0 =
            (rl.upper_pixels 3 0 +
              (if half_sign recon_1000.s.inp (bit_pos rl.s) 0 = 1
                then 255 - half_delta recon_1000.s.inp (bit_pos rl.s) w 0
                else half_delta recon_1000.s.inp (bit_pos rl.s) w 0)) % 256 ∧
          r1.upper_pixels 5 0
            = (r1.upper_pixels 4 0 + half_sm recon_1000.s.inp (bit_pos rl.s) w 1) % 256 ∧
          r1.lower_pixels 4 0
            = (r1.upper_pixels 4 0 + half_sm recon_1000.s.inp (bit_pos rl.s) w 2) % 256 ∧
          r1.lower_pixels 5 0
            = (r1.lower_pixels 4 0 + half_sm recon_1000.s.inp (bit_pos rl.s) w 3) % 256 ∧
          r1.upper_pixels 6 0
            = (r1.upper_pixels 5 0 + half_sm recon_1000.s.inp (bit_pos rl.s) w 4) % 256 ∧
          r1.upper_pixels 7 0
            = (r1.upper_pixels 6 0 + half_sm recon_1000.s.inp (bit_pos rl.s) w 5) % 256 ∧
          r1.lower_pixels 6 0
            = (r1.upper_pixels 6 0 + half_sm recon_1000.s.inp (bit_pos rl.s) w 6) % 256 ∧
          r1.lower_pixels 7 0
            = (r1.lower_pixels 6 0 + half_sm recon_1000.s.inp (bit_pos rl.s) w 7) % 256 ∧
          ∀ p, p < 4 → r1.upper_pixels p 0 = rl.upper_pixels p 0 ∧
            r1.lower_pixels p 0 = rl.lower_pixels p 0)) :=
  ⟨⟨by decide, by decide, by decide, by decide, by decide, by decide, by decide⟩,
    ⟨by decide, by decide, by decide⟩,
    right_half_without_header (fun _ _ => chan_1000) 0 0 payload_1000 recon_1000 (by decide)
      (by decide) (by decide) (by decide) (by decide) (by decide) (by decide)⟩

end DecodeAmd

/-! ## decode-amd.c: the layout of stage 1 and the alignment of stage 2 -/

namespace DecodeAmd

theorem read_byte_aligned (s : State) (h0 : s.in_bit_idx = 0) (hb : s.in_byte_idx < 64)
    (hby : s.inp s.in_byte_idx < 256) :
    read_bits s 8 = .ok (s.inp s.in_byte_idx, { s with in_byte_idx := s.in_byte_idx + 1 }) := by
  cases s with
  | mk inp b k out oi =>
    simp only at h0 hb hby
    subst h0
    unfold read_bits
    simp only [Nat.le_refl, not_true_eq_false, if_false, hb, Nat.zero_add, Nat.lt_irrefl,
      if_true, Nat.shiftRight_zero]
    rw [Nat.mod_eq_of_lt hby, Nat.mod_eq_of_lt (show b + 1 < 256 by omega)]

theorem read_byte_aligned_inv (s s1 : State) (v : Nat) (h0 : s.in_bit_idx = 0)
    (h : read_bits s 8 = .ok (v, s1)) :
    s.in_byte_idx < 64 ∧ s1.in_bit_idx = 0 ∧ s1.in_byte_idx = s.in_byte_idx + 1 := by
  unfold read_bits at h
  rw [h0] at h
  simp only [Nat.le_refl, not_true_eq_false, if_false, Nat.zero_add, Nat.lt_irrefl,
    if_true] at h
  split_ifs at h with hb
  cases h
  have : s.in_byte_idx < 64 := by omega
  exact ⟨this, rfl, Nat.mod_eq_of_lt (by omega)⟩

theorem same_flags_set2 (ci : ChanInfo) (cl chan : Nat) (c : color_channel_info)
    (h : same_flags c (ci cl chan)) (i j : Nat) : same_flags (set2 ci cl chan c i j) (ci i j) := by
  unfold set2
  split_ifs with e
  · obtain ⟨e1, e2⟩ := e
    subst e1 e2
    exact h
  · exact ⟨rfl, rfl, rfl, rfl⟩

theorem second_header_left_aligned (cl chan : Nat) (st m : ChanInfo × State)
    (h0 : st.2.in_bit_idx = 0) (h : second_header_left cl chan st = .ok m) :
    m.2.in_bit_idx = 0 ∧
    m.2.in_byte_idx = st.2.in_byte_idx + flag_digit (st.1 cl chan).left_header_present ∧
    ∀ i j, same_flags (m.1 i j) (st.1 i j) := by
  obtain ⟨ci0, s0⟩ := st
  unfold second_header_left at h
  unfold flag_digit
  dsimp only at h h0 ⊢
  split_ifs at h with hp hc
  · obtain ⟨p, h1, h2⟩ := bind_eq_ok _ _ _ h
    obtain ⟨v, s1⟩ := p
    cases h2
    obtain ⟨_, a1, a2⟩ := read_byte_aligned_inv _ _ _ h0 h1
    refine ⟨a1, ?_, same_flags_set2 _ _ _ _ ⟨rfl, rfl, rfl, rfl⟩⟩
    rw [if_pos hp]
    exact a2
  · obtain ⟨p, h1, h2⟩ := bind_eq_ok _ _ _ h
    obtain ⟨v, s1⟩ := p
    dsimp only at h2
    split_ifs at h2
    cases h2
    obtain ⟨_, a1, a2⟩ := read_byte_aligned_inv _ _ _ h0 h1
    refine ⟨a1, ?_, same_flags_set2 _ _ _ _ ⟨rfl, rfl, rfl, rfl⟩⟩
    rw [if_pos hp]
    exact a2
  · cases h
    refine ⟨h0, ?_, same_flags_set2 _ _ _ _ ⟨rfl, rfl, rfl, rfl⟩⟩
    rw [if_neg hp]
    rfl
  · cases h
    refine ⟨h0, ?_, same_flags_set2 _ _ _ _ ⟨rfl, rfl, rfl, rfl⟩⟩
    rw [if_neg hp]
    rfl

theorem second_header_right_aligned (cl chan : Nat) (st m : ChanInfo × State)
    (h0 : st.2.in_bit_idx = 0) (h : second_header_right cl chan st = .ok m) :
    m.2.in_bit_idx = 0 ∧
    m.2.in_byte_idx = st.2.in_byte_idx + flag_digit (st.1 cl chan).right_header_present ∧
    ∀ i j, same_flags (m.1 i j) (st.1 i j) := by
  obtain ⟨ci0, s0⟩ := st
  unfold second_header_right at h
  unfold flag_digit
  dsimp only at h h0 ⊢
  split_ifs at h with hp hc
  · obtain ⟨p, h1, h2⟩ := bind_eq_ok _ _ _ h
    obtain ⟨v, s1⟩ := p
    cases h2
    obtain ⟨_, a1, a2⟩ := read_byte_aligned_inv _ _ _ h0 h1
    refine ⟨a1, ?_, same_flags_set2 _ _ _ _ ⟨rfl, rfl, rfl, rfl⟩⟩
    rw [if_pos hp]
    exact a2
  · obtain ⟨p, h1, h2⟩ := bind_eq_ok _ _ _ h
    obtain ⟨v, s1⟩ := p
    dsimp only at h2
    split_ifs at h2
    cases h2
    obtain ⟨_, a1, a2⟩ := read_byte_aligned_inv _ _ _ h0 h1
    refine ⟨a1, ?_, same_flags_set2 _ _ _ _ ⟨rfl, rfl, rfl, rfl⟩⟩
    rw [if_pos hp]
    exact a2
  · cases h
    refine ⟨h0, ?_, same_flags_set2 _ _ _ _ ⟨rfl, rfl, rfl, rfl⟩⟩
    rw [if_neg hp]
    rfl
  · cases h
    refine ⟨h0, ?_, same_flags_set2 _ _ _ _ ⟨rfl, rfl, rfl, rfl⟩⟩
    rw [if_neg hp]
    rfl

theorem same_flags_trans (a b c : color_channel_info) (h1 : same_flags a b)
    (h2 : same_flags b c) : same_flags a c :=
  ⟨h1.1.trans h2.1, h1.2.1.trans h2.2.1, h1.2.2.1.trans h2.2.2.1, h1.2.2.2.trans h2.2.2.2⟩

/-- The invariant of stage 2: the cursor is on a byte boundary at or after byte `b`, the
input and the flags of the table are those of the entry. -/
theorem second_header_chan_aligned (cl chan b : Nat) (inp : Nat → Nat) (ci : ChanInfo)
    (x y : ChanInfo × State)
    (hx : x.2.in_bit_idx = 0 ∧ b ≤ x.2.in_byte_idx ∧ x.2.inp = inp ∧
      ∀ i j, same_flags (x.1 i j) (ci i j))
    (h : second_header_chan cl chan x = .ok y) :
    y.2.in_bit_idx = 0 ∧ b ≤ y.2.in_byte_idx ∧ y.2.inp = inp ∧
      ∀ i j, same_flags (y.1 i j) (ci i j) := by
  unfold second_header_chan at h
  obtain ⟨m, h1, h2⟩ := bind_eq_ok _ _ _ h
  obtain ⟨a1, a2, a3⟩ := second_header_left_aligned cl chan x m hx.1 h1
  obtain ⟨b1, b2, b3⟩ := second_header_right_aligned cl chan m y a1 h2
  refine ⟨b1, by omega, ?_, fun i j =>
    same_flags_trans _ _ _ (b3 i j) (same_flags_trans _ _ _ (a3 i j) (hx.2.2.2 i j))⟩
  rw [(second_header_right_frame _ _ _ _ h2).2.2, (second_header_left_frame _ _ _ _ h1).2.2]
  exact hx.2.2.1

theorem stage2_reaches_aligned (b : Nat) (inp : Nat → Nat) (ci : ChanInfo)
    (st a : ChanInfo × State) (cl chan : Nat)
    (hst : st.2.in_bit_idx = 0 ∧ b ≤ st.2.in_byte_idx ∧ st.2.inp = inp ∧
      ∀ i j, same_flags (st.1 i j) (ci i j))
    (h : stage2_reaches st cl chan a) :
    a.2.in_bit_idx = 0 ∧ b ≤ a.2.in_byte_idx ∧ a.2.inp = inp ∧
      ∀ i j, same_flags (a.1 i j) (ci i j) := by
  obtain ⟨st0, h1, h2⟩ := h
  have inner : ∀ k m x y, loop (second_header_chan k) 0 m x = .ok y →
      (x.2.in_bit_idx = 0 ∧ b ≤ x.2.in_byte_idx ∧ x.2.inp = inp ∧
        ∀ i j, same_flags (x.1 i j) (ci i j)) →
      (y.2.in_bit_idx = 0 ∧ b ≤ y.2.in_byte_idx ∧ y.2.inp = inp ∧
        ∀ i j, same_flags (y.1 i j) (ci i j)) := by
    intro k m x y hl hx
    exact loop_ok_inv (second_header_chan k)
      (fun _ z => z.2.in_bit_idx = 0 ∧ b ≤ z.2.in_byte_idx ∧ z.2.inp = inp ∧
        ∀ i j, same_flags (z.1 i j) (ci i j)) m 0 x y hl hx
      (fun j u v _ _ hu hb => second_header_chan_aligned k j b inp ci u v hu hb)
  have h0 := loop_ok_inv (fun k st1 => for_range 0 NUM_CHANNELS (second_header_chan k) st1)
    (fun _ z => z.2.in_bit_idx = 0 ∧ b ≤ z.2.in_byte_idx ∧ z.2.inp = inp ∧
      ∀ i j, same_flags (z.1 i j) (ci i j)) cl 0 st st0 h1 hst
    (fun j u v _ _ hu hb => inner j _ u v hb hu)
  exact inner cl chan st0 a h2 h0

/-- C28. The layout of stage 1 with `n` recovered cachelines, from the start of the
payload.  The first header succeeds and leaves the cursor on byte `2 n`, bit 0; for
cacheline `k < n` and channel `c < 4`, with G = 0, Cr = 1, Cb = 2, A = 3,
`left_header_present` is bit `2 c` and `right_header_present` bit `2 c + 1` of byte
`2 k`, `left_constant` is bit `2 c` and `right_constant` bit `2 c + 1` of byte `2 k + 1`.
The plan is that header followed by the consistency check and stage 2.  Whenever stage 2
comes to a channel, the cursor is on a byte boundary at or after byte `2 n` and the flags
are those of stage 1; a left header byte is then read as the whole input byte under the
cursor, which moves to the next byte, and after the left side the cursor is again on a
byte boundary, where the same holds for the right header byte. -/
theorem stage1_layout (n : Nat) (s : State)
    (hbytes : ∀ i, i < 64 → s.inp i < 256) (hbyte : s.in_byte_idx = 0)
    (hbit : s.in_bit_idx = 0) (hn : n ≤ 4) :
    (CHAN_G, CHAN_CR, CHAN_CB, CHAN_A) = (0, 1, 2, 3) ∧
    ∃ ci1 s1, first_header n (fun _ _ => ⟨0, 0, 0, 0, 0, 0, 0, 0⟩, s) = .ok (ci1, s1) ∧
      s1.in_byte_idx = 2 * n ∧ s1.in_bit_idx = 0 ∧ s1.inp = s.inp ∧
      (∀ k, k < n → ∀ c, c < 4 →
        (ci1 k c).left_header_present = s.inp (2 * k) / 2 ^ (2 * c) % 2 ∧
        (ci1 k c).right_header_present = s.inp (2 * k) / 2 ^ (2 * c + 1) % 2 ∧
        (ci1 k c).left_constant = s.inp (2 * k + 1) / 2 ^ (2 * c) % 2 ∧
        (ci1 k c).right_constant = s.inp (2 * k + 1) / 2 ^ (2 * c + 1) % 2) ∧
      decode_plan n s = (consistency_check n ci1 >>= fun _ => second_header n (ci1, s1)) ∧
      ∀ cl chan a, cl < n → chan < 4 → stage2_reaches (ci1, s1) cl chan a →
        a.2.in_bit_idx = 0 ∧ 2 * n ≤ a.2.in_byte_idx ∧ same_flags (a.1 cl chan) (ci1 cl chan) ∧
        ((ci1 cl chan).left_header_present ≠ 0 → a.2.in_byte_idx < 64 →
          read_bits a.2 8 = .ok (s.inp a.2.in_byte_idx,
            { a.2 with in_byte_idx := a.2.in_byte_idx + 1 })) ∧
        ∀ m, second_header_left cl chan a = .ok m →
          m.2.in_bit_idx = 0 ∧
          m.2.in_byte_idx = a.2.in_byte_idx + flag_digit (ci1 cl chan).left_header_present ∧
          ((ci1 cl chan).right_header_present ≠ 0 → m.2.in_byte_idx < 64 →
            read_bits m.2 8 = .ok (s.inp m.2.in_byte_idx,
              { m.2 with in_byte_idx := m.2.in_byte_idx + 1 })) := by
  have hwf : WF s := ⟨hbytes, by omega⟩
  have hs0 : seek s 0 = s := by
    have h := seek_self s (by omega)
    have hp : bit_pos s = 0 := by unfold bit_pos; omega
    rw [hp] at h
    exact h
  obtain ⟨ci1, e, hfl⟩ := first_header_spec n (fun _ _ => ⟨0, 0, 0, 0, 0, 0, 0, 0⟩) s hwf
    (by omega)
  rw [hs0] at e
  refine ⟨rfl, ci1, seek s (16 * n), e, ?_, ?_, rfl, ?_, ?_, ?_⟩
  · show 16 * n / 8 = 2 * n
    omega
  · show 16 * n % 8 = 0
    omega
  · intro k hk c hc
    obtain ⟨a1, a2, a3, a4⟩ := hfl k hk c hc
    have d1 : (16 * k + 2 * c) / 8 = 2 * k := by omega
    have d2 : (16 * k + 2 * c) % 8 = 2 * c := by omega
    have d3 : (16 * k + 2 * c + 1) / 8 = 2 * k := by omega
    have d4 : (16 * k + 2 * c + 1) % 8 = 2 * c + 1 := by omega
    have d5 : (16 * k + 8 + 2 * c) / 8 = 2 * k + 1 := by omega
    have d6 : (16 * k + 8 + 2 * c) % 8 = 2 * c := by omega
    have d7 : (16 * k + 8 + 2 * c + 1) / 8 = 2 * k + 1 := by omega
    have d8 : (16 * k + 8 + 2 * c + 1) % 8 = 2 * c + 1 := by omega
    unfold stream_bit at a1 a2 a3 a4
    rw [d1, d2] at a1
    rw [d3, d4] at a2
    rw [d5, d6] at a3
    rw [d7, d8] at a4
    exact ⟨a1, a2, a3, a4⟩
  · unfold decode_plan
    rw [e]
    rfl
  · intro cl chan a hcl hch hreach
    have hstart : (seek s (16 * n)).in_bit_idx = 0 ∧ 2 * n ≤ (seek s (16 * n)).in_byte_idx ∧
        (seek s (16 * n)).inp = s.inp ∧ ∀ i j, same_flags (ci1 i j) (ci1 i j) := by
      refine ⟨?_, ?_, rfl, fun i j => ⟨rfl, rfl, rfl, rfl⟩⟩
      · show 16 * n % 8 = 0
        omega
      · show 2 * n ≤ 16 * n / 8
        omega
    obtain ⟨g1, g2, g3, g4⟩ := stage2_reaches_aligned (2 * n) s.inp ci1 (ci1, seek s (16 * n)) a
      cl chan hstart hreach
    refine ⟨g1, g2, g4 cl chan, ?_, ?_⟩
    · intro _ hlt
      have hval : a.2.inp a.2.in_byte_idx = s.inp a.2.in_byte_idx := by rw [g3]
      rw [read_byte_aligned a.2 g1 hlt (by rw [g3]; exact hbytes _ hlt), hval]
    · intro m hm
      obtain ⟨m1, m2, _⟩ := second_header_left_aligned cl chan a m g1 hm
      refine ⟨m1, ?_, ?_⟩
      · rw [m2, (g4 cl chan).1]
      · intro _ hlt
        have hinp : m.2.inp = s.inp := by
          rw [(second_header_left_frame _ _ _ _ hm).2.2, g3]
        have hval : m.2.inp m.2.in_byte_idx = s.inp m.2.in_byte_idx := by rw [hinp]
        rw [read_byte_aligned m.2 m1 hlt (by rw [hinp]; exact hbytes _ hlt), hval]

set_option maxRecDepth 1000000 in
/-- C28, on the payload `93 0C FF 0F` followed by twelve stage-2 bytes, with two cachelines:
stage 1 ends on byte 4 and yields the combinations 1100, 0011, 1000, 0100 for cacheline 0
and 1111, 1111, 1100, 1100 for cacheline 1; stage 2 then reads the bytes 4..15 and ends
on byte 16, bit 0. -/
theorem stage1_layout_witness :
    ((∀ i, i < 64 → layout_start.inp i < 256) ∧
      layout_start.in_byte_idx = 0 ∧
      layout_start.in_bit_idx = 0 ∧
      2 ≤ 4) ∧
    ((List.range 2).map (fun k => (List.range 4).map
        (fun c => header_pattern (layout_stage1.1 k c)))
        = [[1100, 11, 1000, 100], [1111, 1111, 1100, 1100]] ∧
      (layout_stage1.2.in_byte_idx, layout_stage1.2.in_bit_idx) = (4, 0) ∧
      (decode_plan 2 layout_start).toOption.map
        (fun st => (st.2.in_byte_idx, st.2.in_bit_idx, st.1 0 0, st.1 0 3))
        = some (16, 0, ⟨1, 0, 0x28, 1, 1, 0, 0x50, 3⟩, ⟨0, 0, 0, 7, 1, 0, 6, 0⟩)) ∧
    ((CHAN_G, CHAN_CR, CHAN_CB, CHAN_A) = (0, 1, 2, 3) ∧
    ∃ ci1 s1, first_header 2 (fun _ _ => ⟨0, 0, 0, 0, 0, 0, 0, 0⟩, layout_start) = .ok (ci1, s1) ∧
      s1.in_byte_idx = 2 * 2 ∧ s1.in_bit_idx = 0 ∧ s1.inp = layout_start.inp ∧
      (∀ k, k < 2 → ∀ c, c < 4 →
        (ci1 k c).left_header_present = layout_start.inp (2 * k) / 2 ^ (2 * c) % 2 ∧
        (ci1 k c).right_header_present = layout_start.inp (2 * k) / 2 ^ (2 * c + 1) % 2 ∧
        (ci1 k c).left_constant = layout_start.inp (2 * k + 1) / 2 ^ (2 * c) % 2 ∧
        (ci1 k c).right_constant = layout_start.inp (2 * k + 1) / 2 ^ (2 * c + 1) % 2) ∧
      decode_plan 2 layout_start = (consistency_check 2 ci1 >>= fun _ => second_header 2 (ci1, s1))
          ∧
      ∀ cl chan a, cl < 2 → chan < 4 → stage2_reaches (ci1, s1) cl chan a →
        a.2.in_bit_idx = 0 ∧ 2 * 2 ≤ a.2.in_byte_idx ∧ same_flags (a.1 cl chan) (ci1 cl chan) ∧
        ((ci1 cl chan).left_header_present ≠ 0 → a.2.in_byte_idx < 64 →
          read_bits a.2 8 = .ok (layout_start.inp a.2.in_byte_idx,
            { a.2 with in_byte_idx := a.2.in_byte_idx + 1 })) ∧
        ∀ m, second_header_left cl chan a = .ok m →
          m.2.in_bit_idx = 0 ∧
          m.2.in_byte_idx = a.2.in_byte_idx + flag_digit (ci1 cl chan).left_header_present ∧
          ((ci1 cl chan).right_header_present ≠ 0 → m.2.in_byte_idx < 64 →
            read_bits m.2 8 = .ok (layout_start.inp m.2.in_byte_idx,
              { m.2 with in_byte_idx := m.2.in_byte_idx + 1 }))) :=
  ⟨⟨by decide, by decide, by decide, by decide⟩,
    ⟨by decide, by decide, by decide⟩,
    stage1_layout 2 layout_start (by decide) (by decide) (by decide) (by decide)⟩

end DecodeAmd

/-! ## decode.c: the width rule of gen8 -/

namespace Decode

theorem gen8_spec_header_widths (inp : Nat → Nat) :
    (gen8_spec_header inp).delta_r_bits = gen8_chan_width inp 0 ∧
    (gen8_spec_header inp).delta_g_bits = gen8_chan_width inp 1 ∧
    (gen8_spec_header inp).delta_b_bits = gen8_chan_width inp 2 ∧
    (gen8_spec_header inp).delta_a_bits = gen8_chan_width inp 3 ∧
    (gen8_spec_header inp).unused_bits = 14 - gen8_width_sum inp ∧
    gen8_delta_bits (gen8_spec_header inp) = gen8_width_sum inp :=
  ⟨rfl, rfl, rfl, rfl, rfl, rfl⟩

theorem gen8_header_ok_iff (inp : Nat → Nat) :
    gen8_header_ok inp ↔
      (∀ c, c < 4 → gen8_skip inp c ≠ 0 → gen8_field inp c = 0) ∧ gen8_width_sum inp ≤ 14 := by
  constructor
  · rintro ⟨h0, h1, h2, h3, h4⟩
    refine ⟨?_, h4⟩
    intro c hc
    interval_cases c
    · exact h0
    · exact h1
    · exact h2
    · exact h3
  · rintro ⟨h, h4⟩
    exact ⟨h 0 (by decide), h 1 (by decide), h 2 (by decide), h 3 (by decide), h4⟩

theorem gen8_spec_pixel_eq (inp : Nat → Nat) (j : Nat) :
    gen8_spec_pixel (gen8_spec_header inp) inp (48 + 14 * j) =
      (gen8_chan_value inp j 0, gen8_chan_value inp j 1, gen8_chan_value inp j 2,
        gen8_chan_value inp j 3) := by
  have e : ∀ skip base d : Nat, spec_channel skip base d
      = if skip ≠ 0 then base else (base + d) % 256 := by
    intro skip base d
    unfold spec_channel
    by_cases h : skip = 0
    · rw [if_pos h, if_neg (by simpa using h)]
    · rw [if_neg h, if_pos h]
  unfold gen8_spec_pixel gen8_chan_value
  simp only [e, gen8_chan_offset, Nat.add_assoc]
  rfl

/-- The faults of the head of `decode_8th_gen`: a skipped channel with a nonzero width
field stops it with the skipped-width fault, a width sum above 14 with the width-budget
fault. -/
theorem gen8_read_header_fault (s : State) (hwf : WF s) :
    ((∃ c, c < 4 ∧ gen8_skip s.inp c ≠ 0 ∧ gen8_field s.inp c ≠ 0) →
      gen8_read_header (seek s 0) = .error .skipped_width) ∧
    ((∀ c, c < 4 → gen8_skip s.inp c ≠ 0 → gen8_field s.inp c = 0) →
      14 < gen8_width_sum s.inp → gen8_read_header (seek s 0) = .error .width_budget) := by
  have r0 : read_bits (seek s 0) 1 = .ok (stream_bit s.inp 0, seek s 1) := by
    rw [← stream_val_one]; exact read_bits_window s 0 1 hwf (by omega) (by omega) (by omega)
  have r1 : read_bits (seek s 1) 1 = .ok (stream_bit s.inp 1, seek s 2) := by
    rw [← stream_val_one]; exact read_bits_window s 1 1 hwf (by omega) (by omega) (by omega)
  have r2 : read_bits (seek s 2) 1 = .ok (stream_bit s.inp 2, seek s 3) := by
    rw [← stream_val_one]; exact read_bits_window s 2 1 hwf (by omega) (by omega) (by omega)
  have r3 : read_bits (seek s 3) 1 = .ok (stream_bit s.inp 3, seek s 4) := by
    rw [← stream_val_one]; exact read_bits_window s 3 1 hwf (by omega) (by omega) (by omega)
  have b0 : read_bits (seek s 4) 8 = .ok (stream_val s.inp 4 8, seek s 12) :=
    read_bits_window s 4 8 hwf (by omega) (by omega) (by omega)
  have b1 : read_bits (seek s 12) 8 = .ok (stream_val s.inp 12 8, seek s 20) :=
    read_bits_window s 12 8 hwf (by omega) (by omega) (by omega)
  have b2 : read_bits (seek s 20) 8 = .ok (stream_val s.inp 20 8, seek s 28) :=
    read_bits_window s 20 8 hwf (by omega) (by omega) (by omega)
  have b3 : read_bits (seek s 28) 8 = .ok (stream_val s.inp 28 8, seek s 36) :=
    read_bits_window s 28 8 hwf (by omega) (by omega) (by omega)
  have w0 : read_bits (seek s 36) 3 = .ok (stream_val s.inp 36 3, seek s 39) :=
    read_bits_window s 36 3 hwf (by omega) (by omega) (by omega)
  have w1 : read_bits (seek s 39) 3 = .ok (stream_val s.inp 39 3, seek s 42) :=
    read_bits_window s 39 3 hwf (by omega) (by omega) (by omega)
  have w2 : read_bits (seek s 42) 3 = .ok (stream_val s.inp 42 3, seek s 45) :=
    read_bits_window s 42 3 hwf (by omega) (by omega) (by omega)
  have w3 : read_bits (seek s 45) 3 = .ok (stream_val s.inp 45 3, seek s 48) :=
    read_bits_window s 45 3 hwf (by omega) (by omega) (by omega)
  have g0 := gen8_width_eq (stream_bit s.inp 0) _ (stream_val_lt s.inp 3 36)
  have g1 := gen8_width_eq (stream_bit s.inp 1) _ (stream_val_lt s.inp 3 39)
  have g2 := gen8_width_eq (stream_bit s.inp 2) _ (stream_val_lt s.inp 3 42)
  have g3 := gen8_width_eq (stream_bit s.inp 3) _ (stream_val_lt s.inp 3 45)
  unfold gen8_read_header
  simp only [r0, r1, r2, r3, b0, b1, b2, b3, w0, w1, w2, w3, bind_ok_eq, g0, g1, g2, g3]
  constructor
  · rintro ⟨c, hc, hv⟩
    by_cases c0 : stream_bit s.inp 0 ≠ 0 ∧ stream_val s.inp 36 3 ≠ 0
    · rw [if_pos c0]; rfl
    rw [if_neg c0]
    simp only [bind_ok_eq]
    by_cases c1 : stream_bit s.inp 1 ≠ 0 ∧ stream_val s.inp 39 3 ≠ 0
    · rw [if_pos c1]; rfl
    rw [if_neg c1]
    simp only [bind_ok_eq]
    by_cases c2 : stream_bit s.inp 2 ≠ 0 ∧ stream_val s.inp 42 3 ≠ 0
    · rw [if_pos c2]; rfl
    rw [if_neg c2]
    simp only [bind_ok_eq]
    by_cases c3 : stream_bit s.inp 3 ≠ 0 ∧ stream_val s.inp 45 3 ≠ 0
    · rw [if_pos c3]; rfl
    exfalso
    interval_cases c
    · exact c0 hv
    · exact c1 hv
    · exact c2 hv
    · exact c3 hv
  · intro hall hsum
    rw [if_neg (fun c => c.2 (hall 0 (by decide) c.1))]
    simp only [bind_ok_eq]
    rw [if_neg (fun c => c.2 (hall 1 (by decide) c.1))]
    simp only [bind_ok_eq]
    rw [if_neg (fun c => c.2 (hall 2 (by decide) c.1))]
    simp only [bind_ok_eq]
    rw [if_neg (fun c => c.2 (hall 3 (by decide) c.1))]
    simp only [bind_ok_eq]
    have hsum' : 14 < gen8_spec_width (stream_bit s.inp 0) (stream_val s.inp 36 3)
      + gen8_spec_width (stream_bit s.inp 1) (stream_val s.inp 39 3)
      + gen8_spec_width (stream_bit s.inp 2) (stream_val s.inp 42 3)
      + gen8_spec_width (stream_bit s.inp 3) (stream_val s.inp 45 3) := hsum
    rw [if_pos (by omega)]

/-- C29. The width rule of `decode_8th_gen`, from the initial globals, for the channels
`c` = 0..3 (R, G, B, A) with skip flag `k_c` (stream bit `c`), base `base_c` and 3-bit
width field `f_c`.  The delta width of a channel is 0 when it is skipped and `f_c + 1`,
between 1 and 8, when it is not.  The decode fails with the skipped-width fault when some
channel has `k_c = 1` and `f_c ≠ 0`; otherwise it fails with the width-budget fault when
the four widths sum to more than 14.  Otherwise the header is read with those widths and
`14 - sum` unused bits per pixel, the cursor is at bit 48, the decode fails when the
unused bits of some pixel are not all zero, and succeeds when they are all zero and the
last 16 bits of the buffer are zero.  When the decode succeeds, no skipped channel has a
nonzero field, the sum is at most 14, and for every pixel `j` the `14 - sum` bits after
its deltas are zero and its channel `c` is `base_c` when skipped and
`(base_c + delta) mod 256` otherwise, the delta being the unsigned value of the channel's
width at the channel's offset in the pixel's 14 bits. -/
theorem gen8_width_rule (s : State)
    (hbytes : ∀ i, i < 64 → s.inp i < 256) (hbyte : s.in_byte_idx = 0)
    (hbit : s.in_bit_idx = 0) (hout : s.out_idx = 0) :
    (∀ c, c < 4 →
      (gen8_skip s.inp c ≠ 0 → gen8_chan_width s.inp c = 0) ∧
      (gen8_skip s.inp c = 0 → gen8_chan_width s.inp c = gen8_field s.inp c + 1 ∧
        1 ≤ gen8_chan_width s.inp c ∧ gen8_chan_width s.inp c ≤ 8)) ∧
    ((∃ c, c < 4 ∧ gen8_skip s.inp c ≠ 0 ∧ gen8_field s.inp c ≠ 0) →
      decode_8th_gen s = .error .skipped_width) ∧
    ((∀ c, c < 4 → gen8_skip s.inp c ≠ 0 → gen8_field s.inp c = 0) →
      14 < gen8_width_sum s.inp → decode_8th_gen s = .error .width_budget) ∧
    ((∀ c, c < 4 → gen8_skip s.inp c ≠ 0 → gen8_field s.inp c = 0) →
      gen8_width_sum s.inp ≤ 14 →
      (∃ h s1, gen8_read_header s = .ok (h, s1) ∧ bit_pos s1 = 48 ∧
        (h.skip_r, h.skip_g, h.skip_b, h.skip_a)
          = (gen8_skip s.inp 0, gen8_skip s.inp 1, gen8_skip s.inp 2, gen8_skip s.inp 3) ∧
        (h.base_r, h.base_g, h.base_b, h.base_a)
          = (gen8_base s.inp 0, gen8_base s.inp 1, gen8_base s.inp 2, gen8_base s.inp 3) ∧
        (h.delta_r_bits, h.delta_g_bits, h.delta_b_bits, h.delta_a_bits)
          = (gen8_chan_width s.inp 0, gen8_chan_width s.inp 1, gen8_chan_width s.inp 2,
              gen8_chan_width s.inp 3) ∧
        h.unused_bits = 14 - gen8_width_sum s.inp) ∧
      ((∃ j, j < 32 ∧
          stream_val s.inp (48 + 14 * j + gen8_width_sum s.inp) (14 - gen8_width_sum s.inp) ≠ 0) →
        ∃ e, decode_8th_gen s = .error e) ∧
      ((∀ j, j < 32 →
          stream_val s.inp (48 + 14 * j + gen8_width_sum s.inp) (14 - gen8_width_sum s.inp) = 0) →
        stream_val s.inp 496 16 = 0 → ∃ s1, decode_8th_gen s = .ok s1)) ∧
    (∀ s1, decode_8th_gen s = .ok s1 →
      (∀ c, c < 4 → gen8_skip s.inp c ≠ 0 → gen8_field s.inp c = 0) ∧
      gen8_width_sum s.inp ≤ 14 ∧ s1.out_idx = 32 ∧
      ∀ j, j < 32 →
        stream_val s.inp (48 + 14 * j + gen8_width_sum s.inp) (14 - gen8_width_sum s.inp) = 0 ∧
        DecodeAmd.pixel_at s1.out j =
          (gen8_chan_value s.inp j 0, gen8_chan_value s.inp j 1, gen8_chan_value s.inp j 2,
            gen8_chan_value s.inp j 3)) := by
  have hwf : WF s := ⟨hbytes, by omega⟩
  have hs : seek s 0 = s := by
    have := seek_self s hwf.2
    have e : bit_pos s = 0 := by unfold bit_pos; omega
    rw [e] at this
    exact this
  obtain ⟨d1, d2, d3⟩ := gen8_decode_char s hwf hbyte hbit hout
  obtain ⟨hd1, _⟩ := gen8_read_header_spec s hwf
  obtain ⟨hf1, hf2⟩ := gen8_read_header_fault s hwf
  rw [hs] at hd1 hf1 hf2
  have hpadeq : ∀ j, gen8_pad_zero (gen8_spec_header s.inp) s.inp j ↔
      stream_val s.inp (48 + 14 * j + gen8_width_sum s.inp) (14 - gen8_width_sum s.inp) = 0 :=
    fun j => Iff.rfl
  refine ⟨?_, ?_, ?_, ?_, ?_⟩
  · intro c hc
    have hf : gen8_field s.inp c < 8 := stream_val_lt s.inp 3 _
    unfold gen8_chan_width
    constructor
    · intro hk
      rw [if_pos hk]
    · intro hk
      rw [if_neg (by simpa using hk)]
      omega
  · intro hv
    unfold decode_8th_gen
    rw [hf1 hv]
    rfl
  · intro hall hsum
    unfold decode_8th_gen
    rw [hf2 hall hsum]
    rfl
  · intro hall hsum
    have hok : gen8_header_ok s.inp := (gen8_header_ok_iff s.inp).2 ⟨hall, hsum⟩
    refine ⟨⟨_, _, hd1 hok, bit_pos_seek _ _, rfl, rfl, rfl, rfl⟩, ?_, ?_⟩
    · rintro ⟨j, hj, hne⟩
      cases hdec : decode_8th_gen s with
      | error e => exact ⟨e, rfl⟩
      | ok s1 =>
        exfalso
        exact hne ((hpadeq j).1 ((d3 s1 hdec).2.1 j hj))
    · intro hpad htail
      obtain ⟨s1, e, _⟩ := d1 hok (fun j hj => (hpadeq j).2 (hpad j hj)) htail
      exact ⟨s1, e⟩
  · intro s1 hdec
    obtain ⟨hok, hpad, _, hres⟩ := d3 s1 hdec
    obtain ⟨hall, hsum⟩ := (gen8_header_ok_iff s.inp).1 hok
    refine ⟨hall, hsum, hres.2.2.2.1, fun j hj => ⟨(hpadeq j).1 (hpad j hj), ?_⟩⟩
    rw [hres.2.2.2.2.1 j hj, gen8_spec_pixel_eq]

set_option maxRecDepth 1000000 in
/-- C29, on `gen8_widths`: the widths are 3, 0, 5, 0 with sum 8, the decode succeeds, pixel 1
is (0x10 + 1, 0x20, 0x30 + 4, 0xFF) and pixel 31 is (0x10 + 7, 0x20, 0x30 + 30, 0xFF);
with stream bit 56, the first unused bit of pixel 0, set the decode fails; a payload
with R skipped and width field 1 fails with the skipped-width fault, and one with four
widths of 4 with the width-budget fault. -/
theorem gen8_width_rule_witness :
    ((∀ i, i < 64 → gen8_widths.inp i < 256) ∧
      gen8_widths.in_byte_idx = 0 ∧
      gen8_widths.in_bit_idx = 0 ∧
      gen8_widths.out_idx = 0) ∧
    ((gen8_width_sum gen8_widths.inp, (List.range 4).map (gen8_chan_width gen8_widths.inp))
        = (8, [3, 0, 5, 0]) ∧
      (decode_8th_gen gen8_widths).toBool = true ∧
      (DecodeAmd.pixel_at gen8_widths_decoded.out 1, DecodeAmd.pixel_at gen8_widths_decoded.out 31)
        = ((17, 32, 52, 255), (23, 32, 78, 255)) ∧
      fault_of (decode_8th_gen
        { gen8_widths with inp := fun i => if i = 7 then 0x41 else gen8_widths.inp i })
        = some .nonzero_padding ∧
      fault_of (decode_8th_gen (DecodeAmd.start (DecodeAmd.bytes [0x01, 0, 0, 0, 0x10])))
        = some .skipped_width ∧
      fault_of (decode_8th_gen (DecodeAmd.start (DecodeAmd.bytes [0x00, 0, 0, 0, 0xB0, 0x6D])))
        = some .width_budget) ∧
    ((∀ c, c < 4 →
      (gen8_skip gen8_widths.inp c ≠ 0 → gen8_chan_width gen8_widths.inp c = 0) ∧
      (gen8_skip gen8_widths.inp c = 0 → gen8_chan_width gen8_widths.inp c = gen8_field
          gen8_widths.inp c + 1 ∧
        1 ≤ gen8_chan_width gen8_widths.inp c ∧ gen8_chan_width gen8_widths.inp c ≤ 8)) ∧
    ((∃ c, c < 4 ∧ gen8_skip gen8_widths.inp c ≠ 0 ∧ gen8_field gen8_widths.inp c ≠ 0) →
      decode_8th_gen gen8_widths = .error .skipped_width) ∧
    ((∀ c, c < 4 → gen8_skip gen8_widths.inp c ≠ 0 → gen8_field gen8_widths.inp c = 0) →
      14 < gen8_width_sum gen8_widths.inp → decode_8th_gen gen8_widths = .error .width_budget) ∧
    ((∀ c, c < 4 → gen8_skip gen8_widths.inp c ≠ 0 → gen8_field gen8_widths.inp c = 0) →
      gen8_width_sum gen8_widths.inp ≤ 14 →
      (∃ h s1, gen8_read_header gen8_widths = .ok (h, s1) ∧ bit_pos s1 = 48 ∧
        (h.skip_r, h.skip_g, h.skip_b, h.skip_a)
          = (gen8_skip gen8_widths.inp 0, gen8_skip gen8_widths.inp 1, gen8_skip gen8_widths.inp 2,
              gen8_skip gen8_widths.inp 3) ∧
        (h.base_r, h.base_g, h.base_b, h.base_a)
          = (gen8_base gen8_widths.inp 0, gen8_base gen8_widths.inp 1, gen8_base gen8_widths.inp 2,
              gen8_base gen8_widths.inp 3) ∧
        (h.delta_r_bits, h.delta_g_bits, h.delta_b_bits, h.delta_a_bits)
          = (gen8_chan_width gen8_widths.inp 0, gen8_chan_width gen8_widths.inp 1, gen8_chan_width
              gen8_widths.inp 2,
              gen8_chan_width gen8_widths.inp 3) ∧
        h.unused_bits = 14 - gen8_width_sum gen8_widths.inp) ∧
      ((∃ j, j < 32 ∧
          stream_val gen8_widths.inp (48 + 14 * j + gen8_width_sum gen8_widths.inp) (14 -
              gen8_width_sum gen8_widths.inp) ≠ 0) →
        ∃ e, decode_8th_gen gen8_widths = .error e) ∧
      ((∀ j, j < 32 →
          stream_val gen8_widths.inp (48 + 14 * j + gen8_width_sum gen8_widths.inp) (14 -
              gen8_width_sum gen8_widths.inp) = 0) →
        stream_val gen8_widths.inp 496 16 = 0 → ∃ s1, decode_8th_gen gen8_widths = .ok s1)) ∧
    (∀ s1, decode_8th_gen gen8_widths = .ok s1 →
      (∀ c, c < 4 → gen8_skip gen8_widths.inp c ≠ 0 → gen8_field gen8_widths.inp c = 0) ∧
      gen8_width_sum gen8_widths.inp ≤ 14 ∧ s1.out_idx = 32 ∧
      ∀ j, j < 32 →
        stream_val gen8_widths.inp (48 + 14 * j + gen8_width_sum gen8_widths.inp) (14 -
            gen8_width_sum gen8_widths.inp) = 0 ∧
        DecodeAmd.pixel_at s1.out j =
          (gen8_chan_value gen8_widths.inp j 0, gen8_chan_value gen8_widths.inp j 1, gen8_chan_value
              gen8_widths.inp j 2,
            gen8_chan_value gen8_widths.inp j 3))) :=
  ⟨⟨by decide, by decide, by decide, by decide⟩,
    ⟨by decide, by decide, by decide, by decide, by decide, by decide⟩,
    gen8_width_rule gen8_widths (by decide) (by decide) (by decide) (by decide)⟩

end Decode

/-! ## decode.c: the extension decode -/

namespace Decode

/-- One of the two fill loops of the extension decode: each of the 20 buffers, holding
`u` bits, takes the next `n` bits of the stream above them. -/
theorem fill_loop_spec
    (f : Nat → (Nat → bitbuffer) × State → Except Fault ((Nat → bitbuffer) × State))
    (n u : Nat)
    (hf : ∀ i st, f i st =
      (read_bits_into_buffer (st.1 i) st.2 n >>= fun r => pure (set1 st.1 i r.1, r.2)))
    (s : State) (hwf : WF s) (q : Nat) (b0 : Nat → bitbuffer)
    (hu : u + n ≤ 32) (hq : q + 20 * n ≤ 512)
    (hb0 : ∀ i, i < 20 → (b0 i).bits_used = u ∧ (b0 i).buf < 2 ^ u) :
    ∃ b1, for_range 0 20 f (b0, seek s q) = .ok (b1, seek s (q + 20 * n)) ∧
      (∀ i, i < 20 →
        b1 i = ⟨(b0 i).buf + 2 ^ u * stream_val s.inp (q + n * i) n, u + n⟩) ∧
      ∀ i, 20 ≤ i → b1 i = b0 i := by
  have h := loop_inv f
    (fun j st => st.2 = seek s (q + n * j) ∧
      (∀ i, i < j →
        st.1 i = ⟨(b0 i).buf + 2 ^ u * stream_val s.inp (q + n * i) n, u + n⟩) ∧
      ∀ i, j ≤ i → st.1 i = b0 i)
    20 0 (b0, seek s q) ⟨by rw [Nat.mul_zero, Nat.add_zero], fun i hi => by omega,
      fun i _ => rfl⟩ (by
      intro j st _ hj ⟨a1, a2, a3⟩
      obtain ⟨bf, s0⟩ := st
      simp only at a1 a2 a3
      subst a1
      obtain ⟨hb1, hb2⟩ := hb0 j (by omega)
      have hroom : n * j + n ≤ n * 20 := by
        rw [← Nat.mul_succ]
        exact Nat.mul_le_mul_left n (by omega)
      have hbj : bf j = b0 j := a3 j (Nat.le_refl _)
      have e := rbib_spec s hwf n (bf j) (q + n * j) (by rw [hbj, hb1]; exact hu) (by omega)
        (by rw [hbj, hb1]; exact hb2)
      rw [hbj, hb1] at e
      rw [hf]
      dsimp only
      rw [hbj, e]
      refine ⟨_, rfl, ?_, ?_, ?_⟩
      · show seek s (q + n * j + n) = seek s (q + n * (j + 1))
        rw [Nat.mul_succ, Nat.add_assoc]
      · intro i hi
        show set1 bf j _ i = _
        unfold set1
        by_cases e1 : i = j
        · rw [if_pos e1, e1]
        · rw [if_neg e1]
          exact a2 i (by omega)
      · intro i hi
        show set1 bf j _ i = _
        unfold set1
        rw [if_neg (by omega)]
        exact a3 i (by omega))
  obtain ⟨st1, e, c1, c2, c3⟩ := h
  obtain ⟨b1, s1⟩ := st1
  simp only at c1 c2 c3
  subst c1
  refine ⟨b1, ?_, fun i hi => c2 i (by omega), fun i hi => c3 i (by omega)⟩
  unfold for_range
  rw [e]
  have e2 : q + n * (0 + 20) = q + 20 * n := by rw [Nat.zero_add, Nat.mul_comm]
  rw [e2]

theorem rbb_inv (bb bb1 : bitbuffer) (k v : Nat)
    (h : read_buffered_bits bb k = .ok (v, bb1)) :
    k ≤ bb.bits_used ∧ bb1.bits_used = (bb.bits_used - k) % 256 := by
  unfold read_buffered_bits at h
  split_ifs at h with h1 h2
  cases h
  exact ⟨by omega, rfl⟩

theorem rdbz_inv (bb bb1 : bitbuffer) (k : Nat)
    (h : read_and_discard_buffered_zero_bits bb k = .ok bb1) :
    k ≤ 8 ∧ k ≤ bb.bits_used ∧ bb1.bits_used = (bb.bits_used - k) % 256 := by
  unfold read_and_discard_buffered_zero_bits at h
  split_ifs at h with h1 h2 h3
  cases h
  exact ⟨by omega, by omega, rfl⟩

/-- A pixel drained from a delta buffer takes the bits of its four deltas and the unused
bits, which must not exceed 8. -/
theorem ext_reconstruct_drain (ip : Nat) (w : channel_widths) (bs : channel_bases)
    (bb bb1 : bitbuffer) (px : Pixel) (h : ext_reconstruct ip w bs bb = .ok (px, bb1))
    (hu : bb.bits_used ≤ 255) :
    w.unused_bits ≤ 8 ∧ gen11_delta_bits w + w.unused_bits ≤ bb.bits_used ∧
      bb1.bits_used = bb.bits_used - (gen11_delta_bits w + w.unused_bits) := by
  unfold ext_reconstruct at h
  obtain ⟨⟨r, g, b, bb3⟩, h1, h2⟩ := bind_eq_ok _ _ _ h
  dsimp only at h2
  obtain ⟨⟨da, bb4⟩, h3, h4⟩ := bind_eq_ok _ _ _ h2
  dsimp only at h4
  obtain ⟨bb5, h5, h6⟩ := bind_eq_ok _ _ _ h4
  cases h6
  have key : w.delta_r_bits + w.delta_g_bits + w.delta_b_bits ≤ bb.bits_used ∧
      bb3.bits_used = bb.bits_used - (w.delta_r_bits + w.delta_g_bits + w.delta_b_bits) := by
    split_ifs at h1 with hip
    · obtain ⟨⟨d1, b1⟩, e1, e2⟩ := bind_eq_ok _ _ _ h1
      dsimp only at e2
      obtain ⟨⟨d2, b2⟩, e3, e4⟩ := bind_eq_ok _ _ _ e2
      dsimp only at e4
      obtain ⟨⟨d3, b3⟩, e5, e6⟩ := bind_eq_ok _ _ _ e4
      cases e6
      obtain ⟨k1, u1⟩ := rbb_inv _ _ _ _ e1
      obtain ⟨k2, u2⟩ := rbb_inv _ _ _ _ e3
      obtain ⟨k3, u3⟩ := rbb_inv _ _ _ _ e5
      dsimp only
      omega
    · obtain ⟨⟨d1, b1⟩, e1, e2⟩ := bind_eq_ok _ _ _ h1
      dsimp only at e2
      obtain ⟨⟨d2, b2⟩, e3, e4⟩ := bind_eq_ok _ _ _ e2
      dsimp only at e4
      obtain ⟨⟨d3, b3⟩, e5, e6⟩ := bind_eq_ok _ _ _ e4
      cases e6
      obtain ⟨k1, u1⟩ := rbb_inv _ _ _ _ e1
      obtain ⟨k2, u2⟩ := rbb_inv _ _ _ _ e3
      obtain ⟨k3, u3⟩ := rbb_inv _ _ _ _ e5
      dsimp only
      omega
  obtain ⟨ka, ua⟩ := rbb_inv _ _ _ _ h3
  obtain ⟨k8, ku, uu⟩ := rdbz_inv _ _ _ h5
  unfold gen11_delta_bits
  omega

/-- A run of `copies` writes of one pixel leaves the input, the cursor and every other
slot as they were. -/
theorem write_copies_frame (px : Pixel) (copies : Nat) (s s1 : State)
    (h : for_range 0 copies
      (fun _ s0 => write_pixel_block_order s0 px.1 px.2.1 px.2.2.1 px.2.2.2) s = .ok s1) :
    s1.inp = s.inp ∧ s1.in_byte_idx = s.in_byte_idx ∧ s1.in_bit_idx = s.in_bit_idx ∧
      ∀ k, (∀ j, j < copies → k ≠ block_order (s.out_idx + j)) →
        DecodeAmd.pixel_at s1.out k = DecodeAmd.pixel_at s.out k := by
  have key := loop_ok_inv
    (fun _ s0 => write_pixel_block_order s0 px.1 px.2.1 px.2.2.1 px.2.2.2)
    (fun i st => st.out_idx = s.out_idx + i ∧ st.inp = s.inp ∧
      st.in_byte_idx = s.in_byte_idx ∧ st.in_bit_idx = s.in_bit_idx ∧
      ∀ k, (∀ j, j < i → k ≠ block_order (s.out_idx + j)) →
        DecodeAmd.pixel_at st.out k = DecodeAmd.pixel_at s.out k)
    (copies - 0) 0 s s1 h ⟨rfl, rfl, rfl, rfl, fun k _ => rfl⟩
    (by
      intro i a b _ _ ⟨a1, a2, a3, a4, a5⟩ hb0
      have hb : write_pixel_block_order a px.1 px.2.1 px.2.2.1 px.2.2.2 = .ok b := hb0
      obtain ⟨b1, _, _, _⟩ := write_pixel_block_order_inv a b _ _ _ _ hb
      obtain ⟨s2, c1, c2, c3, c4, c5, _, c7, _⟩ :=
        write_pixel_block_order_spec a px.1 px.2.1 px.2.2.1 px.2.2.2 b1
      rw [c1] at hb
      cases hb
      refine ⟨by omega, by rw [c3, a2], by rw [c4, a3], by rw [c5, a4], ?_⟩
      intro k hk
      rw [c7 k (by rw [a1]; exact hk i (by omega))]
      exact a5 k (fun j hj => hk j (by omega)))
  have e : 0 + (copies - 0) = copies := by omega
  rw [e] at key
  exact ⟨key.2.1, key.2.2.1, key.2.2.2.1, key.2.2.2.2⟩

/-- One pixel of the extension decode that succeeds, in full: the buffer it drains, the
index it advances, the slots it stores and all it leaves alone. -/
theorem ext_pixel_step (ip : Nat) (w : channel_widths) (bs : channel_bases) (copies : Nat)
    (st st1 : ExtState) (h : ext_pixel ip w bs copies st = .ok st1)
    (hidx : st.delta_bb_idx < 255) :
    ∃ px bb, ext_reconstruct ip w bs (st.delta_bb st.delta_bb_idx) = .ok (px, bb) ∧
      st1.delta_bb = set1 st.delta_bb st.delta_bb_idx bb ∧
      st1.delta_bb_idx = st.delta_bb_idx + 1 ∧
      st1.s.out_idx = st.s.out_idx + copies ∧
      (∀ j, j < copies →
        DecodeAmd.pixel_at st1.s.out (block_order (st.s.out_idx + j)) = px) ∧
      (∀ k, (∀ j, j < copies → k ≠ block_order (st.s.out_idx + j)) →
        DecodeAmd.pixel_at st1.s.out k = DecodeAmd.pixel_at st.s.out k) ∧
      st1.s.inp = st.s.inp ∧ st1.s.in_byte_idx = st.s.in_byte_idx ∧
      st1.s.in_bit_idx = st.s.in_bit_idx := by
  unfold ext_pixel at h
  obtain ⟨⟨px, bb⟩, h1, h2⟩ := bind_eq_ok _ _ _ h
  obtain ⟨s1, h3, h4⟩ := bind_eq_ok _ _ _ h2
  cases h4
  obtain ⟨c1, c2⟩ := write_copies_inv px copies st.s s1 h3
  obtain ⟨d1, d2, d3, d4⟩ := write_copies_frame px copies st.s s1 h3
  exact ⟨px, bb, h1, rfl, Nat.mod_eq_of_lt (by omega), c1, c2, d4, d1, d2, d3⟩

theorem ext_base_le (flags : Nat → Nat) : ∀ k, ext_base flags k ≤ 4 * k := by
  intro k
  induction k with
  | zero => exact Nat.le_refl _
  | succ k ih =>
    unfold ext_base
    split_ifs <;> omega

theorem ext_base_mono (flags : Nat → Nat) : ∀ m k, k ≤ m → ext_base flags k ≤ ext_base flags m := by
  intro m
  induction m with
  | zero =>
    intro k hk
    have : k = 0 := by omega
    rw [this]
  | succ m ih =>
    intro k hk
    by_cases e : k = m + 1
    · rw [e]
    · have := ih k (by omega)
      have e2 : ext_base flags (m + 1) = ext_base flags m + (if flags m ≠ 0 then 1 else 4) := rfl
      omega

theorem ext_base_congr (f g : Nat → Nat) : ∀ n, (∀ k, k < n → f k = g k) →
    ext_base f n = ext_base g n := by
  intro n
  induction n with
  | zero => intro _; rfl
  | succ n ih =>
    intro h
    unfold ext_base
    rw [ih (fun k hk => h k (by omega)), h n (by omega)]

set_option maxRecDepth 1000000 in
theorem ext_base_total : ∀ ext, ext < 256 → flag_count ext = 4 →
    ext_base (fun k => ext / 2 ^ k % 2) 8 = 20 := by
  decide


/-- One pixel of the sub-window loop keeps the loop's progress: one more buffer, `c`
more pixels. -/
theorem ext_progress_pixel (ip : Nat) (w : channel_widths) (bs : channel_bases)
    (flags : Nat → Nat) (bufs : Nat → bitbuffer) (s0 : State) (n o c : Nat)
    (st st1 : ExtState) (hw : gen11_wf w 22) (hbuf : (bufs n).bits_used = 22)
    (hinv : ext_progress ip w bs flags bufs s0 n o st)
    (h : ext_pixel ip w bs c st = .ok st1)
    (hix : ∀ j, j < c → ext_buffer_index flags (o + j) = n)
    (hn : n < 255) (ho : o + c ≤ 32) :
    ext_progress ip w bs flags bufs s0 (n + 1) (o + c) st1 := by
  obtain ⟨i1, i2, i3, i4, i5, i6, i7, i8⟩ := hinv
  obtain ⟨px, bb, e1, e2, e3, e4, e5, e6, e7, e8, e9⟩ :=
    ext_pixel_step ip w bs c st st1 h (by omega)
  rw [i1] at e1 e2 e3
  rw [i3 n (Nat.le_refl _)] at e1
  obtain ⟨_, d1, d2⟩ := ext_reconstruct_drain ip w bs _ _ _ e1 (by omega)
  have hbb : bb.bits_used = 0 := by
    have := hw.2.2.2.2
    rw [d2, hbuf]
    omega
  refine ⟨e3, by rw [e4, i2], ?_, ?_, ?_, by rw [e7, i6], by rw [e8, i7], by rw [e9, i8]⟩
  · intro i hi
    rw [e2]
    unfold set1
    rw [if_neg (by omega)]
    exact i3 i (by omega)
  · intro i hi
    rw [e2]
    unfold set1
    by_cases e : i = n
    · rw [if_pos e]
      exact hbb
    · rw [if_neg e]
      exact i4 i (by omega)
  · intro j hj
    by_cases hjo : j < o
    · obtain ⟨px0, bb0, f1, f2, f3⟩ := i5 j hjo
      refine ⟨px0, bb0, f1, f2, ?_⟩
      rw [e6 _ (fun j1 hj1 hbo => by
        rw [i2] at hbo
        have := block_order_inj j (by omega) (o + j1) (by omega) hbo
        omega)]
      exact f3
    · have ej : j = o + (j - o) := by omega
      refine ⟨px, bb, ?_, hbb, ?_⟩
      · rw [ej, hix (j - o) (by omega)]
        exact e1
      · have := e5 (j - o) (by omega)
        rw [i2, ← ej] at this
        exact this

/-- One sub-window keeps the loop's progress: one more buffer and four copies of one
pixel when its flag is set, four more buffers and four pixels when it is not. -/
theorem ext_progress_subwindow (ip : Nat) (w : channel_widths) (bs : channel_bases)
    (flags : Nat → Nat) (bufs : Nat → bitbuffer) (s0 : State) (k : Nat)
    (st st1 : ExtState) (hw : gen11_wf w 22)
    (hbufs : ∀ i, i < 20 → (bufs i).bits_used = 22)
    (hk : k < 8) (htot : ext_base flags (k + 1) ≤ 20)
    (hinv : ext_progress ip w bs flags bufs s0 (ext_base flags k) (4 * k) st)
    (h : ext_subwindow ip w bs flags k st = .ok st1) :
    ext_progress ip w bs flags bufs s0 (ext_base flags (k + 1)) (4 * (k + 1)) st1 := by
  have hb1 : ext_base flags (k + 1) = ext_base flags k + (if flags k ≠ 0 then 1 else 4) := rfl
  have h4 : 4 * (k + 1) = 4 * k + 4 := by omega
  unfold ext_subwindow at h
  by_cases hf : flags k ≠ 0
  · rw [if_pos hf] at h hb1
    rw [hb1, h4]
    refine ext_progress_pixel ip w bs flags bufs s0 (ext_base flags k) (4 * k) 4 st st1 hw
      (hbufs _ (by omega)) hinv h ?_ (by omega) (by omega)
    intro j hj
    unfold ext_buffer_index
    have e : (4 * k + j) / 4 = k := by omega
    rw [e, if_pos hf]
    rfl
  · rw [if_neg hf] at h hb1
    rw [hb1, h4]
    unfold for_range at h
    exact loop_ok_inv (fun _ st1 => ext_pixel ip w bs 1 st1)
      (fun i a => ext_progress ip w bs flags bufs s0 (ext_base flags k + i) (4 * k + i) a)
      (4 - 0) 0 st st1 h hinv (by
        intro i a b _ hi ha hb
        refine ext_progress_pixel ip w bs flags bufs s0 (ext_base flags k + i) (4 * k + i) 1
          a b hw (hbufs _ (by omega)) ha hb ?_ (by omega) (by omega)
        intro j hj
        unfold ext_buffer_index
        have e : (4 * k + i + j) / 4 = k := by omega
        have e2 : (4 * k + i + j) % 4 = i := by omega
        rw [e, e2, if_neg hf])

/-- The body of the extension decode, with its loops named. -/
theorem extension_body_eq (s : State) (ip : Nat) (flags : Nat → Nat) :
    extension_body s ip flags =
      (read_widths s ip 22 >>= fun r1 =>
        read_bases r1.2 ip >>= fun r2 =>
        for_range 0 20 (fun i (st : (Nat → bitbuffer) × State) =>
          read_bits_into_buffer (st.1 i) st.2 14 >>= fun r => pure (set1 st.1 i r.1, r.2))
          (fun _ => init_bitbuffer, r2.2) >>= fun st3 =>
        for_range 0 20 (fun i (st : (Nat → bitbuffer) × State) =>
          read_bits_into_buffer (st.1 i) st.2 8 >>= fun r => pure (set1 st.1 i r.1, r.2))
          st3 >>= fun st4 =>
        read_and_discard_zero_bits st4.2 19 >>= fun s5 =>
        for_range 0 8 (ext_subwindow ip r1.1 r2.1 flags)
          ⟨st4.1, 0, s5⟩ >>= fun st6 => pure st6.s) :=
  rfl

/-- C30. A successful extension decode (mode 6, nonzero extension byte) from the initial
globals.  Flag `k` of the extension byte, lowest bit first (stream bit `1 + k`),
classifies sub-window `k`.  After the header (widths at bit 9, bases at bit 21) the
twenty delta buffers hold 22 bits each, 14 from the first fill loop and 8 from the
second, and the decode is the sub-window loop started on them with buffer index 0.  With
`ext_base k` the number of buffers the sub-windows before `k` take (one for a uniform
sub-window, four for another one): after `k` sub-windows the loop has stored `4 k`
pixels, the buffer index is `ext_base k`, the buffers before it are empty and the buffers
from it on are untouched; `ext_base 8 = 20`, so the buffers 0..19 are all used, in index
order.  A uniform sub-window `k` drains the one buffer `ext_base k` and its pixel is
stored four times, at the slots `block_order (4 k + i)`; a sub-window that is not
uniform drains the four buffers `ext_base k + i`, the pixel of buffer `ext_base k + i`
going to slot `block_order (4 k + i)`.  Every drained buffer is left empty.  In the end
32 pixels are written and the cursor is at bit 512. -/
theorem gen11_extension_assembly (s s1 : State)
    (hbytes : ∀ i, i < 64 → s.inp i < 256) (hbyte : s.in_byte_idx = 0)
    (hbit : s.in_bit_idx = 0) (hout : s.out_idx = 0)
    (hext : stream_val s.inp 1 8 ≠ 0)
    (hdec : decode_11th_gen s 6 = .ok s1) :
    ∃ flags w bs bufs,
      extension_flags (stream_val s.inp 1 8) = .ok flags ∧
      (∀ k, k < 8 → flags k = stream_bit s.inp (1 + k)) ∧
      read_widths (seek s 9) (stream_bit s.inp 0) 22 = .ok (w, seek s 21) ∧
      read_bases (seek s 21) (stream_bit s.inp 0) = .ok (bs, seek s 53) ∧
      (∀ i, bufs i = ext_buffer s.inp i) ∧
      decode_11th_gen s 6 =
        (for_range 0 8 (ext_subwindow (stream_bit s.inp 0) w bs flags)
          ⟨bufs, 0, seek s 512⟩ >>= fun st => pure st.s) ∧
      ext_base flags 0 = 0 ∧ ext_base flags 8 = 20 ∧
      (∀ k, k ≤ 8 → ∃ st,
        loop (ext_subwindow (stream_bit s.inp 0) w bs flags) 0 k ⟨bufs, 0, seek s 512⟩
          = .ok st ∧
        st.delta_bb_idx = ext_base flags k ∧ st.s.out_idx = 4 * k ∧
        (∀ i, ext_base flags k ≤ i → st.delta_bb i = bufs i) ∧
        (∀ i, i < ext_base flags k → (st.delta_bb i).bits_used = 0)) ∧
      (∀ k, k < 8 → flags k ≠ 0 →
        ext_base flags (k + 1) = ext_base flags k + 1 ∧
        ∃ px bb,
          ext_reconstruct (stream_bit s.inp 0) w bs (bufs (ext_base flags k)) = .ok (px, bb) ∧
          bb.bits_used = 0 ∧
          ∀ i, i < 4 → DecodeAmd.pixel_at s1.out (block_order (4 * k + i)) = px) ∧
      (∀ k, k < 8 → flags k = 0 →
        ext_base flags (k + 1) = ext_base flags k + 4 ∧
        ∀ i, i < 4 → ∃ px bb,
          ext_reconstruct (stream_bit s.inp 0) w bs (bufs (ext_base flags k + i))
            = .ok (px, bb) ∧
          bb.bits_used = 0 ∧
          DecodeAmd.pixel_at s1.out (block_order (4 * k + i)) = px) ∧
      s1.out_idx = 32 ∧ bit_pos s1 = 512 := by
  have hwf : WF s := ⟨hbytes, by omega⟩
  have hpos : bit_pos s = 0 := by unfold bit_pos; omega
  -- the head: the two reads, the mode test and the flags
  have hd := gen11_head s 6 (14, 1, 1) hwf (by omega) rfl
  rw [hpos, stream_val_one] at hd
  simp only [Nat.zero_add] at hd
  rw [if_pos hext, if_neg (by decide)] at hd
  have hlt := stream_val_lt s.inp 8 1
  obtain ⟨t1, t2⟩ := extension_flags_table _ hlt
  have hX0 := hdec
  rw [hd] at hX0
  unfold decode_11th_gen_extension at hX0
  obtain ⟨flags, hfl, hbody⟩ := bind_eq_ok _ _ _ hX0
  have hcount : flag_count (stream_val s.inp 1 8) = 4 := by
    by_contra hne
    rw [if_neg hne] at t1
    rw [fault_of_eq_some _ _ t1] at hfl
    cases hfl
  rw [if_pos hcount] at t2
  have hflag : ∀ k, k < 8 → flags k = stream_val s.inp 1 8 / 2 ^ k % 2 := by
    intro k hk
    rw [hfl] at t2
    simp only [Except.toOption, Option.map_some', Option.some.injEq] at t2
    exact List.map_inj_left.1 t2 k (List.mem_range.2 hk)
  have hX : decode_11th_gen s 6 = extension_body (seek s 9) (stream_bit s.inp 0) flags := by
    rw [hd]
    unfold decode_11th_gen_extension
    rw [hfl]
    rfl
  rw [extension_body_eq] at hX
  -- the widths and the bases
  obtain ⟨w1, w2⟩ := read_widths_spec s 9 (stream_bit s.inp 0) 22 hwf (by omega) (by omega)
  by_cases hwok : gen11_widths_ok s.inp 9 (stream_bit s.inp 0) 22
  swap
  · obtain ⟨e, he, _⟩ := w2 hwok
    rw [he] at hX
    rw [hX] at hdec
    cases hdec
  have hw := w1 hwok
  have hwwf := gen11_spec_widths_wf s.inp 9 (stream_bit s.inp 0) 22 hwok
  have hb := read_bases_spec s 21 (stream_bit s.inp 0) hwf (by omega)
  rw [hw] at hX
  simp only [bind_ok_eq] at hX
  rw [hb] at hX
  simp only [bind_ok_eq] at hX
  -- the two fill loops
  obtain ⟨b1, f1, f2, f3⟩ := fill_loop_spec
    (fun i (st : (Nat → bitbuffer) × State) =>
      read_bits_into_buffer (st.1 i) st.2 14 >>= fun r => pure (set1 st.1 i r.1, r.2))
    14 0 (fun _ _ => rfl) s hwf 53 (fun _ => init_bitbuffer) (by omega) (by omega)
    (fun i _ => ⟨rfl, Nat.two_pow_pos 0⟩)
  rw [f1] at hX
  simp only [bind_ok_eq] at hX
  have hb1 : ∀ i, i < 20 → (b1 i).bits_used = 14 ∧ (b1 i).buf < 2 ^ 14 := by
    intro i hi
    rw [f2 i hi]
    refine ⟨rfl, ?_⟩
    show init_bitbuffer.buf + 2 ^ 0 * stream_val s.inp (53 + 14 * i) 14 < 2 ^ 14
    have := stream_val_lt s.inp 14 (53 + 14 * i)
    show 0 + 2 ^ 0 * stream_val s.inp (53 + 14 * i) 14 < 2 ^ 14
    omega
  obtain ⟨b2, g1, g2, g3⟩ := fill_loop_spec
    (fun i (st : (Nat → bitbuffer) × State) =>
      read_bits_into_buffer (st.1 i) st.2 8 >>= fun r => pure (set1 st.1 i r.1, r.2))
    8 14 (fun _ _ => rfl) s hwf (53 + 20 * 14) b1 (by omega) (by omega) hb1
  rw [g1] at hX
  simp only [bind_ok_eq] at hX
  have hbufs : ∀ i, b2 i = ext_buffer s.inp i := by
    intro i
    unfold ext_buffer
    by_cases hi : i < 20
    · rw [if_pos hi, g2 i hi, f2 i hi]
      show (⟨0 + 2 ^ 0 * stream_val s.inp (53 + 14 * i) 14
        + 2 ^ 14 * stream_val s.inp (53 + 20 * 14 + 8 * i) 8, 14 + 8⟩ : bitbuffer) = _
      have e1 : 0 + 2 ^ 0 * stream_val s.inp (53 + 14 * i) 14
          = stream_val s.inp (53 + 14 * i) 14 := by omega
      have e2 : 53 + 20 * 14 + 8 * i = 333 + 8 * i := by omega
      rw [e1, e2]
    · rw [if_neg hi, g3 i (by omega), f3 i (by omega)]
  have hused : ∀ i, i < 20 → (b2 i).bits_used = 22 := by
    intro i hi
    rw [hbufs i]
    unfold ext_buffer
    rw [if_pos hi]
  -- the 19 zero bits
  have hz := rdz_spec s hwf 19 (53 + 20 * 14 + 20 * 8) (by omega) (by omega)
  by_cases hzero : stream_val s.inp (53 + 20 * 14 + 20 * 8) 19 = 0
  swap
  · rw [if_neg hzero] at hz
    rw [hz] at hX
    rw [hX] at hdec
    cases hdec
  rw [if_pos hzero] at hz
  rw [hz] at hX
  simp only [bind_ok_eq] at hX
  have hX2 : decode_11th_gen s 6 =
      (for_range 0 8 (ext_subwindow (stream_bit s.inp 0)
          (gen11_spec_widths s.inp 9 (stream_bit s.inp 0) 22)
          (gen11_spec_bases s.inp 21 (stream_bit s.inp 0)) flags)
        ⟨b2, 0, seek s 512⟩ >>= fun st => pure st.s) := hX
  -- the sub-window loop
  have hdec2 := hdec
  rw [hX2] at hdec2
  obtain ⟨st6, h6, h7⟩ := bind_eq_ok _ _ _ hdec2
  cases h7
  have hb8 : ext_base flags 8 = 20 := by
    rw [ext_base_congr flags (fun k => stream_val s.inp 1 8 / 2 ^ k % 2) 8 hflag]
    exact ext_base_total _ hlt hcount
  have htot : ∀ k, k < 8 → ext_base flags (k + 1) ≤ 20 := by
    intro k hk
    rw [← hb8]
    exact ext_base_mono flags 8 (k + 1) (by omega)
  have hinit : ext_progress (stream_bit s.inp 0)
      (gen11_spec_widths s.inp 9 (stream_bit s.inp 0) 22)
      (gen11_spec_bases s.inp 21 (stream_bit s.inp 0)) flags b2 (seek s 512)
      (ext_base flags 0) (4 * 0) ⟨b2, 0, seek s 512⟩ :=
    ⟨rfl, hout, fun _ _ => rfl, fun i hi => absurd hi (Nat.not_lt_zero _),
      fun j hj => absurd hj (Nat.not_lt_zero _), rfl, rfl, rfl⟩
  have hprefix : ∀ k, k ≤ 8 → ∃ st,
      loop (ext_subwindow (stream_bit s.inp 0)
          (gen11_spec_widths s.inp 9 (stream_bit s.inp 0) 22)
          (gen11_spec_bases s.inp 21 (stream_bit s.inp 0)) flags) 0 k ⟨b2, 0, seek s 512⟩
        = .ok st ∧
      ext_progress (stream_bit s.inp 0)
        (gen11_spec_widths s.inp 9 (stream_bit s.inp 0) 22)
        (gen11_spec_bases s.inp 21 (stream_bit s.inp 0)) flags b2 (seek s 512)
        (ext_base flags k) (4 * k) st := by
    intro k hk
    have h6a := h6
    unfold for_range at h6a
    have e8 : 8 - 0 = k + (8 - k) := by omega
    rw [e8, loop_split] at h6a
    obtain ⟨a, ha, _⟩ := bind_eq_ok _ _ _ h6a
    refine ⟨a, ha, ?_⟩
    have := loop_ok_inv (ext_subwindow (stream_bit s.inp 0)
        (gen11_spec_widths s.inp 9 (stream_bit s.inp 0) 22)
        (gen11_spec_bases s.inp 21 (stream_bit s.inp 0)) flags)
      (fun j st => ext_progress (stream_bit s.inp 0)
        (gen11_spec_widths s.inp 9 (stream_bit s.inp 0) 22)
        (gen11_spec_bases s.inp 21 (stream_bit s.inp 0)) flags b2 (seek s 512)
        (ext_base flags j) (4 * j) st)
      k 0 _ a ha hinit (fun j x y _ hj hx hy =>
        ext_progress_subwindow _ _ _ flags b2 (seek s 512) j x y hwwf hused (by omega)
          (htot j (by omega)) hx hy)
    rw [Nat.zero_add] at this
    exact this
  obtain ⟨st8, l8, p8⟩ := hprefix 8 (Nat.le_refl _)
  have hst8 : st8 = st6 := by
    unfold for_range at h6
    rw [show 8 - 0 = 8 from rfl, l8] at h6
    cases h6
    rfl
  subst hst8
  obtain ⟨q1, q2, q3, q4, q5, q6, q7, q8⟩ := p8
  refine ⟨flags, _, _, b2, hfl, ?_, hw, hb, hbufs, hX2, rfl, hb8, ?_, ?_, ?_, q2, ?_⟩
  · intro k hk
    rw [hflag k hk]
    exact stream_val_bit s.inp 8 1 k hk
  · intro k hk
    obtain ⟨st, l, p1, p2, p3, p4, _⟩ := hprefix k hk
    exact ⟨st, l, p1, p2, p3, p4⟩
  · intro k hk hf
    have hb1 : ext_base flags (k + 1) = ext_base flags k + (if flags k ≠ 0 then 1 else 4) :=
      rfl
    rw [if_pos hf] at hb1
    refine ⟨hb1, ?_⟩
    have hidx : ∀ i, i < 4 → ext_buffer_index flags (4 * k + i) = ext_base flags k := by
      intro i hi
      unfold ext_buffer_index
      have e : (4 * k + i) / 4 = k := by omega
      rw [e, if_pos hf]
      rfl
    obtain ⟨px, bb, r1, r2, r3⟩ := q5 (4 * k + 0) (by omega)
    rw [hidx 0 (by omega)] at r1
    refine ⟨px, bb, r1, r2, ?_⟩
    intro i hi
    obtain ⟨px1, bb1, u1, _, u3⟩ := q5 (4 * k + i) (by omega)
    rw [hidx i hi, r1] at u1
    cases u1
    exact u3
  · intro k hk hf
    have hb1 : ext_base flags (k + 1) = ext_base flags k + (if flags k ≠ 0 then 1 else 4) :=
      rfl
    rw [if_neg (by simpa using hf)] at hb1
    refine ⟨hb1, ?_⟩
    intro i hi
    obtain ⟨px, bb, r1, r2, r3⟩ := q5 (4 * k + i) (by omega)
    have hidx : ext_buffer_index flags (4 * k + i) = ext_base flags k + i := by
      unfold ext_buffer_index
      have e : (4 * k + i) / 4 = k := by omega
      have e2 : (4 * k + i) % 4 = i := by omega
      rw [e, e2, if_neg (by simpa using hf)]
    rw [hidx] at r1
    exact ⟨px, bb, r1, r2, r3⟩
  · unfold bit_pos
    rw [q7, q8]
    rfl

set_option maxRecDepth 1000000 in
/-- C30, on `ext_sample`, whose extension byte 0x35 makes the sub-windows 0, 2, 4 and 5
uniform: the sub-windows start at the buffers 0, 1, 5, 6, 10, 11, 12, 16 and end at 20;
the pixels 0..3 are the pixel of buffer 0, pixel 4 is that of buffer 1, pixel 31 that of
buffer 19, each in the slot the table gives; 32 pixels are written and the cursor ends
at bit 512. -/
theorem gen11_extension_assembly_witness :
    ((∀ i, i < 64 → ext_sample.inp i < 256) ∧
      ext_sample.in_byte_idx = 0 ∧
      ext_sample.in_bit_idx = 0 ∧
      ext_sample.out_idx = 0 ∧
      stream_val ext_sample.inp 1 8 ≠ 0 ∧
      decode_11th_gen ext_sample 6 = .ok ext_sample_decoded) ∧
    ((List.range 9).map (ext_base (fun k => stream_bit ext_sample.inp (1 + k)))
        = [0, 1, 5, 6, 10, 11, 12, 16, 20] ∧
      (List.range 4).map (fun i => DecodeAmd.pixel_at ext_sample_decoded.out (block_order i))
        = [(16, 33, 50, 164), (16, 33, 50, 164), (16, 33, 50, 164), (16, 33, 50, 164)] ∧
      (DecodeAmd.pixel_at ext_sample_decoded.out (block_order 4),
        DecodeAmd.pixel_at ext_sample_decoded.out (block_order 31))
        = ((17, 34, 51, 165), (19, 36, 53, 183)) ∧
      ext_buffer ext_sample.inp 5 = ⟨431973, 22⟩ ∧
      (ext_sample_decoded.out_idx, bit_pos ext_sample_decoded) = (32, 512)) ∧
    (∃ flags w bs bufs,
      extension_flags (stream_val ext_sample.inp 1 8) = .ok flags ∧
      (∀ k, k < 8 → flags k = stream_bit ext_sample.inp (1 + k)) ∧
      read_widths (seek ext_sample 9) (stream_bit ext_sample.inp 0) 22 = .ok (w, seek ext_sample 21)
          ∧
      read_bases (seek ext_sample 21) (stream_bit ext_sample.inp 0) = .ok (bs, seek ext_sample 53) ∧
      (∀ i, bufs i = ext_buffer ext_sample.inp i) ∧
      decode_11th_gen ext_sample 6 =
        (for_range 0 8 (ext_subwindow (stream_bit ext_sample.inp 0) w bs flags)
          ⟨bufs, 0, seek ext_sample 512⟩ >>= fun st => pure st.s) ∧
      ext_base flags 0 = 0 ∧ ext_base flags 8 = 20 ∧
      (∀ k, k ≤ 8 → ∃ st,
        loop (ext_subwindow (stream_bit ext_sample.inp 0) w bs flags) 0 k ⟨bufs, 0, seek ext_sample
            512⟩
          = .ok st ∧
        st.delta_bb_idx = ext_base flags k ∧ st.s.out_idx = 4 * k ∧
        (∀ i, ext_base flags k ≤ i → st.delta_bb i = bufs i) ∧
        (∀ i, i < ext_base flags k → (st.delta_bb i).bits_used = 0)) ∧
      (∀ k, k < 8 → flags k ≠ 0 →
        ext_base flags (k + 1) = ext_base flags k + 1 ∧
        ∃ px bb,
          ext_reconstruct (stream_bit ext_sample.inp 0) w bs (bufs (ext_base flags k)) = .ok (px,
              bb) ∧
          bb.bits_used = 0 ∧
          ∀ i, i < 4 → DecodeAmd.pixel_at ext_sample_decoded.out (block_order (4 * k + i)) = px) ∧
      (∀ k, k < 8 → flags k = 0 →
        ext_base flags (k + 1) = ext_base flags k + 4 ∧
        ∀ i, i < 4 → ∃ px bb,
          ext_reconstruct (stream_bit ext_sample.inp 0) w bs (bufs (ext_base flags k + i))
            = .ok (px, bb) ∧
          bb.bits_used = 0 ∧
          DecodeAmd.pixel_at ext_sample_decoded.out (block_order (4 * k + i)) = px) ∧
      ext_sample_decoded.out_idx = 32 ∧ bit_pos ext_sample_decoded = 512) :=
  ⟨⟨by decide, by decide, by decide, by decide, by decide, eq_ok_value_or _ _ (by decide)⟩,
    ⟨by decide, by decide, by decide, by decide, by decide⟩,
    gen11_extension_assembly ext_sample ext_sample_decoded (by decide) (by decide) (by decide)
      (by decide) (by decide) (eq_ok_value_or _ _ (by decide))⟩

end Decode

/-! ## decode.c: the extension decode from the header to the sub-window loop -/

namespace Decode

/-- The body of the extension decode with its two fill loops named. -/
theorem extension_body_fill (s : State) (ip : Nat) (flags : Nat → Nat) :
    extension_body s ip flags =
      (read_widths s ip 22 >>= fun r1 =>
        read_bases r1.2 ip >>= fun r2 =>
        for_range 0 20 (fill_step 14) (fun _ => init_bitbuffer, r2.2) >>= fun st3 =>
        for_range 0 20 (fill_step 8) st3 >>= fun st4 =>
        read_and_discard_zero_bits st4.2 19 >>= fun s5 =>
        for_range 0 8 (ext_subwindow ip r1.1 r2.1 flags)
          ⟨st4.1, 0, s5⟩ >>= fun st6 => pure st6.s) :=
  rfl

/-- The two fill loops from bit 53: they succeed on every input, end at bit 493 and
leave the buffers `ext_buffer`. -/
theorem fill_loops_spec (s : State) (hwf : WF s) :
    ∃ b14, for_range 0 20 (fill_step 14) (fun _ => init_bitbuffer, seek s 53)
        = .ok (b14, seek s 333) ∧
      (∀ i, i < 20 → b14 i = ⟨stream_val s.inp (53 + 14 * i) 14, 14⟩) ∧
      for_range 0 20 (fill_step 8) (b14, seek s 333) = .ok (ext_buffer s.inp, seek s 493) := by
  obtain ⟨b1, f1, f2, f3⟩ := fill_loop_spec (fill_step 14) 14 0 (fun _ _ => rfl) s hwf 53
    (fun _ => init_bitbuffer) (by omega) (by omega) (fun i _ => ⟨rfl, Nat.two_pow_pos 0⟩)
  have hv : ∀ i, i < 20 → b1 i = ⟨stream_val s.inp (53 + 14 * i) 14, 14⟩ := by
    intro i hi
    rw [f2 i hi]
    show (⟨0 + 2 ^ 0 * stream_val s.inp (53 + 14 * i) 14, 0 + 14⟩ : bitbuffer) = _
    have e1 : 0 + 2 ^ 0 * stream_val s.inp (53 + 14 * i) 14
        = stream_val s.inp (53 + 14 * i) 14 := by omega
    rw [e1]
  have hb1 : ∀ i, i < 20 → (b1 i).bits_used = 14 ∧ (b1 i).buf < 2 ^ 14 := by
    intro i hi
    rw [hv i hi]
    exact ⟨rfl, stream_val_lt s.inp 14 (53 + 14 * i)⟩
  obtain ⟨b2, g1, g2, g3⟩ := fill_loop_spec (fill_step 8) 8 14 (fun _ _ => rfl) s hwf
    (53 + 20 * 14) b1 (by omega) (by omega) hb1
  have hbufs : b2 = ext_buffer s.inp := by
    funext i
    unfold ext_buffer
    by_cases hi : i < 20
    · rw [if_pos hi, g2 i hi, hv i hi]
    · rw [if_neg hi, g3 i (by omega), f3 i (by omega)]
  rw [hbufs] at g1
  exact ⟨b1, f1, hv, g1⟩

/-- The extension decode (mode 6, nonzero extension byte) from the initial globals, up
to the sub-window loop: the flag count, the widths, the fills and the 19 zero bits. -/
theorem extension_unfold (s : State) (hwf : WF s) (hbyte : s.in_byte_idx = 0)
    (hbit : s.in_bit_idx = 0) (hext : stream_val s.inp 1 8 ≠ 0) :
    (flag_count (stream_val s.inp 1 8) ≠ 4 →
      decode_11th_gen s 6 = .error .uniform_count) ∧
    (flag_count (stream_val s.inp 1 8) = 4 →
      ∃ flags, extension_flags (stream_val s.inp 1 8) = .ok flags ∧
        (∀ k, k < 8 → flags k = stream_bit s.inp (1 + k)) ∧
        ext_base flags 8 = 20 ∧
        decode_11th_gen s 6 = extension_body (seek s 9) (stream_bit s.inp 0) flags ∧
        (¬ gen11_widths_ok s.inp 9 (stream_bit s.inp 0) 22 →
          ∃ e, decode_11th_gen s 6 = .error e ∧
            (e = .width_too_large ∨ e = .width_budget)) ∧
        (gen11_widths_ok s.inp 9 (stream_bit s.inp 0) 22 →
          decode_11th_gen s 6 =
            if stream_val s.inp 493 19 = 0 then
              (for_range 0 8 (ext_subwindow (stream_bit s.inp 0)
                  (gen11_spec_widths s.inp 9 (stream_bit s.inp 0) 22)
                  (gen11_spec_bases s.inp 21 (stream_bit s.inp 0)) flags)
                ⟨ext_buffer s.inp, 0, seek s 512⟩ >>= fun st => pure st.s)
            else .error .nonzero_padding)) := by
  have hpos : bit_pos s = 0 := by unfold bit_pos; omega
  have hd := gen11_head s 6 (14, 1, 1) hwf (by omega) rfl
  rw [hpos, stream_val_one] at hd
  simp only [Nat.zero_add] at hd
  rw [if_pos hext, if_neg (by decide)] at hd
  have hlt := stream_val_lt s.inp 8 1
  obtain ⟨t1, t2⟩ := extension_flags_table _ hlt
  constructor
  · intro hne
    rw [if_neg hne] at t1
    rw [hd]
    unfold decode_11th_gen_extension
    rw [fault_of_eq_some _ _ t1]
    rfl
  intro hcount
  rw [if_pos hcount] at t1 t2
  obtain ⟨flags, hfl⟩ := fault_of_eq_none _ t1
  have hflag : ∀ k, k < 8 → flags k = stream_val s.inp 1 8 / 2 ^ k % 2 := by
    intro k hk
    rw [hfl] at t2
    simp only [Except.toOption, Option.map_some', Option.some.injEq] at t2
    exact List.map_inj_left.1 t2 k (List.mem_range.2 hk)
  have hX : decode_11th_gen s 6 = extension_body (seek s 9) (stream_bit s.inp 0) flags := by
    rw [hd]
    unfold decode_11th_gen_extension
    rw [hfl]
    rfl
  have hb8 : ext_base flags 8 = 20 := by
    rw [ext_base_congr flags (fun k => stream_val s.inp 1 8 / 2 ^ k % 2) 8 hflag]
    exact ext_base_total _ hlt hcount
  refine ⟨flags, hfl, ?_, hb8, hX, ?_, ?_⟩
  · intro k hk
    rw [hflag k hk]
    exact stream_val_bit s.inp 8 1 k hk
  · intro hwok
    obtain ⟨_, w2⟩ := read_widths_spec s 9 (stream_bit s.inp 0) 22 hwf (by omega) (by omega)
    obtain ⟨e, he, hk⟩ := w2 hwok
    refine ⟨e, ?_, hk⟩
    rw [hX, extension_body_fill, he]
    rfl
  · intro hwok
    obtain ⟨w1, _⟩ := read_widths_spec s 9 (stream_bit s.inp 0) 22 hwf (by omega) (by omega)
    have hw := w1 hwok
    have hb := read_bases_spec s 21 (stream_bit s.inp 0) hwf (by omega)
    obtain ⟨b14, f1, _, f2⟩ := fill_loops_spec s hwf
    have hz := rdz_spec s hwf 19 493 (by omega) (by omega)
    rw [hX, extension_body_fill, hw]
    simp only [bind_ok_eq]
    rw [hb]
    simp only [bind_ok_eq]
    rw [f1]
    simp only [bind_ok_eq]
    rw [f2]
    simp only [bind_ok_eq]
    rw [hz]
    by_cases hzero : stream_val s.inp 493 19 = 0
    · rw [if_pos hzero, if_pos hzero]
      rfl
    · rw [if_neg hzero, if_neg hzero]
      rfl


/-- Discarding `k` buffered bits that must be zero. -/
theorem rdbz_spec (bb : bitbuffer) (k : Nat) (hu : k ≤ bb.bits_used)
    (h255 : bb.bits_used ≤ 255) :
    read_and_discard_buffered_zero_bits bb k =
      if ¬ k ≤ 8 then .error .count_too_large
      else if bb.buf % 2 ^ k = 0 then .ok ⟨bb.buf / 2 ^ k, bb.bits_used - k⟩
      else .error .nonzero_padding := by
  unfold read_and_discard_buffered_zero_bits
  by_cases hk : k ≤ 8
  · rw [if_neg (show ¬ ¬ k ≤ 8 by omega), if_neg (show ¬ ¬ bb.bits_used ≥ k by omega),
      if_neg (show ¬ ¬ k ≤ 8 by omega)]
    have h2 : (bb.bits_used - k) % 256 = bb.bits_used - k := by omega
    rw [Nat.one_shiftLeft, Nat.and_pow_two_sub_one_eq_mod, Nat.shiftRight_eq_div_pow, h2]
    by_cases hz : bb.buf % 2 ^ k = 0
    · rw [if_neg (by simpa using hz), if_pos hz]
    · rw [if_pos hz, if_neg hz]
  · rw [if_pos hk, if_pos hk]

/-- Four takes in a row leave the buffer shifted by the sum of the widths. -/
theorem four_takes (bb : bitbuffer) (a b c d : Nat) (ha : a ≤ 8) (hb : b ≤ 8) (hc : c ≤ 8)
    (hd : d ≤ 8) (hu : a + b + c + d ≤ bb.bits_used) (h255 : bb.bits_used ≤ 255) :
    read_buffered_bits bb a = .ok (bb.buf % 2 ^ a, ⟨bb.buf / 2 ^ a, bb.bits_used - a⟩) ∧
    read_buffered_bits ⟨bb.buf / 2 ^ a, bb.bits_used - a⟩ b
      = .ok (bb.buf / 2 ^ a % 2 ^ b, ⟨bb.buf / 2 ^ (a + b), bb.bits_used - (a + b)⟩) ∧
    read_buffered_bits ⟨bb.buf / 2 ^ (a + b), bb.bits_used - (a + b)⟩ c
      = .ok (bb.buf / 2 ^ (a + b) % 2 ^ c,
        ⟨bb.buf / 2 ^ (a + b + c), bb.bits_used - (a + b + c)⟩) ∧
    read_buffered_bits ⟨bb.buf / 2 ^ (a + b + c), bb.bits_used - (a + b + c)⟩ d
      = .ok (bb.buf / 2 ^ (a + b + c) % 2 ^ d,
        ⟨bb.buf / 2 ^ (a + b + c + d), bb.bits_used - (a + b + c + d)⟩) := by
  have step : ∀ (u k n : Nat), k ≤ 8 → n + k ≤ bb.bits_used → u = bb.bits_used - n →
      read_buffered_bits ⟨bb.buf / 2 ^ n, u⟩ k
        = .ok (bb.buf / 2 ^ n % 2 ^ k, ⟨bb.buf / 2 ^ (n + k), bb.bits_used - (n + k)⟩) := by
    intro u k n hk hn hu'
    have e := rbb_spec ⟨bb.buf / 2 ^ n, u⟩ k hk (by show k ≤ u; omega) (by show u ≤ 255; omega)
    rw [e]
    have e1 : bb.buf / 2 ^ n / 2 ^ k = bb.buf / 2 ^ (n + k) := by
      rw [Nat.div_div_eq_div_mul, ← pow_add]
    have e2 : u - k = bb.bits_used - (n + k) := by omega
    show Except.ok (bb.buf / 2 ^ n % 2 ^ k,
      (⟨bb.buf / 2 ^ n / 2 ^ k, u - k⟩ : bitbuffer)) = _
    rw [e1, e2]
  exact ⟨rbb_spec bb a ha (by omega) h255,
    step _ b a hb (by omega) rfl, step _ c (a + b) hc (by omega) rfl,
    step _ d (a + b + c) hd (by omega) rfl⟩

/-- A pixel drained from a full delta buffer: it fails with the count fault when more
than 8 bits are unused, with the padding fault when the unused bits are not all zero,
and succeeds otherwise. -/
theorem ext_reconstruct_char (ip : Nat) (w : channel_widths) (bs : channel_bases)
    (bb : bitbuffer) (hw : gen11_wf w 22) (hu : bb.bits_used = 22) :
    (¬ w.unused_bits ≤ 8 → ext_reconstruct ip w bs bb = .error .count_too_large) ∧
    (w.unused_bits ≤ 8 → bb.buf / 2 ^ gen11_delta_bits w % 2 ^ w.unused_bits ≠ 0 →
      ext_reconstruct ip w bs bb = .error .nonzero_padding) ∧
    (w.unused_bits ≤ 8 → bb.buf / 2 ^ gen11_delta_bits w % 2 ^ w.unused_bits = 0 →
      ∃ px bb1, ext_reconstruct ip w bs bb = .ok (px, bb1)) := by
  obtain ⟨h1, h2, h3, h4, h5⟩ := hw
  unfold gen11_delta_bits at h5 ⊢
  have hr := rdbz_spec
    ⟨bb.buf / 2 ^ (w.delta_r_bits + w.delta_g_bits + w.delta_b_bits + w.delta_a_bits),
      bb.bits_used - (w.delta_r_bits + w.delta_g_bits + w.delta_b_bits + w.delta_a_bits)⟩
    w.unused_bits (by show w.unused_bits ≤ bb.bits_used - _; omega)
    (by show bb.bits_used - _ ≤ 255; omega)
  have hform : ∃ px, ext_reconstruct ip w bs bb =
      (read_and_discard_buffered_zero_bits
        ⟨bb.buf / 2 ^ (w.delta_r_bits + w.delta_g_bits + w.delta_b_bits + w.delta_a_bits),
          bb.bits_used - (w.delta_r_bits + w.delta_g_bits + w.delta_b_bits + w.delta_a_bits)⟩
        w.unused_bits >>= fun bb5 => pure (px, bb5)) := by
    unfold ext_reconstruct
    by_cases hip : ip ≠ 0
    · obtain ⟨e1, e2, e3, e4⟩ := four_takes bb w.delta_b_bits w.delta_r_bits
        w.delta_g_bits w.delta_a_bits h3 h1 h2 h4 (by omega) (by omega)
      have es : w.delta_b_bits + w.delta_r_bits + w.delta_g_bits + w.delta_a_bits
          = w.delta_r_bits + w.delta_g_bits + w.delta_b_bits + w.delta_a_bits := by omega
      rw [es] at e4
      rw [if_pos hip]
      simp only [e1, e2, e3, e4, bind_ok_eq, pure_eq_ok]
      exact ⟨_, rfl⟩
    · obtain ⟨e1, e2, e3, e4⟩ := four_takes bb w.delta_r_bits w.delta_g_bits
        w.delta_b_bits w.delta_a_bits h1 h2 h3 h4 (by omega) (by omega)
      rw [if_neg hip]
      simp only [e1, e2, e3, e4, bind_ok_eq, pure_eq_ok]
      exact ⟨_, rfl⟩
  obtain ⟨px, hpx⟩ := hform
  rw [hpx, hr]
  refine ⟨?_, ?_, ?_⟩
  · intro hn
    rw [if_pos hn]
    rfl
  · intro hn hz
    rw [if_neg (by omega), if_neg hz]
    rfl
  · intro hn hz
    rw [if_neg (by omega), if_pos hz]
    exact ⟨_, _, rfl⟩

/-- A pixel drained from a full delta buffer whose unused bits, at most 8, are zero: the
pixel of the fields of the buffer, and the buffer is left empty. -/
theorem ext_reconstruct_spec (ip : Nat) (w : channel_widths) (bs : channel_bases)
    (bb : bitbuffer) (hw : gen11_wf w 22) (hu : bb.bits_used = 22)
    (h8 : w.unused_bits ≤ 8)
    (hz : bb.buf / 2 ^ gen11_delta_bits w % 2 ^ w.unused_bits = 0) :
    ext_reconstruct ip w bs bb = .ok (ext_spec_pixel ip w bs bb.buf, ⟨bb.buf / 2 ^ 22, 0⟩) := by
  obtain ⟨h1, h2, h3, h4, h5⟩ := hw
  unfold gen11_delta_bits at h5 hz
  have hr := rdbz_spec
    ⟨bb.buf / 2 ^ (w.delta_r_bits + w.delta_g_bits + w.delta_b_bits + w.delta_a_bits),
      bb.bits_used - (w.delta_r_bits + w.delta_g_bits + w.delta_b_bits + w.delta_a_bits)⟩
    w.unused_bits (by show w.unused_bits ≤ bb.bits_used - _; omega)
    (by show bb.bits_used - _ ≤ 255; omega)
  rw [if_neg (by omega), if_pos hz] at hr
  have e22 : bb.buf / 2 ^ (w.delta_r_bits + w.delta_g_bits + w.delta_b_bits + w.delta_a_bits)
      / 2 ^ w.unused_bits = bb.buf / 2 ^ 22 := by
    rw [Nat.div_div_eq_div_mul, ← pow_add, h5]
  have e0 : bb.bits_used - (w.delta_r_bits + w.delta_g_bits + w.delta_b_bits + w.delta_a_bits)
      - w.unused_bits = 0 := by omega
  have hr2 : read_and_discard_buffered_zero_bits
      ⟨bb.buf / 2 ^ (w.delta_r_bits + w.delta_g_bits + w.delta_b_bits + w.delta_a_bits),
        bb.bits_used - (w.delta_r_bits + w.delta_g_bits + w.delta_b_bits + w.delta_a_bits)⟩
      w.unused_bits = .ok ⟨bb.buf / 2 ^ 22, 0⟩ := by
    rw [hr]
    show Except.ok (⟨bb.buf / 2 ^ (w.delta_r_bits + w.delta_g_bits + w.delta_b_bits
      + w.delta_a_bits) / 2 ^ w.unused_bits, bb.bits_used - (w.delta_r_bits + w.delta_g_bits
      + w.delta_b_bits + w.delta_a_bits) - w.unused_bits⟩ : bitbuffer) = _
    rw [e22, e0]
  unfold ext_reconstruct ext_spec_pixel
  by_cases hip : ip ≠ 0
  · obtain ⟨e1, e2, e3, e4⟩ := four_takes bb w.delta_b_bits w.delta_r_bits
      w.delta_g_bits w.delta_a_bits h3 h1 h2 h4 (by omega) (by omega)
    have es : w.delta_b_bits + w.delta_r_bits + w.delta_g_bits + w.delta_a_bits
        = w.delta_r_bits + w.delta_g_bits + w.delta_b_bits + w.delta_a_bits := by omega
    rw [es] at e4
    rw [if_pos hip, if_pos hip, e1]
    simp only [bind_ok_eq]
    rw [e2]
    simp only [bind_ok_eq]
    rw [e3]
    simp only [bind_ok_eq, pure_eq_ok]
    rw [e4]
    simp only [bind_ok_eq]
    rw [hr2]
    simp only [bind_ok_eq, pure_eq_ok, predicted_rgb, Nat.mod_add_mod]
  · obtain ⟨e1, e2, e3, e4⟩ := four_takes bb w.delta_r_bits w.delta_g_bits
      w.delta_b_bits w.delta_a_bits h1 h2 h3 h4 (by omega) (by omega)
    rw [if_neg hip, if_neg hip, e1]
    simp only [bind_ok_eq]
    rw [e2]
    simp only [bind_ok_eq]
    rw [e3]
    simp only [bind_ok_eq, pure_eq_ok]
    rw [e4]
    simp only [bind_ok_eq]
    rw [hr2]
    simp only [bind_ok_eq, pure_eq_ok, independent_rgb]

/-- A run of writes of one pixel succeeds while there are slots left. -/
theorem write_copies_ok (px : Pixel) (copies : Nat) (s : State)
    (h : s.out_idx + copies ≤ 32) :
    ∃ s1, for_range 0 copies
      (fun _ s0 => write_pixel_block_order s0 px.1 px.2.1 px.2.2.1 px.2.2.2) s = .ok s1 := by
  obtain ⟨s1, e, _⟩ := loop_inv
    (fun _ s0 => write_pixel_block_order s0 px.1 px.2.1 px.2.2.1 px.2.2.2)
    (fun i st => st.out_idx = s.out_idx + i) copies 0 s rfl (by
      intro j st _ hj hI
      obtain ⟨s2, c1, c2, _⟩ :=
        write_pixel_block_order_spec st px.1 px.2.1 px.2.2.1 px.2.2.2 (by omega)
      exact ⟨s2, c1, by omega⟩)
  exact ⟨s1, e⟩


theorem ext_pixel_unfold (ip : Nat) (w : channel_widths) (bs : channel_bases) (c : Nat)
    (st : ExtState) :
    ext_pixel ip w bs c st =
      (ext_reconstruct ip w bs (st.delta_bb st.delta_bb_idx) >>= fun r =>
        for_range 0 c
          (fun _ s0 => write_pixel_block_order s0 r.1.1 r.1.2.1 r.1.2.2.1 r.1.2.2.2) st.s
          >>= fun s1 =>
        pure ⟨set1 st.delta_bb st.delta_bb_idx r.2, (st.delta_bb_idx + 1) % 256, s1⟩) :=
  rfl

/-- One pixel of the sub-window loop, drained from the full buffer `n`: it succeeds, and
keeps the loop's progress, exactly when at most 8 bits are unused and they are zero. -/
theorem ext_pixel_char (ip : Nat) (w : channel_widths) (bs : channel_bases)
    (flags : Nat → Nat) (inp : Nat → Nat) (s0 : State) (n o c : Nat) (st : ExtState)
    (hw : gen11_wf w 22) (hn : n < 20)
    (hinv : ext_progress ip w bs flags (ext_buffer inp) s0 n o st)
    (hix : ∀ j, j < c → ext_buffer_index flags (o + j) = n) (ho : o + c ≤ 32) :
    ((w.unused_bits ≤ 8 ∧ ext_pad_zero w inp n) →
      ∃ st1, ext_pixel ip w bs c st = .ok st1 ∧
        ext_progress ip w bs flags (ext_buffer inp) s0 (n + 1) (o + c) st1) ∧
    (¬ (w.unused_bits ≤ 8 ∧ ext_pad_zero w inp n) →
      ∃ e, ext_pixel ip w bs c st = .error e ∧
        (e = .count_too_large ∨ e = .nonzero_padding)) := by
  have hbuf : (ext_buffer inp n).bits_used = 22 := by
    unfold ext_buffer
    rw [if_pos hn]
  have hcur : st.delta_bb st.delta_bb_idx = ext_buffer inp n := by
    rw [hinv.1]
    exact hinv.2.2.1 n (Nat.le_refl _)
  obtain ⟨c1, c2, c3⟩ := ext_reconstruct_char ip w bs (ext_buffer inp n) hw hbuf
  constructor
  · rintro ⟨hu, hz⟩
    obtain ⟨px, bb1, e⟩ := c3 hu hz
    obtain ⟨s1, hwr⟩ := write_copies_ok px c st.s (by rw [hinv.2.1]; exact ho)
    have hok : ext_pixel ip w bs c st
        = .ok ⟨set1 st.delta_bb st.delta_bb_idx bb1, (st.delta_bb_idx + 1) % 256, s1⟩ := by
      rw [ext_pixel_unfold, hcur, e]
      simp only [bind_ok_eq]
      rw [hwr]
      rfl
    exact ⟨_, hok, ext_progress_pixel ip w bs flags (ext_buffer inp) s0 n o c st _ hw hbuf hinv
      hok hix (by omega) ho⟩
  · intro hno
    by_cases hu : w.unused_bits ≤ 8
    · have hz : (ext_buffer inp n).buf / 2 ^ gen11_delta_bits w % 2 ^ w.unused_bits ≠ 0 :=
        fun hz => hno ⟨hu, hz⟩
      refine ⟨.nonzero_padding, ?_, Or.inr rfl⟩
      rw [ext_pixel_unfold, hcur, c2 hu hz]
      rfl
    · refine ⟨.count_too_large, ?_, Or.inl rfl⟩
      rw [ext_pixel_unfold, hcur, c1 hu]
      rfl

/-- One sub-window: it succeeds, and keeps the loop's progress, exactly when at most 8
bits are unused and the unused bits of the buffers it takes are zero. -/
theorem ext_subwindow_char (ip : Nat) (w : channel_widths) (bs : channel_bases)
    (flags : Nat → Nat) (inp : Nat → Nat) (s0 : State) (k : Nat) (st : ExtState)
    (hw : gen11_wf w 22) (hk : k < 8) (htot : ext_base flags (k + 1) ≤ 20)
    (hinv : ext_progress ip w bs flags (ext_buffer inp) s0 (ext_base flags k) (4 * k) st) :
    ((w.unused_bits ≤ 8 ∧
        ∀ i, ext_base flags k ≤ i → i < ext_base flags (k + 1) → ext_pad_zero w inp i) →
      ∃ st1, ext_subwindow ip w bs flags k st = .ok st1 ∧
        ext_progress ip w bs flags (ext_buffer inp) s0 (ext_base flags (k + 1)) (4 * (k + 1))
          st1) ∧
    (¬ (w.unused_bits ≤ 8 ∧
        ∀ i, ext_base flags k ≤ i → i < ext_base flags (k + 1) → ext_pad_zero w inp i) →
      ∃ e, ext_subwindow ip w bs flags k st = .error e ∧
        (e = .count_too_large ∨ e = .nonzero_padding)) := by
  have hb1 : ext_base flags (k + 1) = ext_base flags k + (if flags k ≠ 0 then 1 else 4) := rfl
  have h4 : 4 * (k + 1) = 4 * k + 4 := by omega
  unfold ext_subwindow
  by_cases hf : flags k ≠ 0
  · rw [if_pos hf] at hb1
    rw [if_pos hf, hb1, h4]
    obtain ⟨p1, p2⟩ := ext_pixel_char ip w bs flags inp s0 (ext_base flags k) (4 * k) 4 st hw
      (by omega) hinv (by
        intro j hj
        unfold ext_buffer_index
        have e : (4 * k + j) / 4 = k := by omega
        rw [e, if_pos hf]
        rfl) (by omega)
    constructor
    · rintro ⟨hu, hz⟩
      exact p1 ⟨hu, hz _ (Nat.le_refl _) (by omega)⟩
    · intro hno
      apply p2
      rintro ⟨hu, hz⟩
      apply hno
      refine ⟨hu, fun i h1 h2 => ?_⟩
      have : i = ext_base flags k := by omega
      rw [this]
      exact hz
  · rw [if_neg hf] at hb1
    rw [if_neg hf, hb1, h4]
    have hstep : ∀ i a, 0 ≤ i → i < 0 + 4 →
        ext_progress ip w bs flags (ext_buffer inp) s0 (ext_base flags k + i) (4 * k + i) a →
        ((w.unused_bits ≤ 8 ∧ ext_pad_zero w inp (ext_base flags k + i)) →
          ∃ b, ext_pixel ip w bs 1 a = .ok b ∧
            ext_progress ip w bs flags (ext_buffer inp) s0 (ext_base flags k + (i + 1))
              (4 * k + (i + 1)) b) ∧
        (¬ (w.unused_bits ≤ 8 ∧ ext_pad_zero w inp (ext_base flags k + i)) →
          ∃ e, ext_pixel ip w bs 1 a = .error e ∧
            (e = .count_too_large ∨ e = .nonzero_padding)) := by
      intro i a _ hi ha
      exact ext_pixel_char ip w bs flags inp s0 (ext_base flags k + i) (4 * k + i) 1 a hw
        (by omega) ha (by
          intro j hj
          unfold ext_buffer_index
          have e : (4 * k + i + j) / 4 = k := by omega
          have e2 : (4 * k + i + j) % 4 = i := by omega
          rw [e, e2, if_neg hf]) (by omega)
    unfold for_range
    constructor
    · rintro ⟨hu, hz⟩
      exact loop_inv (fun _ st1 => ext_pixel ip w bs 1 st1)
        (fun i a => ext_progress ip w bs flags (ext_buffer inp) s0 (ext_base flags k + i)
          (4 * k + i) a) (4 - 0) 0 st hinv
        (fun i a h1 h2 ha => (hstep i a h1 h2 ha).1 ⟨hu, hz _ (by omega) (by omega)⟩)
    · intro hno
      refine loop_char_error (fun _ st1 => ext_pixel ip w bs 1 st1)
        (fun i a => ext_progress ip w bs flags (ext_buffer inp) s0 (ext_base flags k + i)
          (4 * k + i) a)
        (fun i => w.unused_bits ≤ 8 ∧ ext_pad_zero w inp (ext_base flags k + i))
        (fun e => e = .count_too_large ∨ e = .nonzero_padding) (4 - 0) 0 st hinv hstep ?_
      by_contra hall
      apply hno
      have hall2 : ∀ i, i < 4 → w.unused_bits ≤ 8 ∧ ext_pad_zero w inp (ext_base flags k + i) :=
        fun i hi => Classical.byContradiction
          (fun hn => hall ⟨i, Nat.zero_le _, by omega, hn⟩)
      refine ⟨(hall2 0 (by omega)).1, fun i h1 h2 => ?_⟩
      have := (hall2 (i - ext_base flags k) (by omega)).2
      rw [show ext_base flags k + (i - ext_base flags k) = i by omega] at this
      exact this

theorem ext_base_cover (flags : Nat → Nat) : ∀ m i, i < ext_base flags m →
    ∃ k, k < m ∧ ext_base flags k ≤ i ∧ i < ext_base flags (k + 1) := by
  intro m
  induction m with
  | zero =>
    intro i hi
    exact absurd hi (Nat.not_lt_zero _)
  | succ m ih =>
    intro i hi
    by_cases h : i < ext_base flags m
    · obtain ⟨k, h1, h2, h3⟩ := ih i h
      exact ⟨k, by omega, h2, h3⟩
    · exact ⟨m, by omega, by omega, hi⟩

/-- The sub-window loop on the filled buffers: it succeeds exactly when at most 8 bits
are unused and the unused bits of all twenty buffers are zero; otherwise it stops with
the count fault or the padding fault. -/
theorem ext_loop_char (ip : Nat) (w : channel_widths) (bs : channel_bases)
    (flags : Nat → Nat) (inp : Nat → Nat) (s0 : State) (hw : gen11_wf w 22)
    (hb8 : ext_base flags 8 = 20) (h0 : s0.out_idx = 0) :
    ((w.unused_bits ≤ 8 ∧ ∀ i, i < 20 → ext_pad_zero w inp i) →
      ∃ st, for_range 0 8 (ext_subwindow ip w bs flags) ⟨ext_buffer inp, 0, s0⟩ = .ok st ∧
        ext_progress ip w bs flags (ext_buffer inp) s0 20 32 st) ∧
    (¬ (w.unused_bits ≤ 8 ∧ ∀ i, i < 20 → ext_pad_zero w inp i) →
      ∃ e, for_range 0 8 (ext_subwindow ip w bs flags) ⟨ext_buffer inp, 0, s0⟩ = .error e ∧
        (e = .count_too_large ∨ e = .nonzero_padding)) := by
  have htot : ∀ k, k < 8 → ext_base flags (k + 1) ≤ 20 := by
    intro k hk
    rw [← hb8]
    exact ext_base_mono flags 8 (k + 1) (by omega)
  have hinit : ext_progress ip w bs flags (ext_buffer inp) s0 (ext_base flags 0) (4 * 0)
      ⟨ext_buffer inp, 0, s0⟩ :=
    ⟨rfl, h0, fun _ _ => rfl, fun i hi => absurd hi (Nat.not_lt_zero _),
      fun j hj => absurd hj (Nat.not_lt_zero _), rfl, rfl, rfl⟩
  have hstep : ∀ k a, 0 ≤ k → k < 0 + 8 →
      ext_progress ip w bs flags (ext_buffer inp) s0 (ext_base flags k) (4 * k) a →
      ((w.unused_bits ≤ 8 ∧
          ∀ i, ext_base flags k ≤ i → i < ext_base flags (k + 1) → ext_pad_zero w inp i) →
        ∃ b, ext_subwindow ip w bs flags k a = .ok b ∧
          ext_progress ip w bs flags (ext_buffer inp) s0 (ext_base flags (k + 1))
            (4 * (k + 1)) b) ∧
      (¬ (w.unused_bits ≤ 8 ∧
          ∀ i, ext_base flags k ≤ i → i < ext_base flags (k + 1) → ext_pad_zero w inp i) →
        ∃ e, ext_subwindow ip w bs flags k a = .error e ∧
          (e = .count_too_large ∨ e = .nonzero_padding)) :=
    fun k a _ hk ha => ext_subwindow_char ip w bs flags inp s0 k a hw (by omega)
      (htot k (by omega)) ha
  unfold for_range
  constructor
  · rintro ⟨hu, hz⟩
    have := loop_inv (ext_subwindow ip w bs flags)
      (fun k a => ext_progress ip w bs flags (ext_buffer inp) s0 (ext_base flags k) (4 * k) a)
      (8 - 0) 0 _ hinit (fun k a h1 h2 ha => (hstep k a h1 h2 ha).1
        ⟨hu, fun i _ hi => hz i (by have := htot k (by omega); omega)⟩)
    obtain ⟨st1, e1, e2⟩ := this
    have e3 : ext_progress ip w bs flags (ext_buffer inp) s0 (ext_base flags 8) (4 * 8) st1 := e2
    rw [hb8] at e3
    exact ⟨st1, e1, e3⟩
  · intro hno
    refine loop_char_error (ext_subwindow ip w bs flags)
      (fun k a => ext_progress ip w bs flags (ext_buffer inp) s0 (ext_base flags k) (4 * k) a)
      (fun k => w.unused_bits ≤ 8 ∧
        ∀ i, ext_base flags k ≤ i → i < ext_base flags (k + 1) → ext_pad_zero w inp i)
      (fun e => e = .count_too_large ∨ e = .nonzero_padding) (8 - 0) 0 _ hinit hstep ?_
    by_contra hall
    apply hno
    have hall2 : ∀ k, k < 8 → w.unused_bits ≤ 8 ∧
        ∀ i, ext_base flags k ≤ i → i < ext_base flags (k + 1) → ext_pad_zero w inp i :=
      fun k hk => Classical.byContradiction
        (fun hn => hall ⟨k, Nat.zero_le _, by omega, hn⟩)
    refine ⟨(hall2 0 (by omega)).1, fun i hi => ?_⟩
    obtain ⟨k, k1, k2, k3⟩ := ext_base_cover flags 8 i (by omega)
    exact (hall2 k k1).2 i k2 k3

end Decode

/-- A loop whose first iteration fails, fails with the fault of that iteration. -/
theorem loop_first_error {σ : Type} (body : Nat → σ → Except Fault σ) (lo n : Nat) (st : σ)
    (e : Fault) (h : body lo st = .error e) : loop body lo (n + 1) st = .error e := by
  simp only [loop, h]

namespace Decode

/-- With more than 8 unused bits the sub-window loop stops at its first pixel, on the
count assertion of `read_and_discard_buffered_zero_bits`. -/
theorem ext_loop_count_fault (ip : Nat) (w : channel_widths) (bs : channel_bases)
    (flags : Nat → Nat) (inp : Nat → Nat) (s0 : State) (hw : gen11_wf w 22)
    (hu : ¬ w.unused_bits ≤ 8) :
    for_range 0 8 (ext_subwindow ip w bs flags) ⟨ext_buffer inp, 0, s0⟩
      = .error .count_too_large := by
  have hbuf : (ext_buffer inp 0).bits_used = 22 := rfl
  have hpx : ∀ c, ext_pixel ip w bs c ⟨ext_buffer inp, 0, s0⟩ = .error .count_too_large := by
    intro c
    rw [ext_pixel_unfold]
    show (ext_reconstruct ip w bs (ext_buffer inp 0) >>= _) = _
    rw [(ext_reconstruct_char ip w bs (ext_buffer inp 0) hw hbuf).1 hu]
    rfl
  have hsw : ext_subwindow ip w bs flags 0 ⟨ext_buffer inp, 0, s0⟩ = .error .count_too_large := by
    unfold ext_subwindow
    by_cases hf : flags 0 ≠ 0
    · rw [if_pos hf, hpx]
    · rw [if_neg hf]
      exact loop_first_error (fun _ st1 => ext_pixel ip w bs 1 st1) 0 3 _ _ (hpx 1)
  exact loop_first_error (ext_subwindow ip w bs flags) 0 7 _ _ hsw

/-- The mode-6 extension decode with four flags and accepted widths, from the initial
globals: it fails on the 19 trailing bits when they are not all zero; otherwise it is
the sub-window loop on the buffers `ext_buffer`, which succeeds exactly when at most 8
bits are unused and the unused bits of the twenty buffers are zero. -/
theorem extension_char (s : State) (hwf : WF s) (hbyte : s.in_byte_idx = 0)
    (hbit : s.in_bit_idx = 0) (hout : s.out_idx = 0) (hext : stream_val s.inp 1 8 ≠ 0)
    (hfc : flag_count (stream_val s.inp 1 8) = 4)
    (hwd : gen11_widths_ok s.inp 9 (stream_bit s.inp 0) 22) :
    ∃ flags, extension_flags (stream_val s.inp 1 8) = .ok flags ∧
      (∀ k, k < 8 → flags k = stream_bit s.inp (1 + k)) ∧
      ext_base flags 8 = 20 ∧
      (stream_val s.inp 493 19 ≠ 0 → decode_11th_gen s 6 = .error .nonzero_padding) ∧
      (stream_val s.inp 493 19 = 0 →
        ¬ (gen11_spec_widths s.inp 9 (stream_bit s.inp 0) 22).unused_bits ≤ 8 →
        decode_11th_gen s 6 = .error .count_too_large) ∧
      (stream_val s.inp 493 19 = 0 →
        ¬ ((gen11_spec_widths s.inp 9 (stream_bit s.inp 0) 22).unused_bits ≤ 8 ∧
          ∀ i, i < 20 →
            ext_pad_zero (gen11_spec_widths s.inp 9 (stream_bit s.inp 0) 22) s.inp i) →
        ∃ e, decode_11th_gen s 6 = .error e ∧
          (e = .count_too_large ∨ e = .nonzero_padding)) ∧
      (stream_val s.inp 493 19 = 0 →
        ((gen11_spec_widths s.inp 9 (stream_bit s.inp 0) 22).unused_bits ≤ 8 ∧
          ∀ i, i < 20 →
            ext_pad_zero (gen11_spec_widths s.inp 9 (stream_bit s.inp 0) 22) s.inp i) →
        ∃ st, for_range 0 8 (ext_subwindow (stream_bit s.inp 0)
              (gen11_spec_widths s.inp 9 (stream_bit s.inp 0) 22)
              (gen11_spec_bases s.inp 21 (stream_bit s.inp 0)) flags)
            ⟨ext_buffer s.inp, 0, seek s 512⟩ = .ok st ∧
          decode_11th_gen s 6 = .ok st.s ∧
          ext_progress (stream_bit s.inp 0)
            (gen11_spec_widths s.inp 9 (stream_bit s.inp 0) 22)
            (gen11_spec_bases s.inp 21 (stream_bit s.inp 0)) flags (ext_buffer s.inp)
            (seek s 512) 20 32 st) := by
  obtain ⟨flags, f1, f2, f3, _, _, f6⟩ := (extension_unfold s hwf hbyte hbit hext).2 hfc
  have hdec := f6 hwd
  have hw := gen11_spec_widths_wf s.inp 9 (stream_bit s.inp 0) 22 hwd
  obtain ⟨l1, l2⟩ := ext_loop_char (stream_bit s.inp 0)
    (gen11_spec_widths s.inp 9 (stream_bit s.inp 0) 22)
    (gen11_spec_bases s.inp 21 (stream_bit s.inp 0)) flags s.inp (seek s 512) hw f3 hout
  refine ⟨flags, f1, f2, f3, ?_, ?_, ?_, ?_⟩
  · intro ht
    rw [hdec, if_neg ht]
  · intro ht hu
    rw [hdec, if_pos ht, ext_loop_count_fault _ _ _ _ _ _ hw hu]
    rfl
  · intro ht hc
    obtain ⟨e, e1, e2⟩ := l2 hc
    refine ⟨e, ?_, e2⟩
    rw [hdec, if_pos ht, e1]
    rfl
  · intro ht hc
    obtain ⟨st, e1, e2⟩ := l1 hc
    refine ⟨st, e1, ?_, e2⟩
    rw [hdec, if_pos ht, e1]
    rfl

end Decode

/-! ## decode.c: the layout of the extension payload -/

namespace Decode

/-- The bits of a delta buffer after the two fills: the low 14 bits are the stream bits
from `53 + 14 i`, the next 8 the stream bits from `333 + 8 i`, and there are no more. -/
theorem ext_buffer_bits (inp : Nat → Nat) (i : Nat) (hi : i < 20) :
    (ext_buffer inp i).bits_used = 22 ∧ (ext_buffer inp i).buf < 2 ^ 22 ∧
    (∀ b, b < 14 → (ext_buffer inp i).buf / 2 ^ b % 2 = stream_bit inp (53 + 14 * i + b)) ∧
    (∀ b, b < 8 →
      (ext_buffer inp i).buf / 2 ^ (14 + b) % 2 = stream_bit inp (333 + 8 * i + b)) := by
  have h14 := stream_val_lt inp 14 (53 + 14 * i)
  have h8 := stream_val_lt inp 8 (333 + 8 * i)
  have hbuf : ext_buffer inp i
      = ⟨stream_val inp (53 + 14 * i) 14 + 2 ^ 14 * stream_val inp (333 + 8 * i) 8, 22⟩ := by
    unfold ext_buffer
    rw [if_pos hi]
  rw [hbuf]
  refine ⟨rfl, ?_, ?_, ?_⟩
  · show stream_val inp (53 + 14 * i) 14 + 2 ^ 14 * stream_val inp (333 + 8 * i) 8 < 2 ^ 22
    omega
  · intro b hb
    show (stream_val inp (53 + 14 * i) 14 + 2 ^ 14 * stream_val inp (333 + 8 * i) 8)
      / 2 ^ b % 2 = _
    have e : (2 : Nat) ^ 14 = 2 ^ b * (2 * 2 ^ (13 - b)) := by
      rw [← pow_succ', ← pow_add]
      congr 1
      omega
    rw [e, Nat.mul_assoc, Nat.add_mul_div_left _ _ (Nat.two_pow_pos b), Nat.mul_assoc,
      Nat.add_mul_mod_self_left]
    exact stream_val_bit inp 14 _ b hb
  · intro b hb
    show (stream_val inp (53 + 14 * i) 14 + 2 ^ 14 * stream_val inp (333 + 8 * i) 8)
      / 2 ^ (14 + b) % 2 = _
    rw [pow_add, ← Nat.div_div_eq_div_mul, Nat.add_mul_div_left _ _ (Nat.two_pow_pos 14),
      Nat.div_eq_of_lt h14, Nat.zero_add]
    exact stream_val_bit inp 8 _ b hb

/-- C34: the layout of a gen11 extension payload.  From the initial globals, in
mode 6 with a nonzero extension byte: a payload whose bits 493..511 are not all zero is
never decoded, and a successful decode had four flags, accepted widths and zero bits
493..511, and leaves the cursor at bit 512.  With four flags and accepted widths the
header ends at bit 53 (the `inter_pred` bit, 8 flag bits, the widths at bits 9..20, the
bases at bits 21..52); the first fill loop reads the bits 53..332, the second the bits
333..492, and they leave in buffer `i < 20` exactly 22 bits: bit `b < 14` is stream bit
`53 + 14 i + b` and bit `14 + b`, `b < 8`, is stream bit `333 + 8 i + b`; the decode is
then the check of the 19 bits from 493 followed by the sub-window loop on these buffers,
and it stops with the padding fault when the 19 bits are not all zero. -/
theorem gen11_extension_layout (s : State) (hbytes : ∀ i, i < 64 → s.inp i < 256)
    (hbyte : s.in_byte_idx = 0) (hbit : s.in_bit_idx = 0) (hout : s.out_idx = 0)
    (hext : stream_val s.inp 1 8 ≠ 0) :
    (stream_val s.inp 493 19 ≠ 0 → ∃ e, decode_11th_gen s 6 = .error e) ∧
    (∀ s1, decode_11th_gen s 6 = .ok s1 →
      flag_count (stream_val s.inp 1 8) = 4 ∧
      gen11_widths_ok s.inp 9 (stream_bit s.inp 0) 22 ∧
      stream_val s.inp 493 19 = 0 ∧ bit_pos s1 = 512) ∧
    (flag_count (stream_val s.inp 1 8) = 4 →
      gen11_widths_ok s.inp 9 (stream_bit s.inp 0) 22 →
      ∃ flags w bs b14,
        extension_flags (stream_val s.inp 1 8) = .ok flags ∧
        read_widths (seek s 9) (stream_bit s.inp 0) 22 = .ok (w, seek s 21) ∧
        read_bases (seek s 21) (stream_bit s.inp 0) = .ok (bs, seek s 53) ∧
        for_range 0 20 (fill_step 14) (fun _ => init_bitbuffer, seek s 53)
          = .ok (b14, seek s 333) ∧
        for_range 0 20 (fill_step 8) (b14, seek s 333) = .ok (ext_buffer s.inp, seek s 493) ∧
        (∀ i, i < 20 →
          (ext_buffer s.inp i).bits_used = 22 ∧ (ext_buffer s.inp i).buf < 2 ^ 22 ∧
          (∀ b, b < 14 →
            (ext_buffer s.inp i).buf / 2 ^ b % 2 = stream_bit s.inp (53 + 14 * i + b)) ∧
          (∀ b, b < 8 →
            (ext_buffer s.inp i).buf / 2 ^ (14 + b) % 2
              = stream_bit s.inp (333 + 8 * i + b))) ∧
        decode_11th_gen s 6 =
          (read_and_discard_zero_bits (seek s 493) 19 >>= fun s5 =>
            for_range 0 8 (ext_subwindow (stream_bit s.inp 0) w bs flags)
              ⟨ext_buffer s.inp, 0, s5⟩ >>= fun st => pure st.s) ∧
        read_and_discard_zero_bits (seek s 493) 19 =
          (if stream_val s.inp 493 19 = 0 then .ok (seek s 512)
            else .error .nonzero_padding) ∧
        (stream_val s.inp 493 19 ≠ 0 → decode_11th_gen s 6 = .error .nonzero_padding)) := by
  have hwf : WF s := ⟨hbytes, by omega⟩
  obtain ⟨u1, u2⟩ := extension_unfold s hwf hbyte hbit hext
  have hlayout : flag_count (stream_val s.inp 1 8) = 4 →
      gen11_widths_ok s.inp 9 (stream_bit s.inp 0) 22 →
      (stream_val s.inp 493 19 ≠ 0 → decode_11th_gen s 6 = .error .nonzero_padding) ∧
      (∀ s1, decode_11th_gen s 6 = .ok s1 →
        stream_val s.inp 493 19 = 0 ∧ bit_pos s1 = 512) := by
    intro hfc hwd
    obtain ⟨flags, _, _, _, c1, c2, c3, c4⟩ :=
      extension_char s hwf hbyte hbit hout hext hfc hwd
    refine ⟨c1, fun s1 h1 => ?_⟩
    by_cases ht : stream_val s.inp 493 19 = 0
    · refine ⟨ht, ?_⟩
      by_cases hc : (gen11_spec_widths s.inp 9 (stream_bit s.inp 0) 22).unused_bits ≤ 8 ∧
          ∀ i, i < 20 →
            ext_pad_zero (gen11_spec_widths s.inp 9 (stream_bit s.inp 0) 22) s.inp i
      · obtain ⟨st, _, e2, e3⟩ := c4 ht hc
        rw [e2] at h1
        cases h1
        obtain ⟨_, _, _, _, _, _, p1, p2⟩ := e3
        unfold bit_pos
        rw [p1, p2]
        rfl
      · obtain ⟨e, e1, _⟩ := c3 ht hc
        rw [e1] at h1
        cases h1
    · rw [c1 ht] at h1
      cases h1
  refine ⟨?_, ?_, ?_⟩
  · intro ht
    by_cases hfc : flag_count (stream_val s.inp 1 8) = 4
    · obtain ⟨flags, _, _, _, _, v1, _⟩ := u2 hfc
      by_cases hwd : gen11_widths_ok s.inp 9 (stream_bit s.inp 0) 22
      · exact ⟨_, (hlayout hfc hwd).1 ht⟩
      · obtain ⟨e, e1, _⟩ := v1 hwd
        exact ⟨e, e1⟩
    · exact ⟨_, u1 hfc⟩
  · intro s1 h1
    have hfc : flag_count (stream_val s.inp 1 8) = 4 := by
      by_contra hfc
      rw [u1 hfc] at h1
      cases h1
    obtain ⟨flags, _, _, _, _, v1, _⟩ := u2 hfc
    have hwd : gen11_widths_ok s.inp 9 (stream_bit s.inp 0) 22 := by
      by_contra hwd
      obtain ⟨e, e1, _⟩ := v1 hwd
      rw [e1] at h1
      cases h1
    exact ⟨hfc, hwd, (hlayout hfc hwd).2 s1 h1⟩
  · intro hfc hwd
    obtain ⟨flags, hfl, _, _, hX, _, _⟩ := u2 hfc
    have hw := (read_widths_spec s 9 (stream_bit s.inp 0) 22 hwf (by omega) (by omega)).1 hwd
    have hb := read_bases_spec s 21 (stream_bit s.inp 0) hwf (by omega)
    obtain ⟨b14, f1, _, f2⟩ := fill_loops_spec s hwf
    have hz := rdz_spec s hwf 19 493 (by omega) (by omega)
    refine ⟨flags, _, _, b14, hfl, hw, hb, f1, f2, fun i hi => ext_buffer_bits s.inp i hi,
      ?_, hz, (hlayout hfc hwd).1⟩
    rw [hX, extension_body_fill, hw]
    simp only [bind_ok_eq]
    rw [hb]
    simp only [bind_ok_eq]
    rw [f1]
    simp only [bind_ok_eq]
    rw [f2]
    simp only [bind_ok_eq]

set_option maxRecDepth 1000000 in
/-- C34, on `ext_sample`: four flags, the widths 4, 4, 4, zero bits 493..511; buffer 0
holds 410128, that is 528 from the 14 bits at bit 53 and above them 25 from the 8 bits
at bit 333, and the decode ends at bit 512. -/
theorem gen11_extension_layout_witness :
    ((∀ i, i < 64 → ext_sample.inp i < 256) ∧
      ext_sample.in_byte_idx = 0 ∧
      ext_sample.in_bit_idx = 0 ∧
      ext_sample.out_idx = 0 ∧
      stream_val ext_sample.inp 1 8 ≠ 0) ∧
    (flag_count (stream_val ext_sample.inp 1 8) = 4 ∧
      stream_val ext_sample.inp 53 14 = 528 ∧
      stream_val ext_sample.inp 333 8 = 25 ∧
      ext_buffer ext_sample.inp 0 = ⟨410128, 22⟩ ∧
      stream_val ext_sample.inp 493 19 = 0 ∧
      bit_pos ext_sample_decoded = 512) ∧
    ((stream_val ext_sample.inp 493 19 ≠ 0 → ∃ e, decode_11th_gen ext_sample 6 = .error e) ∧
    (∀ s1, decode_11th_gen ext_sample 6 = .ok s1 →
      flag_count (stream_val ext_sample.inp 1 8) = 4 ∧
      gen11_widths_ok ext_sample.inp 9 (stream_bit ext_sample.inp 0) 22 ∧
      stream_val ext_sample.inp 493 19 = 0 ∧ bit_pos s1 = 512) ∧
    (flag_count (stream_val ext_sample.inp 1 8) = 4 →
      gen11_widths_ok ext_sample.inp 9 (stream_bit ext_sample.inp 0) 22 →
      ∃ flags w bs b14,
        extension_flags (stream_val ext_sample.inp 1 8) = .ok flags ∧
        read_widths (seek ext_sample 9) (stream_bit ext_sample.inp 0) 22 = .ok (w, seek ext_sample
            21) ∧
        read_bases (seek ext_sample 21) (stream_bit ext_sample.inp 0) = .ok (bs, seek ext_sample 53)
            ∧
        for_range 0 20 (fill_step 14) (fun _ => init_bitbuffer, seek ext_sample 53)
          = .ok (b14, seek ext_sample 333) ∧
        for_range 0 20 (fill_step 8) (b14, seek ext_sample 333) = .ok (ext_buffer ext_sample.inp,
            seek ext_sample 493) ∧
        (∀ i, i < 20 →
          (ext_buffer ext_sample.inp i).bits_used = 22 ∧ (ext_buffer ext_sample.inp i).buf < 2 ^ 22
              ∧
          (∀ b, b < 14 →
            (ext_buffer ext_sample.inp i).buf / 2 ^ b % 2 = stream_bit ext_sample.inp (53 + 14 * i +
                b)) ∧
          (∀ b, b < 8 →
            (ext_buffer ext_sample.inp i).buf / 2 ^ (14 + b) % 2
              = stream_bit ext_sample.inp (333 + 8 * i + b))) ∧
        decode_11th_gen ext_sample 6 =
          (read_and_discard_zero_bits (seek ext_sample 493) 19 >>= fun s5 =>
            for_range 0 8 (ext_subwindow (stream_bit ext_sample.inp 0) w bs flags)
              ⟨ext_buffer ext_sample.inp, 0, s5⟩ >>= fun st => pure st.s) ∧
        read_and_discard_zero_bits (seek ext_sample 493) 19 =
          (if stream_val ext_sample.inp 493 19 = 0 then .ok (seek ext_sample 512)
            else .error .nonzero_padding) ∧
        (stream_val ext_sample.inp 493 19 ≠ 0 → decode_11th_gen ext_sample 6 = .error
            .nonzero_padding))) :=
  ⟨⟨by decide, by decide, by decide, by decide, by decide⟩,
    ⟨by decide, by decide, by decide, by decide, by decide, by decide⟩,
    gen11_extension_layout ext_sample (by decide) (by decide) (by decide) (by decide) (by decide)⟩


end Decode

/-! ## decode.c: the widths of the extension decode -/

namespace Decode

set_option maxRecDepth 1000000 in
/-- C33, what the code does instead.  On `four_flags` (extension byte 0x0f, every other
bit of the payload zero) the three widths are 0, alpha gets 8 bits and 14 bits are
unused; all delta buffers and the 19 trailing bits are zero, and the mode-6 decode
stops on the `count <= 8` assertion of `read_and_discard_buffered_zero_bits`.  On
`ext_sample`, which has no inter-channel prediction, the lowest field of a delta buffer
is the red delta, not the blue one: buffer 1 holds the fields 1, 2, 3 from its low end
and its pixel, stored in slot `block_order 4`, is `(0x10 + 1, 0x20 + 2, 0x30 + 3, _)`. -/
theorem extension_narrow_widths_rejected :
    (flag_count (stream_val four_flags.inp 1 8) = 4 ∧
      (spec_width_r four_flags.inp 9 (stream_bit four_flags.inp 0),
        spec_width_g four_flags.inp 9 (stream_bit four_flags.inp 0),
        spec_width_b four_flags.inp 9 (stream_bit four_flags.inp 0)) = (0, 0, 0) ∧
      (read_widths (seek four_flags 9) (stream_bit four_flags.inp 0) 22).toOption.map
          (fun r => (r.1.delta_a_bits, r.1.unused_bits)) = some (8, 14) ∧
      (∀ i, i < 20 → (ext_buffer four_flags.inp i).buf = 0) ∧
      stream_val four_flags.inp 493 19 = 0 ∧
      fault_of (decode_11th_gen four_flags 6) = some .count_too_large) ∧
    (stream_bit ext_sample.inp 0 = 0 ∧
      (gen11_spec_bases ext_sample.inp 21 0).base_r = 0x10 ∧
      (gen11_spec_bases ext_sample.inp 21 0).base_g = 0x20 ∧
      (gen11_spec_bases ext_sample.inp 21 0).base_b = 0x30 ∧
      ((ext_buffer ext_sample.inp 1).buf % 16, (ext_buffer ext_sample.inp 1).buf / 16 % 16,
        (ext_buffer ext_sample.inp 1).buf / 256 % 16) = (1, 2, 3) ∧
      (decode_11th_gen ext_sample 6).toBool = true ∧
      DecodeAmd.pixel_at ext_sample_decoded.out (block_order 4) = (0x11, 0x22, 0x33, 165)) := by
  decide

/-- C33, amended.  From the initial globals, in mode 6 with four flags and three
widths that are each at most 8 with a sum of at most 22: the widths the code works with
are those of the header, alpha gets `min (22 - sum) 8` bits and `22 - sum - alpha` bits
are unused, which is at most 8 exactly when the sum is at least 6.  When the sum is at
least 6, a delta buffer, which holds 22 bits, is drained of all of them: the colour
deltas in the order B, R, G under inter-channel prediction and R, G, B otherwise, then
alpha, then the unused bits, which must be zero; and when the unused bits of all twenty
buffers and the 19 trailing bits are zero the decode succeeds, with the twenty buffers
empty, 32 pixels written and the cursor at bit 512.  When the sum is less than 6 the
decode fails: on the 19 trailing bits when they are not all zero, otherwise on the
`count <= 8` assertion of `read_and_discard_buffered_zero_bits`. -/
theorem gen11_extension_widths (s : State) (hbytes : ∀ i, i < 64 → s.inp i < 256)
    (hbyte : s.in_byte_idx = 0) (hbit : s.in_bit_idx = 0) (hout : s.out_idx = 0)
    (hext : stream_val s.inp 1 8 ≠ 0) (hfc : flag_count (stream_val s.inp 1 8) = 4)
    (hwd : gen11_widths_ok s.inp 9 (stream_bit s.inp 0) 22) :
    ∃ flags w bs,
      extension_flags (stream_val s.inp 1 8) = .ok flags ∧
      read_widths (seek s 9) (stream_bit s.inp 0) 22 = .ok (w, seek s 21) ∧
      read_bases (seek s 21) (stream_bit s.inp 0) = .ok (bs, seek s 53) ∧
      (w.delta_r_bits, w.delta_g_bits, w.delta_b_bits)
        = (spec_width_r s.inp 9 (stream_bit s.inp 0), spec_width_g s.inp 9 (stream_bit s.inp 0),
            spec_width_b s.inp 9 (stream_bit s.inp 0)) ∧
      w.delta_a_bits = min (22 - spec_width_sum s.inp 9 (stream_bit s.inp 0)) 8 ∧
      w.unused_bits = 22 - spec_width_sum s.inp 9 (stream_bit s.inp 0) - w.delta_a_bits ∧
      gen11_delta_bits w + w.unused_bits = 22 ∧
      (w.unused_bits ≤ 8 ↔ 6 ≤ spec_width_sum s.inp 9 (stream_bit s.inp 0)) ∧
      (6 ≤ spec_width_sum s.inp 9 (stream_bit s.inp 0) →
        (∀ i, i < 20 →
          (ext_buffer s.inp i).bits_used = 22 ∧
          (ext_pad_zero w s.inp i →
            ext_reconstruct (stream_bit s.inp 0) w bs (ext_buffer s.inp i)
              = .ok (ext_spec_pixel (stream_bit s.inp 0) w bs (ext_buffer s.inp i).buf,
                  ⟨(ext_buffer s.inp i).buf / 2 ^ 22, 0⟩)) ∧
          (¬ ext_pad_zero w s.inp i →
            ext_reconstruct (stream_bit s.inp 0) w bs (ext_buffer s.inp i)
              = .error .nonzero_padding)) ∧
        ((∀ i, i < 20 → ext_pad_zero w s.inp i) → stream_val s.inp 493 19 = 0 →
          ∃ st, for_range 0 8 (ext_subwindow (stream_bit s.inp 0) w bs flags)
                ⟨ext_buffer s.inp, 0, seek s 512⟩ = .ok st ∧
            decode_11th_gen s 6 = .ok st.s ∧
            st.delta_bb_idx = 20 ∧ (∀ i, i < 20 → (st.delta_bb i).bits_used = 0) ∧
            st.s.out_idx = 32 ∧ bit_pos st.s = 512)) ∧
      (spec_width_sum s.inp 9 (stream_bit s.inp 0) < 6 →
        decode_11th_gen s 6 =
          if stream_val s.inp 493 19 = 0 then .error .count_too_large
          else .error .nonzero_padding) := by
  have hwf : WF s := ⟨hbytes, by omega⟩
  obtain ⟨flags, hfl, _, _, c1, c2, _, c4⟩ := extension_char s hwf hbyte hbit hout hext hfc hwd
  have hw := (read_widths_spec s 9 (stream_bit s.inp 0) 22 hwf (by omega) (by omega)).1 hwd
  have hb := read_bases_spec s 21 (stream_bit s.inp 0) hwf (by omega)
  have hwfw := gen11_spec_widths_wf s.inp 9 (stream_bit s.inp 0) 22 hwd
  have hsum : spec_width_sum s.inp 9 (stream_bit s.inp 0) ≤ 22 := hwd.2.2.2
  have hun : (gen11_spec_widths s.inp 9 (stream_bit s.inp 0) 22).unused_bits ≤ 8 ↔
      6 ≤ spec_width_sum s.inp 9 (stream_bit s.inp 0) := by
    show 22 - spec_width_sum s.inp 9 (stream_bit s.inp 0)
      - min (22 - spec_width_sum s.inp 9 (stream_bit s.inp 0)) 8 ≤ 8 ↔ _
    omega
  refine ⟨flags, _, _, hfl, hw, hb, rfl, rfl, rfl, hwfw.2.2.2.2, hun, ?_, ?_⟩
  · intro h6
    have h8 := hun.2 h6
    constructor
    · intro i hi
      have hbuf : (ext_buffer s.inp i).bits_used = 22 := by
        unfold ext_buffer
        rw [if_pos hi]
      refine ⟨hbuf, fun hz => ?_, fun hz => ?_⟩
      · exact ext_reconstruct_spec _ _ _ _ hwfw hbuf h8 hz
      · exact (ext_reconstruct_char _ _ _ _ hwfw hbuf).2.1 h8 hz
    · intro hpad ht
      obtain ⟨st, e1, e2, p1, p2, _, p4, _, p6, p7, p8⟩ := c4 ht ⟨h8, hpad⟩
      refine ⟨st, e1, e2, p1, p4, p2, ?_⟩
      unfold bit_pos
      rw [p7, p8]
      rfl
  · intro h6
    by_cases ht : stream_val s.inp 493 19 = 0
    · rw [if_pos ht]
      exact c2 ht (fun h8 => by have := hun.1 h8; omega)
    · rw [if_neg ht]
      exact c1 ht

set_option maxRecDepth 1000000 in
/-- C33, on `ext_sample`: the widths are 4, 4, 4, so alpha gets 8 bits and 2 bits are
unused; they are zero in all twenty buffers, as are the 19 trailing bits, and the
decode succeeds with the cursor at bit 512. -/
theorem gen11_extension_widths_witness :
    ((∀ i, i < 64 → ext_sample.inp i < 256) ∧
      ext_sample.in_byte_idx = 0 ∧
      ext_sample.in_bit_idx = 0 ∧
      ext_sample.out_idx = 0 ∧
      stream_val ext_sample.inp 1 8 ≠ 0 ∧
      flag_count (stream_val ext_sample.inp 1 8) = 4 ∧
      gen11_widths_ok ext_sample.inp 9 (stream_bit ext_sample.inp 0) 22) ∧
    (spec_width_sum ext_sample.inp 9 (stream_bit ext_sample.inp 0) = 12 ∧
      (gen11_spec_widths ext_sample.inp 9 (stream_bit ext_sample.inp 0) 22).delta_a_bits = 8 ∧
      (gen11_spec_widths ext_sample.inp 9 (stream_bit ext_sample.inp 0) 22).unused_bits = 2 ∧
      (∀ i, i < 20 → ext_pad_zero
        (gen11_spec_widths ext_sample.inp 9 (stream_bit ext_sample.inp 0) 22) ext_sample.inp i) ∧
      stream_val ext_sample.inp 493 19 = 0 ∧
      (decode_11th_gen ext_sample 6).toBool = true) ∧
    (∃ flags w bs,
      extension_flags (stream_val ext_sample.inp 1 8) = .ok flags ∧
      read_widths (seek ext_sample 9) (stream_bit ext_sample.inp 0) 22 = .ok (w, seek ext_sample 21)
          ∧
      read_bases (seek ext_sample 21) (stream_bit ext_sample.inp 0) = .ok (bs, seek ext_sample 53) ∧
      (w.delta_r_bits, w.delta_g_bits, w.delta_b_bits)
        = (spec_width_r ext_sample.inp 9 (stream_bit ext_sample.inp 0), spec_width_g ext_sample.inp
            9 (stream_bit ext_sample.inp 0),
            spec_width_b ext_sample.inp 9 (stream_bit ext_sample.inp 0)) ∧
      w.delta_a_bits = min (22 - spec_width_sum ext_sample.inp 9 (stream_bit ext_sample.inp 0)) 8 ∧
      w.unused_bits = 22 - spec_width_sum ext_sample.inp 9 (stream_bit ext_sample.inp 0) -
          w.delta_a_bits ∧
      gen11_delta_bits w + w.unused_bits = 22 ∧
      (w.unused_bits ≤ 8 ↔ 6 ≤ spec_width_sum ext_sample.inp 9 (stream_bit ext_sample.inp 0)) ∧
      (6 ≤ spec_width_sum ext_sample.inp 9 (stream_bit ext_sample.inp 0) →
        (∀ i, i < 20 →
          (ext_buffer ext_sample.inp i).bits_used = 22 ∧
          (ext_pad_zero w ext_sample.inp i →
            ext_reconstruct (stream_bit ext_sample.inp 0) w bs (ext_buffer ext_sample.inp i)
              = .ok (ext_spec_pixel (stream_bit ext_sample.inp 0) w bs (ext_buffer ext_sample.inp
                  i).buf,
                  ⟨(ext_buffer ext_sample.inp i).buf / 2 ^ 22, 0⟩)) ∧
          (¬ ext_pad_zero w ext_sample.inp i →
            ext_reconstruct (stream_bit ext_sample.inp 0) w bs (ext_buffer ext_sample.inp i)
              = .error .nonzero_padding)) ∧
        ((∀ i, i < 20 → ext_pad_zero w ext_sample.inp i) → stream_val ext_sample.inp 493 19 = 0 →
          ∃ st, for_range 0 8 (ext_subwindow (stream_bit ext_sample.inp 0) w bs flags)
                ⟨ext_buffer ext_sample.inp, 0, seek ext_sample 512⟩ = .ok st ∧
            decode_11th_gen ext_sample 6 = .ok st.s ∧
            st.delta_bb_idx = 20 ∧ (∀ i, i < 20 → (st.delta_bb i).bits_used = 0) ∧
            st.s.out_idx = 32 ∧ bit_pos st.s = 512)) ∧
      (spec_width_sum ext_sample.inp 9 (stream_bit ext_sample.inp 0) < 6 →
        decode_11th_gen ext_sample 6 =
          if stream_val ext_sample.inp 493 19 = 0 then .error .count_too_large
          else .error .nonzero_padding)) :=
  ⟨⟨by decide, by decide, by decide, by decide, by decide, by decide, by decide⟩,
    ⟨by decide, by decide, by decide, by decide, by decide, by decide⟩,
    gen11_extension_widths ext_sample (by decide) (by decide) (by decide) (by decide) (by decide)
      (by decide) (by decide)⟩


end Decode

/-! ## decode.c: the table `block_order` and the slots of a gen11 decode -/

namespace Decode

/-- A successful mode-6 extension decode from the initial globals: there were four flags,
the widths were accepted, and the result is that of the sub-window loop after twenty
buffers and 32 pixels. -/
theorem extension_ok_inv (s s1 : State) (hwf : WF s) (hbyte : s.in_byte_idx = 0)
    (hbit : s.in_bit_idx = 0) (hout : s.out_idx = 0) (hext : stream_val s.inp 1 8 ≠ 0)
    (hdec : decode_11th_gen s 6 = .ok s1) :
    flag_count (stream_val s.inp 1 8) = 4 ∧
    gen11_widths_ok s.inp 9 (stream_bit s.inp 0) 22 ∧
    ∃ flags st, extension_flags (stream_val s.inp 1 8) = .ok flags ∧
      (∀ k, k < 8 → flags k = stream_bit s.inp (1 + k)) ∧ st.s = s1 ∧
      ext_progress (stream_bit s.inp 0) (gen11_spec_widths s.inp 9 (stream_bit s.inp 0) 22)
        (gen11_spec_bases s.inp 21 (stream_bit s.inp 0)) flags (ext_buffer s.inp)
        (seek s 512) 20 32 st := by
  obtain ⟨u1, u2⟩ := extension_unfold s hwf hbyte hbit hext
  have hfc : flag_count (stream_val s.inp 1 8) = 4 := by
    by_contra hfc
    rw [u1 hfc] at hdec
    cases hdec
  obtain ⟨_, _, _, _, _, v1, _⟩ := u2 hfc
  have hwd : gen11_widths_ok s.inp 9 (stream_bit s.inp 0) 22 := by
    by_contra hwd
    obtain ⟨e, e1, _⟩ := v1 hwd
    rw [e1] at hdec
    cases hdec
  obtain ⟨flags, f1, f2, _, c1, _, c3, c4⟩ :=
    extension_char s hwf hbyte hbit hout hext hfc hwd
  have ht : stream_val s.inp 493 19 = 0 := by
    by_contra ht
    rw [c1 ht] at hdec
    cases hdec
  have hc : (gen11_spec_widths s.inp 9 (stream_bit s.inp 0) 22).unused_bits ≤ 8 ∧
      ∀ i, i < 20 →
        ext_pad_zero (gen11_spec_widths s.inp 9 (stream_bit s.inp 0) 22) s.inp i := by
    by_contra hc
    obtain ⟨e, e1, _⟩ := c3 ht hc
    rw [e1] at hdec
    cases hdec
  obtain ⟨st, _, e2, e3⟩ := c4 ht hc
  rw [e2] at hdec
  cases hdec
  exact ⟨hfc, hwd, flags, st, f1, f2, rfl, e3⟩

theorem block_order_involution : ∀ i, i < 32 → block_order (block_order i) = i := by
  decide

theorem block_order_group : ∀ i, i < 32 →
    block_order i / 8 = i / 8 ∧ block_order i / 16 = i / 16 := by
  decide

/-- C31: the table `block_order` and the slots of a gen11 decode.  On 0..31 the table
stays below 32, is injective, hits every index exactly once, is its own inverse, and
keeps every index in its aligned group of eight, hence in its half of sixteen; every
index of a group is the image of an index of the same group.  A write at pixel index
`k <= 31` stores its pixel in slot `block_order k`, leaves every other slot as it was
and moves the pixel index to `k + 1`; a write at a larger index fails.  A successful
`decode_11th_gen` from the initial globals leaves the pixel index at 32, and slot
`j < 32` holds the pixel with index `block_order j` in decode order: in a plain decode
the pixel `gen11_expected` of that index, in an extension decode (mode 6) the pixel
reconstructed from the delta buffer of that index. -/
theorem block_order_permutation :
    (∀ i, i < 32 → block_order i < 32) ∧
    (∀ i, i < 32 → ∀ j, j < 32 → block_order i = block_order j → i = j) ∧
    (∀ j, j < 32 → ∃! i, i < 32 ∧ block_order i = j) ∧
    (∀ i, i < 32 → block_order (block_order i) = i) ∧
    (∀ i, i < 32 → block_order i / 8 = i / 8 ∧ block_order i / 16 = i / 16) ∧
    (∀ j, j < 32 → ∃ i, i < 32 ∧ i / 8 = j / 8 ∧ block_order i = j) ∧
    (∀ (s : State) (r g b a : Nat),
      (s.out_idx ≤ 31 →
        ∃ s1, write_pixel_block_order s r g b a = .ok s1 ∧ s1.out_idx = s.out_idx + 1 ∧
          DecodeAmd.pixel_at s1.out (block_order s.out_idx) = (r, g, b, a) ∧
          ∀ k, k ≠ block_order s.out_idx →
            DecodeAmd.pixel_at s1.out k = DecodeAmd.pixel_at s.out k) ∧
      (¬ s.out_idx ≤ 31 → write_pixel_block_order s r g b a = .error .output_full)) ∧
    (∀ (s s1 : State) (ccs : Int), (∀ i, i < 64 → s.inp i < 256) → s.in_byte_idx = 0 →
      s.in_bit_idx = 0 → s.out_idx = 0 → decode_11th_gen s ccs = .ok s1 →
      s1.out_idx = 32 ∧
      (stream_val s.inp 1 8 = 0 →
        ∃ bpp first second, mode_table ccs = .ok (bpp, first, second) ∧
          ∀ j, j < 32 → DecodeAmd.pixel_at s1.out j
            = gen11_expected (stream_bit s.inp 0)
                (gen11_spec_widths s.inp 9 (stream_bit s.inp 0) bpp)
                (gen11_spec_bases s.inp 21 (stream_bit s.inp 0)) s.inp bpp first second
                (block_order j)) ∧
      (stream_val s.inp 1 8 ≠ 0 →
        ccs = 6 ∧
        ∃ flags w bs, extension_flags (stream_val s.inp 1 8) = .ok flags ∧
          read_widths (seek s 9) (stream_bit s.inp 0) 22 = .ok (w, seek s 21) ∧
          read_bases (seek s 21) (stream_bit s.inp 0) = .ok (bs, seek s 53) ∧
          ∀ j, j < 32 → ∃ bb,
            ext_reconstruct (stream_bit s.inp 0) w bs
              (ext_buffer s.inp (ext_buffer_index flags (block_order j)))
              = .ok (DecodeAmd.pixel_at s1.out j, bb))) := by
  refine ⟨block_order_lt, block_order_inj, ?_, block_order_involution, block_order_group,
    ?_, ?_, ?_⟩
  · intro j hj
    refine ⟨block_order j, ⟨block_order_lt j hj, block_order_involution j hj⟩, ?_⟩
    rintro i ⟨hi, rfl⟩
    exact (block_order_involution i hi).symm
  · intro j hj
    refine ⟨block_order j, block_order_lt j hj, (block_order_group j hj).1,
      block_order_involution j hj⟩
  · intro s r g b a
    constructor
    · intro h
      obtain ⟨s1, b1, b2, _, _, _, b6, b7, _⟩ := write_pixel_block_order_spec s r g b a h
      exact ⟨s1, b1, b2, b6, b7⟩
    · intro h
      unfold write_pixel_block_order
      rw [if_pos h]
  · intro s s1 ccs hbytes hbyte hbit hout hdec
    have hwf : WF s := ⟨hbytes, by omega⟩
    have hpos : bit_pos s = 0 := by unfold bit_pos; omega
    have hmode : ∃ m, mode_table ccs = .ok m := by
      cases hm : mode_table ccs with
      | ok m => exact ⟨m, rfl⟩
      | error e =>
        unfold decode_11th_gen at hdec
        rw [hm] at hdec
        cases hdec
    obtain ⟨⟨bpp, first, second⟩, hm⟩ := hmode
    by_cases hext : stream_val s.inp 1 8 = 0
    · obtain ⟨_, _, _, _, _, _, r3, r4, _⟩ :=
        ((gen11_decode_char s ccs bpp first second hwf hbyte hbit hout hm hext).2.1 s1 hdec)
      refine ⟨r3, fun _ => ⟨bpp, first, second, hm, fun j hj => ?_⟩, fun h => absurd hext h⟩
      have := r4 (block_order j) (block_order_lt j hj)
      rw [block_order_involution j hj] at this
      exact this
    · have hccs : ccs = 6 := by
        by_contra hne
        have hd := gen11_head s ccs (bpp, first, second) hwf (by omega) hm
        rw [hpos] at hd
        simp only [Nat.zero_add] at hd
        rw [if_pos hext, if_pos hne] at hd
        rw [hd] at hdec
        cases hdec
      subst hccs
      obtain ⟨_, hwd, flags, st, f1, _, f3, p1, p2, _, _, p5, _⟩ :=
        extension_ok_inv s s1 hwf hbyte hbit hout hext hdec
      have hw := (read_widths_spec s 9 (stream_bit s.inp 0) 22 hwf (by omega) (by omega)).1 hwd
      have hb := read_bases_spec s 21 (stream_bit s.inp 0) hwf (by omega)
      subst f3
      refine ⟨p2, fun h => absurd h hext, fun _ => ⟨rfl, flags, _, _, f1, hw, hb, ?_⟩⟩
      intro j hj
      obtain ⟨px, bb, e1, _, e3⟩ := p5 (block_order j) (block_order_lt j hj)
      rw [block_order_involution j hj] at e3
      rw [e3]
      exact ⟨bb, e1⟩

set_option maxRecDepth 1000000 in
/-- C31, on `ext_sample`: the mode-6 decode succeeds and leaves the pixel index at 32;
the table starts 0, 1, 4, 5, 2, 3, 6, 7; slot 2 holds the pixel of decode index 4, the
one of delta buffer 1, and slot 4 the pixel of decode index 2, the one of buffer 0; and
every slot holds the pixel reconstructed from the buffer of the index the table
gives. -/
theorem block_order_permutation_witness :
    decode_11th_gen ext_sample 6 = .ok ext_sample_decoded ∧
    ext_sample_decoded.out_idx = 32 ∧
    (List.range 8).map block_order = [0, 1, 4, 5, 2, 3, 6, 7] ∧
    (DecodeAmd.pixel_at ext_sample_decoded.out 2, DecodeAmd.pixel_at ext_sample_decoded.out 4)
      = ((17, 34, 51, 165), (16, 33, 50, 164)) ∧
    (∃ flags w bs, extension_flags (stream_val ext_sample.inp 1 8) = .ok flags ∧
      read_widths (seek ext_sample 9) (stream_bit ext_sample.inp 0) 22
        = .ok (w, seek ext_sample 21) ∧
      read_bases (seek ext_sample 21) (stream_bit ext_sample.inp 0)
        = .ok (bs, seek ext_sample 53) ∧
      ∀ j, j < 32 → ∃ bb,
        ext_reconstruct (stream_bit ext_sample.inp 0) w bs
          (ext_buffer ext_sample.inp (ext_buffer_index flags (block_order j)))
          = .ok (DecodeAmd.pixel_at ext_sample_decoded.out j, bb)) :=
  ⟨eq_ok_value_or _ _ (by decide), by decide, by decide, by decide,
    ((block_order_permutation.2.2.2.2.2.2.2 ext_sample ext_sample_decoded 6 (by decide)
      (by decide) (by decide) (by decide) (eq_ok_value_or _ _ (by decide))).2.2
        (by decide)).2⟩

end Decode

/-! ## decode.c: the gen8 decode consumes the whole buffer -/

namespace Decode

/-- The cursor and the pixel index of the gen8 pixel loop before pixel `j`. -/
theorem gen8_pixel_step (h : gen8_header) (s : State) (hwf : WF s) (hh : gen8_wf h)
    (j : Nat) (a : State) (hj : j < 32)
    (ha : a.inp = s.inp ∧ a.in_byte_idx = (48 + 14 * j) / 8 ∧
      a.in_bit_idx = (48 + 14 * j) % 8 ∧ a.out_idx = j) :
    (gen8_pad_zero h s.inp j →
      ∃ b, gen8_pixel h j a = .ok b ∧
        (b.inp = s.inp ∧ b.in_byte_idx = (48 + 14 * (j + 1)) / 8 ∧
          b.in_bit_idx = (48 + 14 * (j + 1)) % 8 ∧ b.out_idx = j + 1)) ∧
    (¬ gen8_pad_zero h s.inp j →
      ∃ e, gen8_pixel h j a = .error e ∧ e = .nonzero_padding) := by
  obtain ⟨a1, a2, a3, a4⟩ := ha
  obtain ⟨wa, pa⟩ := WF_of_cursor s a _ hwf a1 a2 a3
  have hrec := gen8_reconstruct_seek h a (48 + 14 * j) wa hh (by omega)
  rw [← pa, seek_self a wa.2, pa, a1] at hrec
  have hpix : gen8_pixel h j a = (gen8_reconstruct h a >>= fun r =>
      write_pixel r.2 r.1.1 r.1.2.1 r.1.2.2.1 r.1.2.2.2) := rfl
  rw [hpix, hrec]
  constructor
  · intro hc
    have hc' : stream_val s.inp (48 + 14 * j + gen8_delta_bits h) h.unused_bits = 0 := hc
    rw [if_pos hc']
    simp only [bind_ok_eq]
    obtain ⟨s1, b1, b2, b3, b4, b5, _⟩ := write_pixel_slot (seek a (48 + 14 * j + 14))
      (gen8_spec_pixel h s.inp (48 + 14 * j)).1 (gen8_spec_pixel h s.inp (48 + 14 * j)).2.1
      (gen8_spec_pixel h s.inp (48 + 14 * j)).2.2.1
      (gen8_spec_pixel h s.inp (48 + 14 * j)).2.2.2
      (by show a.out_idx ≤ 31; omega)
    have o1 : (seek a (48 + 14 * j + 14)).out_idx = j := a4
    refine ⟨s1, b1, by rw [b3]; exact a1, ?_, ?_, by rw [b2, o1]⟩
    · rw [b4]
      show (48 + 14 * j + 14) / 8 = (48 + 14 * (j + 1)) / 8
      rw [show 48 + 14 * (j + 1) = 48 + 14 * j + 14 by omega]
    · rw [b5]
      show (48 + 14 * j + 14) % 8 = (48 + 14 * (j + 1)) % 8
      rw [show 48 + 14 * (j + 1) = 48 + 14 * j + 14 by omega]
  · intro hc
    have hc' : ¬ stream_val s.inp (48 + 14 * j + gen8_delta_bits h) h.unused_bits = 0 := hc
    rw [if_neg hc']
    exact ⟨_, rfl, rfl⟩

/-- The first `k` pixels of the gen8 loop, when their unused bits are zero: the cursor
has moved 14 bits per pixel. -/
theorem gen8_loop_prefix (h : gen8_header) (s : State) (hwf : WF s) (hh : gen8_wf h)
    (h0 : s.out_idx = 0) (k : Nat) (hk : k ≤ 32)
    (hpad : ∀ j, j < k → gen8_pad_zero h s.inp j) :
    ∃ st, loop (gen8_pixel h) 0 k (seek s 48) = .ok st ∧
      bit_pos st = 48 + 14 * k ∧ st.out_idx = k := by
  obtain ⟨st, e, c1, c2, c3, c4⟩ := loop_inv (gen8_pixel h)
    (fun j st => st.inp = s.inp ∧ st.in_byte_idx = (48 + 14 * j) / 8 ∧
      st.in_bit_idx = (48 + 14 * j) % 8 ∧ st.out_idx = j) k 0 (seek s 48)
    ⟨rfl, rfl, rfl, h0⟩
    (fun j a _ hj ha => (gen8_pixel_step h s hwf hh j a (by omega) ha).1 (hpad j (by omega)))
  refine ⟨st, e, ?_, by simpa using c4⟩
  unfold bit_pos
  rw [c2, c3]
  omega

/-- The gen8 pixel loop stops with the padding fault when the unused bits of a pixel are
not all zero. -/
theorem gen8_loop_fault (h : gen8_header) (s : State) (hwf : WF s) (hh : gen8_wf h)
    (h0 : s.out_idx = 0) (hbad : ∃ j, j < 32 ∧ ¬ gen8_pad_zero h s.inp j) :
    for_range 0 32 (gen8_pixel h) (seek s 48) = .error .nonzero_padding := by
  obtain ⟨j, hj, hb⟩ := hbad
  obtain ⟨e, e1, e2⟩ := loop_char_error (gen8_pixel h)
    (fun j st => st.inp = s.inp ∧ st.in_byte_idx = (48 + 14 * j) / 8 ∧
      st.in_bit_idx = (48 + 14 * j) % 8 ∧ st.out_idx = j)
    (fun j => gen8_pad_zero h s.inp j) (fun e => e = .nonzero_padding) 32 0 (seek s 48)
    ⟨rfl, rfl, rfl, h0⟩
    (fun j a _ hj ha => gen8_pixel_step h s hwf hh j a (by omega) ha)
    ⟨j, Nat.zero_le _, by omega, hb⟩
  have e3 : e = .nonzero_padding := e2
  rw [← e3]
  exact e1

/-- C35: `decode_8th_gen` consumes the whole buffer.  From the initial globals, on any
64 input bytes, the decode either succeeds or stops on one of three assertions: a
skipped channel with a nonzero width field, widths that add up to more than 14, or
padding bits that are not zero (the unused bits of a pixel, or the 16 bits from bit
496); it never stops on the bound of `read_bits`, on a count above 8 or on a full
output.  Which of them happens is decided by the stream.  A successful decode has read
the header up to bit 48, then for every `k <= 32` the first `k` pixels of the loop up to
bit `48 + 14 k` with `k` pixels written, so the loop ends at bit 496 with 32 pixels, then
the 16 zero bits from bit 496; it leaves the cursor at bit 512 and the pixel index at
32. -/
theorem gen8_consumes_cacheline (s : State) (hbytes : ∀ i, i < 64 → s.inp i < 256)
    (hbyte : s.in_byte_idx = 0) (hbit : s.in_bit_idx = 0) (hout : s.out_idx = 0) :
    ((∃ s1, decode_8th_gen s = .ok s1) ∨ decode_8th_gen s = .error .skipped_width ∨
      decode_8th_gen s = .error .width_budget ∨
      decode_8th_gen s = .error .nonzero_padding) ∧
    ((∃ c, c < 4 ∧ gen8_skip s.inp c ≠ 0 ∧ gen8_field s.inp c ≠ 0) →
      decode_8th_gen s = .error .skipped_width) ∧
    ((∀ c, c < 4 → gen8_skip s.inp c ≠ 0 → gen8_field s.inp c = 0) →
      14 < gen8_width_sum s.inp → decode_8th_gen s = .error .width_budget) ∧
    (gen8_header_ok s.inp →
      ((∃ j, j < 32 ∧ ¬ gen8_pad_zero (gen8_spec_header s.inp) s.inp j) ∨
        stream_val s.inp 496 16 ≠ 0) →
      decode_8th_gen s = .error .nonzero_padding) ∧
    (gen8_header_ok s.inp →
      (∀ j, j < 32 → gen8_pad_zero (gen8_spec_header s.inp) s.inp j) →
      stream_val s.inp 496 16 = 0 → ∃ s1, decode_8th_gen s = .ok s1) ∧
    (∀ s1, decode_8th_gen s = .ok s1 →
      gen8_read_header s = .ok (gen8_spec_header s.inp, seek s 48) ∧
      gen8_delta_bits (gen8_spec_header s.inp) + (gen8_spec_header s.inp).unused_bits = 14 ∧
      (∀ k, k ≤ 32 → ∃ st,
        loop (gen8_pixel (gen8_spec_header s.inp)) 0 k (seek s 48) = .ok st ∧
        bit_pos st = 48 + 14 * k ∧ st.out_idx = k) ∧
      (∃ s2, for_range 0 32 (gen8_pixel (gen8_spec_header s.inp)) (seek s 48) = .ok s2 ∧
        bit_pos s2 = 496 ∧ s2.out_idx = 32 ∧
        read_and_discard_zero_bits s2 16 = .ok s1) ∧
      stream_val s.inp 496 16 = 0 ∧ bit_pos s1 = 512 ∧ s1.out_idx = 32) := by
  have hwf : WF s := ⟨hbytes, by omega⟩
  have hs : seek s 0 = s := by
    have := seek_self s hwf.2
    have e : bit_pos s = 0 := by unfold bit_pos; omega
    rw [e] at this
    exact this
  obtain ⟨hd1, _⟩ := gen8_read_header_spec s hwf
  obtain ⟨hf1, hf2⟩ := gen8_read_header_fault s hwf
  rw [hs] at hd1 hf1 hf2
  obtain ⟨g1, g2, g3⟩ := gen8_decode_char s hwf hbyte hbit hout
  have herr : ∀ e, gen8_read_header s = .error e → decode_8th_gen s = .error e := by
    intro e he
    unfold decode_8th_gen
    rw [he]
    rfl
  have hdec : decode_8th_gen s = (gen8_read_header s >>= fun r =>
      for_range 0 32 (gen8_pixel r.1) r.2 >>= fun s2 => read_and_discard_zero_bits s2 16) :=
    rfl
  have c1 : (∃ c, c < 4 ∧ gen8_skip s.inp c ≠ 0 ∧ gen8_field s.inp c ≠ 0) →
      decode_8th_gen s = .error .skipped_width := fun h => herr _ (hf1 h)
  have c2 : (∀ c, c < 4 → gen8_skip s.inp c ≠ 0 → gen8_field s.inp c = 0) →
      14 < gen8_width_sum s.inp → decode_8th_gen s = .error .width_budget :=
    fun h h14 => herr _ (hf2 h h14)
  have c3 : gen8_header_ok s.inp →
      ((∃ j, j < 32 ∧ ¬ gen8_pad_zero (gen8_spec_header s.inp) s.inp j) ∨
        stream_val s.inp 496 16 ≠ 0) →
      decode_8th_gen s = .error .nonzero_padding := by
    intro hok hbad
    by_cases hpad : ∃ j, j < 32 ∧ ¬ gen8_pad_zero (gen8_spec_header s.inp) s.inp j
    · rw [hdec, hd1 hok]
      simp only [bind_ok_eq]
      rw [gen8_loop_fault _ s hwf (gen8_spec_header_wf s.inp hok) hout hpad]
      rfl
    · have hall : ∀ j, j < 32 → gen8_pad_zero (gen8_spec_header s.inp) s.inp j :=
        fun j hj => Classical.byContradiction (fun hn => hpad ⟨j, hj, hn⟩)
      rcases hbad with hb | hb
      · exact absurd hb hpad
      · exact g2 hok hall hb
  have c4 : gen8_header_ok s.inp →
      (∀ j, j < 32 → gen8_pad_zero (gen8_spec_header s.inp) s.inp j) →
      stream_val s.inp 496 16 = 0 → ∃ s1, decode_8th_gen s = .ok s1 := by
    intro hok hpad ht
    obtain ⟨s1, e, _⟩ := g1 hok hpad ht
    exact ⟨s1, e⟩
  refine ⟨?_, c1, c2, c3, c4, ?_⟩
  · by_cases hsk : ∀ c, c < 4 → gen8_skip s.inp c ≠ 0 → gen8_field s.inp c = 0
    · by_cases h14 : gen8_width_sum s.inp ≤ 14
      · have hok : gen8_header_ok s.inp := (gen8_header_ok_iff s.inp).2 ⟨hsk, h14⟩
        by_cases hpad : ∀ j, j < 32 → gen8_pad_zero (gen8_spec_header s.inp) s.inp j
        · by_cases ht : stream_val s.inp 496 16 = 0
          · exact Or.inl (c4 hok hpad ht)
          · exact Or.inr (Or.inr (Or.inr (c3 hok (Or.inr ht))))
        · refine Or.inr (Or.inr (Or.inr (c3 hok (Or.inl ?_))))
          by_contra hno
          exact hpad (fun j hj => Classical.byContradiction (fun hn => hno ⟨j, hj, hn⟩))
      · exact Or.inr (Or.inr (Or.inl (c2 hsk (by omega))))
    · refine Or.inr (Or.inl (c1 ?_))
      by_contra hno
      apply hsk
      intro c hc hs0
      by_contra hf
      exact hno ⟨c, hc, hs0, hf⟩
  · intro s1 h1
    obtain ⟨hok, hpad, ht, r1, r2, r3, r4, _⟩ := g3 s1 h1
    have hh := gen8_spec_header_wf s.inp hok
    obtain ⟨s2, e2, p2, o2⟩ := gen8_loop_prefix _ s hwf hh hout 32 (Nat.le_refl _)
      (fun j hj => hpad j hj)
    have hrd : read_and_discard_zero_bits s2 16 = .ok s1 := by
      rw [hdec, hd1 hok] at h1
      simp only [bind_ok_eq] at h1
      unfold for_range at h1
      rw [show 32 - 0 = 32 from rfl, e2] at h1
      exact h1
    refine ⟨hd1 hok, hh.2.2.2.2.2.2.2.2, ?_, ⟨s2, e2, p2, o2, hrd⟩, ht, ?_, r4⟩
    · intro k hk
      exact gen8_loop_prefix _ s hwf hh hout k hk (fun j hj => hpad j (by omega))
    · unfold bit_pos
      rw [r2, r3]

set_option maxRecDepth 1000000 in
/-- C35, on `gen8_widths` (widths 3, 0, 5, 0 and 6 unused bits per pixel): the decode
succeeds, with the cursor at bit 512 and 32 pixels written; and on `gen8_flat_dirty`,
whose last bit is set, it stops with the padding fault. -/
theorem gen8_consumes_cacheline_witness :
    ((∀ i, i < 64 → gen8_widths.inp i < 256) ∧
      gen8_widths.in_byte_idx = 0 ∧
      gen8_widths.in_bit_idx = 0 ∧
      gen8_widths.out_idx = 0) ∧
    ((decode_8th_gen gen8_widths).toBool = true ∧
      (bit_pos gen8_widths_decoded, gen8_widths_decoded.out_idx) = (512, 32) ∧
      fault_of (decode_8th_gen gen8_flat_dirty) = some .nonzero_padding) ∧
    (((∃ s1, decode_8th_gen gen8_widths = .ok s1) ∨ decode_8th_gen gen8_widths = .error
        .skipped_width ∨
      decode_8th_gen gen8_widths = .error .width_budget ∨
      decode_8th_gen gen8_widths = .error .nonzero_padding) ∧
    ((∃ c, c < 4 ∧ gen8_skip gen8_widths.inp c ≠ 0 ∧ gen8_field gen8_widths.inp c ≠ 0) →
      decode_8th_gen gen8_widths = .error .skipped_width) ∧
    ((∀ c, c < 4 → gen8_skip gen8_widths.inp c ≠ 0 → gen8_field gen8_widths.inp c = 0) →
      14 < gen8_width_sum gen8_widths.inp → decode_8th_gen gen8_widths = .error .width_budget) ∧
    (gen8_header_ok gen8_widths.inp →
      ((∃ j, j < 32 ∧ ¬ gen8_pad_zero (gen8_spec_header gen8_widths.inp) gen8_widths.inp j) ∨
        stream_val gen8_widths.inp 496 16 ≠ 0) →
      decode_8th_gen gen8_widths = .error .nonzero_padding) ∧
    (gen8_header_ok gen8_widths.inp →
      (∀ j, j < 32 → gen8_pad_zero (gen8_spec_header gen8_widths.inp) gen8_widths.inp j) →
      stream_val gen8_widths.inp 496 16 = 0 → ∃ s1, decode_8th_gen gen8_widths = .ok s1) ∧
    (∀ s1, decode_8th_gen gen8_widths = .ok s1 →
      gen8_read_header gen8_widths = .ok (gen8_spec_header gen8_widths.inp, seek gen8_widths 48) ∧
      gen8_delta_bits (gen8_spec_header gen8_widths.inp) + (gen8_spec_header
          gen8_widths.inp).unused_bits = 14 ∧
      (∀ k, k ≤ 32 → ∃ st,
        loop (gen8_pixel (gen8_spec_header gen8_widths.inp)) 0 k (seek gen8_widths 48) = .ok st ∧
        bit_pos st = 48 + 14 * k ∧ st.out_idx = k) ∧
      (∃ s2, for_range 0 32 (gen8_pixel (gen8_spec_header gen8_widths.inp)) (seek gen8_widths 48) =
          .ok s2 ∧
        bit_pos s2 = 496 ∧ s2.out_idx = 32 ∧
        read_and_discard_zero_bits s2 16 = .ok s1) ∧
      stream_val gen8_widths.inp 496 16 = 0 ∧ bit_pos s1 = 512 ∧ s1.out_idx = 32)) :=
  ⟨⟨by decide, by decide, by decide, by decide⟩,
    ⟨by decide, by decide, by decide⟩,
    gen8_consumes_cacheline gen8_widths (by decide) (by decide) (by decide) (by decide)⟩


end Decode

/-! ## decode.c: the trailing bits of a plain gen11 decode -/

namespace Decode

set_option maxRecDepth 1000000 in
/-- C32, evaluated on `tail_dirty`, the payload whose only set bit is stream bit 511, the
last bit of the trailing region.  In the modes 1, 2 and 8 the pixel data end at bit 245
and `512 - 21 - 32 - pixels_recovered * bits_per_pixel` is 267, which the `u8` parameter
of `read_and_discard_zero_bits` receives as 11: the decode succeeds although bit 511 is
set, and the cursor ends at bit 256.  In mode 6 the count is 11, the region is the bits
501..511, and the decode stops with the padding fault. -/
theorem gen11_tail_check_truncated :
    (stream_bit tail_dirty.inp 511 = 1 ∧ (∀ k, k < 511 → stream_bit tail_dirty.inp k = 0)) ∧
    (∀ ccs, ccs ∈ [(1 : Int), 2, 8] →
      (mode_table ccs).toOption.map
          (fun m => (gen11_pixel_pos m.1 m.2.1 m.2.2 32,
            (512 : Int) - 21 - 32
              - ((((if m.2.1 ≠ 0 then 16 else 0) + (if m.2.2 ≠ 0 then 16 else 0)) % 256 : Nat)
                  : Int) * (m.1 : Int),
            (((512 : Int) - 21 - 32
              - ((((if m.2.1 ≠ 0 then 16 else 0) + (if m.2.2 ≠ 0 then 16 else 0)) % 256 : Nat)
                  : Int) * (m.1 : Int)) % 256).toNat))
        = some (245, 267, 11) ∧
      (decode_11th_gen tail_dirty ccs).toBool = true ∧
      (tail_dirty_decoded ccs).out_idx = 32 ∧
      bit_pos (tail_dirty_decoded ccs) = 256) ∧
    ((mode_table 6).toOption.map (fun m => gen11_pixel_pos m.1 m.2.1 m.2.2 32) = some 501 ∧
      fault_of (decode_11th_gen tail_dirty 6) = some .nonzero_padding) := by
  decide

end Decode

/-! ## decode-amd.c: the header byte of a non-constant half is a value prefix -/

namespace DecodeAmd

/-- The arithmetic of the seed: `h` a byte whose lowest set bit is bit `t`, `base` the
byte without that bit. -/
theorem seed_arith (h t base d0 s0 : Nat) (hh : h < 256) (ht : t ≤ 7)
    (h1 : h % 2 ^ t = 0) (h2 : h % 2 ^ (t + 1) ≠ 0) (hb : base + 2 ^ t = h)
    (hd : d0 < 2 ^ t) (hs : s0 < 2) :
    h / 2 ^ t % 2 = 1 ∧
    base / 2 ^ (t + 1) = h / 2 ^ (t + 1) ∧ base % 2 ^ (t + 1) = 0 ∧
    base + 2 * d0 + s0 < 256 ∧
    (base + 2 * d0 + s0) / 2 ^ (t + 1) = h / 2 ^ (t + 1) ∧
    (base + 2 * d0 + s0) % 2 ^ (t + 1) = 2 * d0 + s0 ∧
    (∀ v, v < 256 → v / 2 ^ (t + 1) = h / 2 ^ (t + 1) →
      v % 2 ^ (t + 1) / 2 < 2 ^ t ∧ v % 2 ^ (t + 1) % 2 < 2 ∧
      base + 2 * (v % 2 ^ (t + 1) / 2) + v % 2 ^ (t + 1) % 2 = v) := by
  interval_cases t <;> simp only [Nat.reducePow, Nat.reduceAdd] at * <;>
    refine ⟨by omega, by omega, by omega, by omega, by omega, by omega, fun v hv hp => ?_⟩ <;>
    omega

/-- C36: the header byte of a non-constant half is a value prefix.  For a nonzero byte
`h`, with `t = num_trailing_zero_bits h`, a magnitude `d0 < 2 ^ t` and a sign bit `s0`:
`t` is at most 7 and is the lowest set bit of `h`; the stored base is `h` without bit
`t`, a multiple of `2 ^ (t + 1)` that agrees with `h` above bit `t`; the sum
`base + (d0 << 1) + s0` is `base + 2 d0 + s0` and stays below 256, so the seed stored
in a byte is the sum itself; the seed equals `base ||| (2 d0 + s0)`, agrees with `h`
above bit `t` and has `2 d0 + s0` in its bits `0..t`; different pairs give different
seeds, and every byte that agrees with `h` above bit `t` is the seed of a pair.  These
are the values of the code: the second header stores `nonconst_base h` and
`nonconst_bits h` for a header byte `h` of a non-constant half, on either side, and the
reconstruction stores `seed` as the first pixel of a non-constant half that has a header
byte. -/
theorem header_byte_prefix (h d0 s0 : Nat) (hh : h < 256) (h0 : h ≠ 0)
    (hd : d0 < 2 ^ num_trailing_zero_bits h) (hs : s0 < 2) :
    (num_trailing_zero_bits h ≤ 7 ∧ nonconst_bits h = num_trailing_zero_bits h ∧
      h % 2 ^ num_trailing_zero_bits h = 0 ∧ h / 2 ^ num_trailing_zero_bits h % 2 = 1) ∧
    (nonconst_base h + 2 ^ num_trailing_zero_bits h = h ∧
      nonconst_base h / 2 ^ (num_trailing_zero_bits h + 1)
        = h / 2 ^ (num_trailing_zero_bits h + 1) ∧
      nonconst_base h % 2 ^ (num_trailing_zero_bits h + 1) = 0) ∧
    (seed_sum (nonconst_base h) d0 s0 = nonconst_base h + 2 * d0 + s0 ∧
      seed_sum (nonconst_base h) d0 s0 < 256 ∧
      seed (nonconst_base h) d0 s0 = seed_sum (nonconst_base h) d0 s0) ∧
    (seed (nonconst_base h) d0 s0 = nonconst_base h ||| (2 * d0 + s0) ∧
      seed (nonconst_base h) d0 s0 / 2 ^ (num_trailing_zero_bits h + 1)
        = h / 2 ^ (num_trailing_zero_bits h + 1) ∧
      seed (nonconst_base h) d0 s0 % 2 ^ (num_trailing_zero_bits h + 1) = 2 * d0 + s0) ∧
    (∀ d1 s1, d1 < 2 ^ num_trailing_zero_bits h → s1 < 2 →
      seed (nonconst_base h) d1 s1 = seed (nonconst_base h) d0 s0 → d1 = d0 ∧ s1 = s0) ∧
    (∀ v, v < 256 →
      v / 2 ^ (num_trailing_zero_bits h + 1) = h / 2 ^ (num_trailing_zero_bits h + 1) →
      ∃ d1 s1, d1 < 2 ^ num_trailing_zero_bits h ∧ s1 < 2 ∧
        seed (nonconst_base h) d1 s1 = v) ∧
    (∀ (cl chan : Nat) (ci : ChanInfo) (s s1 : State),
      read_bits s 8 = .ok (h, s1) →
      ((ci cl chan).left_header_present ≠ 0 → (ci cl chan).left_constant = 0 →
        second_header_left cl chan (ci, s) = .ok (set2 ci cl chan
          { ci cl chan with left_base := nonconst_base h, left_bits := nonconst_bits h },
          s1)) ∧
      ((ci cl chan).right_header_present ≠ 0 → (ci cl chan).right_constant = 0 →
        second_header_right cl chan (ci, s) = .ok (set2 ci cl chan
          { ci cl chan with right_base := nonconst_base h, right_bits := nonconst_bits h },
          s1))) ∧
    (∀ (c : color_channel_info) (chan : Nat) (r : Recon) (sg dl : Nat → Nat) (s1 : State),
      (c.left_constant = 0 → c.left_header_present ≠ 0 →
        read_half c.left_bits r.s = .ok (sg, dl, s1) →
        ∃ r1, left_side c chan r = .ok r1 ∧
          r1.upper_pixels 0 chan = seed c.left_base (dl 0) (sg 0)) ∧
      (c.right_constant = 0 → c.right_header_present ≠ 0 →
        read_half c.right_bits r.s = .ok (sg, dl, s1) →
        ∃ r1, right_side c chan r = .ok r1 ∧
          r1.upper_pixels 4 chan = seed c.right_base (dl 0) (sg 0))) := by
  obtain ⟨k1, k2, k3, k4, k5⟩ := ctz_byte h hh h0
  have hbase : nonconst_base h + 2 ^ num_trailing_zero_bits h = h := by
    unfold nonconst_base
    rw [k4]
    exact k5
  have hm1 : h % 2 ^ num_trailing_zero_bits h = 0 := Nat.mod_eq_zero_of_dvd k2
  have hm2 : h % 2 ^ (num_trailing_zero_bits h + 1) ≠ 0 :=
    fun e => k3 (Nat.dvd_of_mod_eq_zero e)
  have hsum : ∀ d s, seed_sum (nonconst_base h) d s = nonconst_base h + 2 * d + s := by
    intro d s
    unfold seed_sum
    rw [Nat.shiftLeft_eq, pow_one, Nat.mul_comm]
  have hseed : ∀ d s, d < 2 ^ num_trailing_zero_bits h → s < 2 →
      seed (nonconst_base h) d s = nonconst_base h + 2 * d + s := by
    intro d s hd1 hs1
    obtain ⟨_, _, _, a4, _⟩ := seed_arith h _ _ d s hh k1 hm1 hm2 hbase hd1 hs1
    unfold seed
    rw [hsum, Nat.mod_eq_of_lt a4]
  obtain ⟨a1, a2, a3, a4, a5, a6, a7⟩ := seed_arith h _ _ d0 s0 hh k1 hm1 hm2 hbase hd hs
  refine ⟨⟨k1, Nat.mod_eq_of_lt (by omega), hm1, a1⟩, ⟨hbase, a2, a3⟩,
    ⟨hsum d0 s0, by rw [hsum]; exact a4, by rw [hseed d0 s0 hd hs, hsum]⟩,
    ⟨?_, by rw [hseed d0 s0 hd hs]; exact a5, by rw [hseed d0 s0 hd hs]; exact a6⟩,
    ?_, ?_, ?_, ?_⟩
  · rw [hseed d0 s0 hd hs]
    have hx : 2 * d0 + s0 < 2 ^ (num_trailing_zero_bits h + 1) := by
      rw [pow_succ]
      omega
    have hmul : nonconst_base h = 2 ^ (num_trailing_zero_bits h + 1)
        * (nonconst_base h / 2 ^ (num_trailing_zero_bits h + 1)) := by
      have := Nat.div_add_mod (nonconst_base h) (2 ^ (num_trailing_zero_bits h + 1))
      rw [a3, Nat.add_zero] at this
      exact this.symm
    have hor := Nat.mul_add_lt_is_or hx (nonconst_base h / 2 ^ (num_trailing_zero_bits h + 1))
    rw [← hmul] at hor
    rw [Nat.add_assoc]
    exact hor
  · intro d1 s1 hd1 hs1 e
    rw [hseed d1 s1 hd1 hs1, hseed d0 s0 hd hs] at e
    omega
  · intro v hv hp
    obtain ⟨b1, b2, b3⟩ := a7 v hv hp
    exact ⟨_, _, b1, b2, by rw [hseed _ _ b1 b2]; exact b3⟩
  · intro cl chan ci s s1 hr
    constructor
    · intro hp hc
      unfold second_header_left
      simp only [if_pos hp, hr, bind_ok_eq]
      rw [if_neg (by omega), if_neg (by omega)]
      rfl
    · intro hp hc
      unfold second_header_right
      simp only [if_pos hp, hr, bind_ok_eq]
      rw [if_neg (by omega), if_neg (by omega)]
      rfl
  · intro c chan r sg dl s1
    constructor
    · intro hc hp hr
      unfold left_side
      rw [if_neg (by omega)]
      simp only [hr, bind_ok_eq, pure_eq_ok]
      refine ⟨_, rfl, ?_⟩
      simp only [set2_same, set2_row (show (0:Nat) ≠ 1 by decide),
        set2_row (show (0:Nat) ≠ 2 by decide), set2_row (show (0:Nat) ≠ 3 by decide)]
      rw [if_pos hp]
      rfl
    · intro hc hp hr
      unfold right_side
      rw [if_neg (by omega)]
      simp only [hr, bind_ok_eq, pure_eq_ok]
      refine ⟨_, rfl, ?_⟩
      simp only [set2_same, set2_row (show (4:Nat) ≠ 5 by decide),
        set2_row (show (4:Nat) ≠ 6 by decide), set2_row (show (4:Nat) ≠ 7 by decide)]
      rw [if_pos hp]
      rfl

/-- C36, at the header byte 88 = 0b01011000 with magnitude 5 and sign 1: the lowest set
bit is bit 3, the base is 80 = 0b01010000, and the seed is 80 + 10 + 1 = 91 =
0b01011011, which has the bits 4..7 of the header byte. -/
theorem header_byte_prefix_witness :
    (88 < 256 ∧
      88 ≠ 0 ∧
      5 < 2 ^ num_trailing_zero_bits 88 ∧
      1 < 2) ∧
    (num_trailing_zero_bits 88 = 3 ∧
      nonconst_base 88 = 80 ∧
      seed 80 5 1 = 91 ∧
      (List.range 16).map (fun x => seed (nonconst_base 88) (x / 2) (x % 2))
        = [80, 81, 82, 83, 84, 85, 86, 87, 88, 89, 90, 91, 92, 93, 94, 95]) ∧
    ((num_trailing_zero_bits 88 ≤ 7 ∧ nonconst_bits 88 = num_trailing_zero_bits 88 ∧
      88 % 2 ^ num_trailing_zero_bits 88 = 0 ∧ 88 / 2 ^ num_trailing_zero_bits 88 % 2 = 1) ∧
    (nonconst_base 88 + 2 ^ num_trailing_zero_bits 88 = 88 ∧
      nonconst_base 88 / 2 ^ (num_trailing_zero_bits 88 + 1)
        = 88 / 2 ^ (num_trailing_zero_bits 88 + 1) ∧
      nonconst_base 88 % 2 ^ (num_trailing_zero_bits 88 + 1) = 0) ∧
    (seed_sum (nonconst_base 88) 5 1 = nonconst_base 88 + 2 * 5 + 1 ∧
      seed_sum (nonconst_base 88) 5 1 < 256 ∧
      seed (nonconst_base 88) 5 1 = seed_sum (nonconst_base 88) 5 1) ∧
    (seed (nonconst_base 88) 5 1 = nonconst_base 88 ||| (2 * 5 + 1) ∧
      seed (nonconst_base 88) 5 1 / 2 ^ (num_trailing_zero_bits 88 + 1)
        = 88 / 2 ^ (num_trailing_zero_bits 88 + 1) ∧
      seed (nonconst_base 88) 5 1 % 2 ^ (num_trailing_zero_bits 88 + 1) = 2 * 5 + 1) ∧
    (∀ d1 s1, d1 < 2 ^ num_trailing_zero_bits 88 → s1 < 2 →
      seed (nonconst_base 88) d1 s1 = seed (nonconst_base 88) 5 1 → d1 = 5 ∧ s1 = 1) ∧
    (∀ v, v < 256 →
      v / 2 ^ (num_trailing_zero_bits 88 + 1) = 88 / 2 ^ (num_trailing_zero_bits 88 + 1) →
      ∃ d1 s1, d1 < 2 ^ num_trailing_zero_bits 88 ∧ s1 < 2 ∧
        seed (nonconst_base 88) d1 s1 = v) ∧
    (∀ (cl chan : Nat) (ci : ChanInfo) (s s1 : State),
      read_bits s 8 = .ok (88, s1) →
      ((ci cl chan).left_header_present ≠ 0 → (ci cl chan).left_constant = 0 →
        second_header_left cl chan (ci, s) = .ok (set2 ci cl chan
          { ci cl chan with left_base := nonconst_base 88, left_bits := nonconst_bits 88 },
          s1)) ∧
      ((ci cl chan).right_header_present ≠ 0 → (ci cl chan).right_constant = 0 →
        second_header_right cl chan (ci, s) = .ok (set2 ci cl chan
          { ci cl chan with right_base := nonconst_base 88, right_bits := nonconst_bits 88 },
          s1))) ∧
    (∀ (c : color_channel_info) (chan : Nat) (r : Recon) (sg dl : Nat → Nat) (s1 : State),
      (c.left_constant = 0 → c.left_header_present ≠ 0 →
        read_half c.left_bits r.s = .ok (sg, dl, s1) →
        ∃ r1, left_side c chan r = .ok r1 ∧
          r1.upper_pixels 0 chan = seed c.left_base (dl 0) (sg 0)) ∧
      (c.right_constant = 0 → c.right_header_present ≠ 0 →
        read_half c.right_bits r.s = .ok (sg, dl, s1) →
        ∃ r1, right_side c chan r = .ok r1 ∧
          r1.upper_pixels 4 chan = seed c.right_base (dl 0) (sg 0)))) :=
  ⟨⟨by decide, by decide, by decide, by decide⟩,
    ⟨by decide, by decide, by decide, by decide⟩,
    header_byte_prefix 88 5 1 (by decide) (by decide) (by decide) (by decide)⟩


end DecodeAmd

/-! ## decode-amd.c: the range of a sign-and-magnitude delta -/

namespace DecodeAmd

/-- C37: the range of a sign-and-magnitude delta.  For a byte `p`, a sign bit and a
magnitude below `2 ^ w`, `w <= 7`: the term `(signs[k] ? 255 - deltas[k] : deltas[k])`
is a byte, and adding it to `p` modulo 256 gives `p + d` when the sign is clear and
`p - (d + 1)` when it is set, that is `p` plus the signed step `signed_step`; the signed
step lies in `-2 ^ w .. 2 ^ w - 1`, different pairs stand for different steps and give
different terms, and every step of that range is the step of a pair, so zero is the step
of the pair `(0, 0)` only.  For `w = 7` every byte is the term of exactly one pair. -/
theorem sign_magnitude_step (p w k : Nat) (signs deltas : Nat → Nat) (hp : p < 256)
    (hw : w ≤ 7) (hs : signs k < 2) (hd : deltas k < 2 ^ w) :
    (sm signs deltas k < 256 ∧
      (signs k = 0 → (p + sm signs deltas k) % 256 = (p + deltas k) % 256) ∧
      (signs k = 1 → (p + sm signs deltas k) % 256 = (p + 256 - (deltas k + 1)) % 256) ∧
      (((p + sm signs deltas k) % 256 : Nat) : Int)
        = ((p : Int) + signed_step (signs k) (deltas k)) % 256) ∧
    (-((2 ^ w : Nat) : Int) ≤ signed_step (signs k) (deltas k) ∧
      signed_step (signs k) (deltas k) ≤ ((2 ^ w : Nat) : Int) - 1 ∧
      (signed_step (signs k) (deltas k) = 0 ↔ signs k = 0 ∧ deltas k = 0)) ∧
    (∀ (signs1 deltas1 : Nat → Nat) (j : Nat), signs1 j < 2 → deltas1 j < 2 ^ w →
      (signed_step (signs1 j) (deltas1 j) = signed_step (signs k) (deltas k) ∨
        sm signs1 deltas1 j = sm signs deltas k) →
      signs1 j = signs k ∧ deltas1 j = deltas k) ∧
    (∀ z : Int, -((2 ^ w : Nat) : Int) ≤ z → z ≤ ((2 ^ w : Nat) : Int) - 1 →
      ∃ s d, s < 2 ∧ d < 2 ^ w ∧ signed_step s d = z) ∧
    (∀ v, v < 256 → ∃ s d, s < 2 ∧ d < 2 ^ 7 ∧ sm (fun _ => s) (fun _ => d) 0 = v ∧
      ∀ s1 d1, s1 < 2 → d1 < 2 ^ 7 → sm (fun _ => s1) (fun _ => d1) 0 = v →
        s1 = s ∧ d1 = d) := by
  have hpow : (2 : Nat) ^ w ≤ 128 := Nat.pow_le_pow_right (by decide) hw
  generalize hP : (2 : Nat) ^ w = P at *
  refine ⟨⟨?_, ?_, ?_, ?_⟩, ⟨?_, ?_, ?_⟩, ?_, ?_, ?_⟩
  · unfold sm
    split <;> omega
  · intro h0
    unfold sm
    rw [if_neg (by omega)]
  · intro h1
    unfold sm
    rw [if_pos (by omega)]
    congr 1
    omega
  · unfold sm signed_step
    by_cases h0 : signs k ≠ 0
    · rw [if_pos h0, if_pos h0]
      omega
    · rw [if_neg h0, if_neg h0]
      omega
  · unfold signed_step
    split <;> omega
  · unfold signed_step
    split <;> omega
  · unfold signed_step
    by_cases h0 : signs k ≠ 0
    · rw [if_pos h0]
      constructor
      · intro h
        omega
      · intro h
        omega
    · rw [if_neg h0]
      omega
  · intro signs1 deltas1 j hs1 hd1 h
    unfold signed_step sm at h
    by_cases h0 : signs k ≠ 0 <;> by_cases h1 : signs1 j ≠ 0
    · rw [if_pos h0, if_pos h1, if_pos h0, if_pos h1] at h
      omega
    · rw [if_pos h0, if_neg h1, if_pos h0, if_neg h1] at h
      omega
    · rw [if_neg h0, if_pos h1, if_neg h0, if_pos h1] at h
      omega
    · rw [if_neg h0, if_neg h1, if_neg h0, if_neg h1] at h
      omega
  · intro z z1 z2
    by_cases hz : 0 ≤ z
    · refine ⟨0, z.toNat, by omega, by omega, ?_⟩
      unfold signed_step
      rw [if_neg (by omega)]
      omega
    · refine ⟨1, (-z - 1).toNat, by omega, by omega, ?_⟩
      unfold signed_step
      rw [if_pos (by omega)]
      omega
  · intro v hv
    have key : ∀ s1 d1, sm (fun _ => s1) (fun _ => d1) 0 = if s1 ≠ 0 then 255 - d1 else d1 :=
      fun _ _ => rfl
    by_cases h128 : v < 128
    · refine ⟨0, v, by decide, ?_, rfl, ?_⟩
      · show v < 128
        exact h128
      · intro s1 d1 hs1 hd1 e
        have hd2 : d1 < 128 := hd1
        rw [key] at e
        by_cases h1 : s1 ≠ 0
        · rw [if_pos h1] at e
          omega
        · rw [if_neg h1] at e
          omega
    · refine ⟨1, 255 - v, by decide, ?_, ?_, ?_⟩
      · show 255 - v < 128
        omega
      · rw [key, if_pos (by decide)]
        omega
      · intro s1 d1 hs1 hd1 e
        have hd2 : d1 < 128 := hd1
        rw [key] at e
        by_cases h1 : s1 ≠ 0
        · rw [if_pos h1] at e
          omega
        · rw [if_neg h1] at e
          omega

/-- C37, at the byte 10 with the sign bits `signs_set` and the 3-bit magnitudes
`deltas_five`: the term is 250, the new byte is 4 = 10 - 6, and the signed step is
-6. -/
theorem sign_magnitude_step_witness :
    (10 < 256 ∧
      3 ≤ 7 ∧
      signs_set 0 < 2 ∧
      deltas_five 0 < 2 ^ 3) ∧
    (sm signs_set deltas_five 0 = 250 ∧
      (10 + sm signs_set deltas_five 0) % 256 = 4 ∧
      signed_step 1 5 = -6) ∧
    ((sm signs_set deltas_five 0 < 256 ∧
      (signs_set 0 = 0 → (10 + sm signs_set deltas_five 0) % 256 = (10 + deltas_five 0) % 256) ∧
      (signs_set 0 = 1 → (10 + sm signs_set deltas_five 0) % 256 = (10 + 256 - (deltas_five 0 + 1))
          % 256) ∧
      (((10 + sm signs_set deltas_five 0) % 256 : Nat) : Int)
        = ((10 : Int) + signed_step (signs_set 0) (deltas_five 0)) % 256) ∧
    (-((2 ^ 3 : Nat) : Int) ≤ signed_step (signs_set 0) (deltas_five 0) ∧
      signed_step (signs_set 0) (deltas_five 0) ≤ ((2 ^ 3 : Nat) : Int) - 1 ∧
      (signed_step (signs_set 0) (deltas_five 0) = 0 ↔ signs_set 0 = 0 ∧ deltas_five 0 = 0)) ∧
    (∀ (signs1 deltas1 : Nat → Nat) (j : Nat), signs1 j < 2 → deltas1 j < 2 ^ 3 →
      (signed_step (signs1 j) (deltas1 j) = signed_step (signs_set 0) (deltas_five 0) ∨
        sm signs1 deltas1 j = sm signs_set deltas_five 0) →
      signs1 j = signs_set 0 ∧ deltas1 j = deltas_five 0) ∧
    (∀ z : Int, -((2 ^ 3 : Nat) : Int) ≤ z → z ≤ ((2 ^ 3 : Nat) : Int) - 1 →
      ∃ s d, s < 2 ∧ d < 2 ^ 3 ∧ signed_step s d = z) ∧
    (∀ v, v < 256 → ∃ s d, s < 2 ∧ d < 2 ^ 7 ∧ sm (fun _ => s) (fun _ => d) 0 = v ∧
      ∀ s1 d1, s1 < 2 → d1 < 2 ^ 7 → sm (fun _ => s1) (fun _ => d1) 0 = v →
        s1 = s ∧ d1 = d)) :=
  ⟨⟨by decide, by decide, by decide, by decide⟩,
    ⟨by decide, by decide, by decide⟩,
    sign_magnitude_step 10 3 0 signs_set deltas_five (by decide) (by decide) (by decide) (by decide)⟩


end DecodeAmd
